import Mathlib

/-!
# KZorp: the transactional configuration manager of `kzorp_netlink.c`

A shallow embedding of the transaction state machine of
`src/kernel-module/kzorp_netlink.c` (Start / Flush / Add / Commit / peer release)
and of the commit algorithm `kznl_recv_commit_transaction`.

Conventions of the embedding.

* C strings are `String`; machine integers are `Nat`/`Int`; error codes are
  the negated errno values returned by the C code.
* Flag words are `Nat` bit masks, tested with `&&&` exactly as in C.
* A C list (`struct list_head`) is a Lean `List` in list order (head first).
* A pointer to a zone is a `zone_ptr`: the address of the pointee together with
  the two name fields that are read through such a pointer.  Both names are
  written once, before the zone becomes reachable, and never change.
* Functions of the repository that are declared in headers but whose bodies are
  not part of the two source files are either modelled from the specification
  (and say so in their doc comment) or, where only an outcome matters
  (allocation success, index building), supplied by an environment record.
-/

namespace Kzorp

/-! ## Constants -/

/-- The errno value `ENOENT`. -/
def ENOENT : Int := 2
/-- The errno value `ENOMEM`. -/
def ENOMEM : Int := 12
/-- The errno value `EEXIST`. -/
def EEXIST : Int := 17
/-- The errno value `EINVAL`. -/
def EINVAL : Int := 22

/-- Modelled from the spec: the "transaction-in-progress flag" of an instance;
the constant is declared in `kzorp.h`, which is not among the sources.  It is a
single bit of the instance flag word. -/
def KZF_INSTANCE_TRANS : Nat := 2

/-- Modelled from the spec: the `FlushZones` transaction flag (one bit, `kzorp.h`). -/
def KZF_TRANSACTION_FLUSH_ZONES : Nat := 1
/-- Modelled from the spec: the `FlushServices` transaction flag (one bit, `kzorp.h`). -/
def KZF_TRANSACTION_FLUSH_SERVICES : Nat := 2
/-- Modelled from the spec: the `FlushDispatchers` transaction flag (one bit, `kzorp.h`). -/
def KZF_TRANSACTION_FLUSH_DISPATCHERS : Nat := 4
/-- Modelled from the spec: the `Flush binds` transaction flag (one bit, `kzorp.h`). -/
def KZF_TRANSACTION_FLUSH_BIND : Nat := 8

/-- Modelled from the spec: "String fields are bounded to a maximum name length";
the bound `KZ_ATTR_NAME_MAX_LENGTH` is declared in `kzorp_netlink.h`. -/
def KZ_ATTR_NAME_MAX_LENGTH : Nat := 1023

/-- The zone flag `KZF_ZONE_HAS_RANGE` (one bit, `kzorp.h`). -/
def KZF_ZONE_HAS_RANGE : Nat := 1

/-- Service type enum of `kzorp.h`: `KZ_SERVICE_INVALID`. -/
def KZ_SERVICE_INVALID : Nat := 0
/-- Service type enum of `kzorp.h`: `KZ_SERVICE_PROXY`. -/
def KZ_SERVICE_PROXY : Nat := 1
/-- Service type enum of `kzorp.h`: `KZ_SERVICE_FORWARD`. -/
def KZ_SERVICE_FORWARD : Nat := 2
/-- Service type enum of `kzorp.h`: `KZ_SERVICE_DENY`. -/
def KZ_SERVICE_DENY : Nat := 3
/-- Service type enum of `kzorp.h`: `KZ_SERVICE_TYPE_COUNT`. -/
def KZ_SERVICE_TYPE_COUNT : Nat := 4

/-- Service flag `KZF_SERVICE_TRANSPARENT` (`kzorp.h`). -/
def KZF_SERVICE_TRANSPARENT : Nat := 1
/-- Modelled from the spec: "public flag bits (a fixed bitmask)" of a service. -/
def KZF_SERVICE_PUBLIC_FLAGS : Nat := 7

/-- Modelled from the spec: size of the closed enum of IPv4 deny methods. -/
def KZ_SERVICE_DENY_METHOD_V4_COUNT : Nat := 9
/-- Modelled from the spec: size of the closed enum of IPv6 deny methods. -/
def KZ_SERVICE_DENY_METHOD_V6_COUNT : Nat := 6

/-- Protocol number of TCP. -/
def IPPROTO_TCP : Nat := 6
/-- Protocol number of UDP. -/
def IPPROTO_UDP : Nat := 17
/-- Address family of IPv4. -/
def AF_INET : Nat := 2
/-- Address family of IPv6. -/
def AF_INET6 : Nat := 10

/-! ## Data model -/

/-- A pointer to a `struct kz_zone`: the address of the pointee and the two
names that the code reads through the pointer (`p->unique_name`, `p->name`). -/
structure zone_ptr where
  addr : Nat
  name : String
  unique_name : String
deriving DecidableEq, Repr

/-- The `struct kz_zone`.  `addr` is the address of the object (its identity). -/
structure kz_zone where
  addr : Nat
  name : String
  unique_name : String
  flags : Nat
  family : Nat
  net_addr : Nat
  mask : Nat
  admin_parent : Option zone_ptr
  depth : Nat
deriving DecidableEq, Repr

/-- One NAT entry of a forwarded service: source range, optional destination
range and the range mapped to; each range is (flags, min ip, max ip, min port,
max port). -/
structure kz_service_nat_entry where
  src : Nat × Nat × Nat × Nat × Nat
  dst : Option (Nat × Nat × Nat × Nat × Nat)
  map : Nat × Nat × Nat × Nat × Nat
deriving DecidableEq, Repr

/-- The `struct kz_service`. -/
structure kz_service where
  name : String
  instance_id : Nat
  id : Nat
  type : Nat
  flags : Nat
  session_cnt : Nat
  router_dst_addr_family : Nat
  router_dst_addr : Nat
  router_dst_port : Nat
  ipv4_reject_method : Nat
  ipv6_reject_method : Nat
  snat : List kz_service_nat_entry
  dnat : List kz_service_nat_entry
deriving DecidableEq, Repr

/-- One alternative of every populated dimension of a rule
(`struct kz_dispatcher_n_dimension_rule_entry_params`), zones by pointer. -/
structure kz_rule_entry where
  rule_id : Nat
  ifname : Option String
  ifgroup : Option Nat
  proto : Option Nat
  src_port : Option (Nat × Nat)
  dst_port : Option (Nat × Nat)
  src_in_subnet : Option (Nat × Nat)
  src_in6_subnet : Option (Nat × Nat)
  src_zone : Option zone_ptr
  dst_in_subnet : Option (Nat × Nat)
  dst_in6_subnet : Option (Nat × Nat)
  dst_zone : Option zone_ptr
  dst_ifname : Option String
  dst_ifgroup : Option Nat
  reqid : Option Nat
deriving DecidableEq, Repr

/-- The `struct kz_dispatcher_n_dimension_rule`: id, the service (by name, the
field through which relinking resolves it), the per-dimension alternative
counts announced by AddRule, and the entries added so far. -/
structure kz_rule where
  id : Nat
  service : String
  alloc : List Nat
  entries : List kz_rule_entry
deriving DecidableEq, Repr

/-- The `struct kz_dispatcher`.  `inst` is the `instance` pointer: the id of
the instance it points to, `none` for `NULL`. -/
structure kz_dispatcher where
  name : String
  inst : Option Nat
  alloc_rule : Nat
  num_rule : Nat
  rule : List kz_rule
deriving DecidableEq, Repr

/-- The `struct kz_bind`. -/
structure kz_bind where
  peer_pid : Nat
  proto : Nat
  family : Nat
  addr : Nat
  port : Nat
deriving DecidableEq, Repr

/-- The `struct kz_instance`; `binds` is `bind_lookup->list_bind`. -/
structure kz_instance where
  id : Nat
  name : String
  flags : Nat
  binds : List kz_bind
deriving DecidableEq, Repr

/-- The `struct kz_config`: a configuration snapshot. -/
structure kz_config where
  generation : Nat
  cookie : Nat
  services : List kz_service
  zones : List kz_zone
  dispatchers : List kz_dispatcher
deriving DecidableEq, Repr

/-- The `struct kz_operation`: the `type` tag together with the `data` pointee. -/
inductive kz_operation where
  | KZNL_OP_ZONE (z : kz_zone)
  | KZNL_OP_SERVICE (s : kz_service)
  | KZNL_OP_DISPATCHER (d : kz_dispatcher)
  | KZNL_OP_BIND (b : kz_bind)
deriving DecidableEq, Repr

/-- The `struct kz_transaction`.  `cfg` is the base snapshot captured by Start;
`op` is the operation list, head first. -/
structure kz_transaction where
  instance_id : Nat
  peer_pid : Nat
  flags : Nat
  cookie : Nat
  cfg : kz_config
  op : List kz_operation
deriving DecidableEq, Repr

/-- The process-wide state touched by the netlink handlers: the static
`transaction` and `transaction_open`, the published snapshot `kz_config_rcu`,
the instance list `kz_instances`, and the next unused zone address. -/
structure kz_state where
  transaction : kz_transaction
  transaction_open : Bool
  kz_config_rcu : kz_config
  kz_instances : List kz_instance
  zone_addr_next : Nat
deriving DecidableEq, Repr

/-- Outcomes of the calls made by commit into code that is not part of the
source files: whether each allocation succeeds (clones are indexed by the
position of the cloned entity in the base list), what `kz_service_lock`
returns, what `kz_dispatcher_relink` makes of a dispatcher, and the results of
the two index builders. -/
structure kz_env where
  kz_config_new_ok : Bool
  kz_service_clone_ok : Nat → Bool
  kz_service_lock : kz_service → Nat
  kz_zone_clone_ok : Nat → Bool
  kz_dispatcher_clone_ok : Nat → Bool
  kz_dispatcher_relink : kz_dispatcher → List kz_zone → List kz_service → kz_dispatcher
  kz_head_zone_build : List kz_zone → Int
  kz_head_dispatcher_build : List kz_dispatcher → Int

/-! ## Transactions (lines 33-172) -/

/-- An empty configuration: `kz_config_new()`. -/
def kz_config_new : kz_config :=
  { generation := 0, cookie := 0, services := [], zones := [], dispatchers := [] }

/-- The state after `transaction_init` with nothing configured yet. -/
def transaction_init : kz_state :=
  { transaction :=
      { instance_id := 0, peer_pid := 0, flags := 0, cookie := 0, cfg := kz_config_new, op := [] },
    transaction_open := false,
    kz_config_rcu := kz_config_new,
    kz_instances := [],
    zone_addr_next := 0 }

/-- The C `transaction_lookup`: `some` transaction iff one is open and owned
by `peer_pid`. -/
def transaction_lookup (st : kz_state) (peer_pid : Nat) : Option kz_transaction :=
  if st.transaction_open ∧ st.transaction.peer_pid = peer_pid then some st.transaction else none

/-- The C `transaction_create`: `none` when a transaction is already open. -/
def transaction_create (st : kz_state) (peer_pid instance_id config_cookie : Nat) :
    Option kz_state :=
  if st.transaction_open then none
  else some { st with
    transaction_open := true,
    transaction := { st.transaction with
      instance_id := instance_id, peer_pid := peer_pid, flags := 0,
      cookie := config_cookie, cfg := st.kz_config_rcu } }

/-- The C `transaction_cleanup_op`: every operation is unlinked and freed. -/
def transaction_cleanup_op (tr : kz_transaction) : kz_transaction :=
  { tr with op := [] }

/-- The C `transaction_destroy`. -/
def transaction_destroy (st : kz_state) : kz_state :=
  { st with transaction := transaction_cleanup_op st.transaction, transaction_open := false }

/-- The C `transaction_add_op`: `list_add` links the new operation at the head
of the list.  `mem_ok` tells whether `kzalloc` succeeds. -/
def transaction_add_op (mem_ok : Bool) (tr : kz_transaction) (o : kz_operation) :
    Int × kz_transaction :=
  if mem_ok then (0, { tr with op := o :: tr.op }) else (-ENOMEM, tr)

/-- The C `transaction_zone_lookup`: first staged zone with this unique name. -/
def transaction_zone_lookup (tr : kz_transaction) (name : String) : Option kz_zone :=
  tr.op.findSome? fun o =>
    match o with
    | .KZNL_OP_ZONE z => if z.unique_name = name then some z else none
    | _ => none

/-- The C `transaction_service_lookup`: first staged service with this name. -/
def transaction_service_lookup (tr : kz_transaction) (name : String) : Option kz_service :=
  tr.op.findSome? fun o =>
    match o with
    | .KZNL_OP_SERVICE s => if s.name = name then some s else none
    | _ => none

/-- The C `transaction_dispatcher_lookup`: first staged dispatcher with this name. -/
def transaction_dispatcher_lookup (tr : kz_transaction) (name : String) :
    Option kz_dispatcher :=
  tr.op.findSome? fun o =>
    match o with
    | .KZNL_OP_DISPATCHER d => if d.name = name then some d else none
    | _ => none

/-- The C `kz_bind_eq`. -/
def kz_bind_eq (a b : kz_bind) : Bool :=
  a.port = b.port && a.proto = b.proto && a.family = b.family && a.addr = b.addr

/-- The C `transaction_bind_lookup`. -/
def transaction_bind_lookup (tr : kz_transaction) (bind : kz_bind) : Option kz_bind :=
  tr.op.findSome? fun o =>
    match o with
    | .KZNL_OP_BIND b => if kz_bind_eq b bind then some b else none
    | _ => none

/-- The C `transaction_rule_lookup`: the rule `d->rule[d->num_rule - 1]` of the
first staged dispatcher named `dispatcher_name`, if its id is `id`. -/
def transaction_rule_lookup (tr : kz_transaction) (dispatcher_name : String) (id : Nat) :
    Option kz_rule :=
  match transaction_dispatcher_lookup tr dispatcher_name with
  | none => none
  | some d =>
    if d.num_rule > 0 then
      match d.rule[d.num_rule - 1]? with
      | some rule => if id = rule.id then some rule else none
      | none => none
    else none

/-! ## Object lookup (lines 309-355) -/

/-- Modelled from the spec: `__kz_zone_lookup_name`, the zone of a list whose
unique name is `name` ("Zones: by unique name"); the first one in list order. -/
def __kz_zone_lookup_name (head : List kz_zone) (name : String) : Option kz_zone :=
  head.find? fun z => z.unique_name = name

/-- Modelled from the spec: `kz_zone_lookup_name`, lookup by unique name in a snapshot. -/
def kz_zone_lookup_name (cfg : kz_config) (name : String) : Option kz_zone :=
  __kz_zone_lookup_name cfg.zones name

/-- Modelled from the spec: `kz_service_lookup_name`, the service of a snapshot
named `name` ("Services: by name"); the first one in list order. -/
def kz_service_lookup_name (cfg : kz_config) (name : String) : Option kz_service :=
  cfg.services.find? fun s => s.name = name

/-- The C `lookup_zone_merged`. -/
def lookup_zone_merged (tr : kz_transaction) (name : String) : Option kz_zone :=
  match transaction_zone_lookup tr name with
  | some zone => some zone
  | none =>
    if ¬ (tr.flags &&& KZF_TRANSACTION_FLUSH_ZONES ≠ 0) then kz_zone_lookup_name tr.cfg name
    else none

/-- The C `lookup_service_merged`. -/
def lookup_service_merged (tr : kz_transaction) (name : String) : Option kz_service :=
  match transaction_service_lookup tr name with
  | some service => some service
  | none =>
    if ¬ (tr.flags &&& KZF_TRANSACTION_FLUSH_SERVICES ≠ 0) then kz_service_lookup_name tr.cfg name
    else none

/-! ## Attribute parsing (lines 357-400) -/

/-- The C `kznl_parse_name_alloc` on a name attribute whose `length` field is
the length of the carried string; `mem_ok` tells whether `kzalloc` succeeds. -/
def kznl_parse_name_alloc (mem_ok : Bool) (a : String) : Except Int String :=
  if a.length = 0 ∨ a.length > KZ_ATTR_NAME_MAX_LENGTH then .error (-EINVAL)
  else if mem_ok then .ok a
  else .error (-ENOMEM)

/-! ## Instances -/

/-- Modelled from the spec: `kz_instance_lookup`, the position in `kz_instances`
of the instance named `name` (the position plays the role of the pointer). -/
def kz_instance_lookup (l : List kz_instance) (name : String) : Option Nat :=
  let i := l.findIdx fun ins => ins.name = name
  if i < l.length then some i else none

/-- Modelled from the spec: `kz_instance_lookup_id`, the position in
`kz_instances` of the instance whose id is `id`. -/
def kz_instance_lookup_id (l : List kz_instance) (id : Nat) : Option Nat :=
  let i := l.findIdx fun ins => ins.id = id
  if i < l.length then some i else none

/-- Modelled from the spec: `kz_instance_create` ("Instance.  A tenancy
partition.  Attributes: id; name; transaction-in-progress flag; list of binds.
Instances are never destroyed").  The new instance is linked at the tail of
`kz_instances` with the first unused id, no flag and no bind; `none` when the
allocation fails. -/
def kz_instance_create (mem_ok : Bool) (l : List kz_instance) (name : String) :
    Option (Nat × List kz_instance) :=
  if mem_ok then
    some (l.length, l ++ [{ id := l.length, name := name, flags := 0, binds := [] }])
  else none

/-- The flag word of the instance at position `i` (0 past the end). -/
def instance_flags (l : List kz_instance) (i : Nat) : Nat :=
  match l[i]? with
  | some ins => ins.flags
  | none => 0

/-- Modelled from the spec: the effect of `kz_instance_remove_bind` on one
instance ("Remove all binds whose owning peer is the transaction owner (then
the staged binds, carried separately, replace them)").  With a transaction the
staged binds are linked after the remaining ones. -/
def kz_instance_remove_bind_one (ins : kz_instance) (pid : Nat) (tr : Option kz_transaction) :
    kz_instance :=
  { ins with binds :=
      (ins.binds.filter fun b => b.peer_pid ≠ pid) ++
      (match tr with
       | none => []
       | some t => t.op.filterMap fun o =>
           match o with
           | .KZNL_OP_BIND b => some b
           | _ => none) }

/-- Modelled from the spec: `kz_instance_remove_bind` on the instance at
position `inst` of the instance list; a `NULL` instance is left alone. -/
def kz_instance_remove_bind (l : List kz_instance) (inst : Option Nat) (pid : Nat)
    (tr : Option kz_transaction) : List kz_instance :=
  match inst with
  | none => l
  | some i => l.modify (fun ins => kz_instance_remove_bind_one ins pid tr) i

/-! ## Start (lines 977-1054) -/

/-- The attributes of a Start message. -/
structure start_attrs where
  KZNL_ATTR_INSTANCE_NAME : Option String
  KZNL_ATTR_CONFIG_COOKIE : Option Nat
deriving DecidableEq, Repr

/-- The C `kznl_recv_start`.  `mem 0` is the allocation of the parsed name,
`mem 1` the allocation made by `kz_instance_create`. -/
def kznl_recv_start (mem : Nat → Bool) (snd_pid : Nat) (attrs : start_attrs)
    (st : kz_state) : Int × kz_state :=
  match attrs.KZNL_ATTR_INSTANCE_NAME with
  | none => (-EINVAL, st)
  | some a =>
    match kznl_parse_name_alloc (mem 0) a with
    | .error _ => (-EINVAL, st)
    | .ok ins_name =>
      let config_cookie := attrs.KZNL_ATTR_CONFIG_COOKIE.getD 0
      match transaction_lookup st snd_pid with
      | some _ => (-EINVAL, st)
      | none =>
        let found :=
          match kz_instance_lookup st.kz_instances ins_name with
          | some i => some (i, st.kz_instances)
          | none => kz_instance_create (mem 1) st.kz_instances ins_name
        match found with
        | none => (-EINVAL, st)
        | some (ins, instances) =>
          let st1 := { st with kz_instances := instances }
          if instance_flags instances ins &&& KZF_INSTANCE_TRANS ≠ 0 then (-EEXIST, st1)
          else
            let ins_id := match instances[ins]? with
              | some i => i.id
              | none => 0
            match transaction_create st1 snd_pid ins_id config_cookie with
            | none => (-EINVAL, st1)
            | some st2 =>
              (0, { st2 with kz_instances :=
                instances.modify (fun i => { i with flags := i.flags ||| KZF_INSTANCE_TRANS }) ins })

/-! ## Commit (lines 1056-1313) -/

/-- The preliminary sanity check of commit: `true` iff some staged dispatcher
has `num_rule != alloc_rule`. -/
def commit_rule_mismatch (op : List kz_operation) : Bool :=
  op.any fun io =>
    match io with
    | .KZNL_OP_DISPATCHER dispatcher => dispatcher.num_rule ≠ dispatcher.alloc_rule
    | _ => false

/-- Modelled from the spec: `kz_service_clone` ("clone_shallow(e) produces a new
entity sharing lists of sub-objects but independently refcounted"). -/
def kz_service_clone (i : kz_service) : kz_service := i

/-- Modelled from the spec: `kz_zone_clone`, a new zone object at address `addr`
with the fields of `i`, its parent pointer and depth included. -/
def kz_zone_clone (addr : Nat) (i : kz_zone) : kz_zone := { i with addr := addr }

/-- Modelled from the spec: `kz_dispatcher_clone`. -/
def kz_dispatcher_clone (i : kz_dispatcher) : kz_dispatcher := i

/-- The C `kz_zone_get` as used to store a pointer: the pointer to zone `p`. -/
def kz_zone_get (p : kz_zone) : zone_ptr :=
  { addr := p.addr, name := p.name, unique_name := p.unique_name }

/-- The loop "clone existing services" over the rest of `old->services`, `k`
being the position of the head of `rest` in the base list.  The accumulator is
(`new->services`, the services `kz_service_lock` was called on, in call
order); the flag is `false` when a clone failed (`goto mem_error`). -/
def commit_clone_services (env : kz_env) (tr : kz_transaction) :
    Nat → List kz_service → List kz_service × List kz_service →
    Bool × List kz_service × List kz_service
  | _, [], acc => (true, acc)
  | k, i :: rest, (news, locked) =>
    if tr.flags &&& KZF_TRANSACTION_FLUSH_SERVICES ≠ 0 ∧ i.instance_id = tr.instance_id then
      commit_clone_services env tr (k + 1) rest (news, locked)
    else if env.kz_service_clone_ok k then
      commit_clone_services env tr (k + 1) rest
        (news ++ [{ kz_service_clone i with session_cnt := env.kz_service_lock i }],
         locked ++ [i])
    else (false, news, locked)

/-- What the loop "add services in the transaction" makes of one staged
service: session count and id migrate from the base service of the same name. -/
def commit_migrate_service (env : kz_env) (old : kz_config) (svc : kz_service) : kz_service :=
  match kz_service_lookup_name old svc.name with
  | some orig => { svc with session_cnt := env.kz_service_lock orig, id := orig.id }
  | none => svc

/-- The services moved by the loop "add services in the transaction", in the
order of the operation list. -/
def commit_staged_services (env : kz_env) (old : kz_config) (op : List kz_operation) :
    List kz_service :=
  op.filterMap fun io =>
    match io with
    | .KZNL_OP_SERVICE svc => some (commit_migrate_service env old svc)
    | _ => none

/-- The base services `kz_service_lock` is called on by the loop "add services
in the transaction", in call order. -/
def commit_staged_locked (old : kz_config) (op : List kz_operation) : List kz_service :=
  op.filterMap fun io =>
    match io with
    | .KZNL_OP_SERVICE svc => kz_service_lookup_name old svc.name
    | _ => none

/-- The loop "clone existing zones" over the rest of `old->zones`; `k` is the
position in the base list, `addr` the address of the next new object. -/
def commit_clone_zones (env : kz_env) :
    Nat → Nat → List kz_zone → List kz_zone → Bool × List kz_zone
  | _, _, [], news => (true, news)
  | k, addr, i :: rest, news =>
    if env.kz_zone_clone_ok k then
      commit_clone_zones env (k + 1) (addr + 1) rest (news ++ [kz_zone_clone addr i])
    else (false, news)

/-- The zones moved by the loop "append zones created in the transaction". -/
def commit_staged_zones (op : List kz_operation) : List kz_zone :=
  op.filterMap fun io =>
    match io with
    | .KZNL_OP_ZONE zone => some zone
    | _ => none

/-- The loop "consolidate admin_parent links" run in place over
`new->zones = done ++ todo`, the zones of `done` having been visited. -/
def commit_consolidate_zones : List kz_zone → List kz_zone → Except Int (List kz_zone)
  | done, [] => .ok done
  | done, i :: rest =>
    match i.admin_parent with
    | none => commit_consolidate_zones (done ++ [i]) rest
    | some admin_parent =>
      match __kz_zone_lookup_name (done ++ i :: rest) admin_parent.unique_name with
      | none => .error (-EINVAL)
      | some parent =>
        commit_consolidate_zones (done ++ [{ i with admin_parent := some (kz_zone_get parent) }]) rest

/-- The loop "clone existing dispatchers" over the rest of `old->dispatchers`. -/
def commit_clone_dispatchers (env : kz_env) (tr : kz_transaction) :
    Nat → List kz_dispatcher → List kz_dispatcher → Bool × List kz_dispatcher
  | _, [], news => (true, news)
  | k, i :: rest, news =>
    if tr.flags &&& KZF_TRANSACTION_FLUSH_DISPATCHERS ≠ 0 ∧ i.inst = some tr.instance_id then
      commit_clone_dispatchers env tr (k + 1) rest news
    else if env.kz_dispatcher_clone_ok k then
      commit_clone_dispatchers env tr (k + 1) rest (news ++ [kz_dispatcher_clone i])
    else (false, news)

/-- The dispatchers moved by the loop "append dispatchers created in the
transaction". -/
def commit_staged_dispatchers (op : List kz_operation) : List kz_dispatcher :=
  op.filterMap fun io =>
    match io with
    | .KZNL_OP_DISPATCHER dispatcher => some dispatcher
    | _ => none

/-- The test `io->type == KZNL_OP_SERVICE`. -/
def op_is_service (io : kz_operation) : Bool :=
  match io with
  | .KZNL_OP_SERVICE _ => true
  | _ => false

/-- The test `io->type == KZNL_OP_ZONE`. -/
def op_is_zone (io : kz_operation) : Bool :=
  match io with
  | .KZNL_OP_ZONE _ => true
  | _ => false

/-- The test `io->type == KZNL_OP_DISPATCHER`. -/
def op_is_dispatcher (io : kz_operation) : Bool :=
  match io with
  | .KZNL_OP_DISPATCHER _ => true
  | _ => false

/-- Modelled from the spec: `kz_config_swap` ("swap the current-snapshot
pointer"; "a monotonically increasing generation number stamped on every
published snapshot"). -/
def kz_config_swap (st : kz_state) (new : kz_config) : kz_state :=
  { st with kz_config_rcu := { new with generation := st.kz_config_rcu.generation + 1 } }

/-- What one run of `kznl_recv_commit_transaction` leaves behind: the result
code, the state, and the calls of `kz_service_lock` and `kz_service_unlock` on
base services, in call order. -/
structure commit_result where
  res : Int
  st : kz_state
  locked : List kz_service
  unlocked : List kz_service

/-- The exit through the label `error` of commit: every service of the base is
unlocked and the new configuration is destroyed; `op` is what is left of the
operation list. -/
def commit_error (res : Int) (st : kz_state) (op : List kz_operation)
    (locked : List kz_service) : commit_result :=
  { res := res,
    st := { st with transaction := { st.transaction with op := op } },
    locked := locked,
    unlocked := st.transaction.cfg.services }

/-- The C `kznl_recv_commit_transaction`; `inst` is the `instance` argument
(a position in `kz_instances`, `none` for `NULL`) and the transaction is
`st.transaction`. -/
def kznl_recv_commit_transaction (env : kz_env) (inst : Option Nat) (st : kz_state) :
    commit_result :=
  let tr := st.transaction
  let old := tr.cfg
  if commit_rule_mismatch tr.op then
    { res := -EINVAL, st := st, locked := [], unlocked := [] }
  else if ¬ env.kz_config_new_ok then
    { res := -ENOMEM, st := st, locked := [], unlocked := [] }
  else
    match commit_clone_services env tr 0 old.services ([], []) with
    | (false, _, locked) => commit_error (-ENOMEM) st tr.op locked
    | (true, cloned, locked0) =>
      let services := cloned ++ commit_staged_services env old tr.op
      let locked := locked0 ++ commit_staged_locked old tr.op
      let op1 := tr.op.filter fun io => ¬ op_is_service io
      let zclone :=
        if ¬ (tr.flags &&& KZF_TRANSACTION_FLUSH_ZONES ≠ 0) then
          commit_clone_zones env 0 st.zone_addr_next old.zones []
        else (true, [])
      match zclone with
      | (false, _) => commit_error (-ENOMEM) st op1 locked
      | (true, zcloned) =>
        let op2 := op1.filter fun io => ¬ op_is_zone io
        match commit_consolidate_zones [] (zcloned ++ commit_staged_zones op1) with
        | .error res => commit_error res st op2 locked
        | .ok zones =>
          match commit_clone_dispatchers env tr 0 old.dispatchers [] with
          | (false, _) => commit_error (-ENOMEM) st op2 locked
          | (true, dcloned) =>
            let op3 := op2.filter fun io => ¬ op_is_dispatcher io
            let dispatchers :=
              (dcloned ++ commit_staged_dispatchers op2).map fun i =>
                env.kz_dispatcher_relink i zones services
            let tr3 := { tr with op := op3 }
            let st3 := { st with
              transaction := tr3,
              kz_instances := kz_instance_remove_bind st.kz_instances inst tr.peer_pid (some tr3) }
            let res := env.kz_head_zone_build zones
            if res < 0 then commit_error res st3 op3 locked
            else
              let res := env.kz_head_dispatcher_build dispatchers
              if res < 0 then commit_error res st3 op3 locked
              else
                { res := 0,
                  st := kz_config_swap { st3 with zone_addr_next := st.zone_addr_next + zcloned.length }
                    { kz_config_new with
                      services := services, zones := zones, dispatchers := dispatchers },
                  locked := locked,
                  unlocked := [] }

/-- The C statement `inst->flags &= ~KZF_INSTANCE_TRANS` on an unsigned int. -/
def instance_clear_trans (i : kz_instance) : kz_instance :=
  { i with flags := i.flags &&& (4294967295 - KZF_INSTANCE_TRANS) }

/-- The C `kznl_recv_commit`. -/
def kznl_recv_commit (env : kz_env) (snd_pid : Nat) (st : kz_state) : Int × kz_state :=
  match transaction_lookup st snd_pid with
  | none => (-ENOENT, st)
  | some tr =>
    let inst := kz_instance_lookup_id st.kz_instances tr.instance_id
    let r := kznl_recv_commit_transaction env inst st
    let st1 :=
      match inst with
      | some i => { r.st with kz_instances := r.st.kz_instances.modify instance_clear_trans i }
      | none => r.st
    (r.res, transaction_destroy st1)

/-! ## Flush (lines 1315-1362) -/

/-- The C `kznl_recv_setflag`. -/
def kznl_recv_setflag (snd_pid : Nat) (flag : Nat) (st : kz_state) : Int × kz_state :=
  match transaction_lookup st snd_pid with
  | none => (-ENOENT, st)
  | some tr => (0, { st with transaction := { tr with flags := tr.flags ||| flag } })

/-- The C `kznl_recv_flush_z`. -/
def kznl_recv_flush_z (snd_pid : Nat) (st : kz_state) : Int × kz_state :=
  kznl_recv_setflag snd_pid KZF_TRANSACTION_FLUSH_ZONES st

/-- The C `kznl_recv_flush_s`. -/
def kznl_recv_flush_s (snd_pid : Nat) (st : kz_state) : Int × kz_state :=
  kznl_recv_setflag snd_pid KZF_TRANSACTION_FLUSH_SERVICES st

/-- The C `kznl_recv_flush_d`. -/
def kznl_recv_flush_d (snd_pid : Nat) (st : kz_state) : Int × kz_state :=
  kznl_recv_setflag snd_pid KZF_TRANSACTION_FLUSH_DISPATCHERS st

/-- The C `kznl_recv_flush_b`. -/
def kznl_recv_flush_b (snd_pid : Nat) (st : kz_state) : Int × kz_state :=
  kznl_recv_setflag snd_pid KZF_TRANSACTION_FLUSH_BIND st

/-! ## Peer release (lines 3572-3618) -/

/-- The netlink notifier event `NETLINK_URELEASE`. -/
def NETLINK_URELEASE : Nat := 1
/-- The netlink protocol number `NETLINK_GENERIC`. -/
def NETLINK_GENERIC : Nat := 16

/-- The C `kznl_netlink_event`. -/
def kznl_netlink_event (event protocol pid : Nat) (st : kz_state) : kz_state :=
  if event = NETLINK_URELEASE ∧ protocol = NETLINK_GENERIC ∧ pid ≠ 0 then
    let st1 :=
      match transaction_lookup st pid with
      | some tr =>
        match kz_instance_lookup_id st.kz_instances tr.instance_id with
        | some i =>
          transaction_destroy
            { st with kz_instances := st.kz_instances.modify instance_clear_trans i }
        | none => transaction_destroy st
      | none => st
    { st1 with kz_instances :=
        st1.kz_instances.map fun ins => kz_instance_remove_bind_one ins pid none }
  else st

/-! ## Subnet attributes (lines 470-551) -/

/-- The loop `for (i = 1 << 31; i && (mask & i); i >>= 1)` of
`kznl_parse_in_subnet`, with the number of iterations still allowed; the value
of `i` when the loop stops. -/
def in_subnet_scan (mask : Nat) : Nat → Nat → Nat
  | 0, i => i
  | fuel + 1, i =>
    if i ≠ 0 ∧ mask &&& i ≠ 0 then in_subnet_scan mask fuel (i >>> 1) else i

/-- The C `kznl_parse_in_subnet` on an attribute carrying (address, mask), both
given as 32-bit values in host order: the result code, address and mask. -/
def kznl_parse_in_subnet (a : Nat × Nat) : Int × Nat × Nat :=
  let mask := a.2
  let i := in_subnet_scan mask 33 2147483648
  if i ≠ 0 ∧ (i - 1) &&& mask ≠ 0 then (-EINVAL, a.1, a.2) else (0, a.1, a.2)

/-- The kernel helper `ipv6_addr_diff` on 128-bit values: the number of
leading bits on which `a` and `b` agree (128 when they are equal). -/
def ipv6_addr_diff (a b : Nat) : Nat :=
  ((List.range 128).takeWhile fun k => a.testBit (127 - k) = b.testBit (127 - k)).length

/-- The kernel helper `ipv6_addr_prefix`: the leading `plen` bits of `addr`,
the other bits zero. -/
def ipv6_addr_prefix (addr plen : Nat) : Nat :=
  (addr >>> (128 - plen)) <<< (128 - plen)

/-- The C `kznl_parse_in6_subnet` on an attribute carrying (address, mask) as
128-bit values. -/
def kznl_parse_in6_subnet (a : Nat × Nat) : Int × Nat × Nat :=
  let mask := a.2
  let prefixlen := ipv6_addr_diff mask (2 ^ 128 - 1)
  let pfx := ipv6_addr_prefix mask prefixlen
  if pfx ≠ mask then (-EINVAL, a.1, a.2) else (0, a.1, a.2)

/-- A nested subnet attribute: the result of `nla_parse_nested` and the two
attributes it may carry. -/
structure inet_subnet_attr where
  nla_parse_nested : Int
  KZNL_ATTR_INET_SUBNET : Option (Nat × Nat)
  KZNL_ATTR_INET6_SUBNET : Option (Nat × Nat)
deriving DecidableEq, Repr

/-- The C `kznl_parse_inet_subnet`: (address, mask, family) or the error. -/
def kznl_parse_inet_subnet (attr : inet_subnet_attr) : Except Int (Nat × Nat × Nat) :=
  if attr.nla_parse_nested < 0 then .error attr.nla_parse_nested
  else
    match attr.KZNL_ATTR_INET_SUBNET with
    | some a =>
      let r := kznl_parse_in_subnet a
      if r.1 < 0 then .error r.1 else .ok (r.2.1, r.2.2, AF_INET)
    | none =>
      match attr.KZNL_ATTR_INET6_SUBNET with
      | some a =>
        let r := kznl_parse_in6_subnet a
        if r.1 < 0 then .error r.1 else .ok (r.2.1, r.2.2, AF_INET6)
      | none => .error (-EINVAL)

/-- A nested address attribute. -/
structure inet_addr_attr where
  nla_parse_nested : Int
  KZNL_ATTR_INET_ADDR : Option Nat
  KZNL_ATTR_INET6_ADDR : Option Nat
deriving DecidableEq, Repr

/-- The C `kznl_parse_inet_addr`: (address, family) or the error. -/
def kznl_parse_inet_addr (attr : inet_addr_attr) : Except Int (Nat × Nat) :=
  if attr.nla_parse_nested < 0 then .error attr.nla_parse_nested
  else
    match attr.KZNL_ATTR_INET_ADDR with
    | some a => .ok (a, AF_INET)
    | none =>
      match attr.KZNL_ATTR_INET6_ADDR with
      | some a => .ok (a, AF_INET6)
      | none => .error (-EINVAL)

/-- The C `kznl_parse_port`. -/
def kznl_parse_port (port : Nat) : Except Int Nat :=
  if port = 0 then .error (-EINVAL) else .ok port

/-- The C `kznl_parse_port_range`. -/
def kznl_parse_port_range (a : Nat × Nat) : Except Int (Nat × Nat) :=
  if a.2 < a.1 then .error (-EINVAL) else .ok a

/-! ## AddZone (lines 1364-1484) -/

/-- Modelled from the spec: `kz_zone_new`, a zeroed zone object at address
`addr` ("derived depth (root = 0)", no parent). -/
def kz_zone_new (addr : Nat) : kz_zone :=
  { addr := addr, name := "", unique_name := "", flags := 0, family := 0, net_addr := 0,
    mask := 0, admin_parent := none, depth := 0 }

/-- The attributes of an AddZone message. -/
structure add_zone_attrs where
  KZNL_ATTR_ZONE_NAME : Option String
  KZNL_ATTR_ZONE_RANGE : Option inet_subnet_attr
  KZNL_ATTR_ZONE_UNAME : Option String
  KZNL_ATTR_ZONE_PNAME : Option String
deriving DecidableEq, Repr

/-- The part of `kznl_recv_add_zone` that runs before the transaction is looked
up: the zone object filled from the attributes, and the parent name.  `mem 0`
is the allocation of the zone, `mem 1`, `mem 2`, `mem 3` those of the three
names. -/
def kznl_recv_add_zone_parse (mem : Nat → Bool) (addr : Nat) (attrs : add_zone_attrs) :
    Except Int (kz_zone × Option String) :=
  match attrs.KZNL_ATTR_ZONE_NAME with
  | none => .error (-EINVAL)
  | some a_name =>
    if ¬ mem 0 then .error (-ENOMEM)
    else do
      let zone := kz_zone_new addr
      let name ← kznl_parse_name_alloc (mem 1) a_name
      let zone := { zone with name := name }
      let zone ←
        match attrs.KZNL_ATTR_ZONE_RANGE with
        | some r => do
          let (a, m, f) ← kznl_parse_inet_subnet r
          pure { zone with net_addr := a, mask := m, family := f,
                           flags := zone.flags ||| KZF_ZONE_HAS_RANGE }
        | none => pure zone
      let zone ←
        match attrs.KZNL_ATTR_ZONE_UNAME with
        | some u => do
          let unique_name ← kznl_parse_name_alloc (mem 2) u
          pure { zone with unique_name := unique_name }
        | none => pure { zone with unique_name := zone.name }
      let parent_name ←
        match attrs.KZNL_ATTR_ZONE_PNAME with
        | some pn => do
          let n ← kznl_parse_name_alloc (mem 3) pn
          pure (some n)
        | none => pure none
      pure (zone, parent_name)

/-- The C `kznl_recv_add_zone`.  `mem 4` is the allocation made by
`transaction_add_op`.  The depth is an unsigned int. -/
def kznl_recv_add_zone (mem : Nat → Bool) (snd_pid : Nat) (attrs : add_zone_attrs)
    (st : kz_state) : Int × kz_state :=
  match kznl_recv_add_zone_parse mem st.zone_addr_next attrs with
  | .error res => (res, st)
  | .ok (zone, parent_name) =>
    match transaction_lookup st snd_pid with
    | none => (-ENOENT, st)
    | some tr =>
      match lookup_zone_merged tr zone.unique_name with
      | some _ => (-EEXIST, st)
      | none =>
        let linked : Except Int kz_zone :=
          match parent_name with
          | some pn =>
            match lookup_zone_merged tr pn with
            | none => .error (-ENOENT)
            | some p =>
              .ok { zone with admin_parent := some (kz_zone_get p),
                              depth := (p.depth + 1) % 4294967296 }
          | none => .ok zone
        match linked with
        | .error res => (res, st)
        | .ok zone =>
          let r := transaction_add_op (mem 4) tr (.KZNL_OP_ZONE zone)
          if r.1 < 0 then (r.1, st)
          else (r.1, { st with transaction := r.2, zone_addr_next := st.zone_addr_next + 1 })

/-! ## AddService (lines 1655-1913) -/

/-- Modelled from the spec: `kz_service_new`, a zeroed service object carrying
the identity `id` it was given. -/
def kz_service_new (id : Nat) : kz_service :=
  { name := "", instance_id := 0, id := id, type := 0, flags := 0, session_cnt := 0,
    router_dst_addr_family := 0, router_dst_addr := 0, router_dst_port := 0,
    ipv4_reject_method := 0, ipv6_reject_method := 0, snat := [], dnat := [] }

/-- The C `kznl_parse_service_params` on (type, flags): the accepted pair. -/
def kznl_parse_service_params (a : Nat × Nat) : Except Int (Nat × Nat) :=
  if a.1 ≤ KZ_SERVICE_INVALID ∨ a.1 ≥ KZ_SERVICE_TYPE_COUNT then .error (-EINVAL)
  else if a.2 ||| KZF_SERVICE_PUBLIC_FLAGS ≠ KZF_SERVICE_PUBLIC_FLAGS then .error (-EINVAL)
  else .ok a

/-- The C `kznl_parse_service_ipv4_deny_method`. -/
def kznl_parse_service_ipv4_deny_method (type : Nat) : Except Int Nat :=
  if type ≥ KZ_SERVICE_DENY_METHOD_V4_COUNT then .error (-EINVAL) else .ok type

/-- The C `kznl_parse_service_ipv6_deny_method`. -/
def kznl_parse_service_ipv6_deny_method (type : Nat) : Except Int Nat :=
  if type > KZ_SERVICE_DENY_METHOD_V6_COUNT then .error (-EINVAL) else .ok type

/-- The attributes of an AddService message. -/
structure add_service_attrs where
  KZNL_ATTR_SERVICE_PARAMS : Option (Nat × Nat)
  KZNL_ATTR_SERVICE_NAME : Option String
  KZNL_ATTR_SERVICE_SESSION_CNT : Option Nat
  KZNL_ATTR_SERVICE_ROUTER_DST_ADDR : Option inet_addr_attr
  KZNL_ATTR_SERVICE_ROUTER_DST_PORT : Option Nat
  KZNL_ATTR_SERVICE_DENY_IPV4_METHOD : Option Nat
  KZNL_ATTR_SERVICE_DENY_IPV6_METHOD : Option Nat
deriving DecidableEq, Repr

/-- The `switch (svc->type)` of `kznl_recv_add_service`: the type-specific
attributes. -/
def add_service_switch (attrs : add_service_attrs) (svc : kz_service) : Except Int kz_service :=
  if svc.type = KZ_SERVICE_PROXY then .ok svc
  else if svc.type = KZ_SERVICE_FORWARD then
    if ¬ (svc.flags &&& KZF_SERVICE_TRANSPARENT ≠ 0) then
      match attrs.KZNL_ATTR_SERVICE_ROUTER_DST_ADDR, attrs.KZNL_ATTR_SERVICE_ROUTER_DST_PORT with
      | some a, some p =>
        match kznl_parse_inet_addr a with
        | .error res => .error res
        | .ok (addr, family) =>
          match kznl_parse_port p with
          | .error res => .error res
          | .ok port =>
            .ok { svc with router_dst_addr := addr, router_dst_addr_family := family,
                           router_dst_port := port }
      | _, _ => .error (-EINVAL)
    else .ok svc
  else if svc.type = KZ_SERVICE_DENY then
    match attrs.KZNL_ATTR_SERVICE_DENY_IPV4_METHOD, attrs.KZNL_ATTR_SERVICE_DENY_IPV6_METHOD with
    | some m4, some m6 =>
      match kznl_parse_service_ipv4_deny_method m4 with
      | .error res => .error res
      | .ok v4 =>
        match kznl_parse_service_ipv6_deny_method m6 with
        | .error res => .error res
        | .ok v6 => .ok { svc with ipv4_reject_method := v4, ipv6_reject_method := v6 }
    | _, _ => .error (-EINVAL)
  else .error (-EINVAL)

/-- The part of `kznl_recv_add_service` from the parsing of the name to the
end of the `switch`: name, session count, type-specific attributes.  `mem 1`
is the allocation of the name. -/
def add_service_fill (mem : Nat → Bool) (attrs : add_service_attrs) (a_name : String)
    (svc : kz_service) : Except Int kz_service :=
  match kznl_parse_name_alloc (mem 1) a_name with
  | .error res => .error res
  | .ok name =>
    let svc := { svc with name := name }
    let svc :=
      match attrs.KZNL_ATTR_SERVICE_SESSION_CNT with
      | some count => { svc with session_cnt := count }
      | none => svc
    add_service_switch attrs svc

/-- The part of `kznl_recv_add_service` that runs before the transaction is
looked up.  `mem 0` is the allocation of the service; `id` is the identity
given to the new object. -/
def kznl_recv_add_service_parse (mem : Nat → Bool) (id : Nat) (attrs : add_service_attrs) :
    Except Int kz_service :=
  match attrs.KZNL_ATTR_SERVICE_PARAMS, attrs.KZNL_ATTR_SERVICE_NAME with
  | some params, some a_name =>
    if ¬ mem 0 then .error (-ENOMEM)
    else
      match kznl_parse_service_params params with
      | .error res => .error res
      | .ok (type, flags) =>
        let svc := { kz_service_new id with type := type, flags := flags }
        if svc.type ≠ KZ_SERVICE_PROXY ∧ svc.type ≠ KZ_SERVICE_FORWARD ∧
            svc.type ≠ KZ_SERVICE_DENY then .error 0
        else if svc.type = KZ_SERVICE_FORWARD ∧ ¬ (svc.flags &&& KZF_SERVICE_TRANSPARENT ≠ 0) ∧
            attrs.KZNL_ATTR_SERVICE_ROUTER_DST_PORT.isNone then .error (-EINVAL)
        else if svc.type = KZ_SERVICE_FORWARD ∧ ¬ (svc.flags &&& KZF_SERVICE_TRANSPARENT ≠ 0) ∧
            attrs.KZNL_ATTR_SERVICE_ROUTER_DST_ADDR.isNone then .error (-EINVAL)
        else if svc.type = KZ_SERVICE_DENY ∧ attrs.KZNL_ATTR_SERVICE_DENY_IPV4_METHOD.isNone then
          .error (-EINVAL)
        else if svc.type = KZ_SERVICE_DENY ∧ attrs.KZNL_ATTR_SERVICE_DENY_IPV6_METHOD.isNone then
          .error (-EINVAL)
        else add_service_fill mem attrs a_name svc
  | _, _ => .error (-EINVAL)

/-- The C `kznl_recv_add_service`.  `mem 2` is the allocation made by
`transaction_add_op`. -/
def kznl_recv_add_service (mem : Nat → Bool) (id : Nat) (snd_pid : Nat)
    (attrs : add_service_attrs) (st : kz_state) : Int × kz_state :=
  match kznl_recv_add_service_parse mem id attrs with
  | .error res => (res, st)
  | .ok svc0 =>
    match transaction_lookup st snd_pid with
    | none => (-ENOENT, st)
    | some tr =>
      let svc := { svc0 with instance_id := tr.instance_id }
      match transaction_service_lookup tr svc.name with
      | some _ => (-EEXIST, st)
      | none =>
        let rejected :=
          match kz_service_lookup_name tr.cfg svc.name with
          | some p =>
            decide (p.instance_id ≠ tr.instance_id ∨
              ¬ (tr.flags &&& KZF_TRANSACTION_FLUSH_SERVICES ≠ 0))
          | none => false
        if rejected then (-EEXIST, st)
        else
          let r := transaction_add_op (mem 2) tr (.KZNL_OP_SERVICE svc)
          (r.1, { st with transaction := r.2 })

/-- NAT range flag of the message format: map addresses. -/
def KZF_SERVICE_NAT_MAP_IPS : Nat := 1
/-- NAT range flag of the message format: protocol specific part given. -/
def KZF_SERVICE_NAT_MAP_PROTO_SPECIFIC : Nat := 2
/-- The NAT range flags a message may carry. -/
def KZF_SERVICE_NAT_MAP_PUBLIC_FLAGS : Nat := 3
/-- Kernel NAT range flag `IP_NAT_RANGE_MAP_IPS`. -/
def IP_NAT_RANGE_MAP_IPS : Nat := 1
/-- Kernel NAT range flag `IP_NAT_RANGE_PROTO_SPECIFIED`. -/
def IP_NAT_RANGE_PROTO_SPECIFIED : Nat := 2

/-- The C `kznl_parse_service_nat_params` on an attribute carrying (flags, min
ip, max ip, min port, max port), into the range `range`. -/
def kznl_parse_service_nat_params (a : Nat × Nat × Nat × Nat × Nat)
    (range : Nat × Nat × Nat × Nat × Nat) : Except Int (Nat × Nat × Nat × Nat × Nat) :=
  let flags := a.1
  if flags ||| KZF_SERVICE_NAT_MAP_PUBLIC_FLAGS ≠ KZF_SERVICE_NAT_MAP_PUBLIC_FLAGS then
    .error (-EINVAL)
  else
    let f1 := if flags &&& KZF_SERVICE_NAT_MAP_IPS ≠ 0 then range.1 ||| IP_NAT_RANGE_MAP_IPS
              else range.1
    let f2 := if flags &&& KZF_SERVICE_NAT_MAP_PROTO_SPECIFIC ≠ 0 then
                f1 ||| IP_NAT_RANGE_PROTO_SPECIFIED
              else f1
    .ok (f2, a.2.1, a.2.2.1, a.2.2.2.1, a.2.2.2.2)

/-- The attributes of an AddServiceNatSrc / AddServiceNatDst message. -/
structure add_service_nat_attrs where
  KZNL_ATTR_SERVICE_NAME : Option String
  KZNL_ATTR_SERVICE_NAT_SRC : Option (Nat × Nat × Nat × Nat × Nat)
  KZNL_ATTR_SERVICE_NAT_DST : Option (Nat × Nat × Nat × Nat × Nat)
  KZNL_ATTR_SERVICE_NAT_MAP : Option (Nat × Nat × Nat × Nat × Nat)
deriving DecidableEq, Repr

/-- The part of `kznl_recv_add_service_nat` that runs before the transaction
is looked up: the service name and the entry to add. -/
def kznl_recv_add_service_nat_parse (mem : Nat → Bool) (attrs : add_service_nat_attrs) :
    Except Int (String × kz_service_nat_entry) :=
  match attrs.KZNL_ATTR_SERVICE_NAME, attrs.KZNL_ATTR_SERVICE_NAT_SRC,
        attrs.KZNL_ATTR_SERVICE_NAT_MAP with
  | some a_name, some a_src, some a_map => do
    let service_name ← kznl_parse_name_alloc (mem 0) a_name
    let src ← kznl_parse_service_nat_params a_src (0, 0, 0, 0, 0)
    let dst ←
      match attrs.KZNL_ATTR_SERVICE_NAT_DST with
      | some a_dst => do
        let d ← kznl_parse_service_nat_params a_dst (0, 0, 0, 0, 0)
        pure (some d)
      | none => pure none
    let map ← kznl_parse_service_nat_params a_map (0, 0, 0, 0, 0)
    pure (service_name, { src := src, dst := dst, map := map })
  | _, _, _ => .error (-EINVAL)

/-- The operation list with `f` applied to the first staged service named
`name`: the effect of writing through the pointer returned by
`transaction_service_lookup`. -/
def op_update_service (f : kz_service → kz_service) (name : String) :
    List kz_operation → List kz_operation
  | [] => []
  | .KZNL_OP_SERVICE s :: rest =>
    if s.name = name then .KZNL_OP_SERVICE (f s) :: rest
    else .KZNL_OP_SERVICE s :: op_update_service f name rest
  | o :: rest => o :: op_update_service f name rest

/-- The operation list with `f` applied to the first staged dispatcher named
`name`: the effect of writing through the pointer returned by
`transaction_dispatcher_lookup`. -/
def op_update_dispatcher (f : kz_dispatcher → kz_dispatcher) (name : String) :
    List kz_operation → List kz_operation
  | [] => []
  | .KZNL_OP_DISPATCHER d :: rest =>
    if d.name = name then .KZNL_OP_DISPATCHER (f d) :: rest
    else .KZNL_OP_DISPATCHER d :: op_update_dispatcher f name rest
  | o :: rest => o :: op_update_dispatcher f name rest

/-- The C `kznl_recv_add_service_nat`.  `kz_service_add_nat_entry` links the
entry at the tail of the chosen list; `mem 1` is its allocation. -/
def kznl_recv_add_service_nat (mem : Nat → Bool) (snat : Bool) (snd_pid : Nat)
    (attrs : add_service_nat_attrs) (st : kz_state) : Int × kz_state :=
  match kznl_recv_add_service_nat_parse mem attrs with
  | .error res => (res, st)
  | .ok (service_name, entry) =>
    match transaction_lookup st snd_pid with
    | none => (-ENOENT, st)
    | some tr =>
      match transaction_service_lookup tr service_name with
      | none => (-ENOENT, st)
      | some _ =>
        if ¬ mem 1 then (-ENOMEM, st)
        else
          let f := fun (svc : kz_service) =>
            if snat then { svc with snat := svc.snat ++ [entry] }
            else { svc with dnat := svc.dnat ++ [entry] }
          (0, { st with transaction := { tr with op := op_update_service f service_name tr.op } })

/-- The C `kznl_recv_add_service_nat_src`. -/
def kznl_recv_add_service_nat_src (mem : Nat → Bool) (snd_pid : Nat)
    (attrs : add_service_nat_attrs) (st : kz_state) : Int × kz_state :=
  kznl_recv_add_service_nat mem true snd_pid attrs st

/-- The C `kznl_recv_add_service_nat_dst`. -/
def kznl_recv_add_service_nat_dst (mem : Nat → Bool) (snd_pid : Nat)
    (attrs : add_service_nat_attrs) (st : kz_state) : Int × kz_state :=
  kznl_recv_add_service_nat mem false snd_pid attrs st

/-! ## AddDispatcher, AddRule, AddRuleEntry (lines 2188-2728) -/

/-- The attributes of an AddDispatcher message; the parameters attribute
carries `num_rules`. -/
structure add_dispatcher_attrs where
  KZNL_ATTR_DISPATCHER_NAME : Option String
  KZNL_ATTR_DISPATCHER_N_DIMENSION_PARAMS : Option Nat
deriving DecidableEq, Repr

/-- The part of `kznl_recv_add_dispatcher` that runs before the transaction is
looked up.  `mem 0` is the allocation of the dispatcher, `mem 1` that of its
name, `mem 2` that of the rule array (`kz_dispatcher_alloc_rule_array`, which
records the number of allocated rule slots). -/
def kznl_recv_add_dispatcher_parse (mem : Nat → Bool) (attrs : add_dispatcher_attrs) :
    Except Int kz_dispatcher :=
  match attrs.KZNL_ATTR_DISPATCHER_NAME with
  | none => .error (-EINVAL)
  | some a_name =>
    if ¬ mem 0 then .error (-ENOMEM)
    else do
      let name ← kznl_parse_name_alloc (mem 1) a_name
      match attrs.KZNL_ATTR_DISPATCHER_N_DIMENSION_PARAMS with
      | none => .error (-EINVAL)
      | some num_rules =>
        if ¬ mem 2 then .error (-ENOMEM)
        else pure { name := name, inst := none, alloc_rule := num_rules, num_rule := 0, rule := [] }

/-- The C `kznl_recv_add_dispatcher`.  `mem 3` is the allocation made by
`transaction_add_op`. -/
def kznl_recv_add_dispatcher (mem : Nat → Bool) (snd_pid : Nat)
    (attrs : add_dispatcher_attrs) (st : kz_state) : Int × kz_state :=
  match kznl_recv_add_dispatcher_parse mem attrs with
  | .error res => (res, st)
  | .ok dpt0 =>
    match transaction_lookup st snd_pid with
    | none => (-ENOENT, st)
    | some tr =>
      let dpt := { dpt0 with
        inst := (kz_instance_lookup_id st.kz_instances tr.instance_id).bind fun i =>
          st.kz_instances[i]?.map fun ins => ins.id }
      match transaction_dispatcher_lookup tr dpt.name with
      | some _ => (-EEXIST, st)
      | none =>
        let r := transaction_add_op (mem 3) tr (.KZNL_OP_DISPATCHER dpt)
        (r.1, { st with transaction := r.2 })

/-- The attributes of an AddRule message.  `counts` are the alternative counts
carried by the fourteen dimension attributes (0 for an absent one), in the
order of the `switch`; `invalid_attr` tells whether an attribute of a type the
`switch` rejects is present. -/
structure add_rule_attrs where
  KZNL_ATTR_N_DIMENSION_RULE_ID : Option Nat
  KZNL_ATTR_DISPATCHER_NAME : Option String
  KZNL_ATTR_N_DIMENSION_RULE_SERVICE : Option String
  counts : List Nat
  invalid_attr : Bool
deriving DecidableEq, Repr

/-- The part of `kznl_recv_add_n_dimension_rule` that runs before the
transaction is looked up: dispatcher name, service name and the rule. -/
def kznl_recv_add_n_dimension_rule_parse (mem : Nat → Bool) (attrs : add_rule_attrs) :
    Except Int (String × String × kz_rule) :=
  match attrs.KZNL_ATTR_N_DIMENSION_RULE_ID, attrs.KZNL_ATTR_DISPATCHER_NAME,
        attrs.KZNL_ATTR_N_DIMENSION_RULE_SERVICE with
  | some id, some a_dpt, some a_svc => do
    let dpt_name ← kznl_parse_name_alloc (mem 0) a_dpt
    let svc_name ← kznl_parse_name_alloc (mem 1) a_svc
    if attrs.invalid_attr then .error (-EINVAL)
    else pure (dpt_name, svc_name,
      { id := id, service := svc_name, alloc := attrs.counts, entries := [] })
  | _, _, _ => .error (-EINVAL)

/-- The C `kznl_recv_add_n_dimension_rule`.  `kz_dispatcher_add_rule`, whose
body is not among the sources, is the parameter `add_rule`: its result code
and what it makes of the dispatcher. -/
def kznl_recv_add_n_dimension_rule
    (add_rule : kz_dispatcher → kz_service → kz_rule → Int × kz_dispatcher)
    (mem : Nat → Bool) (snd_pid : Nat) (attrs : add_rule_attrs) (st : kz_state) :
    Int × kz_state :=
  match kznl_recv_add_n_dimension_rule_parse mem attrs with
  | .error res => (res, st)
  | .ok (dpt_name, svc_name, rule) =>
    match transaction_lookup st snd_pid with
    | none => (-ENOENT, st)
    | some tr =>
      match transaction_dispatcher_lookup tr dpt_name with
      | none => (-ENOENT, st)
      | some dpt =>
        match transaction_rule_lookup tr dpt_name rule.id with
        | some _ => (-EEXIST, st)
        | none =>
          match lookup_service_merged tr svc_name with
          | none => (-ENOENT, st)
          | some svc =>
            let r := add_rule dpt svc rule
            (r.1, { st with transaction :=
              { tr with op := op_update_dispatcher (fun _ => r.2) dpt_name tr.op } })

/-- The size `IFNAMSIZ` of an interface name buffer. -/
def IFNAMSIZ : Nat := 16

/-- The C `kznl_parse_name` into a buffer of `nsize` bytes. -/
def kznl_parse_name (a : String) (nsize : Nat) : Except Int String :=
  if nsize < a.length + 1 then .error (-EINVAL) else .ok a

/-- The attributes of an AddRuleEntry message; subnets are (address, mask),
port ranges (from, to). -/
structure add_rule_entry_attrs where
  KZNL_ATTR_DISPATCHER_NAME : Option String
  KZNL_ATTR_N_DIMENSION_RULE_ID : Option Nat
  KZNL_ATTR_N_DIMENSION_IFACE : Option String
  KZNL_ATTR_N_DIMENSION_IFGROUP : Option Nat
  KZNL_ATTR_N_DIMENSION_PROTO : Option Nat
  KZNL_ATTR_N_DIMENSION_SRC_PORT : Option (Nat × Nat)
  KZNL_ATTR_N_DIMENSION_DST_PORT : Option (Nat × Nat)
  KZNL_ATTR_N_DIMENSION_SRC_IP : Option (Nat × Nat)
  KZNL_ATTR_N_DIMENSION_SRC_ZONE : Option String
  KZNL_ATTR_N_DIMENSION_DST_IP : Option (Nat × Nat)
  KZNL_ATTR_N_DIMENSION_DST_ZONE : Option String
  KZNL_ATTR_N_DIMENSION_SRC_IP6 : Option (Nat × Nat)
  KZNL_ATTR_N_DIMENSION_DST_IP6 : Option (Nat × Nat)
  KZNL_ATTR_N_DIMENSION_DST_IFACE : Option String
  KZNL_ATTR_N_DIMENSION_DST_IFGROUP : Option Nat
  KZNL_ATTR_N_DIMENSION_REQID : Option Nat
  invalid_attr : Bool
deriving DecidableEq, Repr

/-- An optional attribute run through a parser that may fail. -/
def parse_opt {α β : Type} (f : α → Except Int β) : Option α → Except Int (Option β)
  | none => .ok none
  | some a =>
    match f a with
    | .ok b => .ok (some b)
    | .error e => .error e

/-- A subnet parser result turned into (address, mask) or the error. -/
def subnet_result (r : Int × Nat × Nat) : Except Int (Nat × Nat) :=
  if r.1 < 0 then .error r.1 else .ok r.2

/-- The part of `kznl_recv_add_n_dimension_rule_entry` that runs before the
transaction is looked up: the dispatcher name, the entry without its zones,
and the two zone names. -/
def kznl_recv_add_n_dimension_rule_entry_parse (mem : Nat → Bool)
    (attrs : add_rule_entry_attrs) :
    Except Int (String × kz_rule_entry × Option String × Option String) :=
  match attrs.KZNL_ATTR_DISPATCHER_NAME, attrs.KZNL_ATTR_N_DIMENSION_RULE_ID with
  | some a_dpt, some rule_id => do
    let dpt_name ← kznl_parse_name_alloc (mem 0) a_dpt
    let ifname ← parse_opt (fun a => kznl_parse_name a IFNAMSIZ) attrs.KZNL_ATTR_N_DIMENSION_IFACE
    let src_port ← parse_opt kznl_parse_port_range attrs.KZNL_ATTR_N_DIMENSION_SRC_PORT
    let dst_port ← parse_opt kznl_parse_port_range attrs.KZNL_ATTR_N_DIMENSION_DST_PORT
    let src_ip ← parse_opt (fun a => subnet_result (kznl_parse_in_subnet a))
      attrs.KZNL_ATTR_N_DIMENSION_SRC_IP
    let src_zone ← parse_opt (kznl_parse_name_alloc (mem 1)) attrs.KZNL_ATTR_N_DIMENSION_SRC_ZONE
    let dst_ip ← parse_opt (fun a => subnet_result (kznl_parse_in_subnet a))
      attrs.KZNL_ATTR_N_DIMENSION_DST_IP
    let dst_zone ← parse_opt (kznl_parse_name_alloc (mem 2)) attrs.KZNL_ATTR_N_DIMENSION_DST_ZONE
    let src_ip6 ← parse_opt (fun a => subnet_result (kznl_parse_in6_subnet a))
      attrs.KZNL_ATTR_N_DIMENSION_SRC_IP6
    let dst_ip6 ← parse_opt (fun a => subnet_result (kznl_parse_in6_subnet a))
      attrs.KZNL_ATTR_N_DIMENSION_DST_IP6
    let dst_ifname ← parse_opt (fun a => kznl_parse_name a IFNAMSIZ)
      attrs.KZNL_ATTR_N_DIMENSION_DST_IFACE
    if attrs.invalid_attr then .error (-EINVAL)
    else pure (dpt_name,
      { rule_id := rule_id, ifname := ifname, ifgroup := attrs.KZNL_ATTR_N_DIMENSION_IFGROUP,
        proto := attrs.KZNL_ATTR_N_DIMENSION_PROTO, src_port := src_port, dst_port := dst_port,
        src_in_subnet := src_ip, src_in6_subnet := src_ip6, src_zone := none,
        dst_in_subnet := dst_ip, dst_in6_subnet := dst_ip6, dst_zone := none,
        dst_ifname := dst_ifname, dst_ifgroup := attrs.KZNL_ATTR_N_DIMENSION_DST_IFGROUP,
        reqid := attrs.KZNL_ATTR_N_DIMENSION_REQID },
      src_zone, dst_zone)
  | _, _ => .error (-EINVAL)

/-- The dispatcher with its rule `d->rule[d->num_rule - 1]` replaced: the
effect of writing through the pointer returned by `transaction_rule_lookup`. -/
def dispatcher_set_last_rule (rule : kz_rule) (d : kz_dispatcher) : kz_dispatcher :=
  { d with rule := d.rule.set (d.num_rule - 1) rule }

/-- The C `kznl_recv_add_n_dimension_rule_entry`.  `kz_dispatcher_add_rule_entry`,
whose body is not among the sources, is the parameter `add_rule_entry`: its
result code and what it makes of the rule. -/
def kznl_recv_add_n_dimension_rule_entry
    (add_rule_entry : kz_rule → kz_rule_entry → Int × kz_rule)
    (mem : Nat → Bool) (snd_pid : Nat) (attrs : add_rule_entry_attrs) (st : kz_state) :
    Int × kz_state :=
  match kznl_recv_add_n_dimension_rule_entry_parse mem attrs with
  | .error res => (res, st)
  | .ok (dpt_name, entry0, src_zone_name, dst_zone_name) =>
    match transaction_lookup st snd_pid with
    | none => (-ENOENT, st)
    | some tr =>
      match transaction_rule_lookup tr dpt_name entry0.rule_id with
      | none => (-ENOENT, st)
      | some rule =>
        let src : Except Int (Option zone_ptr) :=
          match src_zone_name with
          | some n =>
            match lookup_zone_merged tr n with
            | some z => .ok (some (kz_zone_get z))
            | none => .error (-ENOENT)
          | none => .ok none
        let dst : Except Int (Option zone_ptr) :=
          match dst_zone_name with
          | some n =>
            match lookup_zone_merged tr n with
            | some z => .ok (some (kz_zone_get z))
            | none => .error (-ENOENT)
          | none => .ok none
        match src, dst with
        | .error res, _ => (res, st)
        | .ok _, .error res => (res, st)
        | .ok src_zone, .ok dst_zone =>
          match transaction_dispatcher_lookup tr dpt_name with
          | none => (-ENOENT, st)
          | some _ =>
            let r := add_rule_entry rule { entry0 with src_zone := src_zone, dst_zone := dst_zone }
            (r.1, { st with transaction :=
              { tr with op := op_update_dispatcher (dispatcher_set_last_rule r.2) dpt_name tr.op } })

/-! ## AddBind (lines 2730-2884) -/

/-- The C `kz_bind_lookup_instance`. -/
def kz_bind_lookup_instance (ins : kz_instance) (bind : kz_bind) : Option kz_bind :=
  ins.binds.find? fun i => kz_bind_eq i bind

/-- The attributes of an AddBind message. -/
structure add_bind_attrs where
  KZNL_ATTR_INSTANCE_NAME : Option String
  KZNL_ATTR_BIND_PROTO : Option Nat
  KZNL_ATTR_BIND_ADDR : Option inet_addr_attr
  KZNL_ATTR_BIND_PORT : Option Nat
deriving DecidableEq, Repr

/-- The C `kznl_parse_bind_alloc`: the position of the instance and the new
bind.  `mem 0` is the allocation of the instance name. -/
def kznl_parse_bind_alloc (mem : Nat → Bool) (attrs : add_bind_attrs) (instance_id : Nat)
    (l : List kz_instance) : Except Int (Nat × kz_bind) :=
  match attrs.KZNL_ATTR_INSTANCE_NAME, attrs.KZNL_ATTR_BIND_PROTO,
        attrs.KZNL_ATTR_BIND_ADDR, attrs.KZNL_ATTR_BIND_PORT with
  | some a_name, some proto, some a_addr, some a_port => do
    let instance_name ← kznl_parse_name_alloc (mem 0) a_name
    match kz_instance_lookup l instance_name with
    | none => .error (-ENOENT)
    | some i =>
      if (l[i]?.map fun ins => ins.id) ≠ some instance_id then .error (-EINVAL)
      else if proto ≠ IPPROTO_TCP ∧ proto ≠ IPPROTO_UDP then .error (-EINVAL)
      else
        match kznl_parse_port a_port with
        | .error _ => .error (-EINVAL)
        | .ok port =>
          match kznl_parse_inet_addr a_addr with
          | .error _ => .error (-EINVAL)
          | .ok (addr, family) =>
            pure (i, { peer_pid := 0, proto := proto, family := family, addr := addr, port := port })
  | _, _, _, _ => .error (-EINVAL)

/-- The C `kznl_recv_add_bind`.  `mem 1` is the allocation made by
`transaction_add_op`. -/
def kznl_recv_add_bind (mem : Nat → Bool) (snd_pid : Nat) (attrs : add_bind_attrs)
    (st : kz_state) : Int × kz_state :=
  match transaction_lookup st snd_pid with
  | none => (-ENOENT, st)
  | some tr =>
    match kznl_parse_bind_alloc mem attrs tr.instance_id st.kz_instances with
    | .error res => (res, st)
    | .ok (i, bind0) =>
      let bind := { bind0 with peer_pid := snd_pid }
      let found_bind := (st.kz_instances[i]?).bind fun ins => kz_bind_lookup_instance ins bind
      let clash :=
        match found_bind with
        | some fb =>
          decide (¬ (fb.peer_pid = bind.peer_pid ∧ tr.flags &&& KZF_TRANSACTION_FLUSH_BIND ≠ 0))
        | none => false
      if clash then (-EEXIST, st)
      else if (transaction_bind_lookup tr bind).isSome then (-EEXIST, st)
      else
        let r := transaction_add_op (mem 1) tr (.KZNL_OP_BIND bind)
        if r.1 < 0 then (r.1, st) else (r.1, { st with transaction := r.2 })

/-! ## The control-plane events -/

/-- One event of the control plane: a message of a peer together with the
outcomes of the allocations it triggers, or the release of a peer. -/
inductive kz_event where
  | start (mem : Nat → Bool) (snd_pid : Nat) (attrs : start_attrs)
  | commit (env : kz_env) (snd_pid : Nat)
  | flush_z (snd_pid : Nat)
  | flush_s (snd_pid : Nat)
  | flush_d (snd_pid : Nat)
  | flush_b (snd_pid : Nat)
  | add_zone (mem : Nat → Bool) (snd_pid : Nat) (attrs : add_zone_attrs)
  | add_service (mem : Nat → Bool) (id : Nat) (snd_pid : Nat) (attrs : add_service_attrs)
  | add_service_nat (mem : Nat → Bool) (snat : Bool) (snd_pid : Nat)
      (attrs : add_service_nat_attrs)
  | add_dispatcher (mem : Nat → Bool) (snd_pid : Nat) (attrs : add_dispatcher_attrs)
  | add_rule (add_rule : kz_dispatcher → kz_service → kz_rule → Int × kz_dispatcher)
      (mem : Nat → Bool) (snd_pid : Nat) (attrs : add_rule_attrs)
  | add_rule_entry (add_rule_entry : kz_rule → kz_rule_entry → Int × kz_rule)
      (mem : Nat → Bool) (snd_pid : Nat) (attrs : add_rule_entry_attrs)
  | add_bind (mem : Nat → Bool) (snd_pid : Nat) (attrs : add_bind_attrs)
  | release (event protocol pid : Nat)

/-- The handler run for one event: its result code and the next state. -/
def kz_step (e : kz_event) (st : kz_state) : Int × kz_state :=
  match e with
  | .start mem pid attrs => kznl_recv_start mem pid attrs st
  | .commit env pid => kznl_recv_commit env pid st
  | .flush_z pid => kznl_recv_flush_z pid st
  | .flush_s pid => kznl_recv_flush_s pid st
  | .flush_d pid => kznl_recv_flush_d pid st
  | .flush_b pid => kznl_recv_flush_b pid st
  | .add_zone mem pid attrs => kznl_recv_add_zone mem pid attrs st
  | .add_service mem id pid attrs => kznl_recv_add_service mem id pid attrs st
  | .add_service_nat mem snat pid attrs => kznl_recv_add_service_nat mem snat pid attrs st
  | .add_dispatcher mem pid attrs => kznl_recv_add_dispatcher mem pid attrs st
  | .add_rule f mem pid attrs => kznl_recv_add_n_dimension_rule f mem pid attrs st
  | .add_rule_entry f mem pid attrs => kznl_recv_add_n_dimension_rule_entry f mem pid attrs st
  | .add_bind mem pid attrs => kznl_recv_add_bind mem pid attrs st
  | .release event protocol pid => (0, kznl_netlink_event event protocol pid st)

/-- The state after a sequence of events. -/
def kz_run (es : List kz_event) (st : kz_state) : kz_state :=
  es.foldl (fun s e => (kz_step e s).2) st

/-- The event is one of the four Flush messages. -/
def kz_event.is_flush (e : kz_event) : Bool :=
  match e with
  | .flush_z _ => true
  | .flush_s _ => true
  | .flush_d _ => true
  | .flush_b _ => true
  | _ => false

/-- The event is an AddZone message. -/
def kz_event.is_add_zone (e : kz_event) : Bool :=
  match e with
  | .add_zone _ _ _ => true
  | _ => false

/-! ## Properties of snapshots used in the statements -/

/-- The instance carries the transaction-in-progress flag. -/
def in_transaction (ins : kz_instance) : Prop := ins.flags &&& KZF_INSTANCE_TRANS ≠ 0

/-- The transaction has the given flush flag set. -/
def has_flag (tr : kz_transaction) (flag : Nat) : Prop := tr.flags &&& flag ≠ 0

/-- A zone without its identity-independent link: the parent pointer erased. -/
def zone_sans_parent (z : kz_zone) : kz_zone := { z with admin_parent := none }

/-- The clones of a zone list, in order, the first at address `addr`. -/
def clone_zones_from : Nat → List kz_zone → List kz_zone
  | _, [] => []
  | addr, z :: rest => kz_zone_clone addr z :: clone_zones_from (addr + 1) rest

/-- The zone list handed to the consolidation loop by a commit whose clones
all succeed: the clones of the base zones unless FlushZones is set, then the
staged zones. -/
def commit_zones_before (st : kz_state) : List kz_zone :=
  (if st.transaction.flags &&& KZF_TRANSACTION_FLUSH_ZONES ≠ 0 then []
   else clone_zones_from st.zone_addr_next st.transaction.cfg.zones) ++
  commit_staged_zones st.transaction.op

/-- The base services a commit carries over: all but those of the
transaction's instance when FlushServices is set. -/
def services_kept (tr : kz_transaction) (base : List kz_service) : List kz_service :=
  base.filter fun s =>
    ¬ (tr.flags &&& KZF_TRANSACTION_FLUSH_SERVICES ≠ 0 ∧ s.instance_id = tr.instance_id)

/-- The services staged in a transaction, in the order of its operation list. -/
def staged_services (op : List kz_operation) : List kz_service :=
  op.filterMap fun io =>
    match io with
    | .KZNL_OP_SERVICE svc => some svc
    | _ => none

/-- The zone hierarchy law on a zone list: a zone without parent has depth 0,
and the parent pointer of any other zone points to a zone of the same list
whose depth is one less. -/
def depth_ok (zones : List kz_zone) : Prop :=
  ∀ z ∈ zones,
    match z.admin_parent with
    | none => z.depth = 0
    | some ptr => ∃ p ∈ zones, ptr = kz_zone_get p ∧ z.depth = p.depth + 1

/-- The parent relation of a zone list: `p` is the zone of the list that the
parent pointer of `z` points to. -/
def zone_parent (zones : List kz_zone) (z p : kz_zone) : Prop :=
  z ∈ zones ∧ p ∈ zones ∧ z.admin_parent = some (kz_zone_get p)

/-- The parent relation is a forest: every zone has at most one parent and no
zone is its own ancestor. -/
def zone_forest (zones : List kz_zone) : Prop :=
  (∀ z p q, zone_parent zones z p → zone_parent zones z q → p = q) ∧
  ∀ z, ¬ Relation.TransGen (zone_parent zones) z z

/-- What the transaction bookkeeping reads of an instance: id, name and flags. -/
def inst_key (ins : kz_instance) : Nat × String × Nat := (ins.id, ins.name, ins.flags)

/-- The bookkeeping invariant of the transaction manager: the id of an
instance is its position in `kz_instances`, an open transaction names an
existing instance, and an instance carries the transaction-in-progress flag
exactly when the open transaction is on it. -/
def kz_inv (st : kz_state) : Prop :=
  (∀ (i : Nat) (ins : kz_instance), st.kz_instances[i]? = some ins → ins.id = i) ∧
  (st.transaction_open = true → st.transaction.instance_id < st.kz_instances.length) ∧
  (∀ (i : Nat) (ins : kz_instance), st.kz_instances[i]? = some ins →
    (in_transaction ins ↔ (st.transaction_open = true ∧ st.transaction.instance_id = i)))

/-- What Flush and Add messages leave alone: the instance list, whether a
transaction is open, its owner, its instance, its base and the published
snapshot. -/
def kz_frame (st st1 : kz_state) : Prop :=
  st1.kz_instances = st.kz_instances ∧ st1.transaction_open = st.transaction_open ∧
  st1.transaction.instance_id = st.transaction.instance_id ∧
  st1.transaction.peer_pid = st.transaction.peer_pid ∧
  st1.transaction.cfg = st.transaction.cfg ∧ st1.kz_config_rcu = st.kz_config_rcu

/-- The instance list after the lookup-or-create step of Start for the name
`a`, and the position of the instance found or created there. -/
def start_instance (mem : Nat → Bool) (l : List kz_instance) (a : String) :
    Option (Nat × List kz_instance) :=
  match kz_instance_lookup l a with
  | some i => some (i, l)
  | none => kz_instance_create (mem 1) l a

/-- The id stored in the instance at position `i` (0 past the end). -/
def instance_id_at (l : List kz_instance) (i : Nat) : Nat :=
  match l[i]? with
  | some ins => ins.id
  | none => 0

/-- The state a successful Start by `pid` leaves, given the instance list
`instances` and the position `ins` of the instance of the transaction. -/
def started (st : kz_state) (pid cookie : Nat) (ins : Nat) (instances : List kz_instance) :
    kz_state :=
  { st with
    transaction_open := true,
    transaction := { st.transaction with
      instance_id := instance_id_at instances ins, peer_pid := pid, flags := 0,
      cookie := cookie, cfg := st.kz_config_rcu },
    kz_instances :=
      instances.modify (fun i => { i with flags := i.flags ||| KZF_INSTANCE_TRANS }) ins }

/-! ## Concrete inputs -/

/-- Every allocation succeeds. -/
def mem_ok : Nat → Bool := fun _ => true

/-- An environment in which every call made by commit succeeds;
`kz_service_lock` returns the session count of the locked service. -/
def env_ok : kz_env :=
  { kz_config_new_ok := true,
    kz_service_clone_ok := fun _ => true,
    kz_service_lock := fun s => s.session_cnt,
    kz_zone_clone_ok := fun _ => true,
    kz_dispatcher_clone_ok := fun _ => true,
    kz_dispatcher_relink := fun d _ _ => d,
    kz_head_zone_build := fun _ => 0,
    kz_head_dispatcher_build := fun _ => 0 }

/-- A Start message for the instance named "inst". -/
def start_inst : start_attrs :=
  { KZNL_ATTR_INSTANCE_NAME := some "inst", KZNL_ATTR_CONFIG_COOKIE := none }

/-- The state after peer 1 has started a transaction on "inst". -/
def st_open : kz_state := (kznl_recv_start mem_ok 1 start_inst transaction_init).2

/-- The pointers to the zones of a list, in list order. -/
def zone_ptrs (l : List kz_zone) : List zone_ptr := l.map kz_zone_get

/-- A zone with its parent pointer redirected to the first pointer of `ptrs`
that carries the unique name of the present parent. -/
def zone_relink (ptrs : List zone_ptr) (z : kz_zone) : kz_zone :=
  match z.admin_parent with
  | none => z
  | some ap =>
    match ptrs.find? fun q => q.unique_name = ap.unique_name with
    | some q => { z with admin_parent := some q }
    | none => z

/-- An AddZone message with a name and possibly the name of a parent. -/
def zone_msg (name : String) (pname : Option String) : add_zone_attrs :=
  { KZNL_ATTR_ZONE_NAME := some name, KZNL_ATTR_ZONE_RANGE := none,
    KZNL_ATTR_ZONE_UNAME := none, KZNL_ATTR_ZONE_PNAME := pname }

/-- An AddService message for a proxy service with a session count. -/
def service_msg (name : String) (count : Nat) : add_service_attrs :=
  { KZNL_ATTR_SERVICE_PARAMS := some (KZ_SERVICE_PROXY, 0),
    KZNL_ATTR_SERVICE_NAME := some name,
    KZNL_ATTR_SERVICE_SESSION_CNT := some count,
    KZNL_ATTR_SERVICE_ROUTER_DST_ADDR := none,
    KZNL_ATTR_SERVICE_ROUTER_DST_PORT := none,
    KZNL_ATTR_SERVICE_DENY_IPV4_METHOD := none,
    KZNL_ATTR_SERVICE_DENY_IPV6_METHOD := none }

/-- A first transaction of peer 1 on "inst": zones "a" and "b" (child of "a")
and the service "web", committed. -/
def run_base : List kz_event :=
  [.start mem_ok 1 start_inst,
   .add_zone mem_ok 1 (zone_msg "a" none),
   .add_zone mem_ok 1 (zone_msg "b" (some "a")),
   .add_service mem_ok 7 1 (service_msg "web" 5),
   .commit env_ok 1]

/-- The state after the first transaction. -/
def st_base : kz_state := kz_run run_base transaction_init

/-- A second transaction of peer 1, not yet committed: FlushServices, the
service "web" again, and a zone "c" below "b". -/
def st_second : kz_state :=
  kz_run
    [.start mem_ok 1 start_inst,
     .flush_s 1,
     .add_service mem_ok 8 1 (service_msg "web" 9),
     .add_zone mem_ok 1 (zone_msg "c" (some "b"))]
    st_base

/-- A transaction of peer 1 on the first snapshot that stages a zone "c" below
the base zone "b" and then sets FlushZones: at commit the parent is gone. -/
def st_orphan : kz_state :=
  kz_run
    [.start mem_ok 1 start_inst,
     .add_zone mem_ok 1 (zone_msg "c" (some "b")),
     .flush_z 1]
    st_base

/-- The base zones a transaction still sees in its merged view: none once
FlushZones is set. -/
def visible_zones (tr : kz_transaction) : List kz_zone :=
  if tr.flags &&& KZF_TRANSACTION_FLUSH_ZONES ≠ 0 then [] else tr.cfg.zones

/-- The zones of the merged view of a transaction: staged zones first. -/
def merged_zones (tr : kz_transaction) : List kz_zone :=
  commit_staged_zones tr.op ++ visible_zones tr

/-- The state of the staged zones while AddZone messages arrive, `n` of them
still to come: unique names are pairwise distinct in the merged view, every
staged zone obeys the depth law with respect to the merged view, and no depth
is within `n` of the largest unsigned int. -/
def staged_zones_ok (tr : kz_transaction) (n : Nat) : Prop :=
  ((merged_zones tr).map fun z => z.unique_name).Nodup ∧
  (∀ z ∈ commit_staged_zones tr.op,
    match z.admin_parent with
    | none => z.depth = 0
    | some ap => ∃ p ∈ merged_zones tr, ap = kz_zone_get p ∧ z.depth = p.depth + 1) ∧
  n < 4294967296 ∧ (∀ z ∈ merged_zones tr, z.depth + n < 4294967296)

/-- A first transaction that publishes the single root zone "b". -/
def cx_base : kz_state :=
  kz_run
    [.start mem_ok 1 start_inst,
     .add_zone mem_ok 1 (zone_msg "b" none),
     .commit env_ok 1]
    transaction_init

/-- A sequence of AddZone and Flush messages in which FlushZones arrives
after an AddZone: "c" below the base zone "b", FlushZones, a new root "a",
and a new "b" below "a". -/
def cx_ops : List kz_event :=
  [.add_zone mem_ok 1 (zone_msg "c" (some "b")),
   .flush_z 1,
   .add_zone mem_ok 1 (zone_msg "a" none),
   .add_zone mem_ok 1 (zone_msg "b" (some "a"))]

/-- The second transaction just before its commit. -/
def cx_before_commit : kz_state :=
  kz_run cx_ops (kznl_recv_start mem_ok 1 start_inst cx_base).2

/-- A zone without range, given by address, name, parent pointer and depth. -/
def mk_zone (addr : Nat) (name : String) (parent : Option zone_ptr) (depth : Nat) : kz_zone :=
  { addr := addr, name := name, unique_name := name, flags := 0, family := 0, net_addr := 0,
    mask := 0, admin_parent := parent, depth := depth }

/-- A state between transactions whose published snapshot has two zones with
the unique name "a": the root "a" at address 0 and, below the root "x", a
second "a" at address 2; "c" is a child of the first and "d" of the second.
The depth law holds in it. -/
def st_twins : kz_state :=
  { transaction_init with
    zone_addr_next := 5,
    kz_config_rcu :=
      { kz_config_new with
        zones :=
          [mk_zone 0 "a" none 0,
           mk_zone 1 "x" none 0,
           mk_zone 2 "a" (some { addr := 1, name := "x", unique_name := "x" }) 1,
           mk_zone 3 "c" (some { addr := 0, name := "a", unique_name := "a" }) 1,
           mk_zone 4 "d" (some { addr := 2, name := "a", unique_name := "a" }) 2] } }

/-- An AddDispatcher message with a name and a number of rules. -/
def dispatcher_msg (name : String) (num_rules : Nat) : add_dispatcher_attrs :=
  { KZNL_ATTR_DISPATCHER_NAME := some name,
    KZNL_ATTR_DISPATCHER_N_DIMENSION_PARAMS := some num_rules }

/-- A transaction of peer 1 that stages the dispatcher "d" with room for one
rule and sends no rule. -/
def st_short : kz_state :=
  kz_run
    [.start mem_ok 1 start_inst,
     .add_dispatcher mem_ok 1 (dispatcher_msg "d" 1)]
    transaction_init

/-- The state after peer 1 has started a second transaction on "inst", on top
of the first snapshot, and has sent nothing else. -/
def st_again : kz_state := (kznl_recv_start mem_ok 1 start_inst st_base).2

/-- An AddService message for a deny service with its two methods. -/
def deny_msg (name : String) (m4 m6 : Nat) : add_service_attrs :=
  { KZNL_ATTR_SERVICE_PARAMS := some (KZ_SERVICE_DENY, 0),
    KZNL_ATTR_SERVICE_NAME := some name,
    KZNL_ATTR_SERVICE_SESSION_CNT := none,
    KZNL_ATTR_SERVICE_ROUTER_DST_ADDR := none,
    KZNL_ATTR_SERVICE_ROUTER_DST_PORT := none,
    KZNL_ATTR_SERVICE_DENY_IPV4_METHOD := some m4,
    KZNL_ATTR_SERVICE_DENY_IPV6_METHOD := some m6 }

/-- A first transaction of peer 1 on "inst" that publishes the dispatcher "d"
(without rules), followed by the Start of a second transaction that sets no
flush flag. -/
def st_dispatcher_again : kz_state :=
  kz_run
    [.start mem_ok 1 start_inst,
     .add_dispatcher mem_ok 1 (dispatcher_msg "d" 0),
     .commit env_ok 1,
     .start mem_ok 1 start_inst]
    transaction_init

/-- The rule `d->rule[d->num_rule - 1]` of a dispatcher, if it has a rule. -/
def dispatcher_last_rule (d : kz_dispatcher) : Option kz_rule :=
  if d.num_rule > 0 then d.rule[d.num_rule - 1]? else none

/-- Modelled from the spec: `kz_dispatcher_add_rule` ("allocation-count and
used-count for rules"; "rule id (strictly increasing within a dispatcher)",
an invariant "checked eagerly at submission time"; the comment of
`transaction_rule_lookup`: "Rules must be uploaded so that their IDs are in
increasing order, failing to do so is an error").  The rule is stored in the
first unused slot `d->rule[d->num_rule]` and the used count grows by one,
unless every allocated slot is used, the id is not larger than that of the
last rule, or the allocation of the dimension arrays fails (`mem_ok`); on
failure the dispatcher is as before. -/
def kz_dispatcher_add_rule (mem_ok : Bool) (d : kz_dispatcher) (service : kz_service)
    (rule_params : kz_rule) : Int × kz_dispatcher :=
  if d.num_rule + 1 > d.alloc_rule then (-ENOMEM, d)
  else if (match dispatcher_last_rule d with
      | some last => decide (rule_params.id ≤ last.id)
      | none => false) then (-EINVAL, d)
  else if ¬ mem_ok then (-ENOMEM, d)
  else
    (0, { d with
      rule := d.rule.take d.num_rule ++ [{ rule_params with service := service.name }],
      num_rule := d.num_rule + 1 })

/-- Modelled from the spec: `kz_dispatcher_add_rule_entry` ("for each of the
dimensions ... a variable-length ordered list of alternatives"; AddRuleEntry
carries "one alternative per populated dimension"): the entry is appended to
the alternatives of the rule, unless there is no room for it (`room`). -/
def kz_dispatcher_add_rule_entry (room : Bool) (rule : kz_rule) (entry : kz_rule_entry) :
    Int × kz_rule :=
  if room then (0, { rule with entries := rule.entries ++ [entry] }) else (-ENOMEM, rule)

/-- The events whose calls of `kz_dispatcher_add_rule` behave as modelled and
whose calls of `kz_dispatcher_add_rule_entry` leave the id of the rule alone. -/
def kz_event.rules_modelled (e : kz_event) : Prop :=
  match e with
  | .add_rule f _ _ _ => ∃ m, f = kz_dispatcher_add_rule m
  | .add_rule_entry g _ _ _ => ∀ r x, (g r x).2.id = r.id
  | _ => True

/-- The rules of a dispatcher fill its used slots and their ids are strictly
increasing. -/
def rules_increasing (d : kz_dispatcher) : Prop :=
  d.rule.length = d.num_rule ∧ (d.rule.map fun r => r.id).Pairwise fun a b => a < b

/-- Every staged dispatcher of an operation list has `rules_increasing`. -/
def staged_rules_ok (op : List kz_operation) : Prop :=
  ∀ d, kz_operation.KZNL_OP_DISPATCHER d ∈ op → rules_increasing d

/-- Every dispatcher staged in `st1` is staged in `st` or has no rule. -/
def staged_kept (st st1 : kz_state) : Prop :=
  ∀ d, kz_operation.KZNL_OP_DISPATCHER d ∈ st1.transaction.op →
    kz_operation.KZNL_OP_DISPATCHER d ∈ st.transaction.op ∨ (d.rule = [] ∧ d.num_rule = 0)

/-- An AddRule message for a dispatcher, a rule id and a service, without
dimension counts. -/
def rule_msg (dpt : String) (id : Nat) (svc : String) : add_rule_attrs :=
  { KZNL_ATTR_N_DIMENSION_RULE_ID := some id,
    KZNL_ATTR_DISPATCHER_NAME := some dpt,
    KZNL_ATTR_N_DIMENSION_RULE_SERVICE := some svc,
    counts := [],
    invalid_attr := false }

/-- A transaction of peer 1 on "inst" that stages the service "web", the
dispatcher "d" with room for three rules, and the rules 5 and 8 of "d". -/
def run_rules : List kz_event :=
  [.start mem_ok 1 start_inst,
   .add_service mem_ok 7 1 (service_msg "web" 0),
   .add_dispatcher mem_ok 1 (dispatcher_msg "d" 3),
   .add_rule (kz_dispatcher_add_rule true) mem_ok 1 (rule_msg "d" 5 "web"),
   .add_rule (kz_dispatcher_add_rule true) mem_ok 1 (rule_msg "d" 8 "web")]

/-- The state after `run_rules`. -/
def st_rules : kz_state := kz_run run_rules transaction_init

/-! ## The verdict cache (`kzorp_ext.c`) -/

/-- The `kz_hash_shift` of `kzorp_ext.c`. -/
def kz_hash_shift : Nat := 4

/-- The value `1 << kz_hash_shift` that `kz_extension_init` gives `kz_hash_size`. -/
def kz_hash_size : Nat := 1 <<< kz_hash_shift

/-- The kernel constant `GOLDEN_RATIO_PRIME_32`, the value of `kz_hash_rnd`. -/
def kz_hash_rnd : Nat := 2654404609

/-- The kernel `struct nf_conntrack_tuple`: the 32-bit words of `src`, the
32-bit words of `dst.u3`, and `dst.u.all`, `dst.protonum`, `dst.dir`. -/
structure nf_conntrack_tuple where
  src : List Nat
  dst_u3 : List Nat
  dst_u_all : Nat
  dst_protonum : Nat
  dst_dir : Nat
deriving DecidableEq, Repr

/-- The kernel helper `nf_ct_tuple_equal`: the source part and the address,
port and protocol of the destination part are compared; the direction is not. -/
def nf_ct_tuple_equal (t1 t2 : nf_conntrack_tuple) : Bool :=
  t1.src = t2.src && t1.dst_u3 = t2.dst_u3 && t1.dst_u_all = t2.dst_u_all &&
    t1.dst_protonum = t2.dst_protonum

/-- What the cache reads of a `struct nf_conn`: the tuples of `tuplehash[0]`
and `tuplehash[1]`, and the value of `nf_ct_zone(ct)`. -/
structure nf_conn where
  tuplehash : nf_conntrack_tuple × nf_conntrack_tuple
  nf_ct_zone : Nat
deriving DecidableEq, Repr

/-- The `struct nf_conntrack_kzorp`; `tuplehash` holds the tuples of its two
slots, whose list nodes are kept in the chains of the table. -/
structure nf_conntrack_kzorp where
  tuplehash : nf_conntrack_tuple × nf_conntrack_tuple
  ct_zone : Nat
  sid : Nat
  generation : Nat
  session_start : Nat
  rule_id : Nat
  czone : Option zone_ptr
  szone : Option zone_ptr
  svc : Option kz_service
  dpt : Option kz_dispatcher
deriving DecidableEq, Repr

/-- A `struct nf_conntrack_tuple_hash *` into a record: the address of the
record and the index of the `tuplehash` slot pointed to. -/
structure tuple_hash_ptr where
  kzorp : Nat
  slot : Nat
deriving DecidableEq, Repr

/-- A `struct hlist_nulls_head`: the nodes of the chain from `first` on, and
the value of the nulls marker that ends the chain. -/
structure hlist_nulls_head where
  first : List tuple_hash_ptr
  nulls : Nat
deriving DecidableEq, Repr

/-- The state of the cache: the bucket array `kz_hash` and the contents of the
objects of the slab cache `kz_cachep`, by address (the entry nearest the head
of the list is the current content of an address). -/
structure kz_ext_state where
  kz_hash : List hlist_nulls_head
  kz_cachep : List (Nat × nf_conntrack_kzorp)
deriving DecidableEq, Repr

/-- Element `dir` of a `tuplehash` array of `IP_CT_DIR_MAX` = 2 elements. -/
def tuplehash_at (a : nf_conntrack_tuple × nf_conntrack_tuple) (dir : Nat) :
    nf_conntrack_tuple :=
  if dir = 0 then a.1 else a.2

/-- The record stored at address `a`, if an object was ever allocated there. -/
def obj_read (st : kz_ext_state) (a : Nat) : Option nf_conntrack_kzorp :=
  (st.kz_cachep.find? fun e => e.1 = a).map fun e => e.2

/-- The state with `r` stored at address `a`. -/
def obj_write (st : kz_ext_state) (a : Nat) (r : nf_conntrack_kzorp) : kz_ext_state :=
  { st with kz_cachep := (a, r) :: st.kz_cachep }

/-- The state with the record at address `a` changed by `f`. -/
def obj_modify (st : kz_ext_state) (a : Nat) (f : nf_conntrack_kzorp → nf_conntrack_kzorp) :
    kz_ext_state :=
  match obj_read st a with
  | some r => obj_write st a (f r)
  | none => st

/-- The C `hash_conntrack_raw`.  `jhash2`, a kernel function, is a parameter;
it is given the words of the tuple up to the destination port and the initial
value, and its result is a `u32`. -/
def hash_conntrack_raw (jhash2 : List Nat → Nat → Nat) (tuple : nf_conntrack_tuple)
    (zone : Nat) : Nat :=
  jhash2 (tuple.src ++ tuple.dst_u3)
    ((zone ^^^ kz_hash_rnd ^^^ ((tuple.dst_u_all <<< 16) ||| tuple.dst_protonum)) %
      4294967296) % 4294967296

/-- The C `kz_get_kzorp_from_node`: `container_of` with the offset of the slot
`tuplehash[p->tuple.dst.dir]`.  The result is the address of the record that
holds the node when the direction stored in the tuple of the node is the index
of the slot the node lies in; `none` stands for the pointer off the start of
the record that results otherwise, and for a node in memory never allocated. -/
def kz_get_kzorp_from_node (st : kz_ext_state) (p : tuple_hash_ptr) : Option Nat :=
  match obj_read st p.kzorp with
  | none => none
  | some kz => if (tuplehash_at kz.tuplehash p.slot).dst_dir = p.slot then some p.kzorp else none

/-- The C `__kz_extension_key_equal`; `th` is the tuple of the key.  `none`
when the node or the record computed from it cannot be read. -/
def __kz_extension_key_equal (st : kz_ext_state) (h : tuple_hash_ptr)
    (th : nf_conntrack_tuple) (zone : Nat) : Option Bool :=
  match obj_read st h.kzorp with
  | none => none
  | some r =>
    if nf_ct_tuple_equal th (tuplehash_at r.tuplehash h.slot) then
      match kz_get_kzorp_from_node st h with
      | none => none
      | some kz =>
        match obj_read st kz with
        | none => none
        | some k => some (k.ct_zone = zone)
    else some false

/-- The loop `hlist_nulls_for_each_entry_rcu` of `__kz_extension_find` over a
chain: the first node whose key is equal, `some none` when the end of the
chain is reached, `none` when a node cannot be read. -/
def kz_extension_walk (st : kz_ext_state) (th : nf_conntrack_tuple) (zone : Nat) :
    List tuple_hash_ptr → Option (Option tuple_hash_ptr)
  | [] => some none
  | h :: rest =>
    match __kz_extension_key_equal st h th zone with
    | none => none
    | some true => some (some h)
    | some false => kz_extension_walk st th zone rest

/-- The bucket index `hash_conntrack_raw(tuple, zone) >> (32 - kz_hash_shift)`. -/
def kz_bucket (jhash2 : List Nat → Nat → Nat) (tuple : nf_conntrack_tuple) (zone : Nat) : Nat :=
  hash_conntrack_raw jhash2 tuple zone >>> (32 - kz_hash_shift)

/-- The C `__kz_extension_find` on a table that does not change meanwhile;
the first argument bounds the number of passes through `begin:`.  The outer
`none` is for a walk that reads outside the table or runs out of passes. -/
def __kz_extension_find (jhash2 : List Nat → Nat → Nat) :
    Nat → nf_conn → kz_ext_state → Option (Option tuple_hash_ptr)
  | 0, _, _ => none
  | fuel + 1, ct, st =>
    let th := ct.tuplehash.1
    let zone := ct.nf_ct_zone
    let bucket := kz_bucket jhash2 th ct.nf_ct_zone
    match st.kz_hash[bucket]? with
    | none => none
    | some head =>
      match kz_extension_walk st th zone head.first with
      | none => none
      | some (some h) => some (some h)
      | some none =>
        if head.nulls ≠ bucket then __kz_extension_find jhash2 fuel ct st else some none

/-- The C `kz_extension_find` on a table that does not change meanwhile: the
address of the record found, `some none` for `NULL`; the first argument bounds
the number of passes through each `begin:`. -/
def kz_extension_find (jhash2 : List Nat → Nat → Nat) :
    Nat → nf_conn → kz_ext_state → Option (Option Nat)
  | 0, _, _ => none
  | fuel + 1, ct, st =>
    let th := ct.tuplehash.1
    let zone := ct.nf_ct_zone
    match __kz_extension_find jhash2 (fuel + 1) ct st with
    | none => none
    | some none => some none
    | some (some h) =>
      match __kz_extension_key_equal st h th zone with
      | none => none
      | some false => kz_extension_find jhash2 fuel ct st
      | some true => (kz_get_kzorp_from_node st h).map some

/-- The kernel helper `hlist_nulls_add_head_rcu`: the node becomes the first
of the chain of the bucket. -/
def hlist_nulls_add_head_rcu (n : tuple_hash_ptr) (bucket : Nat) (st : kz_ext_state) :
    kz_ext_state :=
  { st with kz_hash := st.kz_hash.modify (fun h => { h with first := n :: h.first }) bucket }

/-- The C `kz_extension_fill_one` for the record at address `kzorp`. -/
def kz_extension_fill_one (jhash2 : List Nat → Nat → Nat) (kzorp : Nat) (ct : nf_conn)
    (direction : Nat) (st : kz_ext_state) : kz_ext_state :=
  match obj_read st kzorp with
  | none => st
  | some r =>
    let th := tuplehash_at r.tuplehash direction
    let bucket := kz_bucket jhash2 th ct.nf_ct_zone
    hlist_nulls_add_head_rcu { kzorp := kzorp, slot := direction } bucket st

/-- The C `kz_extension_fill`: directions 0 and 1 in turn. -/
def kz_extension_fill (jhash2 : List Nat → Nat → Nat) (kzorp : Nat) (ct : nf_conn)
    (st : kz_ext_state) : kz_ext_state :=
  kz_extension_fill_one jhash2 kzorp ct 1 (kz_extension_fill_one jhash2 kzorp ct 0 st)

/-- The C `kz_extension_copy_tuplehash`. -/
def kz_extension_copy_tuplehash (kzorp : nf_conntrack_kzorp) (ct : nf_conn) :
    nf_conntrack_kzorp :=
  { kzorp with tuplehash := ct.tuplehash }

/-- The C `nf_conntrack_kzorp_init`. -/
def nf_conntrack_kzorp_init (kzorp : nf_conntrack_kzorp) : nf_conntrack_kzorp :=
  { kzorp with
    ct_zone := 0, sid := 0, generation := 0, session_start := 0, rule_id := 0,
    czone := none, szone := none, svc := none, dpt := none }

/-- The C `kz_extension_create`.  `kmem_cache_alloc` is the outcome of the
allocation: `none` for `NULL`, else the address of the object and what the
object, which is not zeroed, holds.  The result is the pointer returned and
the state left. -/
def kz_extension_create (jhash2 : List Nat → Nat → Nat)
    (kmem_cache_alloc : Option (Nat × nf_conntrack_kzorp)) (ct : nf_conn)
    (st : kz_ext_state) : Option Nat × kz_ext_state :=
  match kmem_cache_alloc with
  | none => (none, st)
  | some (kzorp, old) =>
    let st := obj_write st kzorp old
    let st := obj_modify st kzorp nf_conntrack_kzorp_init
    let st := obj_modify st kzorp fun k => kz_extension_copy_tuplehash k ct
    let st := kz_extension_fill jhash2 kzorp ct st
    let st := obj_modify st kzorp fun k => { k with ct_zone := ct.nf_ct_zone }
    (some kzorp, st)

/-- The table built by the loop of `kz_extension_init`: `kz_hash_size` empty
chains, the marker of bucket `i` holding `i`; no object is allocated yet. -/
def kz_hash_init : kz_ext_state :=
  { kz_hash := (List.range kz_hash_size).map fun i => { first := [], nulls := i },
    kz_cachep := [] }

/-- The C `kz_extension_init`: the result code and the table left, `none` when
there is none (the allocation failed, or `clean_hash` freed it after
`register_pernet_subsys` failed). -/
def kz_extension_init (kzalloc_ok : Bool) (register_pernet_subsys : Int) :
    Int × Option kz_ext_state :=
  if ¬ kzalloc_ok then (-1, none)
  else if register_pernet_subsys < 0 then (-1, none)
  else (0, some kz_hash_init)

/-- A TCP connection of conntrack zone 3 from 10.0.0.1:1025 to 10.0.0.2:80
and its reply direction. -/
def ct_example : nf_conn :=
  { tuplehash :=
      ({ src := [167772161, 0, 0, 0, 67174402], dst_u3 := [167772162, 0, 0, 0],
         dst_u_all := 80, dst_protonum := 6, dst_dir := 0 },
       { src := [167772162, 0, 0, 0, 5242882], dst_u3 := [167772161, 0, 0, 0],
         dst_u_all := 1025, dst_protonum := 6, dst_dir := 1 }),
    nf_ct_zone := 3 }

/-- A connection whose original tuple is the reply tuple of `ct_example`. -/
def ct_example_reply : nf_conn :=
  { tuplehash := (ct_example.tuplehash.2, ct_example.tuplehash.1), nf_ct_zone := 3 }

/-- A stand-in for `jhash2` in concrete runs: the sum of the words and of the
initial value, shifted into the high bits. -/
def jhash2_example (k : List Nat) (initval : Nat) : Nat :=
  ((k.foldl (fun a b => a + b) initval) * 268435456) % 4294967296

/-- An object as `kmem_cache_alloc` may hand it out: stale contents. -/
def kzorp_stale : nf_conntrack_kzorp :=
  { tuplehash := (ct_example.tuplehash.2, ct_example.tuplehash.2), ct_zone := 9, sid := 4,
    generation := 2, session_start := 1, rule_id := 5, czone := none, szone := none,
    svc := none, dpt := none }

/-- An environment in which the first clone of a service fails and everything
else succeeds. -/
def env_no_clone : kz_env := { env_ok with kz_service_clone_ok := fun _ => false }

/-- The event is a Flush or an Add message (neither Start, Commit nor the
release of a peer). -/
def kz_event.is_staging (e : kz_event) : Bool :=
  match e with
  | .start _ _ _ => false
  | .commit _ _ => false
  | .release _ _ _ => false
  | _ => true

/-- What the checks of the Add handlers have established about an operation
when it is queued in the transaction `tr`. -/
def op_fresh (tr : kz_transaction) (o : kz_operation) : Prop :=
  match o with
  | .KZNL_OP_ZONE z => lookup_zone_merged tr z.unique_name = none
  | .KZNL_OP_SERVICE s =>
    s.instance_id = tr.instance_id ∧ transaction_service_lookup tr s.name = none ∧
    ∀ p, kz_service_lookup_name tr.cfg s.name = some p →
      p.instance_id = tr.instance_id ∧ has_flag tr KZF_TRANSACTION_FLUSH_SERVICES
  | .KZNL_OP_DISPATCHER d => transaction_dispatcher_lookup tr d.name = none
  | .KZNL_OP_BIND _ => True

/-- The ways a Flush or Add message can change the transaction: not at all, by
setting flag bits, by queueing one checked operation at the head of the list,
or by writing in place to a staged service, its name and instance kept, or to
the staged dispatcher found under a name; `named` says that the write to the
dispatcher keeps its name. -/
def tr_step (named : Bool) (tr tr1 : kz_transaction) : Prop :=
  tr1 = tr ∨
  (∃ flag, tr1 = { tr with flags := tr.flags ||| flag }) ∨
  (∃ o, tr1 = { tr with op := o :: tr.op } ∧ op_fresh tr o) ∨
  (∃ f n, tr1 = { tr with op := op_update_service f n tr.op } ∧
    ∀ s, (f s).name = s.name ∧ (f s).instance_id = s.instance_id) ∨
  (∃ f n d, tr1 = { tr with op := op_update_dispatcher f n tr.op } ∧
    transaction_dispatcher_lookup tr n = some d ∧ (named = true → (f d).name = d.name))

/-- The state of the staged names while Flush and Add messages arrive: staged
service names are pairwise distinct, a staged service shares its name with a
base service only if FlushServices is set and the base service belongs to the
instance of the transaction; staged zone unique names are pairwise distinct,
and a staged zone shares its unique name with a base zone only if FlushZones
is set. -/
def names_ok (tr : kz_transaction) : Prop :=
  ((staged_services tr.op).map fun s => s.name).Nodup ∧
  (∀ s ∈ staged_services tr.op, ∀ b ∈ tr.cfg.services, b.name = s.name →
    has_flag tr KZF_TRANSACTION_FLUSH_SERVICES ∧ b.instance_id = tr.instance_id) ∧
  ((commit_staged_zones tr.op).map fun z => z.unique_name).Nodup ∧
  (∀ z ∈ commit_staged_zones tr.op, ∀ b ∈ tr.cfg.zones, b.unique_name = z.unique_name →
    has_flag tr KZF_TRANSACTION_FLUSH_ZONES)

/-- The Flush and Add messages of the second transaction: FlushServices, the
service "web" again, and a zone "c" below "b". -/
def run_second : List kz_event :=
  [.flush_s 1,
   .add_service mem_ok 8 1 (service_msg "web" 9),
   .add_zone mem_ok 1 (zone_msg "c" (some "b"))]

/-- The kind and name under which an operation stages its entity: 0 and the
unique name for a zone, 1 and the name for a service, 2 and the name for a
dispatcher, 3 for a bind. -/
def op_key (o : kz_operation) : Nat × String :=
  match o with
  | .KZNL_OP_ZONE z => (0, z.unique_name)
  | .KZNL_OP_SERVICE s => (1, s.name)
  | .KZNL_OP_DISPATCHER d => (2, d.name)
  | .KZNL_OP_BIND _ => (3, "")

/-- The keys of the operations a message adds to the operation list: those of
the operations in front of the ones that were there before. -/
def staged_by (e : kz_event) (st : kz_state) : List (Nat × String) :=
  (((kz_step e st).2.transaction.op.take
    ((kz_step e st).2.transaction.op.length - st.transaction.op.length)).map op_key)

/-- The keys of the operations staged by a sequence of messages, in the order
in which the messages were submitted. -/
def submitted : List kz_event → kz_state → List (Nat × String)
  | [], _ => []
  | e :: rest, st => staged_by e st ++ submitted rest (kz_step e st).2

/-- The names of the keys of one kind, in list order. -/
def keys_of_kind (kind : Nat) (keys : List (Nat × String)) : List String :=
  (keys.filter fun k => k.1 = kind).map fun k => k.2

/-- The base dispatchers a commit carries over: all but those of the
transaction's instance when FlushDispatchers is set. -/
def dispatchers_kept (tr : kz_transaction) (base : List kz_dispatcher) : List kz_dispatcher :=
  base.filter fun i =>
    ¬ (tr.flags &&& KZF_TRANSACTION_FLUSH_DISPATCHERS ≠ 0 ∧ i.inst = some tr.instance_id)
/-- A transaction of peer 1 on the first snapshot: the zones "c" and "e", the
services "mail" and "dns" and the dispatchers "d" and "f", interleaved. -/
def run_order : List kz_event :=
  [.add_zone mem_ok 1 (zone_msg "c" none),
   .add_service mem_ok 8 1 (service_msg "mail" 0),
   .add_dispatcher mem_ok 1 (dispatcher_msg "d" 0),
   .add_zone mem_ok 1 (zone_msg "e" (some "c")),
   .add_service mem_ok 9 1 (service_msg "dns" 0),
   .add_dispatcher mem_ok 1 (dispatcher_msg "f" 0)]

/-- The state of a table that `kz_extension_init` has set up and on which no
writer is at work: it has `kz_hash_size` buckets, the marker of bucket `i`
holds `i`, and every node of every chain lies in slot 0 or 1 of an allocated
record whose tuple in that slot holds the index of the slot as direction. -/
def kz_table_ok (st : kz_ext_state) : Prop :=
  st.kz_hash.length = kz_hash_size ∧
  (∀ i < kz_hash_size, (st.kz_hash[i]?).map (fun h => h.nulls) = some i) ∧
  (∀ head ∈ st.kz_hash, ∀ n ∈ head.first,
    n.slot < 2 ∧ (kz_get_kzorp_from_node st n).isSome = true)

instance kz_table_ok_decidable (st : kz_ext_state) : Decidable (kz_table_ok st) := by
  unfold kz_table_ok
  infer_instance

/-- The table after `kz_extension_create` for `ct_example` on the empty table,
the allocator handing out the stale object at address 64. -/
def st_cached : kz_ext_state :=
  (kz_extension_create jhash2_example (some (64, kzorp_stale)) ct_example kz_hash_init).2

/-- The kernel helper `hlist_nulls_del_rcu`: the node is unlinked from the
chain it lies in.  The pointers of the node itself are not modelled. -/
def hlist_nulls_del_rcu (n : tuple_hash_ptr) (st : kz_ext_state) : kz_ext_state :=
  { st with
    kz_hash := st.kz_hash.map fun h => { h with first := h.first.filter fun x => x ≠ n } }

/-- The C `kz_extension_dealloc` for the record at address `kz`: the nodes of
slots 0 and 1 are unlinked.  The `put` calls on the zones, the dispatcher and
the service of the record and `kmem_cache_free` act on reference counts and on
the allocator, which are not part of this state; the memory of the object
stays readable (the cache is `SLAB_DESTROY_BY_RCU`). -/
def kz_extension_dealloc (kz : Nat) (st : kz_ext_state) : kz_ext_state :=
  hlist_nulls_del_rcu { kzorp := kz, slot := 1 }
    (hlist_nulls_del_rcu { kzorp := kz, slot := 0 } st)

/-- The C `kz_extension_destroy` on a table that does not change meanwhile;
the first argument bounds the passes of the lookup, and `none` is for a lookup
that is undefined.  The log message for a forwarded session changes nothing. -/
def kz_extension_destroy (jhash2 : List Nat → Nat → Nat) (fuel : Nat) (ct : nf_conn)
    (st : kz_ext_state) : Option kz_ext_state :=
  match kz_extension_find jhash2 fuel ct st with
  | none => none
  | some none => some st
  | some (some kzorp) => some (kz_extension_dealloc kzorp st)

/-- Two nodes hold the same key: their tuples are equal and their records
have the same zone. -/
def kz_same_key (st : kz_ext_state) (n1 n2 : tuple_hash_ptr) : Bool :=
  match obj_read st n1.kzorp, obj_read st n2.kzorp with
  | some r1, some r2 =>
    nf_ct_tuple_equal (tuplehash_at r1.tuplehash n1.slot) (tuplehash_at r2.tuplehash n2.slot) &&
      decide (r1.ct_zone = r2.ct_zone)
  | _, _ => false

/-- No key is cached twice: two linked nodes that hold the same key are nodes
of the same record. -/
def kz_keys_unique (st : kz_ext_state) : Prop :=
  ∀ h1 ∈ st.kz_hash, ∀ n1 ∈ h1.first, ∀ h2 ∈ st.kz_hash, ∀ n2 ∈ h2.first,
    kz_same_key st n1 n2 = true → n1.kzorp = n2.kzorp

instance kz_keys_unique_decidable (st : kz_ext_state) : Decidable (kz_keys_unique st) := by
  unfold kz_keys_unique
  infer_instance

/-- A connection unrelated to `ct_example`. -/
def ct_other : nf_conn :=
  { tuplehash :=
      ({ src := [167772163, 0, 0, 0, 67174402], dst_u3 := [167772164, 0, 0, 0],
         dst_u_all := 443, dst_protonum := 6, dst_dir := 0 },
       { src := [167772164, 0, 0, 0, 29032450], dst_u3 := [167772163, 0, 0, 0],
         dst_u_all := 1025, dst_protonum := 6, dst_dir := 1 }),
    nf_ct_zone := 3 }

/-- The table after `kz_extension_create` for `ct_other` on `st_cached`, the
allocator handing out a stale object at address 96. -/
def st_cached_two : kz_ext_state :=
  (kz_extension_create jhash2_example (some (96, kzorp_stale)) ct_other st_cached).2

/-- The states `kz_extension_create` passes through when the allocator hands
out the object at `kzorp` holding `old`: the state before the call, then the
state after the allocation, after `nf_conntrack_kzorp_init`, after
`kz_extension_copy_tuplehash`, after each of the two `kz_extension_fill_one`
calls of `kz_extension_fill`, and after the write of `ct_zone`. -/
def kz_extension_create_trace (jhash2 : List Nat → Nat → Nat) (kzorp : Nat)
    (old : nf_conntrack_kzorp) (ct : nf_conn) (st : kz_ext_state) : List kz_ext_state :=
  let s1 := obj_write st kzorp old
  let s2 := obj_modify s1 kzorp nf_conntrack_kzorp_init
  let s3 := obj_modify s2 kzorp fun k => kz_extension_copy_tuplehash k ct
  let s4 := kz_extension_fill_one jhash2 kzorp ct 0 s3
  let s5 := kz_extension_fill_one jhash2 kzorp ct 1 s4
  let s6 := obj_modify s5 kzorp fun k => { k with ct_zone := ct.nf_ct_zone }
  [st, s1, s2, s3, s4, s5, s6]

/-- The used counts `rule->num_DIM` of the dimensions of a rule: for each
dimension the number of alternatives stored for it. -/
def kz_rule.num (rule : kz_rule) : List Nat :=
  [(rule.entries.filter fun x => x.ifname.isSome).length,
   (rule.entries.filter fun x => x.ifgroup.isSome).length,
   (rule.entries.filter fun x => x.proto.isSome).length,
   (rule.entries.filter fun x => x.src_port.isSome).length,
   (rule.entries.filter fun x => x.dst_port.isSome).length,
   (rule.entries.filter fun x => x.src_in_subnet.isSome).length,
   (rule.entries.filter fun x => x.src_in6_subnet.isSome).length,
   (rule.entries.filter fun x => x.src_zone.isSome).length,
   (rule.entries.filter fun x => x.dst_in_subnet.isSome).length,
   (rule.entries.filter fun x => x.dst_in6_subnet.isSome).length,
   (rule.entries.filter fun x => x.dst_zone.isSome).length,
   (rule.entries.filter fun x => x.dst_ifname.isSome).length,
   (rule.entries.filter fun x => x.dst_ifgroup.isSome).length,
   (rule.entries.filter fun x => x.reqid.isSome).length]

/-- The `max_entry_num` that `kznl_build_dispatcher` computes for a rule with
`UPDATE_MAX_ENTRY_NUM`: the largest of the used counts of its dimensions. -/
def max_entry_num (rule : kz_rule) : Nat :=
  rule.num.foldl max 0

/-- A message put into a dump buffer, named by the function that builds it and
the arguments it is built from: `kznl_build_dispatcher_add`,
`kznl_build_dispatcher_add_rule`, and `kznl_build_dispatcher_add_rule_entry`
with its `entry_num`. -/
inductive kznl_msg where
  | KZNL_MSG_ADD_DISPATCHER (dpt : kz_dispatcher)
  | KZNL_MSG_ADD_RULE (dpt : kz_dispatcher) (rule : kz_rule)
  | KZNL_MSG_ADD_RULE_ENTRY (dpt : kz_dispatcher) (rule : kz_rule) (entry_num : Nat)
deriving DecidableEq, Repr

/-- What a call of `kznl_build_dispatcher` leaves: the value returned (the
number of messages put by the call where the C returns the number of bytes,
-1 on failure), the cursor `*part_idx` and `*rule_entry_idx`, the number of
messages the buffer still takes, and the messages in the buffer. -/
structure build_result where
  res : Int
  part_idx : Nat
  rule_entry_idx : Nat
  room : Nat
  skb : List kznl_msg
deriving DecidableEq, Repr

/-- The inner loop `for (; *rule_entry_idx <= max_entry_num; ++*rule_entry_idx)`
of `kznl_build_dispatcher`; the first argument is the number of iterations
left, `room` the number of messages the buffer still takes.  The result says
whether the loop ran to its end, and gives `*rule_entry_idx`, the room and the
buffer. -/
def kznl_build_rule_entries (dpt : kz_dispatcher) (rule : kz_rule) :
    Nat → Nat → Nat → List kznl_msg → Bool × Nat × Nat × List kznl_msg
  | 0, rule_entry_idx, room, skb => (true, rule_entry_idx, room, skb)
  | n + 1, rule_entry_idx, room, skb =>
    if room = 0 then (false, rule_entry_idx, room, skb)
    else
      kznl_build_rule_entries dpt rule n (rule_entry_idx + 1) (room - 1)
        (skb ++ [.KZNL_MSG_ADD_RULE_ENTRY dpt rule (rule_entry_idx - 1)])

/-- The loop `for (; *part_idx <= dpt->num_rule; ++*part_idx)` of
`kznl_build_dispatcher` over the slots `rule[*part_idx - 1]` onwards.  The
result says whether the loop ran to its end, and gives `*part_idx`,
`*rule_entry_idx`, the room and the buffer. -/
def kznl_build_rules (dpt : kz_dispatcher) :
    List kz_rule → Nat → Nat → Nat → List kznl_msg → Bool × Nat × Nat × Nat × List kznl_msg
  | [], part_idx, rule_entry_idx, room, skb => (true, part_idx, rule_entry_idx, room, skb)
  | rule :: rest, part_idx, rule_entry_idx, room, skb =>
    if rule_entry_idx = 0 ∧ room = 0 then (false, part_idx, rule_entry_idx, room, skb)
    else
      let idx := if rule_entry_idx = 0 then 1 else rule_entry_idx
      let room1 := if rule_entry_idx = 0 then room - 1 else room
      let skb1 := if rule_entry_idx = 0 then skb ++ [.KZNL_MSG_ADD_RULE dpt rule] else skb
      let r := kznl_build_rule_entries dpt rule (max_entry_num rule + 1 - idx) idx room1 skb1
      if r.1 then kznl_build_rules dpt rest (part_idx + 1) 0 r.2.2.1 r.2.2.2
      else (false, part_idx, r.2.1, r.2.2.1, r.2.2.2)

/-- The C `kznl_build_dispatcher`, called with the cursor `*part_idx`,
`*rule_entry_idx` on a buffer holding `skb` that takes `room` more messages. -/
def kznl_build_dispatcher (dpt : kz_dispatcher) (part_idx rule_entry_idx room : Nat)
    (skb : List kznl_msg) : build_result :=
  if part_idx = 0 ∧ room = 0 then
    { res := -1, part_idx := part_idx, rule_entry_idx := rule_entry_idx, room := room,
      skb := skb }
  else
    let idx := if part_idx = 0 then 1 else part_idx
    let room1 := if part_idx = 0 then room - 1 else room
    let skb1 := if part_idx = 0 then skb ++ [.KZNL_MSG_ADD_DISPATCHER dpt] else skb
    let r := kznl_build_rules dpt ((dpt.rule.take dpt.num_rule).drop (idx - 1)) idx
      rule_entry_idx room1 skb1
    if r.1 then
      { res := (r.2.2.2.2.length : Int) - (skb.length : Int), part_idx := 0,
        rule_entry_idx := 0, room := r.2.2.2.1, skb := r.2.2.2.2 }
    else
      { res := -1, part_idx := r.2.1, rule_entry_idx := r.2.2.1, room := r.2.2.2.1,
        skb := r.2.2.2.2 }

/-- Successive calls of `kznl_build_dispatcher`, each on an empty buffer that
takes as many messages as the list says and resumed with the cursor left by
the call before, until a call succeeds: the concatenation of the messages
kept by the calls, and whether a call succeeded. -/
def kznl_build_dispatcher_resumed (dpt : kz_dispatcher) :
    List Nat → Nat → Nat → List kznl_msg × Bool
  | [], _, _ => ([], false)
  | room :: rest, part_idx, rule_entry_idx =>
    let r := kznl_build_dispatcher dpt part_idx rule_entry_idx room []
    if r.res < 0 then
      ((r.skb ++ (kznl_build_dispatcher_resumed dpt rest r.part_idx r.rule_entry_idx).1),
        (kznl_build_dispatcher_resumed dpt rest r.part_idx r.rule_entry_idx).2)
    else (r.skb, true)

/-- The message sequence of a dispatcher in the words of the specification:
the dispatcher head, then for each rule in index order one ADD_RULE followed
by one ADD_RULE_ENTRY for each entry index from 0 up to the largest
alternative count of the rule less one. -/
def dispatcher_msgs (dpt : kz_dispatcher) : List kznl_msg :=
  .KZNL_MSG_ADD_DISPATCHER dpt ::
    (dpt.rule.take dpt.num_rule).flatMap fun rule =>
      .KZNL_MSG_ADD_RULE dpt rule ::
        (List.range (max_entry_num rule)).map fun j => .KZNL_MSG_ADD_RULE_ENTRY dpt rule j

/-- The ADD_RULE_ENTRY messages of a rule from the cursor `rule_entry_idx` on. -/
def rule_entry_msgs (dpt : kz_dispatcher) (rule : kz_rule) (rule_entry_idx : Nat) :
    List kznl_msg :=
  (List.range' rule_entry_idx (max_entry_num rule + 1 - rule_entry_idx)).map fun i =>
    .KZNL_MSG_ADD_RULE_ENTRY dpt rule (i - 1)

/-- The messages of a rule from the cursor `rule_entry_idx` on; at 0 the
ADD_RULE message comes first. -/
def rule_msgs (dpt : kz_dispatcher) (rule : kz_rule) (rule_entry_idx : Nat) : List kznl_msg :=
  if rule_entry_idx = 0 then .KZNL_MSG_ADD_RULE dpt rule :: rule_entry_msgs dpt rule 1
  else rule_entry_msgs dpt rule rule_entry_idx

/-- The messages of a list of rules when the first of them is entered with
the cursor `rule_entry_idx`. -/
def rules_msgs (dpt : kz_dispatcher) : List kz_rule → Nat → List kznl_msg
  | [], _ => []
  | rule :: rest, rule_entry_idx =>
    rule_msgs dpt rule rule_entry_idx ++ rules_msgs dpt rest 0

/-- The messages still to be put for a dispatcher at a cursor. -/
def remaining_msgs (dpt : kz_dispatcher) (part_idx rule_entry_idx : Nat) : List kznl_msg :=
  if part_idx = 0 then
    .KZNL_MSG_ADD_DISPATCHER dpt :: rules_msgs dpt (dpt.rule.take dpt.num_rule) rule_entry_idx
  else rules_msgs dpt ((dpt.rule.take dpt.num_rule).drop (part_idx - 1)) rule_entry_idx

/-- A rule "r" with the given id whose entries populate the protocol dimension. -/
def rule_protos (id : Nat) (protos : List Nat) : kz_rule :=
  { id := id, service := "web", alloc := [],
    entries := protos.map fun p =>
      { rule_id := id, ifname := none, ifgroup := none, proto := some p, src_port := none,
        dst_port := none, src_in_subnet := none, src_in6_subnet := none, src_zone := none,
        dst_in_subnet := none, dst_in6_subnet := none, dst_zone := none, dst_ifname := none,
        dst_ifgroup := none, reqid := none } }

/-- A dispatcher "d" with two rules, of two alternatives and of one. -/
def dpt_two_rules : kz_dispatcher :=
  { name := "d", inst := some 0, alloc_rule := 2, num_rule := 2,
    rule := [rule_protos 5 [6, 17], rule_protos 8 [6]] }

/-- The five `cb->args` slots the dumpers use: `args0` the pointer to the
entity to resume at (0 for `NULL`), `args1` and `args2` the cursor inside a
dispatcher, `args3` the dump state (0 first call, 1 have config generation,
2 no more work), `args4` the stored config generation. -/
structure netlink_callback where
  args0 : Nat
  args1 : Nat
  args2 : Nat
  args3 : Nat
  args4 : Nat
deriving DecidableEq, Repr

/-- Modelled from the spec: `kz_generation_get`, whose body is not among the
sources ("the dumper records (snapshot-generation, cursor)"): the generation
of the snapshot. -/
def kz_generation_get (cfg : kz_config) : Nat := cfg.generation

/-- Modelled from the spec: `kz_generation_valid`, whose body is not among the
sources ("if the generation changes between calls, the dumper restarts"): the
stored generation is that of the snapshot. -/
def kz_generation_valid (cfg : kz_config) (generation : Nat) : Bool :=
  decide (cfg.generation = generation)

/-- The loop `list_for_each_entry` of `kznl_dump_zones` and of
`kznl_dump_services` over the entities of a snapshot, each with the address of
its object.  `fits skb i` says whether the build call for `i` succeeds on the
buffer that holds `skb`; the buffer is given as the list of the entities whose
messages it holds.  The result says whether the loop ran to its end, and gives
`last`, the callback arguments and the buffer. -/
def kznl_dump_loop {α : Type} (fits : List α → α → Bool) :
    List (Nat × α) → Nat → netlink_callback → List α →
      Bool × Nat × netlink_callback × List α
  | [], last, cb, skb => (true, last, cb, skb)
  | i :: rest, last, cb, skb =>
    if last ≠ 0 ∧ i.1 ≠ last then kznl_dump_loop fits rest last cb skb
    else
      let cb1 := if last ≠ 0 then { cb with args0 := 0 } else cb
      if fits skb i.2 then kznl_dump_loop fits rest 0 cb1 (skb ++ [i.2])
      else (false, 0, { cb1 with args0 := i.1 }, skb)

/-- The part of `kznl_dump_zones` and `kznl_dump_services` from the label
`restart:` on. -/
def kznl_dump_restart {α : Type} (fits : List α → α → Bool) (l : List (Nat × α))
    (cb : netlink_callback) (skb : List α) : netlink_callback × List α :=
  let r := kznl_dump_loop fits l cb.args0 cb skb
  if ¬ r.1 then (r.2.2.1, r.2.2.2)
  else if r.2.1 ≠ 0 then
    let r2 := kznl_dump_loop fits l 0 { r.2.2.1 with args0 := 0 } r.2.2.2
    if ¬ r2.1 then (r2.2.2.1, r2.2.2.2)
    else ({ r2.2.2.1 with args3 := 2 }, r2.2.2.2)
  else ({ r.2.2.1 with args3 := 2 }, r.2.2.2)

/-- The C `kznl_dump_zones` on the snapshot `cfg`: the callback arguments and
the buffer it leaves. -/
def kznl_dump_zones (fits : List kz_zone → kz_zone → Bool) (cfg : kz_config)
    (cb : netlink_callback) (skb : List kz_zone) : netlink_callback × List kz_zone :=
  if cb.args3 = 2 then (cb, skb)
  else
    let cb1 :=
      if cb.args3 = 0 ∨ ¬ kz_generation_valid cfg cb.args4 then
        { cb with args4 := kz_generation_get cfg, args3 := 1 }
      else cb
    kznl_dump_restart fits (cfg.zones.map fun z => (z.addr, z)) cb1 skb

/-- The C `kznl_dump_services` on the snapshot `cfg`, whose service objects
lie at the addresses `addrs`, in list order. -/
def kznl_dump_services (fits : List kz_service → kz_service → Bool) (cfg : kz_config)
    (addrs : List Nat) (cb : netlink_callback) (skb : List kz_service) :
    netlink_callback × List kz_service :=
  if cb.args3 = 2 then (cb, skb)
  else
    let cb1 :=
      if cb.args3 = 0 ∨ ¬ kz_generation_valid cfg cb.args4 then
        { cb with args4 := kz_generation_get cfg, args3 := 1, args0 := 0 }
      else cb
    kznl_dump_restart fits (addrs.zip cfg.services) cb1 skb

/-- The loop `list_for_each_entry` of `kznl_dump_dispatchers`; the buffer
takes `room` more messages. -/
def kznl_dump_dispatchers_loop :
    List (Nat × kz_dispatcher) → Nat → netlink_callback → Nat → List kznl_msg →
      Bool × Nat × netlink_callback × Nat × List kznl_msg
  | [], last, cb, room, skb => (true, last, cb, room, skb)
  | i :: rest, last, cb, room, skb =>
    if last ≠ 0 ∧ i.1 ≠ last then kznl_dump_dispatchers_loop rest last cb room skb
    else
      let cb1 := if last ≠ 0 then { cb with args0 := 0 } else cb
      let r := kznl_build_dispatcher i.2 cb1.args1 cb1.args2 room skb
      if r.res < 0 then
        (false, 0, { cb1 with args1 := r.part_idx, args2 := r.rule_entry_idx, args0 := i.1 },
          r.room, r.skb)
      else
        kznl_dump_dispatchers_loop rest 0
          { cb1 with args1 := r.part_idx, args2 := r.rule_entry_idx } r.room r.skb

/-- The C `kznl_dump_dispatchers` on the snapshot `cfg`, whose dispatcher
objects lie at the addresses `addrs`, in list order. -/
def kznl_dump_dispatchers (cfg : kz_config) (addrs : List Nat) (cb : netlink_callback)
    (room : Nat) (skb : List kznl_msg) : netlink_callback × List kznl_msg :=
  if cb.args3 = 2 then (cb, skb)
  else
    let cb1 :=
      if cb.args3 = 0 ∨ ¬ kz_generation_valid cfg cb.args4 then
        { cb with args4 := kz_generation_get cfg, args3 := 1, args0 := 0, args1 := 0,
                  args2 := 0 }
      else cb
    let r := kznl_dump_dispatchers_loop (addrs.zip cfg.dispatchers) cb1.args0 cb1 room skb
    if ¬ r.1 then (r.2.2.1, r.2.2.2.2)
    else if r.2.1 ≠ 0 then
      let r2 := kznl_dump_dispatchers_loop (addrs.zip cfg.dispatchers) 0
        { r.2.2.1 with args0 := 0, args1 := 0, args2 := 0 } r.2.2.2.1 r.2.2.2.2
      if ¬ r2.1 then (r2.2.2.1, r2.2.2.2.2)
      else ({ r2.2.2.1 with args3 := 2 }, r2.2.2.2.2)
    else ({ r.2.2.1 with args3 := 2 }, r.2.2.2.2)

/-- The callback arguments of a first call: all zero. -/
def cb_first : netlink_callback :=
  { args0 := 0, args1 := 0, args2 := 0, args3 := 0, args4 := 0 }

/-- A zone without range and parent at an address. -/
def zone_at (addr : Nat) (name : String) : kz_zone :=
  { addr := addr, name := name, unique_name := name, flags := 0, family := 0, net_addr := 0,
    mask := 0, admin_parent := none, depth := 0 }

/-- A proxy service of instance 0. -/
def service_named (name : String) : kz_service :=
  { name := name, instance_id := 0, id := 0, type := KZ_SERVICE_PROXY, flags := 0,
    session_cnt := 0, router_dst_addr_family := 0, router_dst_addr := 0, router_dst_port := 0,
    ipv4_reject_method := 0, ipv6_reject_method := 0, snat := [], dnat := [] }

/-- A snapshot of generation 1 with three zones and three services. -/
def cfg_dump_old : kz_config :=
  { generation := 1, cookie := 0,
    services := [service_named "a", service_named "b", service_named "c"],
    zones := [zone_at 10 "a", zone_at 20 "b", zone_at 30 "c"], dispatchers := [] }

/-- A snapshot of generation 2 whose second zone lies at the address of the
second zone of `cfg_dump_old`. -/
def cfg_dump_new : kz_config :=
  { generation := 2, cookie := 0,
    services := [service_named "x", service_named "y", service_named "z"],
    zones := [zone_at 40 "x", zone_at 20 "y", zone_at 50 "z"], dispatchers := [] }

/-- A buffer that takes one entity. -/
def fits_one {α : Type} (skb : List α) (_ : α) : Bool := decide (skb.length < 1)

/-- The kernel `htons` applied to a value converted to 16 bits; `le` says that
the host is little-endian, where the two bytes are swapped. -/
def htons (le : Bool) (x : Nat) : Nat :=
  let v := x % 65536
  if le then (v % 256) * 256 + v / 256 else v

/-- The kernel `ntohl` on a 32-bit value; `le` says that the host is
little-endian, where the four bytes are reversed. -/
def ntohl (le : Bool) (x : Nat) : Nat :=
  let v := x % 4294967296
  if le then
    (v % 256) * 16777216 + (v / 256 % 256) * 65536 + (v / 65536 % 256) * 256 + v / 16777216
  else v

/-- The C `kznl_dump_service_nat_entry`: `a` is the `struct
kza_service_nat_params` written to, as (flags, min ip, max ip, min port, max
port) with the flags field as the host reads it, `range` the stored range. -/
def kznl_dump_service_nat_entry (le : Bool) (a range : Nat × Nat × Nat × Nat × Nat) :
    Nat × Nat × Nat × Nat × Nat :=
  let f1 := if range.1 &&& IP_NAT_RANGE_MAP_IPS ≠ 0 then a.1 ||| KZF_SERVICE_NAT_MAP_IPS
            else a.1
  let f2 := if range.1 &&& IP_NAT_RANGE_PROTO_SPECIFIED ≠ 0 then
              f1 ||| KZF_SERVICE_NAT_MAP_PROTO_SPECIFIC
            else f1
  (htons le f2, range.2.1, range.2.2.1, range.2.2.2.1, range.2.2.2.2)

/-- The C `kznl_build_service_add_nat` on a buffer with room for the message:
the attributes of the message.  `nat` is zeroed once and then written by each
`kznl_dump_service_nat_entry` call in turn; an entry stored without
destination range has a zeroed one. -/
def kznl_build_service_add_nat (le : Bool) (svc : kz_service) (entry : kz_service_nat_entry) :
    add_service_nat_attrs :=
  let nat0 : Nat × Nat × Nat × Nat × Nat := (0, 0, 0, 0, 0)
  let nat1 := kznl_dump_service_nat_entry le nat0 entry.src
  let dst := entry.dst.getD (0, 0, 0, 0, 0)
  let nat2 := if dst.2.1 ≠ 0 then kznl_dump_service_nat_entry le nat1 dst else nat1
  let nat3 := kznl_dump_service_nat_entry le nat2 entry.map
  { KZNL_ATTR_SERVICE_NAME := some svc.name,
    KZNL_ATTR_SERVICE_NAT_SRC := some nat1,
    KZNL_ATTR_SERVICE_NAT_DST := if dst.2.1 ≠ 0 then some nat2 else none,
    KZNL_ATTR_SERVICE_NAT_MAP := some nat3 }

/-- The C `kznl_parse_service_nat_params` on a `struct kza_service_nat_params`
as it lies in a message, the flags field as the host reads it: the flags are
taken through `ntohl` first. -/
def kznl_parse_service_nat_attr (le : Bool) (a range : Nat × Nat × Nat × Nat × Nat) :
    Except Int (Nat × Nat × Nat × Nat × Nat) :=
  kznl_parse_service_nat_params (ntohl le a.1, a.2.1, a.2.2.1, a.2.2.2.1, a.2.2.2.2) range

/-- A NAT entry whose source range has both flags and whose mapped range has
MAP_IPS only. -/
def nat_entry_mixed : kz_service_nat_entry :=
  { src := (3, 167772161, 167772170, 1024, 2047), dst := none,
    map := (1, 3232235777, 3232235777, 0, 0) }

/-- A NAT entry whose ranges all have the flag MAP_IPS and nothing else. -/
def nat_entry_ips : kz_service_nat_entry :=
  { src := (1, 167772161, 167772170, 0, 0), dst := none,
    map := (1, 3232235777, 3232235777, 0, 0) }

/-- The event is a FlushZones message. -/
def kz_event.is_flush_zones (e : kz_event) : Bool :=
  match e with
  | .flush_z _ => true
  | _ => false

/-- No FlushZones message comes after the first AddZone message of the
sequence. -/
def flush_zones_early (run : List kz_event) : Bool :=
  (run.dropWhile fun e => !e.is_add_zone).all fun e => !e.is_flush_zones

/-- The number of AddZone messages of a sequence. -/
def count_add_zone (run : List kz_event) : Nat :=
  run.countP fun e => e.is_add_zone

/-- A transaction of Flush and AddZone messages in which the other Flush
messages are interleaved with the AddZone messages: FlushZones is not among
those that follow an AddZone. -/
def run_interleaved : List kz_event :=
  [.flush_s 1,
   .add_zone mem_ok 1 (zone_msg "c" (some "b")),
   .flush_d 1,
   .add_zone mem_ok 1 (zone_msg "e" (some "c")),
   .flush_b 1,
   .flush_s 1,
   .add_zone mem_ok 1 (zone_msg "f" none)]

/-- The table after a second `kz_extension_create` for `ct_example` on
`st_cached`, the allocator handing out a stale object at address 96: two
records hold the keys of the connection. -/
def st_cached_twice : kz_ext_state :=
  (kz_extension_create jhash2_example (some (96, kzorp_stale)) ct_example st_cached).2

/-! ## Commit: result code and publication -/

theorem errno_neg : (-EINVAL : Int) < 0 ∧ (-ENOMEM : Int) < 0 ∧ (-ENOENT : Int) < 0 ∧
    (-EEXIST : Int) < 0 := by
  simp [EINVAL, ENOMEM, ENOENT, EEXIST]

theorem commit_consolidate_zones_error (todo : List kz_zone) :
    ∀ (done : List kz_zone) (e : Int),
      commit_consolidate_zones done todo = .error e → e = -EINVAL := by
  induction todo with
  | nil => intro done e h; simp [commit_consolidate_zones] at h
  | cons i rest ih =>
    intro done e h
    unfold commit_consolidate_zones at h
    split at h
    · exact ih _ _ h
    · split at h
      · cases h; rfl
      · exact ih _ _ h

theorem commit_error_cfg (res : Int) (st : kz_state) (op : List kz_operation)
    (locked : List kz_service) :
    (commit_error res st op locked).st.kz_config_rcu = st.kz_config_rcu ∧
    (commit_error res st op locked).res = res := by
  simp [commit_error]

/-- What a commit that returns 0 has done: every loop ran to its end and the
published snapshot is made of their results. -/
theorem commit_success_shape (env : kz_env) (inst : Option Nat) (st : kz_state)
    (h : (kznl_recv_commit_transaction env inst st).res = 0) :
    commit_rule_mismatch st.transaction.op = false ∧ env.kz_config_new_ok = true ∧
    ∃ cloned locked0 zcloned zones dcloned,
      commit_clone_services env st.transaction 0 st.transaction.cfg.services ([], []) =
        (true, cloned, locked0) ∧
      (if ¬ (st.transaction.flags &&& KZF_TRANSACTION_FLUSH_ZONES ≠ 0) then
          commit_clone_zones env 0 st.zone_addr_next st.transaction.cfg.zones []
        else (true, [])) = (true, zcloned) ∧
      commit_consolidate_zones []
        (zcloned ++ commit_staged_zones
          (st.transaction.op.filter fun io => ¬ op_is_service io)) = .ok zones ∧
      commit_clone_dispatchers env st.transaction 0 st.transaction.cfg.dispatchers [] =
        (true, dcloned) ∧
      (kznl_recv_commit_transaction env inst st).st.kz_config_rcu =
        { generation := st.kz_config_rcu.generation + 1,
          cookie := 0,
          services := cloned ++
            commit_staged_services env st.transaction.cfg st.transaction.op,
          zones := zones,
          dispatchers :=
            (dcloned ++ commit_staged_dispatchers
              ((st.transaction.op.filter fun io => ¬ op_is_service io).filter
                fun io => ¬ op_is_zone io)).map fun i =>
              env.kz_dispatcher_relink i zones
                (cloned ++ commit_staged_services env st.transaction.cfg st.transaction.op) } ∧
      (kznl_recv_commit_transaction env inst st).locked =
        locked0 ++ commit_staged_locked st.transaction.cfg st.transaction.op ∧
      (kznl_recv_commit_transaction env inst st).unlocked = [] := by
  have hneg := errno_neg
  unfold kznl_recv_commit_transaction at h ⊢
  simp only [] at h ⊢
  split at h
  · simp at h; omega
  split at h
  · simp at h; omega
  rename_i hm hn
  simp only [hm, hn, if_false]
  split at h
  · simp [commit_error] at h; omega
  rename_i cloned locked0 hcs
  split at h
  · simp [commit_error] at h; omega
  rename_i zcloned hz
  split at h
  · rename_i e hc
    have := commit_consolidate_zones_error _ _ _ hc
    simp [commit_error] at h; omega
  rename_i zones hc
  split at h
  · simp [commit_error] at h; omega
  rename_i dcloned hd
  split at h
  · rename_i hlt; simp [commit_error] at h hlt; omega
  split at h
  · rename_i hlt; simp [commit_error] at h hlt; omega
  rename_i hb1 hb2
  refine ⟨trivial, by simpa using hn, cloned, locked0, zcloned, zones, dcloned, ?_⟩
  simp only [hcs, hz, hc, hd, hb1, hb2, if_false]
  simp [kz_config_swap, kz_config_new]

/-- A commit either returns 0 and publishes a snapshot of the next generation,
or returns a negative code and leaves the published snapshot alone. -/
theorem commit_cases (env : kz_env) (inst : Option Nat) (st : kz_state) :
    ((kznl_recv_commit_transaction env inst st).res = 0 ∧
      (kznl_recv_commit_transaction env inst st).st.kz_config_rcu.generation =
        st.kz_config_rcu.generation + 1) ∨
    ((kznl_recv_commit_transaction env inst st).res < 0 ∧
      (kznl_recv_commit_transaction env inst st).st.kz_config_rcu = st.kz_config_rcu) := by
  have hneg := errno_neg
  unfold kznl_recv_commit_transaction
  simp only []
  split
  · right; simp; omega
  split
  · right; simp; omega
  split
  · right; simp [commit_error]; omega
  split
  · right; simp [commit_error]; omega
  split
  · rename_i e hc
    have := commit_consolidate_zones_error _ _ _ hc
    right; simp [commit_error]; omega
  split
  · right; simp [commit_error]; omega
  split
  · rename_i hlt; right; simp [commit_error] at hlt ⊢; omega
  split
  · rename_i hlt; right; simp [commit_error] at hlt ⊢; omega
  left; simp [kz_config_swap]

/-- C1: `kznl_recv_commit_transaction` returns 0 or a negative code; it
publishes a new snapshot (the published snapshot changes, to one of the next
generation) exactly when it returns 0, and whenever it returns a negative code
the published snapshot is the one from before the call. -/
theorem commit_publishes_iff_zero (env : kz_env) (inst : Option Nat) (st : kz_state) :
    ((kznl_recv_commit_transaction env inst st).res = 0 ∨
      (kznl_recv_commit_transaction env inst st).res < 0) ∧
    ((kznl_recv_commit_transaction env inst st).res = 0 ↔
      (kznl_recv_commit_transaction env inst st).st.kz_config_rcu ≠ st.kz_config_rcu) ∧
    ((kznl_recv_commit_transaction env inst st).res = 0 ↔
      (kznl_recv_commit_transaction env inst st).st.kz_config_rcu.generation =
        st.kz_config_rcu.generation + 1) ∧
    ((kznl_recv_commit_transaction env inst st).res < 0 ↔
      (kznl_recv_commit_transaction env inst st).st.kz_config_rcu = st.kz_config_rcu) := by
  rcases commit_cases env inst st with ⟨h0, hg⟩ | ⟨hlt, hc⟩
  · have hne : (kznl_recv_commit_transaction env inst st).st.kz_config_rcu ≠ st.kz_config_rcu := by
      intro heq
      rw [heq] at hg
      omega
    refine ⟨Or.inl h0, ⟨fun _ => hne, fun _ => h0⟩, ⟨fun _ => hg, fun _ => h0⟩, ?_⟩
    constructor
    · intro h; omega
    · intro h; exact absurd h hne
  · refine ⟨Or.inr hlt, ?_, ?_, ⟨fun _ => hc, fun _ => hlt⟩⟩
    · constructor
      · intro h; omega
      · intro h; exact absurd hc h
    · constructor
      · intro h; omega
      · intro h; rw [hc] at h; omega

/-! ## Flag words -/

theorem and_two_ne_zero (x : Nat) : x &&& 2 ≠ 0 ↔ x.testBit 1 = true := by
  have h := Nat.and_two_pow x 1
  simp only [pow_one] at h
  rw [h]
  cases x.testBit 1 <;> simp

theorem trans_flag_set (f : Nat) : (f ||| KZF_INSTANCE_TRANS) &&& KZF_INSTANCE_TRANS ≠ 0 := by
  simp only [KZF_INSTANCE_TRANS]
  rw [and_two_ne_zero, Nat.testBit_or]
  have : Nat.testBit 2 1 = true := by decide
  simp [this]

theorem trans_flag_clear (f : Nat) :
    (f &&& (4294967295 - KZF_INSTANCE_TRANS)) &&& KZF_INSTANCE_TRANS = 0 := by
  simp only [KZF_INSTANCE_TRANS]
  by_contra h
  have h2 := (and_two_ne_zero _).mp h
  rw [Nat.testBit_and] at h2
  have : Nat.testBit (4294967295 - 2) 1 = false := by decide
  simp [this] at h2

theorem in_transaction_set (i : kz_instance) :
    in_transaction { i with flags := i.flags ||| KZF_INSTANCE_TRANS } :=
  trans_flag_set i.flags

theorem not_in_transaction_clear (i : kz_instance) :
    ¬ in_transaction (instance_clear_trans i) := by
  simp [in_transaction, instance_clear_trans, trans_flag_clear]

/-! ## Transaction lookup -/

theorem transaction_lookup_some {st : kz_state} {pid : Nat} {tr : kz_transaction}
    (h : transaction_lookup st pid = some tr) :
    tr = st.transaction ∧ st.transaction_open = true ∧ st.transaction.peer_pid = pid := by
  unfold transaction_lookup at h
  split at h
  · rename_i hc
    simp at h
    exact ⟨h.symm, hc.1, hc.2⟩
  · simp at h

theorem transaction_lookup_none {st : kz_state} {pid : Nat}
    (h : transaction_lookup st pid = none) :
    st.transaction_open = false ∨ st.transaction.peer_pid ≠ pid := by
  unfold transaction_lookup at h
  split at h
  · simp at h
  · rename_i hc
    by_cases ho : st.transaction_open = true
    · right; intro hp; exact hc ⟨ho, hp⟩
    · left; simpa using ho

theorem transaction_lookup_closed {st : kz_state} (pid : Nat)
    (h : st.transaction_open = false) : transaction_lookup st pid = none := by
  simp [transaction_lookup, h]

/-! ## Flush and Add messages only touch the staged part of the transaction -/

theorem kz_frame_refl (st : kz_state) : kz_frame st st := by
  simp [kz_frame]

theorem setflag_frame (pid flag : Nat) (st : kz_state) :
    kz_frame st (kznl_recv_setflag pid flag st).2 := by
  unfold kznl_recv_setflag
  split
  · exact kz_frame_refl st
  · rename_i tr h
    obtain ⟨rfl, -, -⟩ := transaction_lookup_some h
    simp [kz_frame]

theorem add_zone_frame (mem : Nat → Bool) (pid : Nat) (attrs : add_zone_attrs) (st : kz_state) :
    kz_frame st (kznl_recv_add_zone mem pid attrs st).2 := by
  unfold kznl_recv_add_zone
  cases hl : transaction_lookup st pid with
  | none => split <;> simp [kz_frame]
  | some tr =>
    obtain ⟨rfl, -, -⟩ := transaction_lookup_some hl
    simp only []
    repeat' split
    all_goals simp [kz_frame, transaction_add_op]
    all_goals split <;> simp

theorem add_service_frame (mem : Nat → Bool) (id pid : Nat) (attrs : add_service_attrs)
    (st : kz_state) : kz_frame st (kznl_recv_add_service mem id pid attrs st).2 := by
  unfold kznl_recv_add_service
  cases hl : transaction_lookup st pid with
  | none => split <;> simp [kz_frame]
  | some tr =>
    obtain ⟨rfl, -, -⟩ := transaction_lookup_some hl
    simp only []
    repeat' split
    all_goals simp [kz_frame, transaction_add_op]
    all_goals split <;> simp

theorem add_service_nat_frame (mem : Nat → Bool) (snat : Bool) (pid : Nat)
    (attrs : add_service_nat_attrs) (st : kz_state) :
    kz_frame st (kznl_recv_add_service_nat mem snat pid attrs st).2 := by
  unfold kznl_recv_add_service_nat
  cases hl : transaction_lookup st pid with
  | none => split <;> simp [kz_frame]
  | some tr =>
    obtain ⟨rfl, -, -⟩ := transaction_lookup_some hl
    simp only []
    repeat' split
    all_goals simp [kz_frame]

theorem add_dispatcher_frame (mem : Nat → Bool) (pid : Nat) (attrs : add_dispatcher_attrs)
    (st : kz_state) : kz_frame st (kznl_recv_add_dispatcher mem pid attrs st).2 := by
  unfold kznl_recv_add_dispatcher
  cases hl : transaction_lookup st pid with
  | none => split <;> simp [kz_frame]
  | some tr =>
    obtain ⟨rfl, -, -⟩ := transaction_lookup_some hl
    simp only []
    repeat' split
    all_goals simp [kz_frame, transaction_add_op]
    all_goals split <;> simp

theorem add_rule_frame (f : kz_dispatcher → kz_service → kz_rule → Int × kz_dispatcher)
    (mem : Nat → Bool) (pid : Nat) (attrs : add_rule_attrs) (st : kz_state) :
    kz_frame st (kznl_recv_add_n_dimension_rule f mem pid attrs st).2 := by
  unfold kznl_recv_add_n_dimension_rule
  cases hl : transaction_lookup st pid with
  | none => split <;> simp [kz_frame]
  | some tr =>
    obtain ⟨rfl, -, -⟩ := transaction_lookup_some hl
    simp only []
    repeat' split
    all_goals simp [kz_frame]

theorem add_rule_entry_frame (f : kz_rule → kz_rule_entry → Int × kz_rule)
    (mem : Nat → Bool) (pid : Nat) (attrs : add_rule_entry_attrs) (st : kz_state) :
    kz_frame st (kznl_recv_add_n_dimension_rule_entry f mem pid attrs st).2 := by
  unfold kznl_recv_add_n_dimension_rule_entry
  cases hl : transaction_lookup st pid with
  | none => split <;> simp [kz_frame]
  | some tr =>
    obtain ⟨rfl, -, -⟩ := transaction_lookup_some hl
    simp only []
    repeat' split
    all_goals simp [kz_frame]

theorem add_bind_frame (mem : Nat → Bool) (pid : Nat) (attrs : add_bind_attrs)
    (st : kz_state) : kz_frame st (kznl_recv_add_bind mem pid attrs st).2 := by
  unfold kznl_recv_add_bind
  cases hl : transaction_lookup st pid with
  | none => simp [kz_frame]
  | some tr =>
    obtain ⟨rfl, -, -⟩ := transaction_lookup_some hl
    simp only []
    repeat' split
    all_goals simp [kz_frame, transaction_add_op]
    all_goals split <;> simp

/-! ## The bookkeeping invariant -/

theorem kz_inv_init : kz_inv transaction_init := by
  simp [kz_inv, transaction_init]

theorem kz_inv_of_frame {st st1 : kz_state} (h : kz_inv st) (hf : kz_frame st st1) :
    kz_inv st1 := by
  obtain ⟨hi, ho, hid, -, -, -⟩ := hf
  unfold kz_inv
  rw [hi, ho, hid]
  exact h

theorem keys_getElem {l l1 : List kz_instance} (h : l1.map inst_key = l.map inst_key)
    {j : Nat} {ins1 : kz_instance} (hj : l1[j]? = some ins1) :
    ∃ ins, l[j]? = some ins ∧ ins.id = ins1.id ∧ ins.flags = ins1.flags := by
  have h1 : (l1.map inst_key)[j]? = (l.map inst_key)[j]? := by rw [h]
  rw [List.getElem?_map, List.getElem?_map, hj] at h1
  cases hl : l[j]? with
  | none => rw [hl] at h1; simp at h1
  | some ins =>
    rw [hl] at h1
    simp [inst_key] at h1
    exact ⟨ins, rfl, h1.1.symm, h1.2.2.symm⟩

theorem keys_length {l l1 : List kz_instance} (h : l1.map inst_key = l.map inst_key) :
    l1.length = l.length := by
  have := congrArg List.length h
  simpa using this

theorem lookup_id_of_inv {st : kz_state} (h : kz_inv st) (ho : st.transaction_open = true) :
    kz_instance_lookup_id st.kz_instances st.transaction.instance_id =
      some st.transaction.instance_id := by
  have hlt := h.2.1 ho
  have hfi : List.findIdx (fun ins => decide (ins.id = st.transaction.instance_id))
      st.kz_instances = st.transaction.instance_id := by
    rw [List.findIdx_eq hlt]
    constructor
    · have := h.1 _ _ (List.getElem?_eq_getElem hlt)
      simp [this]
    · intro j hj
      have hjl : j < st.kz_instances.length := by omega
      have := h.1 _ _ (List.getElem?_eq_getElem hjl)
      simp [this]
      omega
  unfold kz_instance_lookup_id
  simp only [hfi, hlt, if_true]

theorem remove_bind_keys (l : List kz_instance) (inst : Option Nat) (pid : Nat)
    (tr : Option kz_transaction) :
    (kz_instance_remove_bind l inst pid tr).map inst_key = l.map inst_key := by
  unfold kz_instance_remove_bind
  cases inst with
  | none => rfl
  | some i =>
    apply List.ext_getElem?
    intro n
    simp only [List.getElem?_map, List.getElem?_modify]
    cases l[n]? with
    | none => rfl
    | some a =>
      by_cases hin : i = n <;> simp [hin, inst_key, kz_instance_remove_bind_one]

/-- A commit leaves the instance bookkeeping (ids, names, flags), the open
flag and the identity of the transaction alone. -/
theorem commit_transaction_frame (env : kz_env) (inst : Option Nat) (st : kz_state) :
    (kznl_recv_commit_transaction env inst st).st.kz_instances.map inst_key =
      st.kz_instances.map inst_key ∧
    (kznl_recv_commit_transaction env inst st).st.transaction_open = st.transaction_open ∧
    (kznl_recv_commit_transaction env inst st).st.transaction.instance_id =
      st.transaction.instance_id ∧
    (kznl_recv_commit_transaction env inst st).st.transaction.peer_pid =
      st.transaction.peer_pid := by
  have hk := remove_bind_keys st.kz_instances inst
  unfold kznl_recv_commit_transaction
  simp only []
  repeat' split
  all_goals simp [commit_error, kz_config_swap, hk]

theorem modify_keys {l l0 : List kz_instance} (h : l0.map inst_key = l.map inst_key)
    (f : kz_instance → kz_instance)
    (hf : ∀ a b, inst_key a = inst_key b → inst_key (f a) = inst_key (f b)) (i : Nat) :
    (l0.modify f i).map inst_key = (l.modify f i).map inst_key := by
  apply List.ext_getElem?
  intro n
  have h1 : (l0.map inst_key)[n]? = (l.map inst_key)[n]? := by rw [h]
  simp only [List.getElem?_map, List.getElem?_modify] at h1 ⊢
  cases h0 : l0[n]? with
  | none =>
    rw [h0] at h1
    cases hl : l[n]? with
    | none => rfl
    | some b => rw [hl] at h1; simp at h1
  | some a =>
    rw [h0] at h1
    cases hl : l[n]? with
    | none => rw [hl] at h1; simp at h1
    | some b =>
      rw [hl] at h1
      simp only [Option.map_some', Option.some.injEq] at h1
      by_cases hin : i = n
      · simp [hin, hf a b h1]
      · simp [hin, h1]

theorem clear_trans_keys (a b : kz_instance) (h : inst_key a = inst_key b) :
    inst_key (instance_clear_trans a) = inst_key (instance_clear_trans b) := by
  simp [inst_key] at h
  simp [inst_key, instance_clear_trans, h]

/-- Closing the transaction: once the flag of the transaction's instance is
cleared and `transaction_open` reset, the invariant holds again. -/
theorem kz_inv_closed {st st1 : kz_state} (h : kz_inv st)
    (hl : st1.kz_instances.map inst_key =
      (st.kz_instances.modify instance_clear_trans st.transaction.instance_id).map inst_key)
    (hc : st1.transaction_open = false) : kz_inv st1 := by
  have hget : ∀ (i : Nat) (ins1 : kz_instance), st1.kz_instances[i]? = some ins1 →
      ∃ a, st.kz_instances[i]? = some a ∧ ins1.id = a.id ∧
        (st.transaction.instance_id = i → ¬ in_transaction ins1) ∧
        (st.transaction.instance_id ≠ i → ins1.flags = a.flags) := by
    intro i ins1 hi
    obtain ⟨m, hm, hid, hfl⟩ := keys_getElem hl hi
    rw [List.getElem?_modify] at hm
    cases ha : st.kz_instances[i]? with
    | none => rw [ha] at hm; simp at hm
    | some a =>
      rw [ha] at hm
      simp only [Option.map_eq_map, Option.map_some', Option.some.injEq] at hm
      refine ⟨a, rfl, ?_, ?_, ?_⟩
      · rw [← hid, ← hm]; split <;> simp [instance_clear_trans]
      · intro heq
        have hm2 : m = instance_clear_trans a := by rw [← hm]; simp [heq]
        have := not_in_transaction_clear a
        unfold in_transaction at this ⊢
        rw [← hfl, hm2]
        exact this
      · intro hne
        rw [← hfl, ← hm]
        simp [hne]
  refine ⟨?_, ?_, ?_⟩
  · intro i ins1 hi
    obtain ⟨a, ha, hid, -, -⟩ := hget i ins1 hi
    rw [hid]
    exact h.1 i a ha
  · intro hopen
    rw [hc] at hopen
    cases hopen
  · intro i ins1 hi
    obtain ⟨a, ha, -, hcl, hsame⟩ := hget i ins1 hi
    rw [hc]
    constructor
    · intro hin
      exfalso
      by_cases heq : st.transaction.instance_id = i
      · exact hcl heq hin
      · have hfl := hsame heq
        have : in_transaction a := by
          unfold in_transaction at hin ⊢
          rw [← hfl]
          exact hin
        exact heq ((h.2.2 i a ha).mp this).2
    · intro hf
      cases hf.1

theorem kz_inv_commit (env : kz_env) (pid : Nat) (st : kz_state) (h : kz_inv st) :
    kz_inv (kznl_recv_commit env pid st).2 := by
  unfold kznl_recv_commit
  cases hl : transaction_lookup st pid with
  | none => exact h
  | some tr =>
    obtain ⟨rfl, ho, -⟩ := transaction_lookup_some hl
    simp only [lookup_id_of_inv h ho]
    obtain ⟨hk, -, -, -⟩ :=
      commit_transaction_frame env (some st.transaction.instance_id) st
    apply kz_inv_closed h
    · simp only [transaction_destroy]
      exact modify_keys hk _ clear_trans_keys _
    · simp [transaction_destroy]

theorem kz_inv_release (event protocol pid : Nat) (st : kz_state) (h : kz_inv st) :
    kz_inv (kznl_netlink_event event protocol pid st) := by
  have hmapk : ∀ l : List kz_instance,
      (l.map fun ins => kz_instance_remove_bind_one ins pid none).map inst_key =
        l.map inst_key := by
    intro l
    simp [List.map_map, Function.comp_def, inst_key, kz_instance_remove_bind_one]
  unfold kznl_netlink_event
  split
  · cases hl : transaction_lookup st pid with
    | none =>
      simp only []
      refine ⟨?_, ?_, ?_⟩
      · intro i ins hi
        obtain ⟨a, ha, hid, -⟩ := keys_getElem (hmapk _) hi
        rw [← hid]; exact h.1 i a ha
      · intro ho
        have := h.2.1 ho
        simpa using this
      · intro i ins hi
        obtain ⟨a, ha, -, hfl⟩ := keys_getElem (hmapk _) hi
        have := h.2.2 i a ha
        unfold in_transaction at this ⊢
        rw [← hfl]
        exact this
    | some tr =>
      obtain ⟨rfl, ho, -⟩ := transaction_lookup_some hl
      simp only [lookup_id_of_inv h ho]
      apply kz_inv_closed h
      · simp only [transaction_destroy]
        exact hmapk _
      · simp [transaction_destroy]
  · exact h

/-! ## Start -/

theorem parse_name_ok {mem_ok : Bool} {a n : String}
    (h : kznl_parse_name_alloc mem_ok a = .ok n) :
    n = a ∧ mem_ok = true ∧ a.length ≠ 0 ∧ a.length ≤ KZ_ATTR_NAME_MAX_LENGTH := by
  unfold kznl_parse_name_alloc at h
  split at h
  · cases h
  · rename_i hlen
    split at h
    · rename_i hm
      simp only [Except.ok.injEq] at h
      refine ⟨h.symm, hm, ?_, ?_⟩ <;> omega
    · cases h

/-- Start by a peer that owns the open transaction: -EINVAL, nothing changes. -/
theorem start_owner (mem : Nat → Bool) (pid : Nat) (attrs : start_attrs) (st : kz_state)
    (h : transaction_lookup st pid ≠ none) :
    kznl_recv_start mem pid attrs st = (-EINVAL, st) := by
  unfold kznl_recv_start
  split
  · rfl
  · split
    · rfl
    · split
      · rfl
      · rename_i hn; exact absurd hn h

/-- The three ways a well-formed Start of a peer without transaction ends. -/
theorem start_cases (mem : Nat → Bool) (pid : Nat) (attrs : start_attrs) (st : kz_state)
    (a : String) (ha : attrs.KZNL_ATTR_INSTANCE_NAME = some a)
    (hp : kznl_parse_name_alloc (mem 0) a = .ok a)
    (hl : transaction_lookup st pid = none) :
    kznl_recv_start mem pid attrs st =
      match start_instance mem st.kz_instances a with
      | none => (-EINVAL, st)
      | some (ins, instances) =>
        if instance_flags instances ins &&& KZF_INSTANCE_TRANS ≠ 0 then
          (-EEXIST, { st with kz_instances := instances })
        else if st.transaction_open then (-EINVAL, { st with kz_instances := instances })
        else (0, started st pid (attrs.KZNL_ATTR_CONFIG_COOKIE.getD 0) ins instances) := by
  unfold kznl_recv_start
  simp only [ha, hp, hl, start_instance]
  cases hs : (match kz_instance_lookup st.kz_instances a with
      | some i => some (i, st.kz_instances)
      | none => kz_instance_create (mem 1) st.kz_instances a) with
  | none => rfl
  | some r =>
    obtain ⟨ins, instances⟩ := r
    simp only []
    split
    · rfl
    · unfold transaction_create
      by_cases ho : st.transaction_open = true
      · simp [ho]
      · simp [ho, started, instance_id_at]

theorem start_result (mem : Nat → Bool) (pid : Nat) (attrs : start_attrs) (st : kz_state) :
    kznl_recv_start mem pid attrs st = (-EINVAL, st) ∨
    ∃ a, attrs.KZNL_ATTR_INSTANCE_NAME = some a ∧ kznl_parse_name_alloc (mem 0) a = .ok a ∧
      transaction_lookup st pid = none := by
  cases ha : attrs.KZNL_ATTR_INSTANCE_NAME with
  | none => left; unfold kznl_recv_start; simp [ha]
  | some a =>
    cases hp : kznl_parse_name_alloc (mem 0) a with
    | error e => left; unfold kznl_recv_start; simp [ha, hp]
    | ok n =>
      obtain ⟨rfl, -, -, -⟩ := parse_name_ok hp
      cases hl : transaction_lookup st pid with
      | some tr => left; exact start_owner mem pid attrs st (by simp [hl])
      | none => right; exact ⟨n, rfl, hp, rfl⟩

theorem instance_lookup_lt {l : List kz_instance} {a : String} {i : Nat}
    (h : kz_instance_lookup l a = some i) : i < l.length := by
  unfold kz_instance_lookup at h
  simp only at h
  split at h
  · rename_i hlt
    simp only [Option.some.injEq] at h
    omega
  · cases h

theorem start_instance_cases {mem : Nat → Bool} {l : List kz_instance} {a : String}
    {ins : Nat} {instances : List kz_instance}
    (h : start_instance mem l a = some (ins, instances)) :
    (kz_instance_lookup l a = some ins ∧ instances = l ∧ ins < l.length) ∨
    (kz_instance_lookup l a = none ∧ mem 1 = true ∧ ins = l.length ∧
      instances = l ++ [{ id := l.length, name := a, flags := 0, binds := [] }]) := by
  unfold start_instance at h
  cases hk : kz_instance_lookup l a with
  | some i =>
    rw [hk] at h
    simp only [Option.some.injEq, Prod.mk.injEq] at h
    left
    obtain ⟨rfl, rfl⟩ := h
    exact ⟨rfl, rfl, instance_lookup_lt hk⟩
  | none =>
    simp only [hk, kz_instance_create] at h
    right
    by_cases hm : mem 1 = true
    · simp only [hm, if_true, Option.some.injEq, Prod.mk.injEq] at h
      exact ⟨rfl, hm, h.1.symm, h.2.symm⟩
    · simp [hm] at h

theorem kz_inv_append {st : kz_state} (h : kz_inv st) (a : String) :
    kz_inv { st with kz_instances :=
      st.kz_instances ++ [{ id := st.kz_instances.length, name := a, flags := 0, binds := [] }] } := by
  have hget : ∀ (i : Nat) (ins : kz_instance),
      (st.kz_instances ++
        [{ id := st.kz_instances.length, name := a, flags := 0, binds := [] }])[i]? = some ins →
      st.kz_instances[i]? = some ins ∨
      (i = st.kz_instances.length ∧
        ins = { id := st.kz_instances.length, name := a, flags := 0, binds := [] }) := by
    intro i ins hi
    rw [List.getElem?_append] at hi
    split at hi
    · left; exact hi
    · right
      rename_i hge
      by_cases heq : i = st.kz_instances.length
      · subst heq
        simp at hi
        exact ⟨rfl, hi.symm⟩
      · have : i - st.kz_instances.length ≥ 1 := by omega
        rw [List.getElem?_eq_none (by simp; omega)] at hi
        cases hi
  refine ⟨?_, ?_, ?_⟩
  · intro i ins hi
    rcases hget i ins hi with h1 | ⟨h1, h2⟩
    · exact h.1 i ins h1
    · rw [h2, h1]
  · intro ho
    have := h.2.1 ho
    simp only [List.length_append, List.length_singleton]
    omega
  · intro i ins hi
    rcases hget i ins hi with h1 | ⟨h1, h2⟩
    · exact h.2.2 i ins h1
    · subst h2
      constructor
      · intro hin
        simp [in_transaction] at hin
      · intro hc
        have := h.2.1 hc.1
        simp only at hc
        omega

theorem kz_inv_started {st : kz_state} (h : kz_inv st) (ho : st.transaction_open = false)
    (pid cookie ins : Nat) (hlt : ins < st.kz_instances.length) :
    kz_inv (started st pid cookie ins st.kz_instances) := by
  have hid : instance_id_at st.kz_instances ins = ins := by
    unfold instance_id_at
    rw [List.getElem?_eq_getElem hlt]
    exact h.1 _ _ (List.getElem?_eq_getElem hlt)
  have hget : ∀ (i : Nat) (ins1 : kz_instance),
      (started st pid cookie ins st.kz_instances).kz_instances[i]? = some ins1 →
      ∃ a, st.kz_instances[i]? = some a ∧ ins1.id = a.id ∧
        (in_transaction ins1 ↔ ins = i) := by
    intro i ins1 hi
    simp only [started, List.getElem?_modify] at hi
    cases ha : st.kz_instances[i]? with
    | none => rw [ha] at hi; simp at hi
    | some a =>
      rw [ha] at hi
      simp only [Option.map_eq_map, Option.map_some', Option.some.injEq] at hi
      refine ⟨a, rfl, ?_, ?_⟩
      · rw [← hi]; split <;> rfl
      · by_cases heq : ins = i
        · simp only [heq, if_true] at hi
          rw [← hi]
          simp only [heq, iff_true]
          exact in_transaction_set a
        · simp only [heq, if_false] at hi
          rw [← hi]
          simp only [heq, iff_false]
          have := (h.2.2 i a ha).not
          rw [ho] at this
          simpa using this
  refine ⟨?_, ?_, ?_⟩
  · intro i ins1 hi
    obtain ⟨a, ha, hida, -⟩ := hget i ins1 hi
    rw [hida]; exact h.1 i a ha
  · intro _
    simp only [started, List.length_modify, hid]
    exact hlt
  · intro i ins1 hi
    obtain ⟨a, ha, -, hfl⟩ := hget i ins1 hi
    rw [hfl]
    simp [started, hid]

theorem kz_inv_start (mem : Nat → Bool) (pid : Nat) (attrs : start_attrs) (st : kz_state)
    (h : kz_inv st) : kz_inv (kznl_recv_start mem pid attrs st).2 := by
  rcases start_result mem pid attrs st with he | ⟨a, ha, hp, hl⟩
  · rw [he]; exact h
  · rw [start_cases mem pid attrs st a ha hp hl]
    cases hs : start_instance mem st.kz_instances a with
    | none => exact h
    | some r =>
      obtain ⟨ins, instances⟩ := r
      have hst1 : kz_inv { st with kz_instances := instances } ∧ ins < instances.length := by
        rcases start_instance_cases hs with ⟨-, rfl, hlt⟩ | ⟨-, -, rfl, rfl⟩
        · exact ⟨h, hlt⟩
        · exact ⟨kz_inv_append h a, by simp⟩
      simp only []
      split
      · exact hst1.1
      · split
        · exact hst1.1
        · rename_i ho
          have := kz_inv_started hst1.1 (by simpa using ho) pid
            (attrs.KZNL_ATTR_CONFIG_COOKIE.getD 0) ins hst1.2
          exact this

theorem kz_inv_step (e : kz_event) (st : kz_state) (h : kz_inv st) :
    kz_inv (kz_step e st).2 := by
  cases e with
  | start mem pid attrs => exact kz_inv_start mem pid attrs st h
  | commit env pid => exact kz_inv_commit env pid st h
  | flush_z pid => exact kz_inv_of_frame h (setflag_frame pid _ st)
  | flush_s pid => exact kz_inv_of_frame h (setflag_frame pid _ st)
  | flush_d pid => exact kz_inv_of_frame h (setflag_frame pid _ st)
  | flush_b pid => exact kz_inv_of_frame h (setflag_frame pid _ st)
  | add_zone mem pid attrs => exact kz_inv_of_frame h (add_zone_frame mem pid attrs st)
  | add_service mem id pid attrs =>
    exact kz_inv_of_frame h (add_service_frame mem id pid attrs st)
  | add_service_nat mem snat pid attrs =>
    exact kz_inv_of_frame h (add_service_nat_frame mem snat pid attrs st)
  | add_dispatcher mem pid attrs =>
    exact kz_inv_of_frame h (add_dispatcher_frame mem pid attrs st)
  | add_rule f mem pid attrs => exact kz_inv_of_frame h (add_rule_frame f mem pid attrs st)
  | add_rule_entry f mem pid attrs =>
    exact kz_inv_of_frame h (add_rule_entry_frame f mem pid attrs st)
  | add_bind mem pid attrs => exact kz_inv_of_frame h (add_bind_frame mem pid attrs st)
  | release event protocol pid => exact kz_inv_release event protocol pid st h

theorem kz_inv_run (es : List kz_event) : ∀ st : kz_state, kz_inv st → kz_inv (kz_run es st) := by
  induction es with
  | nil => intro st h; exact h
  | cons e rest ih =>
    intro st h
    simp only [kz_run, List.foldl_cons]
    exact ih _ (kz_inv_step e st h)

/-- C4: in every state reached from initialisation by any sequence of Start,
Flush, Add, Commit and peer-release events, an instance carries the
transaction-in-progress flag if and only if a transaction is open and its
instance id is the id of that instance; hence at most one instance (position
in the instance list) carries the flag and at most one peer owns a
transaction. -/
theorem trans_flag_invariant (es : List kz_event) :
    (∀ ins ∈ (kz_run es transaction_init).kz_instances,
      in_transaction ins ↔
        ((kz_run es transaction_init).transaction_open = true ∧
          (kz_run es transaction_init).transaction.instance_id = ins.id)) ∧
    (∀ (i j : Nat) (a b : kz_instance),
      (kz_run es transaction_init).kz_instances[i]? = some a →
      (kz_run es transaction_init).kz_instances[j]? = some b →
      in_transaction a → in_transaction b → i = j) ∧
    (∀ (p q : Nat) (t u : kz_transaction),
      transaction_lookup (kz_run es transaction_init) p = some t →
      transaction_lookup (kz_run es transaction_init) q = some u → p = q ∧ t = u) := by
  have h := kz_inv_run es transaction_init kz_inv_init
  refine ⟨?_, ?_, ?_⟩
  · intro ins hmem
    obtain ⟨i, hi⟩ := List.mem_iff_getElem?.mp hmem
    rw [h.1 i ins hi]
    exact h.2.2 i ins hi
  · intro i j a b ha hb hfa hfb
    have h1 := ((h.2.2 i a ha).mp hfa).2
    have h2 := ((h.2.2 j b hb).mp hfb).2
    omega
  · intro p q t u hp hq
    obtain ⟨rfl, -, h1⟩ := transaction_lookup_some hp
    obtain ⟨rfl, -, h2⟩ := transaction_lookup_some hq
    exact ⟨by omega, rfl⟩

/-! ## Instance lookup by name only reads the names -/

theorem findIdx_name_map (l : List kz_instance) (a : String) :
    l.findIdx (fun ins => decide (ins.name = a)) =
      (l.map fun ins => ins.name).findIdx (fun n => decide (n = a)) := by
  induction l with
  | nil => rfl
  | cons x r ih => simp [List.findIdx_cons, ih]

theorem instance_lookup_congr {l l1 : List kz_instance}
    (h : (l1.map fun ins => ins.name) = l.map fun ins => ins.name) (a : String) :
    kz_instance_lookup l1 a = kz_instance_lookup l a := by
  have hlen : l1.length = l.length := by
    have := congrArg List.length h
    simpa using this
  unfold kz_instance_lookup
  simp only [findIdx_name_map, h, hlen]

theorem keys_names {l l1 : List kz_instance} (h : l1.map inst_key = l.map inst_key) :
    (l1.map fun ins => ins.name) = l.map fun ins => ins.name := by
  have := congrArg (List.map fun k : Nat × String × Nat => k.2.1) h
  simpa [List.map_map, Function.comp_def, inst_key] using this

theorem modify_names (l : List kz_instance) (f : kz_instance → kz_instance)
    (hf : ∀ a, (f a).name = a.name) (i : Nat) :
    ((l.modify f i).map fun ins => ins.name) = l.map fun ins => ins.name := by
  apply List.ext_getElem?
  intro n
  simp only [List.getElem?_map, List.getElem?_modify]
  cases l[n]? with
  | none => rfl
  | some a => by_cases hin : i = n <;> simp [hin, hf]

theorem instance_lookup_append {l : List kz_instance} {a : String}
    (h : kz_instance_lookup l a = none) (x : kz_instance) (hx : x.name = a) :
    kz_instance_lookup (l ++ [x]) a = some l.length := by
  unfold kz_instance_lookup at h ⊢
  simp only at h ⊢
  have hnl : ¬ List.findIdx (fun ins => decide (ins.name = a)) l < l.length := by
    intro hlt
    simp [hlt] at h
  rw [List.findIdx_append]
  simp only [hnl, if_false]
  simp [List.findIdx_cons, hx]

theorem instance_flags_modify (l : List kz_instance) (f : kz_instance → kz_instance) (i : Nat) :
    instance_flags (l.modify f i) i =
      match l[i]? with
      | some a => (f a).flags
      | none => 0 := by
  unfold instance_flags
  rw [List.getElem?_modify]
  cases l[i]? with
  | none => rfl
  | some a => simp

/-- C3: a Start by a peer that already owns the open transaction returns
-EINVAL, and a well-formed Start on an instance that carries the
transaction-in-progress flag returns -EEXIST; both leave the whole state (the
transaction record and every instance) unchanged.  Whenever a Start on an
instance succeeds, a following Start on the same instance name by a different
peer returns -EEXIST and changes nothing; and a well-formed Start does succeed
when no transaction is open and the named instance is not flagged. -/
theorem start_conflict (mem : Nat → Bool) (p : Nat) (attrs : start_attrs) (st : kz_state)
    (a : String) (ha : attrs.KZNL_ATTR_INSTANCE_NAME = some a)
    (hp : kznl_parse_name_alloc (mem 0) a = .ok a) :
    (transaction_lookup st p ≠ none → kznl_recv_start mem p attrs st = (-EINVAL, st)) ∧
    (∀ i, transaction_lookup st p = none → kz_instance_lookup st.kz_instances a = some i →
      instance_flags st.kz_instances i &&& KZF_INSTANCE_TRANS ≠ 0 →
      kznl_recv_start mem p attrs st = (-EEXIST, st)) ∧
    (∀ (mem2 : Nat → Bool) (q : Nat) (attrs2 : start_attrs), q ≠ p →
      attrs2.KZNL_ATTR_INSTANCE_NAME = some a → mem2 0 = true →
      (kznl_recv_start mem p attrs st).1 = 0 →
      kznl_recv_start mem2 q attrs2 (kznl_recv_start mem p attrs st).2 =
        (-EEXIST, (kznl_recv_start mem p attrs st).2)) ∧
    (st.transaction_open = false →
      (∀ i, kz_instance_lookup st.kz_instances a = some i →
        instance_flags st.kz_instances i &&& KZF_INSTANCE_TRANS = 0) →
      (kz_instance_lookup st.kz_instances a = none → mem 1 = true) →
      (kznl_recv_start mem p attrs st).1 = 0) := by
  refine ⟨start_owner mem p attrs st, ?_, ?_, ?_⟩
  · intro i hl hk hf
    rw [start_cases mem p attrs st a ha hp hl]
    simp only [start_instance, hk, hf, ne_eq, not_false_eq_true, if_true]
  · intro mem2 q attrs2 hq ha2 hm2 h0
    cases hl : transaction_lookup st p with
    | some tr =>
      rw [start_owner mem p attrs st (by simp [hl])] at h0
      simp [EINVAL] at h0
    | none =>
      have hsc := start_cases mem p attrs st a ha hp hl
      rw [hsc] at h0
      cases hs : start_instance mem st.kz_instances a with
      | none => rw [hs] at h0; simp [EINVAL] at h0
      | some r =>
        obtain ⟨ins, instances⟩ := r
        rw [hs] at h0 hsc
        simp only [] at h0 hsc
        split at h0
        · simp [EEXIST] at h0
        split at h0
        · simp [EINVAL] at h0
        rename_i hnf hno
        rw [if_neg hnf, if_neg hno] at hsc
        rw [hsc]
        simp only []
        have hp2 : kznl_parse_name_alloc (mem2 0) a = .ok a := by
          obtain ⟨-, -, h1, h2⟩ := parse_name_ok hp
          unfold kznl_parse_name_alloc
          have : ¬ (a.length = 0 ∨ a.length > KZ_ATTR_NAME_MAX_LENGTH) := by omega
          simp only [this, hm2, if_false, if_true]
        have hl2 : transaction_lookup
            (started st p (attrs.KZNL_ATTR_CONFIG_COOKIE.getD 0) ins instances) q = none := by
          unfold transaction_lookup
          have : ¬ ((started st p (attrs.KZNL_ATTR_CONFIG_COOKIE.getD 0) ins
              instances).transaction_open = true ∧
            (started st p (attrs.KZNL_ATTR_CONFIG_COOKIE.getD 0) ins
              instances).transaction.peer_pid = q) := by
            simp only [started]
            intro hc
            exact hq hc.2.symm
          simp only [this, if_false]
        have hlook : kz_instance_lookup
            (started st p (attrs.KZNL_ATTR_CONFIG_COOKIE.getD 0) ins instances).kz_instances a =
            some ins := by
          simp only [started]
          rw [instance_lookup_congr (modify_names instances
            (fun i => { i with flags := i.flags ||| KZF_INSTANCE_TRANS }) (fun _ => rfl) ins) a]
          rcases start_instance_cases hs with ⟨hk, rfl, -⟩ | ⟨hk, -, rfl, rfl⟩
          · exact hk
          · exact instance_lookup_append hk _ rfl
        have hlt : ins < instances.length := by
          rcases start_instance_cases hs with ⟨-, rfl, hlt⟩ | ⟨-, -, rfl, rfl⟩
          · exact hlt
          · simp
        have hflag : instance_flags
            (started st p (attrs.KZNL_ATTR_CONFIG_COOKIE.getD 0) ins instances).kz_instances ins
            &&& KZF_INSTANCE_TRANS ≠ 0 := by
          simp only [started]
          rw [instance_flags_modify, List.getElem?_eq_getElem hlt]
          exact trans_flag_set _
        rw [start_cases mem2 q attrs2 _ a ha2 hp2 hl2]
        simp only [start_instance, hlook, hflag, ne_eq, not_false_eq_true, if_true]
  · intro ho hfl hcr
    rw [start_cases mem p attrs st a ha hp (transaction_lookup_closed p ho)]
    cases hk : kz_instance_lookup st.kz_instances a with
    | some i =>
      have := hfl i hk
      simp [start_instance, hk, this, ho]
    | none =>
      have hm := hcr hk
      simp [start_instance, hk, kz_instance_create, hm, ho, instance_flags]

/-! ## Commit always ends the transaction -/

theorem instance_lookup_id_lt {l : List kz_instance} {id i : Nat}
    (h : kz_instance_lookup_id l id = some i) : i < l.length := by
  unfold kz_instance_lookup_id at h
  simp only at h
  split at h
  · simp only [Option.some.injEq] at h
    omega
  · cases h

/-- C2: whatever a Commit issued by the owner of the open transaction returns,
afterwards no transaction is open, the staged-operation list is empty and the
instance of the transaction (the one `kz_instance_lookup_id` finds for the
transaction's instance id) does not carry the transaction-in-progress flag, so
a following well-formed Start on that instance by any peer returns 0. -/
theorem commit_ends_transaction (env : kz_env) (p : Nat) (st : kz_state)
    (hown : transaction_lookup st p ≠ none) :
    (kznl_recv_commit env p st).2.transaction_open = false ∧
    (kznl_recv_commit env p st).2.transaction.op = [] ∧
    (∀ q, transaction_lookup (kznl_recv_commit env p st).2 q = none) ∧
    (∀ i, kz_instance_lookup_id st.kz_instances st.transaction.instance_id = some i →
      instance_flags (kznl_recv_commit env p st).2.kz_instances i &&& KZF_INSTANCE_TRANS = 0) ∧
    (∀ (mem : Nat → Bool) (q : Nat) (attrs : start_attrs) (a : String) (i : Nat),
      attrs.KZNL_ATTR_INSTANCE_NAME = some a → kznl_parse_name_alloc (mem 0) a = .ok a →
      kz_instance_lookup st.kz_instances a = some i →
      kz_instance_lookup_id st.kz_instances st.transaction.instance_id = some i →
      (kznl_recv_start mem q attrs (kznl_recv_commit env p st).2).1 = 0) := by
  cases hl : transaction_lookup st p with
  | none => exact absurd hl hown
  | some tr =>
    obtain ⟨rfl, ho, -⟩ := transaction_lookup_some hl
    have hopen : (kznl_recv_commit env p st).2.transaction_open = false := by
      unfold kznl_recv_commit
      simp only [hl, transaction_destroy]
    have hflag : ∀ i,
        kz_instance_lookup_id st.kz_instances st.transaction.instance_id = some i →
        instance_flags (kznl_recv_commit env p st).2.kz_instances i &&& KZF_INSTANCE_TRANS = 0 := by
      intro i hi
      unfold kznl_recv_commit
      simp only [hl, hi, transaction_destroy]
      rw [instance_flags_modify]
      split
      · exact trans_flag_clear _
      · rfl
    have hnames : ((kznl_recv_commit env p st).2.kz_instances.map fun ins => ins.name) =
        st.kz_instances.map fun ins => ins.name := by
      unfold kznl_recv_commit
      simp only [hl, transaction_destroy]
      cases kz_instance_lookup_id st.kz_instances st.transaction.instance_id with
      | none => exact keys_names (commit_transaction_frame env none st).1
      | some i =>
        simp only []
        rw [modify_names _ instance_clear_trans (fun _ => rfl) i]
        exact keys_names (commit_transaction_frame env (some i) st).1
    refine ⟨hopen, ?_, fun q => transaction_lookup_closed q hopen, hflag, ?_⟩
    · unfold kznl_recv_commit
      simp only [hl, transaction_destroy, transaction_cleanup_op]
    · intro mem q attrs a i ha hp hk hid
      rw [start_cases mem q attrs _ a ha hp (transaction_lookup_closed q hopen)]
      have hk2 : kz_instance_lookup (kznl_recv_commit env p st).2.kz_instances a = some i := by
        rw [instance_lookup_congr hnames a]; exact hk
      simp [start_instance, hk2, hflag i hid, hopen]

theorem start_conflict_witness :
    (kznl_recv_start mem_ok 1 start_inst transaction_init).1 = 0 ∧
    kznl_recv_start mem_ok 2 start_inst st_open = (-EEXIST, st_open) ∧
    kznl_recv_start mem_ok 1 start_inst st_open = (-EINVAL, st_open) :=
  ⟨(start_conflict mem_ok 1 start_inst transaction_init "inst" rfl (by rfl)).2.2.2 rfl
      (by intro i h; simp [kz_instance_lookup, transaction_init] at h) (fun _ => rfl),
   (start_conflict mem_ok 1 start_inst transaction_init "inst" rfl (by rfl)).2.2.1
      mem_ok 2 start_inst (by decide) rfl rfl (by decide),
   (start_conflict mem_ok 1 start_inst st_open "inst" rfl (by rfl)).1 (by decide)⟩

theorem commit_ends_transaction_witness :
    transaction_lookup st_open 1 ≠ none ∧
    (kznl_recv_commit env_ok 1 st_open).2.transaction_open = false ∧
    (kznl_recv_commit env_ok 1 st_open).2.transaction.op = [] ∧
    (kznl_recv_start mem_ok 2 start_inst (kznl_recv_commit env_ok 1 st_open).2).1 = 0 :=
  ⟨by decide,
   (commit_ends_transaction env_ok 1 st_open (by decide)).1,
   (commit_ends_transaction env_ok 1 st_open (by decide)).2.1,
   (commit_ends_transaction env_ok 1 st_open (by decide)).2.2.2.2
      mem_ok 2 start_inst "inst" 0 rfl (by rfl) (by decide) (by decide)⟩

/-! ## Messages of a peer without transaction -/

/-- C5: for a peer that does not own the open transaction (none is open, or
another peer owns it), Commit, the four Flush messages, AddBind, and every
AddZone, AddService, AddServiceNatSrc/Dst, AddDispatcher, AddRule and
AddRuleEntry whose attributes parse, return -ENOENT and leave the whole state
(the flags and staged operations of the open transaction and the published
snapshot included) unchanged. -/
theorem no_transaction_enoent (p : Nat) (st : kz_state) (h : transaction_lookup st p = none) :
    (∀ env, kznl_recv_commit env p st = (-ENOENT, st)) ∧
    kznl_recv_flush_z p st = (-ENOENT, st) ∧
    kznl_recv_flush_s p st = (-ENOENT, st) ∧
    kznl_recv_flush_d p st = (-ENOENT, st) ∧
    kznl_recv_flush_b p st = (-ENOENT, st) ∧
    (∀ mem attrs, kznl_recv_add_bind mem p attrs st = (-ENOENT, st)) ∧
    (∀ mem attrs r, kznl_recv_add_zone_parse mem st.zone_addr_next attrs = .ok r →
      kznl_recv_add_zone mem p attrs st = (-ENOENT, st)) ∧
    (∀ mem id attrs r, kznl_recv_add_service_parse mem id attrs = .ok r →
      kznl_recv_add_service mem id p attrs st = (-ENOENT, st)) ∧
    (∀ mem attrs r, kznl_recv_add_service_nat_parse mem attrs = .ok r →
      kznl_recv_add_service_nat_src mem p attrs st = (-ENOENT, st) ∧
      kznl_recv_add_service_nat_dst mem p attrs st = (-ENOENT, st)) ∧
    (∀ mem attrs r, kznl_recv_add_dispatcher_parse mem attrs = .ok r →
      kznl_recv_add_dispatcher mem p attrs st = (-ENOENT, st)) ∧
    (∀ f mem attrs r, kznl_recv_add_n_dimension_rule_parse mem attrs = .ok r →
      kznl_recv_add_n_dimension_rule f mem p attrs st = (-ENOENT, st)) ∧
    (∀ f mem attrs r, kznl_recv_add_n_dimension_rule_entry_parse mem attrs = .ok r →
      kznl_recv_add_n_dimension_rule_entry f mem p attrs st = (-ENOENT, st)) := by
  refine ⟨?_, ?_, ?_, ?_, ?_, ?_, ?_, ?_, ?_, ?_, ?_, ?_⟩
  · intro env; simp [kznl_recv_commit, h]
  · simp [kznl_recv_flush_z, kznl_recv_setflag, h]
  · simp [kznl_recv_flush_s, kznl_recv_setflag, h]
  · simp [kznl_recv_flush_d, kznl_recv_setflag, h]
  · simp [kznl_recv_flush_b, kznl_recv_setflag, h]
  · intro mem attrs; simp [kznl_recv_add_bind, h]
  · intro mem attrs r hr; simp [kznl_recv_add_zone, h, hr]
  · intro mem id attrs r hr; simp [kznl_recv_add_service, h, hr]
  · intro mem attrs r hr
    simp [kznl_recv_add_service_nat_src, kznl_recv_add_service_nat_dst,
      kznl_recv_add_service_nat, h, hr]
  · intro mem attrs r hr; simp [kznl_recv_add_dispatcher, h, hr]
  · intro f mem attrs r hr; simp [kznl_recv_add_n_dimension_rule, h, hr]
  · intro f mem attrs r hr; simp [kznl_recv_add_n_dimension_rule_entry, h, hr]

theorem no_transaction_enoent_witness :
    transaction_lookup st_open 2 = none ∧
    kznl_recv_commit env_ok 2 st_open = (-ENOENT, st_open) ∧
    kznl_recv_flush_z 2 st_open = (-ENOENT, st_open) ∧
    kznl_recv_add_zone mem_ok 2 (zone_msg "a" none) st_open = (-ENOENT, st_open) :=
  ⟨by decide,
   (no_transaction_enoent 2 st_open (by decide)).1 env_ok,
   (no_transaction_enoent 2 st_open (by decide)).2.1,
   (no_transaction_enoent 2 st_open (by decide)).2.2.2.2.2.2.1 mem_ok (zone_msg "a" none) _
     (by rfl)⟩

/-! ## The consolidation loop -/

theorem lookup_name_ptr (l : List kz_zone) (n : String) :
    (__kz_zone_lookup_name l n).map kz_zone_get =
      (zone_ptrs l).find? fun q => q.unique_name = n := by
  unfold __kz_zone_lookup_name zone_ptrs
  rw [List.find?_map]
  rfl

theorem zone_ptrs_append_cons (done rest : List kz_zone) (i j : kz_zone)
    (h : kz_zone_get j = kz_zone_get i) :
    zone_ptrs ((done ++ [j]) ++ rest) = zone_ptrs (done ++ i :: rest) := by
  simp [zone_ptrs, h]

/-- The consolidation loop, when it succeeds, redirects every parent pointer
to the first zone of the list with the unique name of the old parent, and
every such name is found. -/
theorem consolidate_ok (todo : List kz_zone) :
    ∀ (done res : List kz_zone), commit_consolidate_zones done todo = .ok res →
      res = done ++ todo.map (zone_relink (zone_ptrs (done ++ todo))) ∧
      ∀ z ∈ todo, ∀ ap, z.admin_parent = some ap →
        ∃ q, ((zone_ptrs (done ++ todo)).find? fun q => q.unique_name = ap.unique_name) =
          some q := by
  induction todo with
  | nil =>
    intro done res h
    simp [commit_consolidate_zones] at h
    simp [h]
  | cons i rest ih =>
    intro done res h
    unfold commit_consolidate_zones at h
    cases hap : i.admin_parent with
    | none =>
      simp only [hap] at h
      obtain ⟨h1, h2⟩ := ih _ _ h
      have hp : zone_ptrs ((done ++ [i]) ++ rest) = zone_ptrs (done ++ i :: rest) :=
        zone_ptrs_append_cons done rest i i rfl
      rw [hp] at h1 h2
      constructor
      · rw [h1]
        simp [zone_relink, hap]
      · intro z hz ap hzap
        rcases List.mem_cons.mp hz with rfl | hz
        · rw [hap] at hzap; cases hzap
        · exact h2 z hz ap hzap
    | some ap0 =>
      simp only [hap] at h
      have hlp := lookup_name_ptr (done ++ i :: rest) ap0.unique_name
      cases hlk : __kz_zone_lookup_name (done ++ i :: rest) ap0.unique_name with
      | none => simp [hlk] at h
      | some parent =>
        simp only [hlk] at h
        rw [hlk] at hlp
        simp only [Option.map_some'] at hlp
        obtain ⟨h1, h2⟩ := ih _ _ h
        have hp : zone_ptrs ((done ++
            [{ i with admin_parent := some (kz_zone_get parent) }]) ++ rest) =
            zone_ptrs (done ++ i :: rest) :=
          zone_ptrs_append_cons done rest i _ rfl
        rw [hp] at h1 h2
        constructor
        · rw [h1]
          simp [zone_relink, hap, ← hlp]
        · intro z hz ap hzap
          rcases List.mem_cons.mp hz with rfl | hz
          · rw [hap] at hzap
            cases hzap
            exact ⟨_, hlp.symm⟩
          · exact h2 z hz ap hzap

/-- The consolidation loop fails with -EINVAL as soon as the unique name of
some parent is missing from the list. -/
theorem consolidate_fail (todo : List kz_zone) :
    ∀ (done : List kz_zone),
      (∃ z ∈ todo, ∃ ap, z.admin_parent = some ap ∧
        ((zone_ptrs (done ++ todo)).find? fun q => q.unique_name = ap.unique_name) = none) →
      commit_consolidate_zones done todo = .error (-EINVAL) := by
  induction todo with
  | nil => intro done h; simp at h
  | cons i rest ih =>
    intro done h
    unfold commit_consolidate_zones
    cases hap : i.admin_parent with
    | none =>
      simp only []
      apply ih
      rw [zone_ptrs_append_cons done rest i i rfl]
      obtain ⟨z, hz, ap, hzap, hf⟩ := h
      rcases List.mem_cons.mp hz with rfl | hz
      · rw [hap] at hzap; cases hzap
      · exact ⟨z, hz, ap, hzap, hf⟩
    | some ap0 =>
      simp only []
      have hlp := lookup_name_ptr (done ++ i :: rest) ap0.unique_name
      cases hlk : __kz_zone_lookup_name (done ++ i :: rest) ap0.unique_name with
      | none => rfl
      | some parent =>
        simp only []
        rw [hlk] at hlp
        simp only [Option.map_some'] at hlp
        apply ih
        have hp : zone_ptrs ((done ++
            [{ i with admin_parent := some (kz_zone_get parent) }]) ++ rest) =
            zone_ptrs (done ++ i :: rest) :=
          zone_ptrs_append_cons done rest i _ rfl
        rw [hp]
        obtain ⟨z, hz, ap, hzap, hf⟩ := h
        rcases List.mem_cons.mp hz with rfl | hz
        · rw [hap] at hzap
          cases hzap
          rw [hf] at hlp
          cases hlp
        · exact ⟨z, hz, ap, hzap, hf⟩

/-! ## The clone loops -/

theorem clone_services_ok (env : kz_env) (tr : kz_transaction) (l : List kz_service) :
    ∀ (k : Nat) (news locked n lk : List kz_service),
      commit_clone_services env tr k l (news, locked) = (true, n, lk) →
      n = news ++ (services_kept tr l).map
        (fun i => { kz_service_clone i with session_cnt := env.kz_service_lock i }) ∧
      lk = locked ++ services_kept tr l := by
  induction l with
  | nil =>
    intro k news locked n lk h
    simp [commit_clone_services] at h
    simp [services_kept, h.1, h.2]
  | cons i rest ih =>
    intro k news locked n lk h
    unfold commit_clone_services at h
    split at h
    · rename_i hskip
      obtain ⟨h1, h2⟩ := ih _ _ _ _ _ h
      have hf : services_kept tr (i :: rest) = services_kept tr rest := by
        simp [services_kept, List.filter_cons, hskip]
      rw [hf]
      exact ⟨h1, h2⟩
    · rename_i hkeep
      split at h
      · obtain ⟨h1, h2⟩ := ih _ _ _ _ _ h
        have hf : services_kept tr (i :: rest) = i :: services_kept tr rest := by
          simp only [services_kept, List.filter_cons]
          rw [if_pos]
          exact decide_eq_true hkeep
        rw [hf]
        simp only [List.append_assoc, List.singleton_append] at h1 h2
        exact ⟨h1, h2⟩
      · simp at h

theorem clone_zones_ok (env : kz_env) (l : List kz_zone) :
    ∀ (k addr : Nat) (news n : List kz_zone),
      commit_clone_zones env k addr l news = (true, n) →
      n = news ++ clone_zones_from addr l := by
  induction l with
  | nil =>
    intro k addr news n h
    simp [commit_clone_zones] at h
    simp [clone_zones_from, h]
  | cons i rest ih =>
    intro k addr news n h
    unfold commit_clone_zones at h
    split at h
    · have := ih _ _ _ _ h
      simp only [List.append_assoc, List.singleton_append] at this
      simpa [clone_zones_from] using this
    · simp at h

theorem clone_zones_all_ok (env : kz_env) (hok : ∀ k, env.kz_zone_clone_ok k = true)
    (l : List kz_zone) :
    ∀ (k addr : Nat) (news : List kz_zone),
      commit_clone_zones env k addr l news = (true, news ++ clone_zones_from addr l) := by
  induction l with
  | nil => intro k addr news; simp [commit_clone_zones, clone_zones_from]
  | cons i rest ih =>
    intro k addr news
    unfold commit_clone_zones
    simp only [hok, if_true]
    rw [ih]
    simp [clone_zones_from]

theorem staged_services_migrate (env : kz_env) (old : kz_config) (op : List kz_operation) :
    commit_staged_services env old op =
      (staged_services op).map (commit_migrate_service env old) := by
  induction op with
  | nil => rfl
  | cons o rest ih =>
    cases o <;> simp_all [commit_staged_services, staged_services, List.filterMap_cons]

theorem staged_zones_filter_service (op : List kz_operation) :
    commit_staged_zones (op.filter fun io => ¬ op_is_service io) = commit_staged_zones op := by
  induction op with
  | nil => rfl
  | cons o rest ih =>
    cases o <;>
      simp_all [commit_staged_zones, List.filterMap_cons, List.filter_cons, op_is_service]

/-- The snapshot published by a commit that returns 0, loop by loop. -/
theorem commit_success_cfg (env : kz_env) (inst : Option Nat) (st : kz_state)
    (h : (kznl_recv_commit_transaction env inst st).res = 0) :
    (kznl_recv_commit_transaction env inst st).st.kz_config_rcu.services =
      (services_kept st.transaction st.transaction.cfg.services).map
        (fun i => { kz_service_clone i with session_cnt := env.kz_service_lock i }) ++
      (staged_services st.transaction.op).map (commit_migrate_service env st.transaction.cfg) ∧
    commit_consolidate_zones [] (commit_zones_before st) =
      .ok (kznl_recv_commit_transaction env inst st).st.kz_config_rcu.zones := by
  obtain ⟨-, -, cloned, locked0, zcloned, zones, dcloned, hcs, hz, hc, -, hcfg, -, -⟩ :=
    commit_success_shape env inst st h
  rw [hcfg]
  simp only []
  obtain ⟨h1, -⟩ := clone_services_ok env _ _ _ _ _ _ _ hcs
  rw [staged_zones_filter_service] at hc
  constructor
  · rw [h1, staged_services_migrate]
    simp
  · rw [← hc]
    congr 1
    unfold commit_zones_before
    congr 1
    by_cases hfl : st.transaction.flags &&& KZF_TRANSACTION_FLUSH_ZONES ≠ 0
    · rw [if_neg (by simpa using hfl)] at hz
      rw [if_pos hfl]
      simp only [Prod.mk.injEq, true_and] at hz
      exact hz
    · rw [if_pos hfl] at hz
      rw [if_neg hfl]
      have := clone_zones_ok env _ _ _ _ _ hz
      simpa using this.symm

/-! ## The published services -/

theorem migrate_fields (env : kz_env) (old : kz_config) (s : kz_service) :
    { commit_migrate_service env old s with session_cnt := s.session_cnt, id := s.id } = s := by
  unfold commit_migrate_service
  split <;> rfl

/-- C6: after a successful commit the service list of the new snapshot is
exactly the clones (session counter taken from `kz_service_lock`) of the base
services, in base order, for which it is not the case that FlushServices is
set and the service belongs to the transaction's instance, followed by every
staged service (unchanged but for the migrated session counter and id).  With
FlushServices set no carried-over service belongs to the transaction's
instance, and base services of other instances are all carried over. -/
theorem commit_services (env : kz_env) (inst : Option Nat) (st : kz_state)
    (h : (kznl_recv_commit_transaction env inst st).res = 0) :
    (kznl_recv_commit_transaction env inst st).st.kz_config_rcu.services =
      (services_kept st.transaction st.transaction.cfg.services).map
        (fun i => { kz_service_clone i with session_cnt := env.kz_service_lock i }) ++
      (staged_services st.transaction.op).map (commit_migrate_service env st.transaction.cfg) ∧
    (∀ s, { commit_migrate_service env st.transaction.cfg s with
        session_cnt := s.session_cnt, id := s.id } = s) ∧
    (∀ s, s ∈ services_kept st.transaction st.transaction.cfg.services ↔
      (s ∈ st.transaction.cfg.services ∧
        ¬ (has_flag st.transaction KZF_TRANSACTION_FLUSH_SERVICES ∧
          s.instance_id = st.transaction.instance_id))) ∧
    (has_flag st.transaction KZF_TRANSACTION_FLUSH_SERVICES →
      ∀ s ∈ services_kept st.transaction st.transaction.cfg.services,
        s.instance_id ≠ st.transaction.instance_id) ∧
    (∀ s ∈ st.transaction.cfg.services, s.instance_id ≠ st.transaction.instance_id →
      s ∈ services_kept st.transaction st.transaction.cfg.services) := by
  have hmem : ∀ s, s ∈ services_kept st.transaction st.transaction.cfg.services ↔
      (s ∈ st.transaction.cfg.services ∧
        ¬ (has_flag st.transaction KZF_TRANSACTION_FLUSH_SERVICES ∧
          s.instance_id = st.transaction.instance_id)) := by
    intro s
    simp only [services_kept, has_flag, List.mem_filter, decide_eq_true_eq]
  refine ⟨(commit_success_cfg env inst st h).1, migrate_fields env _, hmem, ?_, ?_⟩
  · intro hf s hs heq
    exact ((hmem s).mp hs).2 ⟨hf, heq⟩
  · intro s hs hne
    exact (hmem s).mpr ⟨hs, fun hc => hne hc.2⟩

/-! ## The published zones -/

theorem relink_sans_parent (ptrs : List zone_ptr) (z : kz_zone) :
    zone_sans_parent (zone_relink ptrs z) = zone_sans_parent z := by
  unfold zone_relink
  split
  · rfl
  · split <;> rfl

theorem relink_get (ptrs : List zone_ptr) (z : kz_zone) :
    kz_zone_get (zone_relink ptrs z) = kz_zone_get z := by
  unfold zone_relink
  split
  · rfl
  · split <;> rfl

theorem relink_depth (ptrs : List zone_ptr) (z : kz_zone) :
    (zone_relink ptrs z).depth = z.depth := by
  unfold zone_relink
  split
  · rfl
  · split <;> rfl

theorem relink_unique_name (ptrs : List zone_ptr) (z : kz_zone) :
    (zone_relink ptrs z).unique_name = z.unique_name := by
  unfold zone_relink
  split
  · rfl
  · split <;> rfl

theorem zone_ptrs_relink (ptrs : List zone_ptr) (l : List kz_zone) :
    zone_ptrs (l.map (zone_relink ptrs)) = zone_ptrs l := by
  simp [zone_ptrs, List.map_map, Function.comp_def, relink_get]

/-- The zone list published by a successful commit: every zone handed to the
consolidation loop, relinked against the pointers of that very list. -/
theorem commit_zones_relinked (env : kz_env) (inst : Option Nat) (st : kz_state)
    (h : (kznl_recv_commit_transaction env inst st).res = 0) :
    (kznl_recv_commit_transaction env inst st).st.kz_config_rcu.zones =
      (commit_zones_before st).map (zone_relink (zone_ptrs (commit_zones_before st))) ∧
    ∀ z ∈ commit_zones_before st, ∀ ap, z.admin_parent = some ap →
      ∃ q, ((zone_ptrs (commit_zones_before st)).find?
        fun q => q.unique_name = ap.unique_name) = some q := by
  have hc := (commit_success_cfg env inst st h).2
  have := consolidate_ok _ _ _ hc
  simpa using this

theorem clone_zones_from_zip (l : List kz_zone) :
    ∀ addr : Nat, clone_zones_from addr l =
      List.zipWith (fun (a : Nat) (z : kz_zone) => { z with addr := a }) (List.range' addr l.length) l := by
  induction l with
  | nil => intro addr; rfl
  | cons z rest ih =>
    intro addr
    simp only [clone_zones_from, List.length_cons, List.range'_succ, List.zipWith_cons_cons, ih]
    rfl

theorem mem_staged_zones (op : List kz_operation) (z : kz_zone) :
    z ∈ commit_staged_zones op ↔ kz_operation.KZNL_OP_ZONE z ∈ op := by
  unfold commit_staged_zones
  rw [List.mem_filterMap]
  constructor
  · rintro ⟨o, ho, h⟩
    cases o with
    | KZNL_OP_ZONE zone =>
      simp only [Option.some.injEq] at h
      rw [← h]; exact ho
    | _ => cases h
  · intro h
    exact ⟨_, h, rfl⟩

/-- C7: after a successful commit the zone list of the new snapshot is, up to
the re-resolved parent pointers, the list of the clones of all base zones in
base order (each base zone at a new address, the addresses counting up from
the next unused one) when FlushZones is not set, and holds no clone of a base
zone when it is set, followed in both cases by the zones of the operations of
the transaction that stage a zone, in the order of the operation list. -/
theorem commit_zones (env : kz_env) (inst : Option Nat) (st : kz_state)
    (h : (kznl_recv_commit_transaction env inst st).res = 0) :
    (¬ has_flag st.transaction KZF_TRANSACTION_FLUSH_ZONES →
      (kznl_recv_commit_transaction env inst st).st.kz_config_rcu.zones.map
          (fun z : kz_zone => { z with admin_parent := none }) =
        (List.zipWith (fun (a : Nat) (z : kz_zone) => { z with addr := a })
            (List.range' st.zone_addr_next st.transaction.cfg.zones.length)
            st.transaction.cfg.zones ++
          st.transaction.op.filterMap fun io : kz_operation =>
            match io with
            | .KZNL_OP_ZONE zone => some zone
            | _ => none).map fun z : kz_zone => { z with admin_parent := none }) ∧
    (has_flag st.transaction KZF_TRANSACTION_FLUSH_ZONES →
      (kznl_recv_commit_transaction env inst st).st.kz_config_rcu.zones.map
          (fun z : kz_zone => { z with admin_parent := none }) =
        (st.transaction.op.filterMap fun io : kz_operation =>
            match io with
            | .KZNL_OP_ZONE zone => some zone
            | _ => none).map fun z : kz_zone => { z with admin_parent := none }) ∧
    (∀ z : kz_zone,
      z ∈ (st.transaction.op.filterMap fun io : kz_operation =>
            match io with
            | .KZNL_OP_ZONE zone => some zone
            | _ => none) ↔
        kz_operation.KZNL_OP_ZONE z ∈ st.transaction.op) := by
  have hz := (commit_zones_relinked env inst st h).1
  have hm : (kznl_recv_commit_transaction env inst st).st.kz_config_rcu.zones.map
      (fun z : kz_zone => { z with admin_parent := none }) =
      (commit_zones_before st).map fun z : kz_zone => { z with admin_parent := none } := by
    rw [hz]
    simp only [List.map_map]
    congr 1
    funext z
    exact relink_sans_parent _ z
  refine ⟨?_, ?_, ?_⟩
  · intro hf
    unfold has_flag at hf
    rw [hm]
    unfold commit_zones_before
    rw [if_neg hf, clone_zones_from_zip]
    rfl
  · intro hf
    unfold has_flag at hf
    rw [hm]
    unfold commit_zones_before
    rw [if_pos hf, List.nil_append]
    rfl
  · intro z
    exact mem_staged_zones st.transaction.op z

theorem commit_services_witness :
    (kznl_recv_commit_transaction env_ok (some 0) st_second).res = 0 ∧
    (kznl_recv_commit_transaction env_ok (some 0) st_second).st.kz_config_rcu.services =
      (services_kept st_second.transaction st_second.transaction.cfg.services).map
        (fun i => { kz_service_clone i with session_cnt := env_ok.kz_service_lock i }) ++
      (staged_services st_second.transaction.op).map
        (commit_migrate_service env_ok st_second.transaction.cfg) :=
  ⟨by decide, (commit_services env_ok (some 0) st_second (by decide)).1⟩

theorem commit_zones_witness :
    (kznl_recv_commit_transaction env_ok (some 0) (kz_run run_order st_again)).res = 0 ∧
    ¬ has_flag (kz_run run_order st_again).transaction KZF_TRANSACTION_FLUSH_ZONES ∧
    (kznl_recv_commit_transaction env_ok (some 0)
        (kz_run run_order st_again)).st.kz_config_rcu.zones.map
        (fun z : kz_zone => { z with admin_parent := none }) =
      [mk_zone 4 "b" none 1, mk_zone 5 "a" none 0, mk_zone 3 "e" none 1,
       mk_zone 2 "c" none 0] :=
  ⟨by decide, by unfold has_flag; decide,
    ((commit_zones env_ok (some 0) (kz_run run_order st_again) (by decide)).1
      (by unfold has_flag; decide)).trans (by decide)⟩

theorem clone_services_all_ok (env : kz_env) (tr : kz_transaction)
    (hok : ∀ k, env.kz_service_clone_ok k = true) (l : List kz_service) :
    ∀ (k : Nat) (acc : List kz_service × List kz_service),
      (commit_clone_services env tr k l acc).1 = true := by
  induction l with
  | nil => intro k acc; simp [commit_clone_services]
  | cons i rest ih =>
    intro k acc
    obtain ⟨news, locked⟩ := acc
    unfold commit_clone_services
    split
    · exact ih _ _
    · simp only [hok, if_true]
      exact ih _ _

theorem mem_zone_ptrs_find {l : List kz_zone} {n : String} {q : zone_ptr}
    (h : ((zone_ptrs l).find? fun q => q.unique_name = n) = some q) :
    q.unique_name = n ∧ ∃ p ∈ l, kz_zone_get p = q := by
  have h1 := List.find?_some h
  have h2 := List.mem_of_find?_eq_some h
  simp only [zone_ptrs, List.mem_map] at h2
  exact ⟨by simpa using h1, h2⟩

theorem zone_ptrs_find_none {l : List kz_zone} {n : String}
    (h : ∀ z ∈ l, z.unique_name ≠ n) :
    ((zone_ptrs l).find? fun q => q.unique_name = n) = none := by
  rw [List.find?_eq_none]
  intro q hq
  simp only [zone_ptrs, List.mem_map] at hq
  obtain ⟨z, hz, rfl⟩ := hq
  simpa [kz_zone_get] using h z hz

/-- C8: after a successful commit, position by position, a zone that had no
admin parent before the consolidation has none afterwards, and the admin
parent of any other zone points to a zone of the new snapshot whose unique
name is the unique name its parent had before the commit; in particular every
admin parent of the new snapshot is an element of its own zone list.  And if
all allocations up to the consolidation succeed and the unique name of the
parent of some zone is absent from the new zone list, the commit returns
-EINVAL and the published snapshot stays the one from before. -/
theorem commit_admin_parents (env : kz_env) (inst : Option Nat) (st : kz_state) :
    ((kznl_recv_commit_transaction env inst st).res = 0 →
      (∀ (k : Nat) (z0 : kz_zone), (commit_zones_before st)[k]? = some z0 →
        ∃ z, (kznl_recv_commit_transaction env inst st).st.kz_config_rcu.zones[k]? = some z ∧
          zone_sans_parent z = zone_sans_parent z0 ∧
          (z0.admin_parent = none → z.admin_parent = none) ∧
          (∀ ap, z0.admin_parent = some ap →
            ∃ p ∈ (kznl_recv_commit_transaction env inst st).st.kz_config_rcu.zones,
              z.admin_parent = some (kz_zone_get p) ∧ p.unique_name = ap.unique_name)) ∧
      (∀ z ∈ (kznl_recv_commit_transaction env inst st).st.kz_config_rcu.zones,
        ∀ q, z.admin_parent = some q →
          ∃ p ∈ (kznl_recv_commit_transaction env inst st).st.kz_config_rcu.zones,
            q = kz_zone_get p)) ∧
    (commit_rule_mismatch st.transaction.op = false → env.kz_config_new_ok = true →
      (∀ k, env.kz_service_clone_ok k = true) → (∀ k, env.kz_zone_clone_ok k = true) →
      (∃ z0 ∈ commit_zones_before st, ∃ ap, z0.admin_parent = some ap ∧
        ∀ z ∈ commit_zones_before st, z.unique_name ≠ ap.unique_name) →
      (kznl_recv_commit_transaction env inst st).res = -EINVAL ∧
      (kznl_recv_commit_transaction env inst st).st.kz_config_rcu = st.kz_config_rcu) := by
  constructor
  · intro h
    obtain ⟨hz, hfound⟩ := commit_zones_relinked env inst st h
    have hpos : ∀ (k : Nat) (z0 : kz_zone), (commit_zones_before st)[k]? = some z0 →
        ∃ z, (kznl_recv_commit_transaction env inst st).st.kz_config_rcu.zones[k]? = some z ∧
          zone_sans_parent z = zone_sans_parent z0 ∧
          (z0.admin_parent = none → z.admin_parent = none) ∧
          (∀ ap, z0.admin_parent = some ap →
            ∃ p ∈ (kznl_recv_commit_transaction env inst st).st.kz_config_rcu.zones,
              z.admin_parent = some (kz_zone_get p) ∧ p.unique_name = ap.unique_name) := by
      intro k z0 hk
      refine ⟨zone_relink (zone_ptrs (commit_zones_before st)) z0, ?_, relink_sans_parent _ _,
        ?_, ?_⟩
      · rw [hz, List.getElem?_map, hk]; rfl
      · intro hn
        simp [zone_relink, hn]
      · intro ap hap
        obtain ⟨q, hq⟩ := hfound z0 (List.mem_iff_getElem?.mpr ⟨k, hk⟩) ap hap
        obtain ⟨hqn, p0, hp0, hp0q⟩ := mem_zone_ptrs_find hq
        refine ⟨zone_relink (zone_ptrs (commit_zones_before st)) p0, ?_, ?_, ?_⟩
        · rw [hz]; exact List.mem_map_of_mem _ hp0
        · rw [relink_get, hp0q]
          simp [zone_relink, hap, hq]
        · rw [relink_unique_name]
          rw [← hqn, ← hp0q]
          rfl
    refine ⟨hpos, ?_⟩
    intro z hzmem q hq
    rw [hz] at hzmem
    obtain ⟨z0, hz0, rfl⟩ := List.mem_map.mp hzmem
    obtain ⟨k, hk⟩ := List.mem_iff_getElem?.mp hz0
    obtain ⟨z1, hz1, -, hnone, hsome⟩ := hpos k z0 hk
    have hz1eq : z1 = zone_relink (zone_ptrs (commit_zones_before st)) z0 := by
      rw [hz, List.getElem?_map, hk] at hz1
      simpa using hz1.symm
    subst hz1eq
    cases hap : z0.admin_parent with
    | none => rw [hnone hap] at hq; cases hq
    | some ap =>
      obtain ⟨p, hp, hpp, -⟩ := hsome ap hap
      rw [hpp] at hq
      cases hq
      exact ⟨p, hp, rfl⟩
  · intro hm hn hsok hzok hbad
    obtain ⟨z0, hz0, ap, hap, hmiss⟩ := hbad
    have hfail : commit_consolidate_zones [] (commit_zones_before st) = .error (-EINVAL) := by
      apply consolidate_fail
      exact ⟨z0, hz0, ap, hap, by simpa using zone_ptrs_find_none hmiss⟩
    have hcases := commit_cases env inst st
    have hres : (kznl_recv_commit_transaction env inst st).res = -EINVAL := by
      unfold kznl_recv_commit_transaction
      simp only [hm, hn, Bool.false_eq_true, if_false, not_true_eq_false]
      have hs1 := clone_services_all_ok env st.transaction hsok st.transaction.cfg.services 0
        ([], [])
      cases hcs : commit_clone_services env st.transaction 0 st.transaction.cfg.services
        ([], []) with
      | mk b rest =>
        rw [hcs] at hs1
        simp only at hs1
        subst hs1
        obtain ⟨cloned, locked0⟩ := rest
        simp only []
        have hzc : (if ¬ (st.transaction.flags &&& KZF_TRANSACTION_FLUSH_ZONES ≠ 0) then
            commit_clone_zones env 0 st.zone_addr_next st.transaction.cfg.zones []
          else (true, [])) =
          (true, if st.transaction.flags &&& KZF_TRANSACTION_FLUSH_ZONES ≠ 0 then []
            else clone_zones_from st.zone_addr_next st.transaction.cfg.zones) := by
          by_cases hfl : st.transaction.flags &&& KZF_TRANSACTION_FLUSH_ZONES ≠ 0
          · rw [if_neg (by simpa using hfl), if_pos hfl]
          · rw [if_pos hfl, if_neg hfl, clone_zones_all_ok env hzok]
            simp
        rw [hzc]
        simp only []
        rw [staged_zones_filter_service]
        have hfail2 := hfail
        unfold commit_zones_before at hfail2
        rw [hfail2]
        simp [commit_error]
    refine ⟨hres, ?_⟩
    rcases hcases with ⟨h0, -⟩ | ⟨-, hc⟩
    · rw [hres] at h0
      simp [EINVAL] at h0
    · exact hc

theorem commit_admin_parents_witness :
    (kznl_recv_commit_transaction env_ok (some 0) st_second).res = 0 ∧
    (∀ z ∈ (kznl_recv_commit_transaction env_ok (some 0) st_second).st.kz_config_rcu.zones,
      ∀ q, z.admin_parent = some q →
        ∃ p ∈ (kznl_recv_commit_transaction env_ok (some 0) st_second).st.kz_config_rcu.zones,
          q = kz_zone_get p) ∧
    (kznl_recv_commit_transaction env_ok (some 0) st_orphan).res = -EINVAL ∧
    (kznl_recv_commit_transaction env_ok (some 0) st_orphan).st.kz_config_rcu =
      st_orphan.kz_config_rcu :=
  ⟨by decide,
   ((commit_admin_parents env_ok (some 0) st_second).1 (by decide)).2,
   (commit_admin_parents env_ok (some 0) st_orphan).2 (by decide) rfl (fun _ => rfl)
     (fun _ => rfl) (by decide)⟩

/-! ## Session counters -/

theorem service_lookup_name_some {cfg : kz_config} {n : String} {s : kz_service}
    (h : kz_service_lookup_name cfg n = some s) : s.name = n ∧ s ∈ cfg.services := by
  unfold kz_service_lookup_name at h
  exact ⟨by simpa using List.find?_some h, List.mem_of_find?_eq_some h⟩

theorem service_lookup_name_none {cfg : kz_config} {n : String}
    (h : ∀ b ∈ cfg.services, b.name ≠ n) : kz_service_lookup_name cfg n = none := by
  unfold kz_service_lookup_name
  rw [List.find?_eq_none]
  intro b hb
  simpa using h b hb

theorem add_service_switch_count (attrs : add_service_attrs) (svc r : kz_service)
    (h : add_service_switch attrs svc = .ok r) : r.session_cnt = svc.session_cnt := by
  unfold add_service_switch at h
  repeat' split at h
  all_goals (cases h <;> rfl)

theorem add_service_fill_count (mem : Nat → Bool) (attrs : add_service_attrs) (a : String)
    (svc r : kz_service) (c : Nat) (h : add_service_fill mem attrs a svc = .ok r)
    (hc : attrs.KZNL_ATTR_SERVICE_SESSION_CNT = some c) : r.session_cnt = c := by
  unfold add_service_fill at h
  split at h
  · cases h
  · simp only [hc] at h
    rw [add_service_switch_count _ _ _ h]

theorem add_service_parse_count (mem : Nat → Bool) (id : Nat) (attrs : add_service_attrs)
    (svc : kz_service) (c : Nat)
    (h : kznl_recv_add_service_parse mem id attrs = .ok svc)
    (hc : attrs.KZNL_ATTR_SERVICE_SESSION_CNT = some c) : svc.session_cnt = c := by
  unfold kznl_recv_add_service_parse at h
  split at h
  · split at h
    · cases h
    · split at h
      · cases h
      · dsimp only at h
        split_ifs at h
        exact add_service_fill_count _ _ _ _ _ _ h hc
  · cases h

/-- C10: in the snapshot built by a successful commit, every service whose
name is the name of a base service has as session counter the value
`kz_service_lock` returned for a base service of that name: the base service
it was cloned from, or, for a staged service, the base service that
`kz_service_lookup_name` finds, whatever count the AddService payload had put
into the staged service; a staged service with no same-named base service is
published as it was staged. -/
theorem commit_session_counts (env : kz_env) (inst : Option Nat) (st : kz_state)
    (h : (kznl_recv_commit_transaction env inst st).res = 0) :
    (∀ s ∈ (kznl_recv_commit_transaction env inst st).st.kz_config_rcu.services,
      (∃ b ∈ st.transaction.cfg.services, b.name = s.name) →
      ∃ b ∈ st.transaction.cfg.services, b.name = s.name ∧
        s.session_cnt = env.kz_service_lock b) ∧
    (∀ i ∈ services_kept st.transaction st.transaction.cfg.services,
      ∃ s ∈ (kznl_recv_commit_transaction env inst st).st.kz_config_rcu.services,
        s.name = i.name ∧ s.session_cnt = env.kz_service_lock i) ∧
    (∀ svc ∈ staged_services st.transaction.op, ∀ orig,
      kz_service_lookup_name st.transaction.cfg svc.name = some orig →
      ∃ s ∈ (kznl_recv_commit_transaction env inst st).st.kz_config_rcu.services,
        s.name = svc.name ∧ s.session_cnt = env.kz_service_lock orig) ∧
    (∀ svc ∈ staged_services st.transaction.op,
      (∀ b ∈ st.transaction.cfg.services, b.name ≠ svc.name) →
      svc ∈ (kznl_recv_commit_transaction env inst st).st.kz_config_rcu.services) ∧
    (∀ (mem : Nat → Bool) (id : Nat) (attrs : add_service_attrs) (svc : kz_service) (c : Nat),
      kznl_recv_add_service_parse mem id attrs = .ok svc →
      attrs.KZNL_ATTR_SERVICE_SESSION_CNT = some c → svc.session_cnt = c) := by
  have hs := (commit_success_cfg env inst st h).1
  refine ⟨?_, ?_, ?_, ?_, add_service_parse_count⟩
  · intro s hmem hex
    rw [hs, List.mem_append] at hmem
    rcases hmem with hmem | hmem
    · obtain ⟨i, hi, rfl⟩ := List.mem_map.mp hmem
      have hib : i ∈ st.transaction.cfg.services := by
        simp only [services_kept, List.mem_filter] at hi
        exact hi.1
      exact ⟨i, hib, rfl, rfl⟩
    · obtain ⟨svc, -, rfl⟩ := List.mem_map.mp hmem
      cases hlk : kz_service_lookup_name st.transaction.cfg svc.name with
      | some orig =>
        obtain ⟨hn, hm⟩ := service_lookup_name_some hlk
        refine ⟨orig, hm, ?_, ?_⟩ <;> simp [commit_migrate_service, hlk, hn]
      | none =>
        exfalso
        obtain ⟨b, hb, hbn⟩ := hex
        have hsn : (commit_migrate_service env st.transaction.cfg svc).name = svc.name := by
          simp [commit_migrate_service, hlk]
        rw [hsn] at hbn
        unfold kz_service_lookup_name at hlk
        rw [List.find?_eq_none] at hlk
        exact hlk b hb (by simpa using hbn)
  · intro i hi
    refine ⟨{ kz_service_clone i with session_cnt := env.kz_service_lock i }, ?_, rfl, rfl⟩
    rw [hs, List.mem_append]
    left
    exact List.mem_map.mpr ⟨i, hi, rfl⟩
  · intro svc hsvc orig hlk
    refine ⟨commit_migrate_service env st.transaction.cfg svc, ?_, ?_, ?_⟩
    · rw [hs, List.mem_append]
      right
      exact List.mem_map_of_mem _ hsvc
    · simp [commit_migrate_service, hlk]
    · simp [commit_migrate_service, hlk]
  · intro svc hsvc hno
    rw [hs, List.mem_append]
    right
    refine List.mem_map.mpr ⟨svc, hsvc, ?_⟩
    simp [commit_migrate_service, service_lookup_name_none hno]

theorem commit_session_counts_witness :
    (kznl_recv_commit_transaction env_ok (some 0) st_second).res = 0 ∧
    (∀ s ∈ (kznl_recv_commit_transaction env_ok (some 0) st_second).st.kz_config_rcu.services,
      (∃ b ∈ st_second.transaction.cfg.services, b.name = s.name) →
      ∃ b ∈ st_second.transaction.cfg.services, b.name = s.name ∧
        s.session_cnt = env_ok.kz_service_lock b) :=
  ⟨by decide, (commit_session_counts env_ok (some 0) st_second (by decide)).1⟩

/-! ## The zone hierarchy -/

theorem zone_eq_of_name {l : List kz_zone} (hn : (l.map fun z => z.unique_name).Nodup)
    {p q : kz_zone} (hp : p ∈ l) (hq : q ∈ l) (h : p.unique_name = q.unique_name) : p = q :=
  List.inj_on_of_nodup_map hn hp hq h

/-- With pairwise distinct unique names, the depth law makes the parent
relation a forest. -/
theorem forest_of_depth_ok {l : List kz_zone} (hn : (l.map fun z => z.unique_name).Nodup)
    (hd : depth_ok l) : zone_forest l := by
  have hstep : ∀ z p, zone_parent l z p → p.depth < z.depth := by
    intro z p hzp
    obtain ⟨hz, hp, hap⟩ := hzp
    have := hd z hz
    rw [hap] at this
    simp only at this
    obtain ⟨p1, hp1, hget, hdep⟩ := this
    have hname : p.unique_name = p1.unique_name := by
      have := congrArg zone_ptr.unique_name hget
      simpa [kz_zone_get] using this
    have := zone_eq_of_name hn hp hp1 hname
    subst this
    omega
  constructor
  · intro z p q hzp hzq
    obtain ⟨-, hp, hap⟩ := hzp
    obtain ⟨-, hq, haq⟩ := hzq
    rw [hap] at haq
    simp only [Option.some.injEq] at haq
    have hname : p.unique_name = q.unique_name := by
      have := congrArg zone_ptr.unique_name haq
      simpa [kz_zone_get] using this
    exact zone_eq_of_name hn hp hq hname
  · intro z hcyc
    have hlt : ∀ a b, Relation.TransGen (zone_parent l) a b → b.depth < a.depth := by
      intro a b hab
      induction hab with
      | single h => exact hstep _ _ h
      | tail _ h ih => have := hstep _ _ h; omega
    have := hlt z z hcyc
    omega

/-- The depth law after relinking: if every zone of the list handed to the
consolidation loop obeys the law with respect to a source list with distinct
unique names, and the list repeats the (unique name, depth) pairs of the
source, then the relinked list obeys the law with respect to itself. -/
theorem relinked_depth_ok (zones0 src : List kz_zone)
    (hn : (src.map fun z => z.unique_name).Nodup)
    (hkeys : ∀ z0 ∈ zones0, ∃ p1 ∈ src, p1.unique_name = z0.unique_name ∧ p1.depth = z0.depth)
    (hok : ∀ z0 ∈ zones0,
      match z0.admin_parent with
      | none => z0.depth = 0
      | some ap => ∃ p ∈ src, ap = kz_zone_get p ∧ z0.depth = p.depth + 1)
    (hfound : ∀ z ∈ zones0, ∀ ap, z.admin_parent = some ap →
      ∃ q, ((zone_ptrs zones0).find? fun q => q.unique_name = ap.unique_name) = some q) :
    depth_ok (zones0.map (zone_relink (zone_ptrs zones0))) := by
  intro z hz
  obtain ⟨z0, hz0, rfl⟩ := List.mem_map.mp hz
  have hz0ok := hok z0 hz0
  cases hap : z0.admin_parent with
  | none =>
    rw [hap] at hz0ok
    simp only at hz0ok
    have : (zone_relink (zone_ptrs zones0) z0).admin_parent = none := by
      simp [zone_relink, hap]
    rw [this]
    simp only
    rw [relink_depth]
    exact hz0ok
  | some ap =>
    rw [hap] at hz0ok
    simp only at hz0ok
    obtain ⟨p, hp, hget, hdep⟩ := hz0ok
    obtain ⟨q, hq⟩ := hfound z0 hz0 ap hap
    obtain ⟨hqn, p0, hp0, hp0q⟩ := mem_zone_ptrs_find hq
    have : (zone_relink (zone_ptrs zones0) z0).admin_parent = some q := by
      simp [zone_relink, hap, hq]
    rw [this]
    simp only
    refine ⟨zone_relink (zone_ptrs zones0) p0, List.mem_map_of_mem _ hp0, ?_, ?_⟩
    · rw [relink_get, hp0q]
    · rw [relink_depth, relink_depth, hdep]
      obtain ⟨p1, hp1, hp1n, hp1d⟩ := hkeys p0 hp0
      have hname : p1.unique_name = p.unique_name := by
        rw [hp1n]
        have h1 : p0.unique_name = q.unique_name := by rw [← hp0q]; rfl
        have h2 : ap.unique_name = p.unique_name := by rw [hget]; rfl
        rw [h1, hqn, h2]
      have := zone_eq_of_name hn hp1 hp hname
      subst this
      omega

/-! ## AddZone and the merged view -/

theorem transaction_zone_lookup_eq (tr : kz_transaction) (name : String) :
    transaction_zone_lookup tr name =
      (commit_staged_zones tr.op).find? fun z => z.unique_name = name := by
  unfold transaction_zone_lookup commit_staged_zones
  induction tr.op with
  | nil => rfl
  | cons o rest ih =>
    cases o with
    | KZNL_OP_ZONE z =>
      simp only [List.findSome?_cons, List.filterMap_cons, List.find?_cons]
      by_cases hz : z.unique_name = name
      · simp [hz]
      · simp [hz, ih]
    | KZNL_OP_SERVICE s => simpa [List.findSome?_cons, List.filterMap_cons] using ih
    | KZNL_OP_DISPATCHER d => simpa [List.findSome?_cons, List.filterMap_cons] using ih
    | KZNL_OP_BIND b => simpa [List.findSome?_cons, List.filterMap_cons] using ih

theorem lookup_zone_merged_eq (tr : kz_transaction) (name : String) :
    lookup_zone_merged tr name = (merged_zones tr).find? fun z => z.unique_name = name := by
  unfold lookup_zone_merged merged_zones visible_zones
  rw [transaction_zone_lookup_eq, List.find?_append]
  cases hs : (commit_staged_zones tr.op).find? fun z => z.unique_name = name with
  | some z => simp
  | none =>
    simp only [Option.none_or]
    by_cases hfl : tr.flags &&& KZF_TRANSACTION_FLUSH_ZONES ≠ 0
    · rw [if_neg (not_not.mpr hfl), if_pos hfl]
      rfl
    · rw [if_pos hfl, if_neg hfl]
      rfl

theorem add_zone_parse_root (mem : Nat → Bool) (addr : Nat) (attrs : add_zone_attrs)
    (zone : kz_zone) (pn : Option String)
    (h : kznl_recv_add_zone_parse mem addr attrs = .ok (zone, pn)) :
    zone.admin_parent = none ∧ zone.depth = 0 := by
  unfold kznl_recv_add_zone_parse at h
  split at h
  · cases h
  · split at h
    · cases h
    · simp only [bind, Except.bind, pure, Except.pure] at h
      repeat' split at h
      all_goals (cases h <;> exact ⟨rfl, rfl⟩)

/-- What an AddZone message does: nothing, or it links one zone at the head of
the operation list; the zone has a unique name absent from the merged view and
is a root of depth 0 or the child of a zone of the merged view. -/
theorem add_zone_cases (mem : Nat → Bool) (pid : Nat) (attrs : add_zone_attrs) (st : kz_state) :
    (kznl_recv_add_zone mem pid attrs st).2 = st ∨
    ∃ zone,
      (kznl_recv_add_zone mem pid attrs st).2 =
        { st with
          transaction := { st.transaction with op := .KZNL_OP_ZONE zone :: st.transaction.op },
          zone_addr_next := st.zone_addr_next + 1 } ∧
      lookup_zone_merged st.transaction zone.unique_name = none ∧
      ((zone.admin_parent = none ∧ zone.depth = 0) ∨
        ∃ pn p, lookup_zone_merged st.transaction pn = some p ∧
          zone.admin_parent = some (kz_zone_get p) ∧
          zone.depth = (p.depth + 1) % 4294967296) := by
  unfold kznl_recv_add_zone
  cases hparse : kznl_recv_add_zone_parse mem st.zone_addr_next attrs with
  | error e => left; rfl
  | ok r =>
    obtain ⟨zone, parent_name⟩ := r
    obtain ⟨hroot, hdepth⟩ := add_zone_parse_root _ _ _ _ _ hparse
    simp only []
    cases hl : transaction_lookup st pid with
    | none => left; rfl
    | some tr =>
      obtain ⟨rfl, -, -⟩ := transaction_lookup_some hl
      simp only []
      cases hm : lookup_zone_merged st.transaction zone.unique_name with
      | some z => left; rfl
      | none =>
        simp only []
        cases parent_name with
        | none =>
          simp only [transaction_add_op]
          by_cases hmem : mem 4 = true
          · right
            refine ⟨zone, ?_, hm, Or.inl ⟨hroot, hdepth⟩⟩
            simp [hmem]
          · left
            simp [hmem, ENOMEM]
        | some pn =>
          simp only []
          cases hp : lookup_zone_merged st.transaction pn with
          | none => left; rfl
          | some par =>
            simp only [transaction_add_op]
            by_cases hmem : mem 4 = true
            · right
              refine ⟨{ zone with admin_parent := some (kz_zone_get par),
                                  depth := (par.depth + 1) % 4294967296 }, ?_, hm,
                Or.inr ⟨pn, par, hp, rfl, rfl⟩⟩
              simp [hmem]
            · left
              simp [hmem, ENOMEM]

theorem staged_zones_cons_zone (zone : kz_zone) (op : List kz_operation) :
    commit_staged_zones (.KZNL_OP_ZONE zone :: op) = zone :: commit_staged_zones op := by
  simp [commit_staged_zones, List.filterMap_cons]

theorem find_name_none {l : List kz_zone} {n : String}
    (h : (l.find? fun z => z.unique_name = n) = none) : n ∉ l.map fun z => z.unique_name := by
  rw [List.find?_eq_none] at h
  intro hmem
  obtain ⟨z, hz, hzn⟩ := List.mem_map.mp hmem
  exact h z hz (by simpa using hzn)

theorem find_name_some {l : List kz_zone} {n : String} {p : kz_zone}
    (h : (l.find? fun z => z.unique_name = n) = some p) : p ∈ l ∧ p.unique_name = n :=
  ⟨List.mem_of_find?_eq_some h, by simpa using List.find?_some h⟩

/-- One AddZone message keeps the staged zones in order. -/
theorem staged_zones_ok_add (mem : Nat → Bool) (pid : Nat) (attrs : add_zone_attrs)
    (st : kz_state) (n : Nat) (h : staged_zones_ok st.transaction (n + 1)) :
    staged_zones_ok (kznl_recv_add_zone mem pid attrs st).2.transaction n ∧
    (kznl_recv_add_zone mem pid attrs st).2.transaction.flags = st.transaction.flags := by
  obtain ⟨hnd, hok, hn, hwrap⟩ := h
  rcases add_zone_cases mem pid attrs st with hsame | ⟨zone, hst, hnew, hlink⟩
  · rw [hsame]
    refine ⟨⟨hnd, hok, by omega, ?_⟩, rfl⟩
    intro z hz
    have := hwrap z hz
    omega
  · rw [hst]
    simp only []
    have hmz : merged_zones { st.transaction with
        op := .KZNL_OP_ZONE zone :: st.transaction.op } = zone :: merged_zones st.transaction := by
      simp [merged_zones, visible_zones, staged_zones_cons_zone]
    rw [lookup_zone_merged_eq] at hnew
    have hfresh := find_name_none hnew
    have hzd : (zone.admin_parent = none ∧ zone.depth = 0) ∨
        ∃ p ∈ merged_zones st.transaction, zone.admin_parent = some (kz_zone_get p) ∧
          zone.depth = p.depth + 1 := by
      rcases hlink with hr | ⟨pn, p, hp, hap, hd⟩
      · exact Or.inl hr
      · right
        rw [lookup_zone_merged_eq] at hp
        obtain ⟨hpm, -⟩ := find_name_some hp
        have := hwrap p hpm
        refine ⟨p, hpm, hap, ?_⟩
        rw [hd, Nat.mod_eq_of_lt]
        omega
    refine ⟨⟨?_, ?_, by omega, ?_⟩, trivial⟩
    · rw [hmz, List.map_cons, List.nodup_cons]
      exact ⟨hfresh, hnd⟩
    · rw [hmz]
      simp only [staged_zones_cons_zone]
      intro z hz
      rcases List.mem_cons.mp hz with rfl | hz
      · rcases hzd with ⟨h1, h2⟩ | ⟨p, hp, h1, h2⟩
        · rw [h1]; exact h2
        · rw [h1]
          exact ⟨p, List.mem_cons_of_mem _ hp, rfl, h2⟩
      · have := hok z hz
        cases hap : z.admin_parent with
        | none => rw [hap] at this; exact this
        | some ap =>
          rw [hap] at this
          obtain ⟨p, hp, h1, h2⟩ := this
          exact ⟨p, List.mem_cons_of_mem _ hp, h1, h2⟩
    · rw [hmz]
      intro z hz
      rcases List.mem_cons.mp hz with rfl | hz
      · rcases hzd with ⟨-, h2⟩ | ⟨p, hp, -, h2⟩
        · omega
        · have := hwrap p hp
          omega
      · have := hwrap z hz
        omega

theorem staged_zones_ok_run (adds : List kz_event) :
    ∀ st : kz_state, (∀ e ∈ adds, e.is_add_zone = true) →
      staged_zones_ok st.transaction adds.length →
      staged_zones_ok (kz_run adds st).transaction 0 ∧ kz_frame st (kz_run adds st) ∧
      (kz_run adds st).transaction.flags = st.transaction.flags := by
  induction adds with
  | nil =>
    intro st _ h
    exact ⟨h, kz_frame_refl st, rfl⟩
  | cons e rest ih =>
    intro st hall h
    have he := hall e (List.mem_cons_self _ _)
    have hrest : ∀ x ∈ rest, x.is_add_zone = true :=
      fun x hx => hall x (List.mem_cons_of_mem _ hx)
    cases e with
    | add_zone mem pid attrs =>
      simp only [kz_run, List.foldl_cons, kz_step]
      have hstep := staged_zones_ok_add mem pid attrs st rest.length h
      have hfr := add_zone_frame mem pid attrs st
      obtain ⟨h1, h2, h3⟩ := ih _ hrest hstep.1
      refine ⟨h1, ?_, ?_⟩
      · obtain ⟨a1, a2, a3, a4, a5, a6⟩ := hfr
        obtain ⟨b1, b2, b3, b4, b5, b6⟩ := h2
        exact ⟨b1.trans a1, b2.trans a2, b3.trans a3, b4.trans a4, b5.trans a5, b6.trans a6⟩
      · exact h3.trans hstep.2
    | _ => simp [kz_event.is_add_zone] at he

theorem setflag_op (pid flag : Nat) (st : kz_state) :
    (kznl_recv_setflag pid flag st).2.transaction.op = st.transaction.op := by
  unfold kznl_recv_setflag
  split
  · rfl
  · rename_i tr h
    obtain ⟨rfl, -, -⟩ := transaction_lookup_some h
    rfl

theorem flush_run (flushes : List kz_event) :
    ∀ st : kz_state, (∀ e ∈ flushes, e.is_flush = true) →
      kz_frame st (kz_run flushes st) ∧
      (kz_run flushes st).transaction.op = st.transaction.op := by
  induction flushes with
  | nil => intro st _; exact ⟨kz_frame_refl st, rfl⟩
  | cons e rest ih =>
    intro st hall
    have he := hall e (List.mem_cons_self _ _)
    have hrest : ∀ x ∈ rest, x.is_flush = true :=
      fun x hx => hall x (List.mem_cons_of_mem _ hx)
    have key : ∀ (pid flag : Nat),
        kz_frame st (kz_run rest (kznl_recv_setflag pid flag st).2) ∧
        (kz_run rest (kznl_recv_setflag pid flag st).2).transaction.op = st.transaction.op := by
      intro pid flag
      obtain ⟨h2, h3⟩ := ih (kznl_recv_setflag pid flag st).2 hrest
      obtain ⟨a1, a2, a3, a4, a5, a6⟩ := setflag_frame pid flag st
      obtain ⟨b1, b2, b3, b4, b5, b6⟩ := h2
      exact ⟨⟨b1.trans a1, b2.trans a2, b3.trans a3, b4.trans a4, b5.trans a5, b6.trans a6⟩,
        h3.trans (setflag_op pid flag st)⟩
    cases e with
    | flush_z pid => exact key pid _
    | flush_s pid => exact key pid _
    | flush_d pid => exact key pid _
    | flush_b pid => exact key pid _
    | _ => simp [kz_event.is_flush] at he

theorem kz_run_append (es fs : List kz_event) (st : kz_state) :
    kz_run (es ++ fs) st = kz_run fs (kz_run es st) := by
  simp [kz_run, List.foldl_append]

/-- The state a Start that returns 0 leaves. -/
theorem start_zero (mem : Nat → Bool) (pid : Nat) (attrs : start_attrs) (st : kz_state)
    (h : (kznl_recv_start mem pid attrs st).1 = 0) :
    ∃ cookie ins instances,
      (kznl_recv_start mem pid attrs st).2 = started st pid cookie ins instances := by
  rcases start_result mem pid attrs st with he | ⟨a, ha, hp, hl⟩
  · rw [he] at h
    simp [EINVAL] at h
  · rw [start_cases mem pid attrs st a ha hp hl] at h ⊢
    cases hs : start_instance mem st.kz_instances a with
    | none => rw [hs] at h; simp [EINVAL] at h
    | some r =>
      obtain ⟨ins, instances⟩ := r
      rw [hs] at h
      simp only [] at h ⊢
      split at h
      · simp [EEXIST] at h
      split at h
      · simp [EINVAL] at h
      rename_i h1 h2
      rw [if_neg h1, if_neg h2]
      exact ⟨_, _, _, rfl⟩

theorem clone_zones_from_mem {l : List kz_zone} :
    ∀ {addr : Nat} {z0 : kz_zone}, z0 ∈ clone_zones_from addr l →
      ∃ b ∈ l, ∃ a, z0 = kz_zone_clone a b := by
  induction l with
  | nil => intro addr z0 h; simp [clone_zones_from] at h
  | cons x rest ih =>
    intro addr z0 h
    simp only [clone_zones_from, List.mem_cons] at h
    rcases h with rfl | h
    · exact ⟨x, List.mem_cons_self _ _, addr, rfl⟩
    · obtain ⟨b, hb, a, ha⟩ := ih h
      exact ⟨b, List.mem_cons_of_mem _ hb, a, ha⟩

theorem clone_zones_from_names (l : List kz_zone) :
    ∀ addr : Nat, ((clone_zones_from addr l).map fun z => z.unique_name) =
      l.map fun z => z.unique_name := by
  induction l with
  | nil => intro addr; rfl
  | cons x rest ih => intro addr; simp [clone_zones_from, kz_zone_clone, ih]

/-- The depth law and the forest shape of the zones published by a successful
commit of a transaction whose staged zones are in order. -/
theorem commit_depth_of_staged_ok (env : kz_env) (inst : Option Nat) (st : kz_state)
    (hst : staged_zones_ok st.transaction 0)
    (hbase : depth_ok st.transaction.cfg.zones)
    (h : (kznl_recv_commit_transaction env inst st).res = 0) :
    depth_ok (kznl_recv_commit_transaction env inst st).st.kz_config_rcu.zones ∧
    zone_forest (kznl_recv_commit_transaction env inst st).st.kz_config_rcu.zones ∧
    ((kznl_recv_commit_transaction env inst st).st.kz_config_rcu.zones.map
      fun z => z.unique_name).Nodup := by
  obtain ⟨hnd, hok, -, -⟩ := hst
  obtain ⟨hz, hfound⟩ := commit_zones_relinked env inst st h
  have hnames : ((commit_zones_before st).map fun z => z.unique_name) =
      (visible_zones st.transaction).map (fun z => z.unique_name) ++
        (commit_staged_zones st.transaction.op).map fun z => z.unique_name := by
    unfold commit_zones_before visible_zones
    by_cases hfl : st.transaction.flags &&& KZF_TRANSACTION_FLUSH_ZONES ≠ 0
    · simp [hfl]
    · simp [hfl, clone_zones_from_names]
  have hnd0 : ((commit_zones_before st).map fun z => z.unique_name).Nodup := by
    rw [hnames]
    have := hnd
    simp only [merged_zones, List.map_append] at this
    exact List.nodup_append_comm.mp this
  have hmem0 : ∀ z0 ∈ commit_zones_before st,
      z0 ∈ commit_staged_zones st.transaction.op ∨
      (¬ (st.transaction.flags &&& KZF_TRANSACTION_FLUSH_ZONES ≠ 0) ∧
        ∃ b ∈ st.transaction.cfg.zones, ∃ a, z0 = kz_zone_clone a b) := by
    intro z0 hz0
    unfold commit_zones_before at hz0
    rcases List.mem_append.mp hz0 with hc | hs
    · right
      by_cases hfl : st.transaction.flags &&& KZF_TRANSACTION_FLUSH_ZONES ≠ 0
      · rw [if_pos hfl] at hc
        simp at hc
      · rw [if_neg hfl] at hc
        exact ⟨hfl, clone_zones_from_mem hc⟩
    · left; exact hs
  have hvis : ¬ (st.transaction.flags &&& KZF_TRANSACTION_FLUSH_ZONES ≠ 0) →
      ∀ b ∈ st.transaction.cfg.zones, b ∈ merged_zones st.transaction := by
    intro hfl b hb
    unfold merged_zones visible_zones
    rw [if_neg hfl]
    exact List.mem_append_right _ hb
  have hdep : depth_ok (kznl_recv_commit_transaction env inst st).st.kz_config_rcu.zones := by
    rw [hz]
    apply relinked_depth_ok _ (merged_zones st.transaction) hnd
    · intro z0 hz0
      rcases hmem0 z0 hz0 with hs | ⟨hfl, b, hb, a, rfl⟩
      · exact ⟨z0, List.mem_append_left _ hs, rfl, rfl⟩
      · exact ⟨b, hvis hfl b hb, rfl, rfl⟩
    · intro z0 hz0
      rcases hmem0 z0 hz0 with hs | ⟨hfl, b, hb, a, rfl⟩
      · exact hok z0 hs
      · have hbok := hbase b hb
        simp only [kz_zone_clone]
        cases hap : b.admin_parent with
        | none => rw [hap] at hbok; exact hbok
        | some ap =>
          rw [hap] at hbok
          obtain ⟨p, hp, h1, h2⟩ := hbok
          exact ⟨p, hvis hfl p hp, h1, h2⟩
    · exact hfound
  have hndnew : ((kznl_recv_commit_transaction env inst st).st.kz_config_rcu.zones.map
      fun z => z.unique_name).Nodup := by
    rw [hz]
    simp only [List.map_map, Function.comp_def, relink_unique_name]
    exact hnd0
  exact ⟨hdep, forest_of_depth_ok hndnew hdep, hndnew⟩

theorem commit_handler_result (env : kz_env) (p : Nat) (st : kz_state)
    (hl : transaction_lookup st p ≠ none) :
    (kznl_recv_commit env p st).1 =
      (kznl_recv_commit_transaction env
        (kz_instance_lookup_id st.kz_instances st.transaction.instance_id) st).res ∧
    (kznl_recv_commit env p st).2.kz_config_rcu =
      (kznl_recv_commit_transaction env
        (kz_instance_lookup_id st.kz_instances st.transaction.instance_id) st).st.kz_config_rcu := by
  cases h : transaction_lookup st p with
  | none => exact absurd h hl
  | some tr =>
    obtain ⟨rfl, -, -⟩ := transaction_lookup_some h
    unfold kznl_recv_commit
    simp only [h, transaction_destroy]
    cases kz_instance_lookup_id st.kz_instances st.transaction.instance_id <;> simp

theorem kz_frame_trans {st st1 st2 : kz_state} (h1 : kz_frame st st1) (h2 : kz_frame st1 st2) :
    kz_frame st st2 := by
  unfold kz_frame at h1 h2 ⊢
  refine ⟨?_, ?_, ?_, ?_, ?_, ?_⟩
  · rw [h2.1, h1.1]
  · rw [h2.2.1, h1.2.1]
  · rw [h2.2.2.1, h1.2.2.1]
  · rw [h2.2.2.2.1, h1.2.2.2.1]
  · rw [h2.2.2.2.2.1, h1.2.2.2.2.1]
  · rw [h2.2.2.2.2.2, h1.2.2.2.2.2]

/-- A Flush message other than FlushZones leaves the merged view of the zones
as it is. -/
theorem setflag_merged_zones (pid flag : Nat) (st : kz_state)
    (hflag : flag &&& KZF_TRANSACTION_FLUSH_ZONES = 0) :
    merged_zones (kznl_recv_setflag pid flag st).2.transaction = merged_zones st.transaction ∧
    (kznl_recv_setflag pid flag st).2.transaction.op = st.transaction.op := by
  unfold kznl_recv_setflag
  split
  · exact ⟨rfl, rfl⟩
  · rename_i tr h
    obtain ⟨rfl, -, -⟩ := transaction_lookup_some h
    refine ⟨?_, rfl⟩
    simp only [merged_zones, visible_zones, Nat.and_distrib_right, hflag, Nat.or_zero]

theorem staged_zones_ok_setflag (pid flag : Nat) (st : kz_state) (n : Nat)
    (hflag : flag &&& KZF_TRANSACTION_FLUSH_ZONES = 0)
    (h : staged_zones_ok st.transaction n) :
    staged_zones_ok (kznl_recv_setflag pid flag st).2.transaction n := by
  obtain ⟨h1, h2⟩ := setflag_merged_zones pid flag st hflag
  unfold staged_zones_ok at h ⊢
  rw [h1, h2]
  exact h

/-- The staged zones of a transaction that has staged nothing are in order
when the unique names of the base are pairwise distinct. -/
theorem staged_zones_ok_empty (tr : kz_transaction) (n : Nat) (hop : tr.op = [])
    (hnames : (tr.cfg.zones.map fun z => z.unique_name).Nodup)
    (hn : n < 4294967296) (hwrap : ∀ z ∈ tr.cfg.zones, z.depth + n < 4294967296) :
    staged_zones_ok tr n := by
  have hm : merged_zones tr = visible_zones tr := by
    simp [merged_zones, hop, commit_staged_zones]
  have hsub : ∀ z ∈ visible_zones tr, z ∈ tr.cfg.zones := by
    intro z hz
    unfold visible_zones at hz
    split at hz
    · simp at hz
    · exact hz
  refine ⟨?_, ?_, hn, ?_⟩
  · rw [hm]
    unfold visible_zones
    split
    · simp
    · exact hnames
  · intro z hz
    rw [hop] at hz
    simp [commit_staged_zones] at hz
  · intro z hz
    rw [hm] at hz
    exact hwrap z (hsub z hz)

/-- AddZone messages interleaved with Flush messages other than FlushZones
keep the staged zones in order. -/
theorem staged_zones_ok_mixed (run : List kz_event) :
    ∀ st : kz_state,
      (∀ e ∈ run, (e.is_flush = true ∨ e.is_add_zone = true) ∧ e.is_flush_zones = false) →
      staged_zones_ok st.transaction (count_add_zone run) →
      staged_zones_ok (kz_run run st).transaction 0 ∧ kz_frame st (kz_run run st) := by
  induction run with
  | nil =>
    intro st _ h
    exact ⟨h, kz_frame_refl st⟩
  | cons e rest ih =>
    intro st hall h
    obtain ⟨he, hz⟩ := hall e (List.mem_cons_self _ _)
    have hrest := fun x hx => hall x (List.mem_cons_of_mem _ hx)
    have key : ∀ (pid flag : Nat), flag &&& KZF_TRANSACTION_FLUSH_ZONES = 0 →
        staged_zones_ok st.transaction (count_add_zone rest) →
        staged_zones_ok (kz_run rest (kznl_recv_setflag pid flag st).2).transaction 0 ∧
          kz_frame st (kz_run rest (kznl_recv_setflag pid flag st).2) := by
      intro pid flag hflag h0
      obtain ⟨h1, h2⟩ := ih _ hrest (staged_zones_ok_setflag pid flag st _ hflag h0)
      exact ⟨h1, kz_frame_trans (setflag_frame pid flag st) h2⟩
    cases e with
    | add_zone mem pid attrs =>
      simp only [kz_run, List.foldl_cons, kz_step]
      have hc : count_add_zone (kz_event.add_zone mem pid attrs :: rest) =
          count_add_zone rest + 1 := by
        simp [count_add_zone, kz_event.is_add_zone]
      rw [hc] at h
      have hstep := staged_zones_ok_add mem pid attrs st (count_add_zone rest) h
      obtain ⟨h1, h2⟩ := ih _ hrest hstep.1
      exact ⟨h1, kz_frame_trans (add_zone_frame mem pid attrs st) h2⟩
    | flush_z pid => simp [kz_event.is_flush_zones] at hz
    | flush_s pid =>
      exact key pid _ (by decide) (by simpa [count_add_zone, kz_event.is_add_zone] using h)
    | flush_d pid =>
      exact key pid _ (by decide) (by simpa [count_add_zone, kz_event.is_add_zone] using h)
    | flush_b pid =>
      exact key pid _ (by decide) (by simpa [count_add_zone, kz_event.is_add_zone] using h)
    | _ => simp [kz_event.is_flush, kz_event.is_add_zone] at he

/-- Flush and AddZone messages in any order in which no FlushZones follows an
AddZone, sent to a transaction that has staged nothing, leave the staged zones
in order. -/
theorem staged_zones_ok_early (run : List kz_event) :
    ∀ st : kz_state,
      (∀ e ∈ run, e.is_flush = true ∨ e.is_add_zone = true) →
      flush_zones_early run = true →
      st.transaction.op = [] →
      (st.transaction.cfg.zones.map fun z => z.unique_name).Nodup →
      count_add_zone run < 4294967296 →
      (∀ z ∈ st.transaction.cfg.zones, z.depth + count_add_zone run < 4294967296) →
      staged_zones_ok (kz_run run st).transaction 0 ∧ kz_frame st (kz_run run st) := by
  induction run with
  | nil =>
    intro st _ _ hop hnames hn hwrap
    exact ⟨staged_zones_ok_empty _ _ hop hnames hn hwrap, kz_frame_refl st⟩
  | cons e rest ih =>
    intro st hall hearly hop hnames hn hwrap
    have he := hall e (List.mem_cons_self _ _)
    have hrest := fun x hx => hall x (List.mem_cons_of_mem _ hx)
    by_cases ha : e.is_add_zone = true
    · -- from the first AddZone on there is no FlushZones
      have hno : ∀ x ∈ e :: rest, x.is_flush_zones = false := by
        unfold flush_zones_early at hearly
        rw [List.dropWhile_cons_of_neg (by simp [ha])] at hearly
        rw [List.all_eq_true] at hearly
        intro x hx
        simpa using hearly x hx
      exact staged_zones_ok_mixed (e :: rest) st (fun x hx => ⟨hall x hx, hno x hx⟩)
        (staged_zones_ok_empty _ _ hop hnames hn hwrap)
    · have hf : e.is_flush = true := by
        rcases he with h | h
        · exact h
        · exact absurd h ha
      have hearly1 : flush_zones_early rest = true := by
        unfold flush_zones_early at hearly ⊢
        rw [List.dropWhile_cons_of_pos (by simp [ha])] at hearly
        exact hearly
      have hc : count_add_zone (e :: rest) = count_add_zone rest := by
        unfold count_add_zone
        rw [List.countP_cons_of_neg _ _ ha]
      rw [hc] at hn hwrap
      have key : ∀ (pid flag : Nat),
          staged_zones_ok (kz_run rest (kznl_recv_setflag pid flag st).2).transaction 0 ∧
            kz_frame st (kz_run rest (kznl_recv_setflag pid flag st).2) := by
        intro pid flag
        have hfr := setflag_frame pid flag st
        obtain ⟨-, -, -, -, hcfg, -⟩ := hfr
        obtain ⟨h1, h2⟩ := ih (kznl_recv_setflag pid flag st).2 hrest hearly1
          ((setflag_op pid flag st).trans hop) (by rw [hcfg]; exact hnames) hn
          (by rw [hcfg]; exact hwrap)
        exact ⟨h1, kz_frame_trans (setflag_frame pid flag st) h2⟩
      cases e with
      | flush_z pid => exact key pid _
      | flush_s pid => exact key pid _
      | flush_d pid => exact key pid _
      | flush_b pid => exact key pid _
      | _ => simp [kz_event.is_flush] at hf

/-- C9 (as amended): if the zones of the base snapshot have pairwise distinct
unique names and obey depth(z) = depth(parent(z)) + 1 with depth 0 for every
root, and no depth comes within the number of AddZone messages of the largest
unsigned int, then the snapshot published by a successful commit after any
sequence of Flush and AddZone messages in which no FlushZones follows an
AddZone (the other Flush messages may come anywhere) obeys the same law for
every zone against its re-resolved parent, its parent relation is a forest,
and its unique names are pairwise distinct again. -/
theorem commit_depth_law (mem0 : Nat → Bool) (p : Nat) (attrs0 : start_attrs) (st0 : kz_state)
    (run : List kz_event) (env : kz_env)
    (hop : st0.transaction.op = [])
    (hstart : (kznl_recv_start mem0 p attrs0 st0).1 = 0)
    (hrun : ∀ e ∈ run, e.is_flush = true ∨ e.is_add_zone = true)
    (hearly : flush_zones_early run = true)
    (hnames : (st0.kz_config_rcu.zones.map fun z => z.unique_name).Nodup)
    (hbase : depth_ok st0.kz_config_rcu.zones)
    (hlen : count_add_zone run < 4294967296)
    (hwrap : ∀ z ∈ st0.kz_config_rcu.zones, z.depth + count_add_zone run < 4294967296)
    (hcommit : (kznl_recv_commit env p
      (kz_run run (kznl_recv_start mem0 p attrs0 st0).2)).1 = 0) :
    depth_ok (kznl_recv_commit env p
      (kz_run run (kznl_recv_start mem0 p attrs0 st0).2)).2.kz_config_rcu.zones ∧
    zone_forest (kznl_recv_commit env p
      (kz_run run (kznl_recv_start mem0 p attrs0 st0).2)).2.kz_config_rcu.zones ∧
    ((kznl_recv_commit env p
      (kz_run run (kznl_recv_start mem0 p attrs0 st0).2)).2.kz_config_rcu.zones.map
        fun z => z.unique_name).Nodup := by
  obtain ⟨cookie, ins, instances, hst1⟩ := start_zero mem0 p attrs0 st0 hstart
  rw [hst1] at hcommit ⊢
  obtain ⟨hokA, hfA⟩ := staged_zones_ok_early run (started st0 p cookie ins instances) hrun
    hearly (by simpa [started] using hop) hnames hlen hwrap
  obtain ⟨-, hoA, -, hpA, hcA, -⟩ := hfA
  have hlook : transaction_lookup (kz_run run (started st0 p cookie ins instances)) p ≠ none := by
    unfold transaction_lookup
    rw [hoA, hpA]
    simp [started]
  obtain ⟨hr1, hr2⟩ := commit_handler_result env p _ hlook
  rw [hr1] at hcommit
  rw [hr2]
  have hbaseA : depth_ok (kz_run run (started st0 p cookie ins instances)).transaction.cfg.zones := by
    rw [hcA]; exact hbase
  exact commit_depth_of_staged_ok env _ _ hokA hbaseA hcommit

/-- C9 (counterexample): the base snapshot holds the single root zone "b" and
obeys the depth law; the transaction stages "c" below "b", then sets
FlushZones, then stages a root "a" and a new "b" below "a"; the commit returns
0 and publishes "c" with depth 1 below the new "b", whose depth is 1 as well. -/
theorem depth_law_counterexample :
    depth_ok cx_base.kz_config_rcu.zones ∧
    (kznl_recv_start mem_ok 1 start_inst cx_base).1 = 0 ∧
    (∀ e ∈ cx_ops, e.is_flush = true ∨ e.is_add_zone = true) ∧
    (kznl_recv_commit env_ok 1 cx_before_commit).1 = 0 ∧
    ¬ depth_ok (kznl_recv_commit env_ok 1 cx_before_commit).2.kz_config_rcu.zones := by
  have hb : cx_base.kz_config_rcu.zones =
      [{ addr := 0, name := "b", unique_name := "b", flags := 0, family := 0, net_addr := 0,
         mask := 0, admin_parent := none, depth := 0 }] := by decide
  have hn : (kznl_recv_commit env_ok 1 cx_before_commit).2.kz_config_rcu.zones =
      [{ addr := 3, name := "b", unique_name := "b", flags := 0, family := 0, net_addr := 0,
         mask := 0, admin_parent := some { addr := 2, name := "a", unique_name := "a" },
         depth := 1 },
       { addr := 2, name := "a", unique_name := "a", flags := 0, family := 0, net_addr := 0,
         mask := 0, admin_parent := none, depth := 0 },
       { addr := 1, name := "c", unique_name := "c", flags := 0, family := 0, net_addr := 0,
         mask := 0, admin_parent := some { addr := 3, name := "b", unique_name := "b" },
         depth := 1 }] := by decide
  refine ⟨?_, by decide, ?_, by decide, ?_⟩
  · rw [hb]
    simp [depth_ok]
  · simp [cx_ops, kz_event.is_flush, kz_event.is_add_zone]
  · rw [hn]
    simp [depth_ok, kz_zone_get]

theorem commit_depth_law_witness :
    (kznl_recv_commit env_ok 1
      (kz_run run_interleaved (kznl_recv_start mem_ok 1 start_inst st_base).2)).1 = 0 ∧
    flush_zones_early run_interleaved = true ∧
    (kznl_recv_commit env_ok 1
      (kz_run run_interleaved
        (kznl_recv_start mem_ok 1 start_inst st_base).2)).2.kz_config_rcu.zones.map
          (fun z => (z.unique_name, z.admin_parent.map (fun q => q.unique_name), z.depth)) =
      [("b", some "a", 1), ("a", none, 0), ("f", none, 0), ("e", some "c", 3),
       ("c", some "b", 2)] ∧
    depth_ok (kznl_recv_commit env_ok 1
      (kz_run run_interleaved
        (kznl_recv_start mem_ok 1 start_inst st_base).2)).2.kz_config_rcu.zones ∧
    zone_forest (kznl_recv_commit env_ok 1
      (kz_run run_interleaved
        (kznl_recv_start mem_ok 1 start_inst st_base).2)).2.kz_config_rcu.zones ∧
    ((kznl_recv_commit env_ok 1
      (kz_run run_interleaved
        (kznl_recv_start mem_ok 1 start_inst st_base).2)).2.kz_config_rcu.zones.map
          fun z => z.unique_name).Nodup :=
  ⟨by decide, by decide, by decide,
   commit_depth_law mem_ok 1 start_inst st_base run_interleaved env_ok
     (by decide) (by decide)
     (by
       intro e he
       simp only [run_interleaved, List.mem_cons, List.mem_singleton, List.not_mem_nil,
         or_false] at he
       rcases he with rfl | rfl | rfl | rfl | rfl | rfl | rfl <;>
         simp [kz_event.is_flush, kz_event.is_add_zone])
     (by decide)
     (by decide)
     (by
       have hb : st_base.kz_config_rcu.zones =
           [{ addr := 1, name := "b", unique_name := "b", flags := 0, family := 0,
              net_addr := 0, mask := 0,
              admin_parent := some { addr := 0, name := "a", unique_name := "a" }, depth := 1 },
            { addr := 0, name := "a", unique_name := "a", flags := 0, family := 0,
              net_addr := 0, mask := 0, admin_parent := none, depth := 0 }] := by decide
       rw [hb]
       simp [depth_ok, kz_zone_get])
     (by decide) (by decide) (by decide)⟩

/-- In the sequence of the counterexample a FlushZones follows an AddZone. -/
theorem cx_ops_flush_late : flush_zones_early cx_ops = false := by
  decide

/-- Without pairwise distinct unique names in the base the depth law is lost
even by an empty transaction: both children of a zone named "a" are
re-resolved to the first zone of that name. -/
theorem depth_law_needs_distinct_names :
    depth_ok st_twins.kz_config_rcu.zones ∧
    (kznl_recv_start mem_ok 1 start_inst st_twins).1 = 0 ∧
    (kznl_recv_commit env_ok 1 (kznl_recv_start mem_ok 1 start_inst st_twins).2).1 = 0 ∧
    ¬ depth_ok (kznl_recv_commit env_ok 1
      (kznl_recv_start mem_ok 1 start_inst st_twins).2).2.kz_config_rcu.zones := by
  have hn : (kznl_recv_commit env_ok 1
      (kznl_recv_start mem_ok 1 start_inst st_twins).2).2.kz_config_rcu.zones =
      [mk_zone 5 "a" none 0,
       mk_zone 6 "x" none 0,
       mk_zone 7 "a" (some { addr := 6, name := "x", unique_name := "x" }) 1,
       mk_zone 8 "c" (some { addr := 5, name := "a", unique_name := "a" }) 1,
       mk_zone 9 "d" (some { addr := 5, name := "a", unique_name := "a" }) 2] := by decide
  refine ⟨?_, by decide, by decide, ?_⟩
  · simp [depth_ok, st_twins, kz_zone_get, mk_zone, kz_config_new]
  · rw [hn]
    simp [depth_ok, kz_zone_get, mk_zone]

/-! ## Commit: the rule count check -/

theorem rule_mismatch_iff (op : List kz_operation) :
    commit_rule_mismatch op = true ↔
      ∃ d, kz_operation.KZNL_OP_DISPATCHER d ∈ op ∧ d.num_rule ≠ d.alloc_rule := by
  unfold commit_rule_mismatch
  rw [List.any_eq_true]
  constructor
  · rintro ⟨io, hio, h⟩
    cases io with
    | KZNL_OP_DISPATCHER d => exact ⟨d, hio, by simpa using h⟩
    | _ => simp at h
  · rintro ⟨d, hd, h⟩
    exact ⟨_, hd, by simpa using h⟩

theorem consolidate_total (todo : List kz_zone) :
    ∀ (done : List kz_zone),
      (∀ z ∈ todo, ∀ ap, z.admin_parent = some ap →
        ∃ p ∈ done ++ todo, p.unique_name = ap.unique_name) →
      ∃ res, commit_consolidate_zones done todo = .ok res := by
  induction todo with
  | nil => intro done _; exact ⟨done, by simp [commit_consolidate_zones]⟩
  | cons i rest ih =>
    intro done h
    unfold commit_consolidate_zones
    split
    · apply ih
      intro z hz ap hap
      obtain ⟨p, hp, hn⟩ := h z (List.mem_cons_of_mem _ hz) ap hap
      exact ⟨p, by simpa using hp, hn⟩
    · rename_i ap hap
      split
      · rename_i hnone
        exfalso
        obtain ⟨p, hp, hn⟩ := h i (List.mem_cons_self _ _) ap hap
        unfold __kz_zone_lookup_name at hnone
        rw [List.find?_eq_none] at hnone
        exact hnone p hp (by simpa using hn)
      · apply ih
        intro z hz ap2 hap2
        obtain ⟨p, hp, hn⟩ := h z (List.mem_cons_of_mem _ hz) ap2 hap2
        simp only [List.mem_append, List.mem_cons, List.mem_singleton, List.not_mem_nil, or_false] at hp ⊢
        rcases hp with hp | hp | hp
        · exact ⟨p, Or.inl (Or.inl hp), hn⟩
        · exact ⟨_, Or.inl (Or.inr rfl), by rw [← hn, hp]⟩
        · exact ⟨p, Or.inr hp, hn⟩

theorem clone_dispatchers_all_ok (env : kz_env) (tr : kz_transaction)
    (hok : ∀ k, env.kz_dispatcher_clone_ok k = true) (l : List kz_dispatcher) :
    ∀ (k : Nat) (news : List kz_dispatcher),
      (commit_clone_dispatchers env tr k l news).1 = true := by
  induction l with
  | nil => intro k news; simp [commit_clone_dispatchers]
  | cons i rest ih =>
    intro k news
    unfold commit_clone_dispatchers
    split
    · exact ih _ _
    · simp only [hok, if_true]
      exact ih _ _

theorem rule_match_of (op : List kz_operation) (h : commit_rule_mismatch op = false) :
    ∀ d, kz_operation.KZNL_OP_DISPATCHER d ∈ op → d.num_rule = d.alloc_rule := by
  intro d hd
  by_contra hne
  have := (rule_mismatch_iff op).mpr ⟨d, hd, hne⟩
  rw [h] at this
  cases this

theorem parents_found_of (l : List kz_zone)
    (h : (l.all fun z =>
      match z.admin_parent with
      | none => true
      | some ap => l.any fun p => p.unique_name = ap.unique_name) = true) :
    ∀ z ∈ l, ∀ ap, z.admin_parent = some ap → ∃ p ∈ l, p.unique_name = ap.unique_name := by
  intro z hz ap hap
  rw [List.all_eq_true] at h
  have := h z hz
  rw [hap] at this
  simp only [List.any_eq_true, decide_eq_true_eq] at this
  exact this

/-- A commit whose rule counts agree, whose allocations all succeed, whose
parents are all found and whose lookup structures build returns 0. -/
theorem commit_succeeds (env : kz_env) (inst : Option Nat) (st : kz_state)
    (hm : commit_rule_mismatch st.transaction.op = false)
    (hnew : env.kz_config_new_ok = true)
    (hs : ∀ k, env.kz_service_clone_ok k = true)
    (hz : ∀ k, env.kz_zone_clone_ok k = true)
    (hd : ∀ k, env.kz_dispatcher_clone_ok k = true)
    (hp : ∀ z ∈ commit_zones_before st, ∀ ap, z.admin_parent = some ap →
      ∃ p ∈ commit_zones_before st, p.unique_name = ap.unique_name)
    (hzb : ∀ zs, 0 ≤ env.kz_head_zone_build zs)
    (hdb : ∀ ds, 0 ≤ env.kz_head_dispatcher_build ds) :
    (kznl_recv_commit_transaction env inst st).res = 0 := by
  have h1 := clone_services_all_ok env st.transaction hs st.transaction.cfg.services 0 ([], [])
  have hzc : (if ¬ (st.transaction.flags &&& KZF_TRANSACTION_FLUSH_ZONES ≠ 0) then
          commit_clone_zones env 0 st.zone_addr_next st.transaction.cfg.zones []
        else (true, [])) =
      (true, if st.transaction.flags &&& KZF_TRANSACTION_FLUSH_ZONES ≠ 0 then []
        else clone_zones_from st.zone_addr_next st.transaction.cfg.zones) := by
    by_cases hfl : st.transaction.flags &&& KZF_TRANSACTION_FLUSH_ZONES ≠ 0
    · rw [if_neg (not_not.mpr hfl), if_pos hfl]
    · rw [if_pos hfl, if_neg hfl, clone_zones_all_ok env hz]
      simp
  have h2 := clone_dispatchers_all_ok env st.transaction hd st.transaction.cfg.dispatchers 0 []
  unfold kznl_recv_commit_transaction
  simp only []
  split
  · rename_i h; rw [hm] at h; cases h
  split
  · rename_i heq; rw [heq] at h1; simp at h1
  split
  · rename_i heq; rw [hzc] at heq; simp at heq
  rename_i zcloned hzeq
  rw [hzc] at hzeq
  simp only [Prod.mk.injEq, true_and] at hzeq
  have hcz : zcloned ++ commit_staged_zones
      (st.transaction.op.filter fun io => ¬ op_is_service io) = commit_zones_before st := by
    rw [staged_zones_filter_service, ← hzeq]
    rfl
  obtain ⟨zones, hzones⟩ := consolidate_total (commit_zones_before st) []
    (by simpa using hp)
  split
  · rename_i e heq
    rw [hcz, hzones] at heq
    cases heq
  split
  · rename_i heq; rw [heq] at h2; simp at h2
  split
  · rename_i hlt; exact absurd hlt (not_lt.mpr (hzb _))
  split
  · rename_i hlt; exact absurd hlt (not_lt.mpr (hdb _))
  rfl


/-- C11: if some staged dispatcher has `num_rule` different from `alloc_rule`,
`kznl_recv_commit_transaction` returns -EINVAL with the state untouched (the
operation list and the published snapshot included), no base service locked or
unlocked, whatever the environment would have answered to the allocation of
the new snapshot, and the Commit handler returns -EINVAL with the published
snapshot unchanged.  If every staged dispatcher has `num_rule` equal to
`alloc_rule`, the commit goes on to the allocation of the new snapshot
(returning -ENOMEM when that fails) and returns 0 when every later step
succeeds. -/
theorem commit_rule_count_check (env : kz_env) (inst : Option Nat) (st : kz_state) :
    ((∃ d, kz_operation.KZNL_OP_DISPATCHER d ∈ st.transaction.op ∧
        d.num_rule ≠ d.alloc_rule) →
      kznl_recv_commit_transaction env inst st =
        { res := -EINVAL, st := st, locked := [], unlocked := [] } ∧
      ∀ pid, transaction_lookup st pid ≠ none →
        (kznl_recv_commit env pid st).1 = -EINVAL ∧
        (kznl_recv_commit env pid st).2.kz_config_rcu = st.kz_config_rcu) ∧
    ((∀ d, kz_operation.KZNL_OP_DISPATCHER d ∈ st.transaction.op →
        d.num_rule = d.alloc_rule) →
      (env.kz_config_new_ok = false →
        (kznl_recv_commit_transaction env inst st).res = -ENOMEM) ∧
      (env.kz_config_new_ok = true →
        (∀ k, env.kz_service_clone_ok k = true) →
        (∀ k, env.kz_zone_clone_ok k = true) →
        (∀ k, env.kz_dispatcher_clone_ok k = true) →
        (∀ z ∈ commit_zones_before st, ∀ ap, z.admin_parent = some ap →
          ∃ p ∈ commit_zones_before st, p.unique_name = ap.unique_name) →
        (∀ zs, 0 ≤ env.kz_head_zone_build zs) →
        (∀ ds, 0 ≤ env.kz_head_dispatcher_build ds) →
        (kznl_recv_commit_transaction env inst st).res = 0)) := by
  constructor
  · intro h
    have hm := (rule_mismatch_iff _).mpr h
    have hr : ∀ e i, kznl_recv_commit_transaction e i st =
        { res := -EINVAL, st := st, locked := [], unlocked := [] } := by
      intro e i
      unfold kznl_recv_commit_transaction
      simp only [hm, if_true]
    refine ⟨hr _ _, ?_⟩
    intro pid hl
    unfold kznl_recv_commit
    cases hl2 : transaction_lookup st pid with
    | none => exact absurd hl2 hl
    | some tr =>
      simp only [hr]
      refine ⟨trivial, ?_⟩
      cases kz_instance_lookup_id st.kz_instances tr.instance_id <;>
        simp [transaction_destroy]
  · intro h
    have hm : commit_rule_mismatch st.transaction.op = false := by
      cases hc : commit_rule_mismatch st.transaction.op with
      | false => rfl
      | true =>
        obtain ⟨d, hd, hne⟩ := (rule_mismatch_iff _).mp hc
        exact absurd (h d hd) hne
    constructor
    · intro hnew
      unfold kznl_recv_commit_transaction
      simp [hm, hnew]
    · intro hnew hs hz hd hp hzb hdb
      exact commit_succeeds env inst st hm hnew hs hz hd hp hzb hdb

theorem commit_rule_count_check_witness :
    kznl_recv_commit_transaction env_ok (some 0) st_short =
      { res := -EINVAL, st := st_short, locked := [], unlocked := [] } ∧
    (kznl_recv_commit_transaction env_ok (some 0) st_second).res = 0 :=
  ⟨((commit_rule_count_check env_ok (some 0) st_short).1
      ⟨{ name := "d", inst := some 0, alloc_rule := 1, num_rule := 0, rule := [] },
        by decide, by decide⟩).1,
   ((commit_rule_count_check env_ok (some 0) st_second).2
      (rule_match_of _ (by decide))).2 rfl
      (fun _ => rfl) (fun _ => rfl) (fun _ => rfl) (parents_found_of _ (by decide))
      (fun _ => le_refl _) (fun _ => le_refl _)⟩

/-! ## The merged lookups -/

theorem transaction_service_lookup_eq (tr : kz_transaction) (name : String) :
    transaction_service_lookup tr name =
      (staged_services tr.op).find? fun s => s.name = name := by
  unfold transaction_service_lookup staged_services
  induction tr.op with
  | nil => rfl
  | cons o rest ih =>
    cases o with
    | KZNL_OP_SERVICE s =>
      simp only [List.findSome?_cons, List.filterMap_cons, List.find?_cons]
      by_cases hz : s.name = name
      · simp [hz]
      · simp [hz, ih]
    | KZNL_OP_ZONE z => simpa [List.findSome?_cons, List.filterMap_cons] using ih
    | KZNL_OP_DISPATCHER d => simpa [List.findSome?_cons, List.filterMap_cons] using ih
    | KZNL_OP_BIND b => simpa [List.findSome?_cons, List.filterMap_cons] using ih

/-- C12: `lookup_zone_merged tr n` is the first staged zone with unique name
`n` when there is one (so a staged zone is returned whatever the base holds);
when no zone with that unique name is staged it is the result of looking `n`
up in the base snapshot of the transaction if FlushZones is not set, and
nothing if it is.  `lookup_service_merged` does the same with service names
and FlushServices. -/
theorem merged_lookup (tr : kz_transaction) (n : String) :
    (∀ z, ((commit_staged_zones tr.op).find? fun z => z.unique_name = n) = some z →
      lookup_zone_merged tr n = some z ∧ z ∈ commit_staged_zones tr.op ∧ z.unique_name = n) ∧
    ((∃ z ∈ commit_staged_zones tr.op, z.unique_name = n) →
      ∃ z ∈ commit_staged_zones tr.op, z.unique_name = n ∧ lookup_zone_merged tr n = some z) ∧
    ((∀ z ∈ commit_staged_zones tr.op, z.unique_name ≠ n) →
      (¬ has_flag tr KZF_TRANSACTION_FLUSH_ZONES →
        lookup_zone_merged tr n = kz_zone_lookup_name tr.cfg n) ∧
      (has_flag tr KZF_TRANSACTION_FLUSH_ZONES → lookup_zone_merged tr n = none)) ∧
    (∀ s, ((staged_services tr.op).find? fun s => s.name = n) = some s →
      lookup_service_merged tr n = some s ∧ s ∈ staged_services tr.op ∧ s.name = n) ∧
    ((∃ s ∈ staged_services tr.op, s.name = n) →
      ∃ s ∈ staged_services tr.op, s.name = n ∧ lookup_service_merged tr n = some s) ∧
    ((∀ s ∈ staged_services tr.op, s.name ≠ n) →
      (¬ has_flag tr KZF_TRANSACTION_FLUSH_SERVICES →
        lookup_service_merged tr n = kz_service_lookup_name tr.cfg n) ∧
      (has_flag tr KZF_TRANSACTION_FLUSH_SERVICES → lookup_service_merged tr n = none)) := by
  have hz1 : ∀ z, ((commit_staged_zones tr.op).find? fun z => z.unique_name = n) = some z →
      lookup_zone_merged tr n = some z ∧ z ∈ commit_staged_zones tr.op ∧ z.unique_name = n := by
    intro z hz
    refine ⟨?_, List.mem_of_find?_eq_some hz, by simpa using List.find?_some hz⟩
    unfold lookup_zone_merged
    rw [transaction_zone_lookup_eq, hz]
  have hs1 : ∀ s, ((staged_services tr.op).find? fun s => s.name = n) = some s →
      lookup_service_merged tr n = some s ∧ s ∈ staged_services tr.op ∧ s.name = n := by
    intro s hs
    refine ⟨?_, List.mem_of_find?_eq_some hs, by simpa using List.find?_some hs⟩
    unfold lookup_service_merged
    rw [transaction_service_lookup_eq, hs]
  refine ⟨hz1, ?_, ?_, hs1, ?_, ?_⟩
  · rintro ⟨z, hz, hn⟩
    cases hf : (commit_staged_zones tr.op).find? fun z => z.unique_name = n with
    | none =>
      rw [List.find?_eq_none] at hf
      exact absurd (by simpa using hn) (hf z hz)
    | some z1 =>
      obtain ⟨h1, h2, h3⟩ := hz1 z1 hf
      exact ⟨z1, h2, h3, h1⟩
  · intro hnone
    have hf : ((commit_staged_zones tr.op).find? fun z => z.unique_name = n) = none := by
      rw [List.find?_eq_none]
      intro z hz
      simpa using hnone z hz
    unfold lookup_zone_merged has_flag
    rw [transaction_zone_lookup_eq, hf]
    constructor
    · intro hfl; simp only []; rw [if_pos hfl]
    · intro hfl; simp only []; rw [if_neg (not_not.mpr hfl)]
  · rintro ⟨s, hs, hn⟩
    cases hf : (staged_services tr.op).find? fun s => s.name = n with
    | none =>
      rw [List.find?_eq_none] at hf
      exact absurd (by simpa using hn) (hf s hs)
    | some s1 =>
      obtain ⟨h1, h2, h3⟩ := hs1 s1 hf
      exact ⟨s1, h2, h3, h1⟩
  · intro hnone
    have hf : ((staged_services tr.op).find? fun s => s.name = n) = none := by
      rw [List.find?_eq_none]
      intro s hs
      simpa using hnone s hs
    unfold lookup_service_merged has_flag
    rw [transaction_service_lookup_eq, hf]
    constructor
    · intro hfl; simp only []; rw [if_pos hfl]
    · intro hfl; simp only []; rw [if_neg (not_not.mpr hfl)]

theorem merged_lookup_witness :
    (∃ s ∈ staged_services st_second.transaction.op, s.name = "web" ∧
      lookup_service_merged st_second.transaction "web" = some s) ∧
    lookup_zone_merged st_second.transaction "a" =
      kz_zone_lookup_name st_second.transaction.cfg "a" ∧
    lookup_zone_merged st_orphan.transaction "a" = none :=
  ⟨(merged_lookup st_second.transaction "web").2.2.2.2.1 (by decide),
   ((merged_lookup st_second.transaction "a").2.2.1 (by decide)).1
     (by unfold has_flag; decide),
   ((merged_lookup st_orphan.transaction "a").2.2.1 (by decide)).2
     (by unfold has_flag; decide)⟩

/-! ## AddService and names already taken -/

theorem find_name_unique {l : List kz_service} {n : String}
    (hn : (l.map fun s => s.name).Nodup) {p : kz_service} (hp : p ∈ l) (hpn : p.name = n) :
    (l.find? fun s => s.name = n) = some p := by
  induction l with
  | nil => simp at hp
  | cons a rest ih =>
    simp only [List.map_cons, List.nodup_cons, List.mem_map, not_exists, not_and] at hn
    rw [List.find?_cons]
    rcases List.mem_cons.mp hp with rfl | hr
    · simp [hpn]
    · have hne : a.name ≠ n := by
        intro h
        exact hn.1 p hr (by rw [hpn, h])
      simp only [hne, decide_False]
      exact ih hn.2 hr

/-- The three outcomes of a well-formed AddService in an open transaction. -/
theorem add_service_cases (mem : Nat → Bool) (id pid : Nat) (attrs : add_service_attrs)
    (st : kz_state) (svc0 : kz_service) (tr : kz_transaction)
    (hp : kznl_recv_add_service_parse mem id attrs = .ok svc0)
    (hl : transaction_lookup st pid = some tr) :
    (((∃ s ∈ staged_services tr.op, s.name = svc0.name) ∨
        ∃ p, kz_service_lookup_name tr.cfg svc0.name = some p ∧
          (p.instance_id ≠ tr.instance_id ∨ ¬ has_flag tr KZF_TRANSACTION_FLUSH_SERVICES)) ∧
      kznl_recv_add_service mem id pid attrs st = (-EEXIST, st)) ∨
    ((¬ ((∃ s ∈ staged_services tr.op, s.name = svc0.name) ∨
        ∃ p, kz_service_lookup_name tr.cfg svc0.name = some p ∧
          (p.instance_id ≠ tr.instance_id ∨ ¬ has_flag tr KZF_TRANSACTION_FLUSH_SERVICES))) ∧
      kznl_recv_add_service mem id pid attrs st =
        if mem 2 then
          (0, { st with transaction := { tr with
            op := .KZNL_OP_SERVICE { svc0 with instance_id := tr.instance_id } :: tr.op } })
        else (-ENOMEM, st)) := by
  have htr := (transaction_lookup_some hl).1
  unfold kznl_recv_add_service
  simp only [hp, hl]
  rw [transaction_service_lookup_eq]
  cases hf : (staged_services tr.op).find? fun s => s.name = svc0.name with
  | some s =>
    left
    exact ⟨Or.inl ⟨s, List.mem_of_find?_eq_some hf, by simpa using List.find?_some hf⟩, rfl⟩
  | none =>
    have hnone : ¬ ∃ s ∈ staged_services tr.op, s.name = svc0.name := by
      rintro ⟨s, hs, hn⟩
      rw [List.find?_eq_none] at hf
      exact hf s hs (by simpa using hn)
    simp only []
    cases hb : kz_service_lookup_name tr.cfg svc0.name with
    | none =>
      right
      refine ⟨?_, ?_⟩
      · rintro (h | ⟨p, h, -⟩)
        · exact hnone h
        · cases h
      · simp only [Bool.false_eq_true, if_false, transaction_add_op]
        by_cases hm : mem 2 = true
        · simp [hm]
        · simp [hm, htr]
    | some p =>
      by_cases hc : p.instance_id ≠ tr.instance_id ∨
          ¬ (tr.flags &&& KZF_TRANSACTION_FLUSH_SERVICES ≠ 0)
      · left
        refine ⟨Or.inr ⟨p, rfl, hc⟩, ?_⟩
        simp only [decide_eq_true hc, if_true]
      · right
        refine ⟨?_, ?_⟩
        · rintro (h | ⟨q, h, hq⟩)
          · exact hnone h
          · cases h
            exact hc hq
        · simp only [decide_eq_false hc, Bool.false_eq_true, if_false, transaction_add_op]
          by_cases hm : mem 2 = true
          · simp [hm]
          · simp [hm, htr]

/-- C13: with an open transaction of the sender, a well-formed AddService (one
whose attributes parse to the service `svc0`) returns -EEXIST if and only if a
service named as `svc0` is already staged, or the lookup of that name in the
base snapshot finds a service that belongs to another instance or FlushServices
is not set; it then leaves the state as it was.  In every other case, if the
allocation of the operation succeeds, it returns 0 and stages the service with
the instance id of the transaction at the head of the operation list.  When
the names of the base services are pairwise distinct, the service found by the
lookup is any base service of that name. -/
theorem add_service_exists (mem : Nat → Bool) (id pid : Nat) (attrs : add_service_attrs)
    (st : kz_state) (svc0 : kz_service) (tr : kz_transaction)
    (hp : kznl_recv_add_service_parse mem id attrs = .ok svc0)
    (hl : transaction_lookup st pid = some tr) :
    ((kznl_recv_add_service mem id pid attrs st).1 = -EEXIST ↔
      ((∃ s ∈ staged_services tr.op, s.name = svc0.name) ∨
        ∃ p, kz_service_lookup_name tr.cfg svc0.name = some p ∧
          (p.instance_id ≠ tr.instance_id ∨ ¬ has_flag tr KZF_TRANSACTION_FLUSH_SERVICES))) ∧
    ((kznl_recv_add_service mem id pid attrs st).1 = -EEXIST →
      (kznl_recv_add_service mem id pid attrs st).2 = st) ∧
    ((kznl_recv_add_service mem id pid attrs st).1 ≠ -EEXIST → mem 2 = true →
      kznl_recv_add_service mem id pid attrs st =
        (0, { st with transaction := { tr with
          op := .KZNL_OP_SERVICE { svc0 with instance_id := tr.instance_id } :: tr.op } })) ∧
    ((tr.cfg.services.map fun s => s.name).Nodup →
      ((∃ p, kz_service_lookup_name tr.cfg svc0.name = some p ∧
          (p.instance_id ≠ tr.instance_id ∨ ¬ has_flag tr KZF_TRANSACTION_FLUSH_SERVICES)) ↔
        ∃ p ∈ tr.cfg.services, p.name = svc0.name ∧
          (p.instance_id ≠ tr.instance_id ∨ ¬ has_flag tr KZF_TRANSACTION_FLUSH_SERVICES))) := by
  have hneg := errno_neg
  refine ⟨?_, ?_, ?_, ?_⟩
  · rcases add_service_cases mem id pid attrs st svc0 tr hp hl with ⟨hc, hr⟩ | ⟨hc, hr⟩
    · rw [hr]; exact ⟨fun _ => hc, fun _ => rfl⟩
    · rw [hr]
      constructor
      · intro h
        exfalso
        by_cases hm : mem 2 = true
        · simp [hm, EEXIST] at h
        · simp [hm, EEXIST, ENOMEM] at h
      · intro h; exact absurd h hc
  · rcases add_service_cases mem id pid attrs st svc0 tr hp hl with ⟨hc, hr⟩ | ⟨hc, hr⟩
    · rw [hr]; intro _; rfl
    · rw [hr]
      intro h
      exfalso
      by_cases hm : mem 2 = true
      · simp [hm, EEXIST] at h
      · simp [hm, EEXIST, ENOMEM] at h
  · rcases add_service_cases mem id pid attrs st svc0 tr hp hl with ⟨hc, hr⟩ | ⟨hc, hr⟩
    · rw [hr]; intro h; exact absurd rfl h
    · rw [hr]
      intro _ hm
      simp [hm]
  · intro hn
    constructor
    · rintro ⟨p, h, hc⟩
      obtain ⟨h1, h2⟩ := service_lookup_name_some h
      exact ⟨p, h2, h1, hc⟩
    · rintro ⟨p, h1, h2, hc⟩
      exact ⟨p, find_name_unique hn h1 h2, hc⟩

theorem add_service_exists_witness :
    (kznl_recv_add_service mem_ok 8 1 (service_msg "web" 9) st_again).1 = -EEXIST ∧
    kznl_recv_add_service mem_ok 8 1 (service_msg "mail" 9) st_again =
      (0, { st_again with transaction := { st_again.transaction with
        op := .KZNL_OP_SERVICE
          { (kz_service_new 8) with
            name := "mail", type := KZ_SERVICE_PROXY, session_cnt := 9,
            instance_id := st_again.transaction.instance_id } ::
          st_again.transaction.op } }) :=
  ⟨(add_service_exists mem_ok 8 1 (service_msg "web" 9) st_again _ _ (by rfl) (by rfl)).1.mpr
      (Or.inr ⟨_, by rfl, Or.inr (by unfold has_flag; decide)⟩),
   (add_service_exists mem_ok 8 1 (service_msg "mail" 9) st_again _ _ (by rfl)
      (by rfl)).2.2.1 (by decide) rfl⟩

/-! ## The deny methods -/

/-- The two range checks of the deny methods: the IPv4 one accepts the members
of its enum, the IPv6 one accepts the members of its enum and the count. -/
theorem deny_method_ranges (m : Nat) :
    (kznl_parse_service_ipv4_deny_method m =
      if m < KZ_SERVICE_DENY_METHOD_V4_COUNT then .ok m else .error (-EINVAL)) ∧
    (kznl_parse_service_ipv6_deny_method m =
      if m ≤ KZ_SERVICE_DENY_METHOD_V6_COUNT then .ok m else .error (-EINVAL)) := by
  unfold kznl_parse_service_ipv4_deny_method kznl_parse_service_ipv6_deny_method
  constructor
  · by_cases h : m < KZ_SERVICE_DENY_METHOD_V4_COUNT
    · rw [if_pos h, if_neg (by omega)]
    · rw [if_neg h, if_pos (by omega)]
  · by_cases h : m ≤ KZ_SERVICE_DENY_METHOD_V6_COUNT
    · rw [if_pos h, if_neg (by omega)]
    · rw [if_neg h, if_pos (by omega)]

/-- The switch of AddService on a deny service whose two methods are present. -/
theorem add_service_switch_deny (attrs : add_service_attrs) (svc : kz_service) (m4 m6 : Nat)
    (ht : svc.type = KZ_SERVICE_DENY)
    (h4 : attrs.KZNL_ATTR_SERVICE_DENY_IPV4_METHOD = some m4)
    (h6 : attrs.KZNL_ATTR_SERVICE_DENY_IPV6_METHOD = some m6) :
    add_service_switch attrs svc =
      if m4 < KZ_SERVICE_DENY_METHOD_V4_COUNT then
        if m6 ≤ KZ_SERVICE_DENY_METHOD_V6_COUNT then
          .ok { svc with ipv4_reject_method := m4, ipv6_reject_method := m6 }
        else .error (-EINVAL)
      else .error (-EINVAL) := by
  unfold add_service_switch
  rw [if_neg (by rw [ht]; decide), if_neg (by rw [ht]; decide), if_pos ht]
  simp only [h4, h6, (deny_method_ranges m4).1, (deny_method_ranges m6).2]
  by_cases c4 : m4 < KZ_SERVICE_DENY_METHOD_V4_COUNT
  · by_cases c6 : m6 ≤ KZ_SERVICE_DENY_METHOD_V6_COUNT
    · simp only [c4, c6, if_true]
    · simp only [c4, c6, if_true, if_false]
  · simp only [c4, if_false]

/-- C19: the IPv4 method equal to `KZ_SERVICE_DENY_METHOD_V4_COUNT` is rejected
with -EINVAL and an AddService of Deny type carrying it stages nothing, but the
IPv6 method equal to `KZ_SERVICE_DENY_METHOD_V6_COUNT` passes
`kznl_parse_service_ipv6_deny_method`, and an AddService of Deny type carrying
it returns 0 and stages the service with that method. -/
theorem deny_v6_count_accepted :
    kznl_parse_service_ipv4_deny_method KZ_SERVICE_DENY_METHOD_V4_COUNT = .error (-EINVAL) ∧
    kznl_parse_service_ipv6_deny_method KZ_SERVICE_DENY_METHOD_V6_COUNT =
      .ok KZ_SERVICE_DENY_METHOD_V6_COUNT ∧
    kznl_recv_add_service mem_ok 9 1
        (deny_msg "drop" KZ_SERVICE_DENY_METHOD_V4_COUNT 0) st_open = (-EINVAL, st_open) ∧
    kznl_recv_add_service mem_ok 9 1
        (deny_msg "drop" 0 KZ_SERVICE_DENY_METHOD_V6_COUNT) st_open =
      (0, { st_open with transaction := { st_open.transaction with
        op := [.KZNL_OP_SERVICE
          { (kz_service_new 9) with
            name := "drop", type := KZ_SERVICE_DENY,
            instance_id := st_open.transaction.instance_id,
            ipv4_reject_method := 0,
            ipv6_reject_method := KZ_SERVICE_DENY_METHOD_V6_COUNT }] } }) :=
  ⟨rfl, rfl, by decide, by decide⟩

/-! ## AddDispatcher and the names of the base -/

/-- AddDispatcher looks the name up among the staged dispatchers only: it
returns -EEXIST and leaves the state alone when one is staged, and otherwise
queues the dispatcher whatever the base snapshot holds. -/
theorem add_dispatcher_cases (mem : Nat → Bool) (pid : Nat) (attrs : add_dispatcher_attrs)
    (st : kz_state) (dpt0 : kz_dispatcher) (tr : kz_transaction)
    (hp : kznl_recv_add_dispatcher_parse mem attrs = .ok dpt0)
    (hl : transaction_lookup st pid = some tr) :
    ((∃ d, transaction_dispatcher_lookup tr dpt0.name = some d) →
      kznl_recv_add_dispatcher mem pid attrs st = (-EEXIST, st)) ∧
    (transaction_dispatcher_lookup tr dpt0.name = none → mem 3 = true →
      (kznl_recv_add_dispatcher mem pid attrs st).1 = 0 ∧
      ∃ d, d.name = dpt0.name ∧
        (kznl_recv_add_dispatcher mem pid attrs st).2.transaction.op =
          .KZNL_OP_DISPATCHER d :: tr.op) := by
  unfold kznl_recv_add_dispatcher
  simp only [hp, hl]
  constructor
  · rintro ⟨d, hd⟩
    simp only [hd]
  · intro hn hm
    simp only [hn, hm, transaction_add_op, if_true]
    refine ⟨trivial, ⟨_, ?_, rfl⟩⟩
    rfl

/-- C14: the published snapshot holds a dispatcher "d" of instance "inst" and
the open transaction has no flush flag set, so that dispatcher survives the
commit; yet AddDispatcher for "d" returns 0 and stages a second "d", and the
commit returns 0 and publishes a snapshot with two dispatchers named "d". -/
theorem add_dispatcher_base_name_accepted :
    (st_dispatcher_again.transaction.cfg.dispatchers.map fun d => d.name) = ["d"] ∧
    st_dispatcher_again.transaction.flags = 0 ∧
    (kznl_recv_add_dispatcher mem_ok 1 (dispatcher_msg "d" 0) st_dispatcher_again).1 = 0 ∧
    ((commit_staged_dispatchers
      (kznl_recv_add_dispatcher mem_ok 1 (dispatcher_msg "d" 0)
        st_dispatcher_again).2.transaction.op).map fun d => d.name) = ["d"] ∧
    (kznl_recv_commit env_ok 1
      (kznl_recv_add_dispatcher mem_ok 1 (dispatcher_msg "d" 0) st_dispatcher_again).2).1 = 0 ∧
    ((kznl_recv_commit env_ok 1
      (kznl_recv_add_dispatcher mem_ok 1 (dispatcher_msg "d" 0)
        st_dispatcher_again).2).2.kz_config_rcu.dispatchers.map fun d => d.name) =
      ["d", "d"] := by
  decide

/-! ## Rules of staged dispatchers -/

theorem staged_kept_refl (st : kz_state) : staged_kept st st :=
  fun _ h => Or.inl h

theorem staged_kept_of_op {st st1 : kz_state} (h : st1.transaction.op = st.transaction.op) :
    staged_kept st st1 := by
  intro d hd
  rw [h] at hd
  exact Or.inl hd

theorem staged_kept_nil {st st1 : kz_state} (h : st1.transaction.op = []) :
    staged_kept st st1 := by
  intro d hd
  rw [h] at hd
  cases hd

theorem start_kept (mem : Nat → Bool) (pid : Nat) (attrs : start_attrs) (st : kz_state) :
    staged_kept st (kznl_recv_start mem pid attrs st).2 := by
  apply staged_kept_of_op
  rcases start_result mem pid attrs st with h | ⟨a, ha, hp, hl⟩
  · rw [h]
  · rw [start_cases mem pid attrs st a ha hp hl]
    cases start_instance mem st.kz_instances a with
    | none => rfl
    | some r =>
      obtain ⟨ins, instances⟩ := r
      simp only []
      split_ifs <;> rfl

theorem commit_kept (env : kz_env) (pid : Nat) (st : kz_state) :
    staged_kept st (kznl_recv_commit env pid st).2 := by
  unfold kznl_recv_commit
  split
  · exact staged_kept_refl st
  · exact staged_kept_nil rfl

theorem setflag_kept (pid flag : Nat) (st : kz_state) :
    staged_kept st (kznl_recv_setflag pid flag st).2 :=
  staged_kept_of_op (setflag_op pid flag st)

theorem release_kept (event protocol pid : Nat) (st : kz_state) :
    staged_kept st (kznl_netlink_event event protocol pid st) := by
  unfold kznl_netlink_event
  split
  · split
    · split
      · exact staged_kept_nil rfl
      · exact staged_kept_nil rfl
    · exact staged_kept_of_op rfl
  · exact staged_kept_refl st

theorem kept_cons_zone {st st1 : kz_state} (z : kz_zone)
    (h : st1.transaction.op = .KZNL_OP_ZONE z :: st.transaction.op) : staged_kept st st1 := by
  intro d hd
  rw [h] at hd
  simp only [List.mem_cons] at hd
  rcases hd with hd | hd
  · cases hd
  · exact Or.inl hd

theorem add_zone_kept (mem : Nat → Bool) (pid : Nat) (attrs : add_zone_attrs) (st : kz_state) :
    staged_kept st (kznl_recv_add_zone mem pid attrs st).2 := by
  rcases add_zone_cases mem pid attrs st with h | ⟨z, h, -⟩
  · rw [h]; exact staged_kept_refl st
  · rw [h]; exact kept_cons_zone z rfl

theorem add_service_kept (mem : Nat → Bool) (id pid : Nat) (attrs : add_service_attrs)
    (st : kz_state) : staged_kept st (kznl_recv_add_service mem id pid attrs st).2 := by
  unfold kznl_recv_add_service
  cases hl : transaction_lookup st pid with
  | none => split <;> exact staged_kept_refl st
  | some tr =>
    obtain ⟨rfl, -, -⟩ := transaction_lookup_some hl
    simp only []
    repeat' split
    all_goals first
      | exact staged_kept_refl st
      | (intro d hd
         simp only [transaction_add_op] at hd
         split at hd
         · simp only [List.mem_cons] at hd
           rcases hd with hd | hd
           · cases hd
           · exact Or.inl hd
         · exact Or.inl hd)

theorem update_service_mem (f : kz_service → kz_service) (n : String) (d : kz_dispatcher) :
    ∀ op : List kz_operation, kz_operation.KZNL_OP_DISPATCHER d ∈ op_update_service f n op →
      kz_operation.KZNL_OP_DISPATCHER d ∈ op := by
  intro op
  induction op with
  | nil => intro h; simp [op_update_service] at h
  | cons o rest ih =>
    intro h
    cases o with
    | KZNL_OP_SERVICE s =>
      unfold op_update_service at h
      split at h
      · simp only [List.mem_cons] at h ⊢
        rcases h with h | h
        · cases h
        · exact Or.inr h
      · simp only [List.mem_cons] at h ⊢
        rcases h with h | h
        · cases h
        · exact Or.inr (ih h)
    | KZNL_OP_ZONE z =>
      simp only [op_update_service, List.mem_cons] at h ⊢
      exact h.imp id ih
    | KZNL_OP_DISPATCHER z =>
      simp only [op_update_service, List.mem_cons] at h ⊢
      exact h.imp id ih
    | KZNL_OP_BIND z =>
      simp only [op_update_service, List.mem_cons] at h ⊢
      exact h.imp id ih

theorem add_service_nat_kept (mem : Nat → Bool) (snat : Bool) (pid : Nat)
    (attrs : add_service_nat_attrs) (st : kz_state) :
    staged_kept st (kznl_recv_add_service_nat mem snat pid attrs st).2 := by
  unfold kznl_recv_add_service_nat
  cases hl : transaction_lookup st pid with
  | none => split <;> exact staged_kept_refl st
  | some tr =>
    obtain ⟨rfl, -, -⟩ := transaction_lookup_some hl
    simp only []
    repeat' split
    all_goals first
      | exact staged_kept_refl st
      | (intro d hd
         exact Or.inl (update_service_mem _ _ d _ hd))

theorem add_dispatcher_kept (mem : Nat → Bool) (pid : Nat) (attrs : add_dispatcher_attrs)
    (st : kz_state) : staged_kept st (kznl_recv_add_dispatcher mem pid attrs st).2 := by
  unfold kznl_recv_add_dispatcher
  cases hp : kznl_recv_add_dispatcher_parse mem attrs with
  | error e => exact staged_kept_refl st
  | ok dpt0 =>
    have h0 : dpt0.rule = [] ∧ dpt0.num_rule = 0 := by
      unfold kznl_recv_add_dispatcher_parse at hp
      split at hp
      · cases hp
      · split at hp
        · cases hp
        · cases hn : kznl_parse_name_alloc (mem 1) ‹String› with
          | error e => simp [hn, bind, Except.bind] at hp
          | ok n =>
            simp only [hn, bind, Except.bind] at hp
            split at hp
            · cases hp
            · split at hp
              · cases hp
              · simp only [pure, Except.pure, Except.ok.injEq] at hp
                subst hp
                exact ⟨rfl, rfl⟩
    cases hl : transaction_lookup st pid with
    | none => exact staged_kept_refl st
    | some tr =>
      obtain ⟨rfl, -, -⟩ := transaction_lookup_some hl
      simp only []
      split
      · exact staged_kept_refl st
      · intro d hd
        simp only [transaction_add_op] at hd
        split at hd
        · simp only [List.mem_cons] at hd
          rcases hd with hd | hd
          · cases hd
            exact Or.inr h0
          · exact Or.inl hd
        · exact Or.inl hd

theorem add_bind_kept (mem : Nat → Bool) (pid : Nat) (attrs : add_bind_attrs) (st : kz_state) :
    staged_kept st (kznl_recv_add_bind mem pid attrs st).2 := by
  unfold kznl_recv_add_bind
  cases hl : transaction_lookup st pid with
  | none => exact staged_kept_refl st
  | some tr =>
    obtain ⟨rfl, -, -⟩ := transaction_lookup_some hl
    simp only []
    repeat' split
    all_goals first
      | exact staged_kept_refl st
      | (intro d hd
         simp only [transaction_add_op] at hd
         split at hd
         · simp only [List.mem_cons] at hd
           rcases hd with hd | hd
           · cases hd
           · exact Or.inl hd
         · exact Or.inl hd)


theorem dispatcher_lookup_mem_aux (n : String) (d : kz_dispatcher) :
    ∀ op : List kz_operation,
      (op.findSome? fun o =>
        match o with
        | .KZNL_OP_DISPATCHER d => if d.name = n then some d else none
        | _ => none) = some d →
      kz_operation.KZNL_OP_DISPATCHER d ∈ op ∧ d.name = n ∧
      op_update_dispatcher (fun _ => d) n op = op ∧
      ∀ (f : kz_dispatcher → kz_dispatcher) (x : kz_dispatcher),
        kz_operation.KZNL_OP_DISPATCHER x ∈ op_update_dispatcher f n op →
        kz_operation.KZNL_OP_DISPATCHER x ∈ op ∨ x = f d := by
  intro op
  induction op with
  | nil => intro h; simp at h
  | cons o rest ih =>
    intro h
    cases o with
    | KZNL_OP_DISPATCHER e =>
      rw [List.findSome?_cons] at h
      by_cases he : e.name = n
      · simp only [he, if_true] at h
        cases h
        refine ⟨List.mem_cons_self _ _, he, ?_, ?_⟩
        · simp [op_update_dispatcher, he]
        · intro f x hx
          simp only [op_update_dispatcher, he, if_true, List.mem_cons] at hx
          rcases hx with hx | hx
          · cases hx; exact Or.inr rfl
          · exact Or.inl (List.mem_cons_of_mem _ hx)
      · simp only [he, if_false] at h
        obtain ⟨h1, h2, h3, h4⟩ := ih h
        refine ⟨List.mem_cons_of_mem _ h1, h2, ?_, ?_⟩
        · simp [op_update_dispatcher, he, h3]
        · intro f x hx
          simp only [op_update_dispatcher, he, if_false, List.mem_cons] at hx
          rcases hx with hx | hx
          · exact Or.inl (hx ▸ List.mem_cons_self _ _)
          · exact (h4 f x hx).imp (List.mem_cons_of_mem _) id
    | KZNL_OP_ZONE z =>
      rw [List.findSome?_cons] at h
      obtain ⟨h1, h2, h3, h4⟩ := ih h
      refine ⟨List.mem_cons_of_mem _ h1, h2, by simp [op_update_dispatcher, h3], ?_⟩
      intro f x hx
      simp only [op_update_dispatcher, List.mem_cons] at hx
      rcases hx with hx | hx
      · cases hx
      · exact (h4 f x hx).imp (List.mem_cons_of_mem _) id
    | KZNL_OP_SERVICE z =>
      rw [List.findSome?_cons] at h
      obtain ⟨h1, h2, h3, h4⟩ := ih h
      refine ⟨List.mem_cons_of_mem _ h1, h2, by simp [op_update_dispatcher, h3], ?_⟩
      intro f x hx
      simp only [op_update_dispatcher, List.mem_cons] at hx
      rcases hx with hx | hx
      · cases hx
      · exact (h4 f x hx).imp (List.mem_cons_of_mem _) id
    | KZNL_OP_BIND z =>
      rw [List.findSome?_cons] at h
      obtain ⟨h1, h2, h3, h4⟩ := ih h
      refine ⟨List.mem_cons_of_mem _ h1, h2, by simp [op_update_dispatcher, h3], ?_⟩
      intro f x hx
      simp only [op_update_dispatcher, List.mem_cons] at hx
      rcases hx with hx | hx
      · cases hx
      · exact (h4 f x hx).imp (List.mem_cons_of_mem _) id

/-- The dispatcher found by `transaction_dispatcher_lookup` is staged under the
name asked for; writing it back changes nothing, and writing `f` of it changes
no other staged dispatcher. -/
theorem dispatcher_lookup_mem {tr : kz_transaction} {n : String} {d : kz_dispatcher}
    (h : transaction_dispatcher_lookup tr n = some d) :
    kz_operation.KZNL_OP_DISPATCHER d ∈ tr.op ∧ d.name = n ∧
    op_update_dispatcher (fun _ => d) n tr.op = tr.op ∧
    ∀ (f : kz_dispatcher → kz_dispatcher) (x : kz_dispatcher),
      kz_operation.KZNL_OP_DISPATCHER x ∈ op_update_dispatcher f n tr.op →
      kz_operation.KZNL_OP_DISPATCHER x ∈ tr.op ∨ x = f d :=
  dispatcher_lookup_mem_aux n d tr.op h

theorem rule_lookup_eq (tr : kz_transaction) (n : String) (id : Nat) :
    transaction_rule_lookup tr n id =
      match transaction_dispatcher_lookup tr n with
      | none => none
      | some d =>
        match dispatcher_last_rule d with
        | some rule => if id = rule.id then some rule else none
        | none => none := by
  unfold transaction_rule_lookup dispatcher_last_rule
  cases transaction_dispatcher_lookup tr n with
  | none => rfl
  | some d =>
    simp only []
    by_cases h : d.num_rule > 0
    · simp only [if_pos h]
    · rw [if_neg h, if_neg h]

theorem add_rule_increasing (m : Bool) (d : kz_dispatcher) (svc : kz_service) (rule : kz_rule)
    (h : rules_increasing d) : rules_increasing (kz_dispatcher_add_rule m d svc rule).2 := by
  obtain ⟨hlen, hp⟩ := h
  unfold kz_dispatcher_add_rule
  split
  · exact ⟨hlen, hp⟩
  split
  · exact ⟨hlen, hp⟩
  split
  · exact ⟨hlen, hp⟩
  rename_i hfull hlast hmem
  have htake : d.rule.take d.num_rule = d.rule := by
    rw [← hlen]; exact List.take_length _
  refine ⟨?_, ?_⟩
  · simp [htake, hlen]
  · simp only [htake, List.map_append, List.map_cons, List.map_nil]
    rw [List.pairwise_append]
    refine ⟨hp, List.pairwise_singleton _ _, ?_⟩
    intro a ha b hb
    simp only [List.mem_singleton] at hb
    subst hb
    simp only [List.mem_map] at ha
    obtain ⟨r, hr, rfl⟩ := ha
    obtain ⟨k, hk, hkr⟩ := List.getElem_of_mem hr
    -- the last rule bounds every id from above
    have hpos : 0 < d.num_rule := by omega
    have hl : dispatcher_last_rule d = some (d.rule.get ⟨d.num_rule - 1, by omega⟩) := by
      unfold dispatcher_last_rule
      rw [if_pos hpos]
      exact List.getElem?_eq_getElem _
    rw [hl] at hlast
    simp only [decide_eq_true_eq, Bool.not_eq_true, decide_eq_false_iff_not, not_le] at hlast
    by_cases hkl : k = d.num_rule - 1
    · subst hkl
      rw [← hkr]
      exact hlast
    · have hlt : k < d.num_rule - 1 := by omega
      have := List.pairwise_iff_getElem.mp hp k (d.num_rule - 1) (by simp; omega)
        (by simp; omega) hlt
      simp only [List.getElem_map] at this
      rw [← hkr]
      exact lt_trans this hlast

theorem set_last_rule_increasing (r r1 : kz_rule) (d : kz_dispatcher)
    (hl : dispatcher_last_rule d = some r) (hid : r1.id = r.id)
    (h : rules_increasing d) : rules_increasing (dispatcher_set_last_rule r1 d) := by
  obtain ⟨hlen, hp⟩ := h
  unfold dispatcher_set_last_rule
  refine ⟨by simpa using hlen, ?_⟩
  have hmap : (d.rule.set (d.num_rule - 1) r1).map (fun r => r.id) = d.rule.map fun r => r.id := by
    unfold dispatcher_last_rule at hl
    split at hl
    · apply List.ext_getElem?
      intro k
      simp only [List.getElem?_map, List.getElem?_set]
      by_cases hk : d.num_rule - 1 = k
      · subst hk
        rw [if_pos rfl, hl]
        have : d.num_rule - 1 < d.rule.length := by
          by_contra hc
          rw [List.getElem?_eq_none (by omega)] at hl
          cases hl
        simp [this, hid]
      · rw [if_neg hk]
    · cases hl
  simp only []
  rw [hmap]
  exact hp


theorem staged_rules_of_kept {st st1 : kz_state} (hk : staged_kept st st1)
    (h : staged_rules_ok st.transaction.op) : staged_rules_ok st1.transaction.op := by
  intro d hd
  rcases hk d hd with h1 | ⟨h1, h2⟩
  · exact h d h1
  · exact ⟨by rw [h1, h2]; rfl, by rw [h1]; exact List.Pairwise.nil⟩

theorem add_rule_step_ok (m : Bool) (mem : Nat → Bool) (pid : Nat) (attrs : add_rule_attrs)
    (st : kz_state) (h : staged_rules_ok st.transaction.op) :
    staged_rules_ok
      (kznl_recv_add_n_dimension_rule (kz_dispatcher_add_rule m) mem pid attrs st).2.transaction.op
    := by
  unfold kznl_recv_add_n_dimension_rule
  cases hparse : kznl_recv_add_n_dimension_rule_parse mem attrs with
  | error e => exact h
  | ok r =>
    obtain ⟨dpt_name, svc_name, rule⟩ := r
    simp only []
    cases hl : transaction_lookup st pid with
    | none => exact h
    | some tr =>
      obtain ⟨rfl, -, -⟩ := transaction_lookup_some hl
      simp only []
      cases hd : transaction_dispatcher_lookup st.transaction dpt_name with
      | none => exact h
      | some dpt =>
        simp only []
        cases hr : transaction_rule_lookup st.transaction dpt_name rule.id with
        | some r => exact h
        | none =>
          simp only []
          cases hs : lookup_service_merged st.transaction svc_name with
          | none => exact h
          | some svc =>
            obtain ⟨h1, -, -, h4⟩ := dispatcher_lookup_mem hd
            intro x hx
            rcases h4 _ x hx with hx | hx
            · exact h x hx
            · rw [hx]
              exact add_rule_increasing m dpt svc _ (h dpt h1)

theorem add_rule_entry_step_ok (g : kz_rule → kz_rule_entry → Int × kz_rule)
    (hg : ∀ r x, (g r x).2.id = r.id) (mem : Nat → Bool) (pid : Nat)
    (attrs : add_rule_entry_attrs) (st : kz_state) (h : staged_rules_ok st.transaction.op) :
    staged_rules_ok
      (kznl_recv_add_n_dimension_rule_entry g mem pid attrs st).2.transaction.op := by
  unfold kznl_recv_add_n_dimension_rule_entry
  cases hparse : kznl_recv_add_n_dimension_rule_entry_parse mem attrs with
  | error e => exact h
  | ok r =>
    obtain ⟨dpt_name, entry0, src_zone_name, dst_zone_name⟩ := r
    simp only []
    cases hl : transaction_lookup st pid with
    | none => exact h
    | some tr =>
      obtain ⟨rfl, -, -⟩ := transaction_lookup_some hl
      simp only []
      cases hr : transaction_rule_lookup st.transaction dpt_name entry0.rule_id with
      | none => exact h
      | some rule =>
        simp only []
        rw [rule_lookup_eq] at hr
        cases hd : transaction_dispatcher_lookup st.transaction dpt_name with
        | none => rw [hd] at hr; cases hr
        | some d =>
          rw [hd] at hr
          simp only [] at hr
          cases hlast : dispatcher_last_rule d with
          | none => rw [hlast] at hr; cases hr
          | some last =>
            rw [hlast] at hr
            simp only [] at hr
            split at hr
            · cases hr
              obtain ⟨h1, -, -, h4⟩ := dispatcher_lookup_mem hd
              split
              · exact h
              · exact h
              · intro x hx
                rcases h4 _ x hx with hx | hx
                · exact h x hx
                · rw [hx]
                  exact set_last_rule_increasing _ _ d hlast (hg _ _) (h d h1)
            · cases hr

theorem staged_rules_step (e : kz_event) (he : e.rules_modelled) (st : kz_state)
    (h : staged_rules_ok st.transaction.op) :
    staged_rules_ok (kz_step e st).2.transaction.op := by
  cases e with
  | start mem pid attrs => exact staged_rules_of_kept (start_kept mem pid attrs st) h
  | commit env pid => exact staged_rules_of_kept (commit_kept env pid st) h
  | flush_z pid => exact staged_rules_of_kept (setflag_kept pid _ st) h
  | flush_s pid => exact staged_rules_of_kept (setflag_kept pid _ st) h
  | flush_d pid => exact staged_rules_of_kept (setflag_kept pid _ st) h
  | flush_b pid => exact staged_rules_of_kept (setflag_kept pid _ st) h
  | add_zone mem pid attrs => exact staged_rules_of_kept (add_zone_kept mem pid attrs st) h
  | add_service mem id pid attrs =>
    exact staged_rules_of_kept (add_service_kept mem id pid attrs st) h
  | add_service_nat mem snat pid attrs =>
    exact staged_rules_of_kept (add_service_nat_kept mem snat pid attrs st) h
  | add_dispatcher mem pid attrs =>
    exact staged_rules_of_kept (add_dispatcher_kept mem pid attrs st) h
  | add_rule f mem pid attrs =>
    obtain ⟨m, rfl⟩ := he
    exact add_rule_step_ok m mem pid attrs st h
  | add_rule_entry g mem pid attrs => exact add_rule_entry_step_ok g he mem pid attrs st h
  | add_bind mem pid attrs => exact staged_rules_of_kept (add_bind_kept mem pid attrs st) h
  | release event protocol pid =>
    exact staged_rules_of_kept (release_kept event protocol pid st) h

theorem staged_rules_run (es : List kz_event) :
    ∀ st : kz_state, (∀ e ∈ es, e.rules_modelled) → staged_rules_ok st.transaction.op →
      staged_rules_ok (kz_run es st).transaction.op := by
  induction es with
  | nil => intro st _ h; exact h
  | cons e rest ih =>
    intro st hall h
    simp only [kz_run, List.foldl_cons]
    exact ih _ (fun x hx => hall x (List.mem_cons_of_mem _ hx))
      (staged_rules_step e (hall e (List.mem_cons_self _ _)) st h)

/-- An AddRule whose id is not above the id of the last rule of the dispatcher
it names is rejected and changes nothing. -/
theorem add_rule_rejected (m : Bool) (mem : Nat → Bool) (pid : Nat) (attrs : add_rule_attrs)
    (st : kz_state) (tr : kz_transaction) (dpt_name svc_name : String) (rule : kz_rule)
    (d : kz_dispatcher) (last : kz_rule)
    (hp : kznl_recv_add_n_dimension_rule_parse mem attrs = .ok (dpt_name, svc_name, rule))
    (hl : transaction_lookup st pid = some tr)
    (hd : transaction_dispatcher_lookup tr dpt_name = some d)
    (hlast : dispatcher_last_rule d = some last)
    (hid : rule.id ≤ last.id) :
    (kznl_recv_add_n_dimension_rule (kz_dispatcher_add_rule m) mem pid attrs st).1 < 0 ∧
    (kznl_recv_add_n_dimension_rule (kz_dispatcher_add_rule m) mem pid attrs st).2 = st := by
  have hneg := errno_neg
  obtain ⟨rfl, -, -⟩ := transaction_lookup_some hl
  unfold kznl_recv_add_n_dimension_rule
  simp only [hp, hl, hd]
  cases hr : transaction_rule_lookup st.transaction dpt_name rule.id with
  | some r => exact ⟨hneg.2.2.2, rfl⟩
  | none =>
    simp only []
    cases hs : lookup_service_merged st.transaction svc_name with
    | none => exact ⟨hneg.2.2.1, rfl⟩
    | some svc =>
      simp only []
      have hadd : (kz_dispatcher_add_rule m d svc rule).1 < 0 ∧
          (kz_dispatcher_add_rule m d svc rule).2 = d := by
        unfold kz_dispatcher_add_rule
        split
        · exact ⟨hneg.2.1, rfl⟩
        · rw [hlast]
          simp only [decide_eq_true hid, if_true]
          exact ⟨hneg.1, trivial⟩
      refine ⟨hadd.1, ?_⟩
      rw [hadd.2, (dispatcher_lookup_mem hd).2.2.1]

/-! ## AddRule and what it refers to -/

theorem dispatcher_lookup_none (tr : kz_transaction) (n : String) :
    transaction_dispatcher_lookup tr n = none ↔
      ∀ d, kz_operation.KZNL_OP_DISPATCHER d ∈ tr.op → d.name ≠ n := by
  unfold transaction_dispatcher_lookup
  rw [List.findSome?_eq_none_iff]
  constructor
  · intro h d hd hn
    have := h _ hd
    simp [hn] at this
  · intro h o ho
    cases o with
    | KZNL_OP_DISPATCHER d => simp [h d ho]
    | _ => rfl

theorem service_merged_none (tr : kz_transaction) (n : String) :
    lookup_service_merged tr n = none ↔
      (∀ s ∈ staged_services tr.op, s.name ≠ n) ∧
      (has_flag tr KZF_TRANSACTION_FLUSH_SERVICES ∨ ∀ s ∈ tr.cfg.services, s.name ≠ n) := by
  unfold lookup_service_merged has_flag
  rw [transaction_service_lookup_eq]
  cases hf : (staged_services tr.op).find? fun s => s.name = n with
  | some s =>
    simp only []
    constructor
    · intro h; cases h
    · rintro ⟨h, -⟩
      exact absurd (by simpa using List.find?_some hf) (h s (List.mem_of_find?_eq_some hf))
  | none =>
    have hst : ∀ s ∈ staged_services tr.op, s.name ≠ n := by
      intro s hs
      rw [List.find?_eq_none] at hf
      simpa using hf s hs
    simp only []
    by_cases hfl : tr.flags &&& KZF_TRANSACTION_FLUSH_SERVICES ≠ 0
    · rw [if_neg (not_not.mpr hfl)]
      exact ⟨fun _ => ⟨hst, Or.inl hfl⟩, fun _ => rfl⟩
    · rw [if_pos hfl]
      unfold kz_service_lookup_name
      rw [List.find?_eq_none]
      constructor
      · intro h
        exact ⟨hst, Or.inr fun s hs => by simpa using h s hs⟩
      · rintro ⟨-, h | h⟩
        · exact absurd h hfl
        · intro s hs
          simpa using h s hs

/-- C15: with an open transaction of the sender, a well-formed AddRule that
names a dispatcher not staged in the transaction returns -ENOENT; one that
names a staged dispatcher and a service absent from the merged view returns
-ENOENT unless its rule id is the id of the last rule of that dispatcher, in
which case it returns -EEXIST; in each of these cases the state, and with it
the rule array and rule count of every staged dispatcher, is as before.  A
dispatcher is not staged when no staged dispatcher carries the name; a service
is absent from the merged view when none is staged under the name and either
FlushServices is set or the base has none of that name. -/
theorem add_rule_enoent
    (f : kz_dispatcher → kz_service → kz_rule → Int × kz_dispatcher)
    (mem : Nat → Bool) (pid : Nat) (attrs : add_rule_attrs) (st : kz_state)
    (tr : kz_transaction) (dpt_name svc_name : String) (rule : kz_rule)
    (hp : kznl_recv_add_n_dimension_rule_parse mem attrs = .ok (dpt_name, svc_name, rule))
    (hl : transaction_lookup st pid = some tr) :
    ((∀ d, kz_operation.KZNL_OP_DISPATCHER d ∈ tr.op → d.name ≠ dpt_name) →
      kznl_recv_add_n_dimension_rule f mem pid attrs st = (-ENOENT, st)) ∧
    (∀ d, transaction_dispatcher_lookup tr dpt_name = some d →
      (∀ s ∈ staged_services tr.op, s.name ≠ svc_name) →
      (has_flag tr KZF_TRANSACTION_FLUSH_SERVICES ∨
        ∀ s ∈ tr.cfg.services, s.name ≠ svc_name) →
      ((∀ last, dispatcher_last_rule d = some last → last.id ≠ rule.id) →
        kznl_recv_add_n_dimension_rule f mem pid attrs st = (-ENOENT, st)) ∧
      ((∃ last, dispatcher_last_rule d = some last ∧ last.id = rule.id) →
        kznl_recv_add_n_dimension_rule f mem pid attrs st = (-EEXIST, st))) := by
  constructor
  · intro h
    have hd := (dispatcher_lookup_none tr dpt_name).mpr h
    unfold kznl_recv_add_n_dimension_rule
    simp only [hp, hl, hd]
  · intro d hd hst hbase
    have hs := (service_merged_none tr svc_name).mpr ⟨hst, hbase⟩
    have hr := rule_lookup_eq tr dpt_name rule.id
    rw [hd] at hr
    simp only [] at hr
    constructor
    · intro hne
      have hnone : transaction_rule_lookup tr dpt_name rule.id = none := by
        rw [hr]
        cases hlast : dispatcher_last_rule d with
        | none => rfl
        | some last =>
          simp only []
          rw [if_neg]
          exact fun h => hne last hlast h.symm
      unfold kznl_recv_add_n_dimension_rule
      simp only [hp, hl, hd, hnone, hs]
    · rintro ⟨last, hlast, hid⟩
      have hsome : transaction_rule_lookup tr dpt_name rule.id = some last := by
        rw [hr, hlast]
        simp only []
        rw [if_pos hid.symm]
      unfold kznl_recv_add_n_dimension_rule
      simp only [hp, hl, hd, hsome]

theorem add_rule_enoent_witness :
    kznl_recv_add_n_dimension_rule (kz_dispatcher_add_rule true) mem_ok 1
        (rule_msg "e" 9 "web") st_rules = (-ENOENT, st_rules) ∧
    kznl_recv_add_n_dimension_rule (kz_dispatcher_add_rule true) mem_ok 1
        (rule_msg "d" 9 "mail") st_rules = (-ENOENT, st_rules) :=
  ⟨(add_rule_enoent (kz_dispatcher_add_rule true) mem_ok 1 (rule_msg "e" 9 "web") st_rules
      st_rules.transaction "e" "web" _ (by rfl) (by rfl)).1
      ((dispatcher_lookup_none _ _).mp (by decide)),
   ((add_rule_enoent (kz_dispatcher_add_rule true) mem_ok 1 (rule_msg "d" 9 "mail") st_rules
      st_rules.transaction "d" "mail" _ (by rfl) (by rfl)).2 _ (by rfl) (by decide)
      (Or.inr (by decide))).1 (by decide)⟩

/-- In the transaction of `run_rules` the dispatcher "d" is staged with 8 as
the id of its last rule and no service "mail" is in the merged view; an
AddRule for "d" with id 8 and service "mail" returns -EEXIST, not -ENOENT. -/
theorem add_rule_absent_service_eexist :
    lookup_service_merged st_rules.transaction "mail" = none ∧
    (transaction_dispatcher_lookup st_rules.transaction "d").isSome = true ∧
    kznl_recv_add_n_dimension_rule (kz_dispatcher_add_rule true) mem_ok 1
        (rule_msg "d" 8 "mail") st_rules = (-EEXIST, st_rules) ∧
    (kznl_recv_add_n_dimension_rule (kz_dispatcher_add_rule true) mem_ok 1
        (rule_msg "d" 8 "mail") st_rules).1 ≠ -ENOENT := by
  decide

/-! ## Rule ids -/

theorem run_rules_modelled : ∀ e ∈ run_rules, e.rules_modelled := by
  intro e he
  simp only [run_rules, List.mem_cons, List.mem_singleton, List.not_mem_nil, or_false] at he
  rcases he with rfl | rfl | rfl | rfl | rfl
  · trivial
  · trivial
  · trivial
  · exact ⟨true, rfl⟩
  · exact ⟨true, rfl⟩

theorem staged_rules_init : staged_rules_ok transaction_init.transaction.op := by
  intro d hd
  cases hd

/-- Every rule of a dispatcher with `rules_increasing` has an id not above
that of its last rule. -/
theorem le_last_rule {d : kz_dispatcher} (h : rules_increasing d) {r : kz_rule}
    (hr : r ∈ d.rule) : ∃ last, dispatcher_last_rule d = some last ∧ r.id ≤ last.id := by
  obtain ⟨hlen, hp⟩ := h
  obtain ⟨k, hk, hkr⟩ := List.getElem_of_mem hr
  have hpos : 0 < d.num_rule := by omega
  refine ⟨d.rule.get ⟨d.num_rule - 1, by omega⟩, ?_, ?_⟩
  · unfold dispatcher_last_rule
    rw [if_pos hpos]
    exact List.getElem?_eq_getElem _
  · by_cases hkl : k = d.num_rule - 1
    · subst hkl
      rw [← hkr]
      exact le_refl _
    · have hlt : k < d.num_rule - 1 := by omega
      have := List.pairwise_iff_getElem.mp hp k (d.num_rule - 1) (by simp; omega)
        (by simp; omega) hlt
      simp only [List.getElem_map] at this
      rw [← hkr]
      exact le_of_lt this

/-- C16: with `kz_dispatcher_add_rule` as modelled, an AddRule for a staged
dispatcher `d` that holds a rule, with an id not greater than the id of the
last rule of `d`, returns a negative code and leaves the state (and so the
rules of `d`) as it was, in any state.  In every state reached from the
initial one by control-plane events, the rules of every staged dispatcher fill
its used slots and have strictly increasing ids, and an AddRule for a staged
dispatcher whose id is not greater than the id of some rule of the dispatcher
(the last or an earlier one) is rejected in the same way. -/
theorem rule_ids_increasing (es : List kz_event) (hes : ∀ e ∈ es, e.rules_modelled) :
    (∀ (m : Bool) (mem : Nat → Bool) (pid : Nat) (attrs : add_rule_attrs) (st : kz_state)
        (tr : kz_transaction) (dpt_name svc_name : String) (rule : kz_rule)
        (d : kz_dispatcher) (last : kz_rule),
      kznl_recv_add_n_dimension_rule_parse mem attrs = .ok (dpt_name, svc_name, rule) →
      transaction_lookup st pid = some tr →
      transaction_dispatcher_lookup tr dpt_name = some d →
      0 < d.num_rule → d.rule[d.num_rule - 1]? = some last → rule.id ≤ last.id →
      (kznl_recv_add_n_dimension_rule (kz_dispatcher_add_rule m) mem pid attrs st).1 < 0 ∧
      (kznl_recv_add_n_dimension_rule (kz_dispatcher_add_rule m) mem pid attrs st).2 = st) ∧
    (∀ d, kz_operation.KZNL_OP_DISPATCHER d ∈ (kz_run es transaction_init).transaction.op →
      d.rule.length = d.num_rule ∧ (d.rule.map fun r => r.id).Pairwise fun a b => a < b) ∧
    (∀ (m : Bool) (mem : Nat → Bool) (pid : Nat) (attrs : add_rule_attrs)
        (tr : kz_transaction) (dpt_name svc_name : String) (rule : kz_rule)
        (d : kz_dispatcher) (r : kz_rule),
      kznl_recv_add_n_dimension_rule_parse mem attrs = .ok (dpt_name, svc_name, rule) →
      transaction_lookup (kz_run es transaction_init) pid = some tr →
      transaction_dispatcher_lookup tr dpt_name = some d →
      r ∈ d.rule → rule.id ≤ r.id →
      (kznl_recv_add_n_dimension_rule (kz_dispatcher_add_rule m) mem pid attrs
        (kz_run es transaction_init)).1 < 0 ∧
      (kznl_recv_add_n_dimension_rule (kz_dispatcher_add_rule m) mem pid attrs
        (kz_run es transaction_init)).2 = kz_run es transaction_init) := by
  have hinv := staged_rules_run es transaction_init hes staged_rules_init
  refine ⟨?_, fun d hd => hinv d hd, ?_⟩
  · intro m mem pid attrs st tr dpt_name svc_name rule d last hp hl hd hpos hlast hid
    refine add_rule_rejected m mem pid attrs st tr dpt_name svc_name rule d last hp hl hd ?_ hid
    unfold dispatcher_last_rule
    rw [if_pos hpos]
    exact hlast
  · intro m mem pid attrs tr dpt_name svc_name rule d r hp hl hd hr hid
    have htr := (transaction_lookup_some hl).1
    have hmem := (dispatcher_lookup_mem hd).1
    rw [htr] at hmem
    obtain ⟨last, hlast, hle⟩ := le_last_rule (hinv d hmem) hr
    exact add_rule_rejected m mem pid attrs _ tr dpt_name svc_name rule d last hp hl hd hlast
      (le_trans hid hle)

theorem rule_ids_increasing_witness :
    (∀ d, kz_operation.KZNL_OP_DISPATCHER d ∈ st_rules.transaction.op →
      d.rule.length = d.num_rule ∧ (d.rule.map fun r => r.id).Pairwise fun a b => a < b) ∧
    (kznl_recv_add_n_dimension_rule (kz_dispatcher_add_rule true) mem_ok 1
        (rule_msg "d" 5 "web") st_rules).1 < 0 ∧
    (kznl_recv_add_n_dimension_rule (kz_dispatcher_add_rule true) mem_ok 1
        (rule_msg "d" 5 "web") st_rules).2 = st_rules :=
  ⟨(rule_ids_increasing run_rules run_rules_modelled).2.1,
   (rule_ids_increasing run_rules run_rules_modelled).2.2 true mem_ok 1
      (rule_msg "d" 5 "web") st_rules.transaction "d" "web" _ _
      { id := 5, service := "web", alloc := [], entries := [] }
      (by rfl) (by rfl) (by rfl) (by decide) (by decide)⟩

/-! ## IPv4 subnet masks -/

theorem and_pow_ne_zero (m j : Nat) : m &&& 2 ^ j ≠ 0 ↔ m.testBit j = true := by
  rw [Nat.and_two_pow]
  cases h : m.testBit j <;> simp

theorem low_bits_zero (m n : Nat) :
    (2 ^ n - 1) &&& m = 0 ↔ ∀ b < n, m.testBit b = false := by
  constructor
  · intro h b hb
    have := congrArg (fun x => x.testBit b) h
    simp only [Nat.testBit_and, Nat.testBit_two_pow_sub_one, Nat.zero_testBit] at this
    simpa [hb] using this
  · intro h
    apply Nat.eq_of_testBit_eq
    intro b
    simp only [Nat.testBit_and, Nat.testBit_two_pow_sub_one, Nat.zero_testBit]
    by_cases hb : b < n
    · simp [h b hb]
    · simp [hb]

theorem in_subnet_scan_zero (m fuel : Nat) : in_subnet_scan m fuel 0 = 0 := by
  cases fuel with
  | zero => rfl
  | succ f => simp [in_subnet_scan]

theorem in_subnet_scan_pow (m fuel j : Nat) :
    in_subnet_scan m (fuel + 1) (2 ^ j) =
      if m.testBit j = true then in_subnet_scan m fuel (2 ^ j >>> 1) else 2 ^ j := by
  have hne : (2 : Nat) ^ j ≠ 0 := by positivity
  rw [in_subnet_scan]
  by_cases h : m.testBit j = true
  · rw [if_pos ⟨hne, (and_pow_ne_zero m j).mpr h⟩, if_pos h]
  · rw [if_neg (fun hc => h ((and_pow_ne_zero m j).mp hc.2)), if_neg h]

/-- The mask test of `kznl_parse_in_subnet` started at bit `j` passes exactly
when the bits `j`..0 of the mask are ones followed by zeros. -/
theorem in_subnet_scan_spec (m : Nat) :
    ∀ j fuel, j + 2 ≤ fuel →
      (¬ (in_subnet_scan m fuel (2 ^ j) ≠ 0 ∧
          (in_subnet_scan m fuel (2 ^ j) - 1) &&& m ≠ 0) ↔
        ∃ z ≤ j + 1, ∀ b ≤ j, m.testBit b = decide (z ≤ b)) := by
  intro j
  induction j with
  | zero =>
    intro fuel hf
    obtain ⟨f, rfl⟩ : ∃ f, fuel = f + 1 := ⟨fuel - 1, by omega⟩
    rw [in_subnet_scan_pow]
    by_cases h : m.testBit 0 = true
    · rw [if_pos h]
      have : (2 ^ 0 >>> 1 : Nat) = 0 := by decide
      rw [this, in_subnet_scan_zero]
      refine ⟨fun _ => ⟨0, by omega, ?_⟩, fun _ hc => hc.1 rfl⟩
      intro b hb
      have : b = 0 := by omega
      subst this
      simpa using h
    · rw [if_neg h]
      refine ⟨fun _ => ⟨1, by omega, ?_⟩, fun _ hc => hc.2 (by simp)⟩
      intro b hb
      have : b = 0 := by omega
      subst this
      simpa using h
  | succ j ih =>
    intro fuel hf
    obtain ⟨f, rfl⟩ : ∃ f, fuel = f + 1 := ⟨fuel - 1, by omega⟩
    rw [in_subnet_scan_pow]
    have hshift : (2 ^ (j + 1) >>> 1 : Nat) = 2 ^ j := by
      rw [Nat.shiftRight_eq_div_pow, pow_succ]
      simp
    by_cases h : m.testBit (j + 1) = true
    · rw [if_pos h, hshift, ih f (by omega)]
      constructor
      · rintro ⟨z, hz, hb⟩
        refine ⟨z, by omega, ?_⟩
        intro b hbj
        by_cases hbe : b = j + 1
        · subst hbe
          rw [h]
          exact (decide_eq_true hz).symm
        · exact hb b (by omega)
      · rintro ⟨z, hz, hb⟩
        have hz1 : z ≤ j + 1 := by
          have := hb (j + 1) (le_refl _)
          rw [h] at this
          exact of_decide_eq_true this.symm
        exact ⟨z, hz1, fun b hbj => hb b (by omega)⟩
    · rw [if_neg h]
      have hne : (2 : Nat) ^ (j + 1) ≠ 0 := by positivity
      have hl := low_bits_zero m (j + 1)
      constructor
      · intro hc
        have hzero : (2 ^ (j + 1) - 1) &&& m = 0 := by
          by_contra hnz
          exact hc ⟨hne, hnz⟩
        refine ⟨j + 2, le_refl _, ?_⟩
        intro b hbj
        have hd : decide (j + 2 ≤ b) = false := decide_eq_false (by omega)
        rw [hd]
        by_cases hbe : b = j + 1
        · subst hbe
          simpa using h
        · exact hl.mp hzero b (by omega)
      · rintro ⟨z, hz, hb⟩ ⟨-, hnz⟩
        apply hnz
        apply hl.mpr
        have hz2 : ¬ z ≤ j + 1 := by
          intro hle
          have := hb (j + 1) (le_refl _)
          rw [decide_eq_true hle] at this
          exact h this
        intro b hbj
        rw [hb b (by omega)]
        exact decide_eq_false (by omega)


/-- A value below `2 ^ w` is `2 ^ w - 2 ^ (w - k)` for some `k ≤ w` exactly
when, for some `z ≤ w`, its bits below `w` are set from bit `z` upwards and
clear below: `k = w - z` one-bits followed by `z` zero-bits. -/
theorem prefix_mask_bits (w m : Nat) (hm : m < 2 ^ w) :
    (∃ k ≤ w, m = 2 ^ w - 2 ^ (w - k)) ↔
      ∃ z ≤ w, ∀ b < w, m.testBit b = decide (z ≤ b) := by
  have key : ∀ z ≤ w, ∀ b, (2 ^ w - 2 ^ z).testBit b = (decide (b < w) && decide (z ≤ b)) := by
    intro z hz b
    have hlt : 2 ^ z - 1 < 2 ^ w := by
      have : 2 ^ z ≤ 2 ^ w := Nat.pow_le_pow_right (by decide) hz
      have : 0 < 2 ^ z := by positivity
      omega
    have he : 2 ^ w - 2 ^ z = 2 ^ w - (2 ^ z - 1 + 1) := by
      have : 0 < 2 ^ z := by positivity
      omega
    rw [he, Nat.testBit_two_pow_sub_succ hlt, Nat.testBit_two_pow_sub_one]
    by_cases h1 : b < w <;> by_cases h2 : b < z <;> simp [h1, h2]
    all_goals omega
  constructor
  · rintro ⟨k, hk, rfl⟩
    refine ⟨w - k, by omega, ?_⟩
    intro b hb
    rw [key (w - k) (by omega) b]
    simp [hb]
  · rintro ⟨z, hz, hb⟩
    refine ⟨w - z, by omega, ?_⟩
    have hwz : w - (w - z) = z := by omega
    rw [hwz]
    apply Nat.eq_of_testBit_eq
    intro b
    rw [key z hz b]
    by_cases h1 : b < w
    · rw [hb b h1]
      simp [h1]
    · have : m < 2 ^ b := lt_of_lt_of_le hm (Nat.pow_le_pow_right (by decide) (by omega))
      rw [Nat.testBit_lt_two_pow this]
      simp [h1]

/-- C17: for every mask `m` below `2 ^ 32` (the host-order value of the mask),
`kznl_parse_in_subnet` returns 0 if and only if `m` is `k` one-bits followed
by `32 - k` zero-bits for some `k ≤ 32`, that is `m = 2 ^ 32 - 2 ^ (32 - k)`;
it returns -EINVAL for every other mask; and the address and mask come back
as they were given. -/
theorem in_subnet_prefix_masks (addr m : Nat) (hm : m < 2 ^ 32) :
    ((kznl_parse_in_subnet (addr, m)).1 = 0 ↔ ∃ k ≤ 32, m = 2 ^ 32 - 2 ^ (32 - k)) ∧
    ((kznl_parse_in_subnet (addr, m)).1 = 0 ↔
      ∃ k ≤ 32, ∀ b < 32, m.testBit b = decide (32 - k ≤ b)) ∧
    ((kznl_parse_in_subnet (addr, m)).1 ≠ 0 → (kznl_parse_in_subnet (addr, m)).1 = -EINVAL) ∧
    (kznl_parse_in_subnet (addr, m)).2 = (addr, m) := by
  have hbits : (kznl_parse_in_subnet (addr, m)).1 = 0 ↔
      ∃ z ≤ 32, ∀ b < 32, m.testBit b = decide (z ≤ b) := by
    have hs := in_subnet_scan_spec m 31 33 (by decide)
    have h31 : (2 : Nat) ^ 31 = 2147483648 := by norm_num
    rw [h31] at hs
    unfold kznl_parse_in_subnet
    simp only []
    by_cases hc : in_subnet_scan m 33 2147483648 ≠ 0 ∧
        (in_subnet_scan m 33 2147483648 - 1) &&& m ≠ 0
    · rw [if_pos hc]
      constructor
      · intro h
        simp [EINVAL] at h
      · rintro ⟨z, hz, hb⟩
        exact absurd hc (hs.mpr ⟨z, hz, fun b hb1 => hb b (by omega)⟩)
    · rw [if_neg hc]
      obtain ⟨z, hz, hb⟩ := hs.mp hc
      exact ⟨fun _ => ⟨z, hz, fun b hb1 => hb b (by omega)⟩, fun _ => rfl⟩
  refine ⟨hbits.trans (prefix_mask_bits 32 m hm).symm, ?_, ?_, ?_⟩
  · rw [hbits]
    constructor
    · rintro ⟨z, hz, hb⟩
      exact ⟨32 - z, by omega, fun b hb1 => by rw [hb b hb1]; congr 1; simp; omega⟩
    · rintro ⟨k, hk, hb⟩
      exact ⟨32 - k, by omega, hb⟩
  · intro h
    unfold kznl_parse_in_subnet at h ⊢
    simp only [] at h ⊢
    split
    · rfl
    · rename_i hc
      rw [if_neg hc] at h
      exact absurd rfl h
  · unfold kznl_parse_in_subnet
    simp only []
    split <;> rfl

theorem in_subnet_prefix_masks_witness :
    (kznl_parse_in_subnet (167772160, 4294967040)).1 = 0 ∧
    (kznl_parse_in_subnet (167772160, 4278255615)).1 = -EINVAL :=
  ⟨(in_subnet_prefix_masks 167772160 4294967040 (by decide)).1.mpr ⟨24, by decide, by decide⟩,
   (in_subnet_prefix_masks 167772160 4278255615 (by decide)).2.2.1 (by decide)⟩

/-! ## IPv6 subnet masks -/

theorem takeWhile_range_spec (p : Nat → Bool) (n : Nat) :
    ((List.range n).takeWhile p).length ≤ n ∧
    (∀ k < ((List.range n).takeWhile p).length, p k = true) ∧
    (((List.range n).takeWhile p).length < n →
      p ((List.range n).takeWhile p).length = false) := by
  have gen : ∀ (l : List Nat),
      (l.takeWhile p).length ≤ l.length ∧
      (∀ k (h : k < (l.takeWhile p).length) (h2 : k < l.length), p (l.get ⟨k, h2⟩) = true) ∧
      (∀ h : (l.takeWhile p).length < l.length,
        p (l.get ⟨(l.takeWhile p).length, h⟩) = false) := by
    intro l
    induction l with
    | nil => simp
    | cons a rest ih =>
      by_cases ha : p a = true
      · rw [List.takeWhile_cons_of_pos ha]
        obtain ⟨h1, h2, h3⟩ := ih
        refine ⟨by simpa using h1, ?_, ?_⟩
        · intro k hk hk2
          cases k with
          | zero => simpa using ha
          | succ k =>
            simp only [List.length_cons, Nat.add_lt_add_iff_right] at hk hk2
            simpa using h2 k hk hk2
        · intro h
          simp only [List.length_cons, Nat.add_lt_add_iff_right] at h
          simpa using h3 h
      · rw [List.takeWhile_cons_of_neg ha]
        refine ⟨by simp, ?_, ?_⟩
        · intro k hk; simp at hk
        · intro h; simpa using ha
  obtain ⟨h1, h2, h3⟩ := gen (List.range n)
  have hn : (List.range n).length = n := List.length_range n
  refine ⟨by omega, ?_, ?_⟩
  · intro k hk
    have := h2 k hk (by omega)
    simpa using this
  · intro h
    have := h3 (by omega)
    simpa using this

theorem shift_round_trip (m s : Nat) :
    (m >>> s) <<< s = m ↔ ∀ b < s, m.testBit b = false := by
  constructor
  · intro h b hb
    rw [← h, Nat.testBit_shiftLeft]
    simp [hb]
  · intro h
    apply Nat.eq_of_testBit_eq
    intro b
    rw [Nat.testBit_shiftLeft, Nat.testBit_shiftRight]
    by_cases hb : b < s
    · rw [h b hb]
      simp [hb]
    · have : s + (b - s) = b := by omega
      simp [hb, this]
      omega

/-- C18: for every mask `m` below `2 ^ 128`, `kznl_parse_in6_subnet` returns 0
if and only if `m` is `k` one-bits followed by `128 - k` zero-bits for some
`k ≤ 128`, that is `m = 2 ^ 128 - 2 ^ (128 - k)`, and returns -EINVAL
otherwise; the mask is compared with the prefix of itself whose length is the
number of its leading one-bits, the position of its first zero bit. -/
theorem in6_subnet_prefix_masks (addr m : Nat) (hm : m < 2 ^ 128) :
    ((kznl_parse_in6_subnet (addr, m)).1 = 0 ↔ ∃ k ≤ 128, m = 2 ^ 128 - 2 ^ (128 - k)) ∧
    ((kznl_parse_in6_subnet (addr, m)).1 = 0 ↔
      ∃ k ≤ 128, ∀ b < 128, m.testBit b = decide (128 - k ≤ b)) ∧
    ((kznl_parse_in6_subnet (addr, m)).1 ≠ 0 →
      (kznl_parse_in6_subnet (addr, m)).1 = -EINVAL) ∧
    ((kznl_parse_in6_subnet (addr, m)).1 = 0 ↔
      ipv6_addr_prefix m (ipv6_addr_diff m (2 ^ 128 - 1)) = m) ∧
    (ipv6_addr_diff m (2 ^ 128 - 1) ≤ 128 ∧
      (∀ k < ipv6_addr_diff m (2 ^ 128 - 1), m.testBit (127 - k) = true) ∧
      (ipv6_addr_diff m (2 ^ 128 - 1) < 128 →
        m.testBit (127 - ipv6_addr_diff m (2 ^ 128 - 1)) = false)) := by
  have hres : (kznl_parse_in6_subnet (addr, m)).1 = 0 ↔
      ipv6_addr_prefix m (ipv6_addr_diff m (2 ^ 128 - 1)) = m := by
    unfold kznl_parse_in6_subnet
    simp only []
    by_cases hc : ipv6_addr_prefix m (ipv6_addr_diff m (2 ^ 128 - 1)) = m
    · rw [if_neg (not_not.mpr hc)]
      exact ⟨fun _ => hc, fun _ => rfl⟩
    · rw [if_pos hc]
      constructor
      · intro h; simp [EINVAL] at h
      · intro h; exact absurd h hc
  have hlen : ipv6_addr_diff m (2 ^ 128 - 1) ≤ 128 ∧
      (∀ k < ipv6_addr_diff m (2 ^ 128 - 1), m.testBit (127 - k) = true) ∧
      (ipv6_addr_diff m (2 ^ 128 - 1) < 128 →
        m.testBit (127 - ipv6_addr_diff m (2 ^ 128 - 1)) = false) := by
    have hones : ∀ k, (2 ^ 128 - 1 : Nat).testBit (127 - k) = true := by
      intro k
      rw [Nat.testBit_two_pow_sub_one]
      exact decide_eq_true (by omega)
    obtain ⟨h1, h2, h3⟩ := takeWhile_range_spec
      (fun k => decide (m.testBit (127 - k) = (2 ^ 128 - 1 : Nat).testBit (127 - k))) 128
    refine ⟨h1, ?_, ?_⟩
    · intro k hk
      have := h2 k hk
      simp only [decide_eq_true_eq] at this
      rw [this, hones]
    · intro h
      have := h3 h
      simp only [decide_eq_false_iff_not] at this
      rw [hones] at this
      simpa using this
  obtain ⟨hl1, hl2, hl3⟩ := hlen
  have hbits : (kznl_parse_in6_subnet (addr, m)).1 = 0 ↔
      ∃ z ≤ 128, ∀ b < 128, m.testBit b = decide (z ≤ b) := by
    rw [hres]
    unfold ipv6_addr_prefix
    rw [shift_round_trip]
    constructor
    · intro h
      refine ⟨128 - ipv6_addr_diff m (2 ^ 128 - 1), by omega, ?_⟩
      intro b hb
      by_cases hz : 128 - ipv6_addr_diff m (2 ^ 128 - 1) ≤ b
      · rw [decide_eq_true hz]
        have := hl2 (127 - b) (by omega)
        have hb2 : 127 - (127 - b) = b := by omega
        rw [hb2] at this
        exact this
      · rw [decide_eq_false hz]
        exact h b (by omega)
    · rintro ⟨z, hz, hb⟩ b hbl
      have hzl : 128 - ipv6_addr_diff m (2 ^ 128 - 1) ≤ z := by
        by_contra hc
        have hlt : ipv6_addr_diff m (2 ^ 128 - 1) < 128 := by omega
        have h1 := hl3 hlt
        rw [hb _ (by omega)] at h1
        have := of_decide_eq_false h1
        omega
      rw [hb b (by omega)]
      exact decide_eq_false (by omega)
  refine ⟨hbits.trans (prefix_mask_bits 128 m hm).symm, ?_, ?_, hres, hl1, hl2, hl3⟩
  · rw [hbits]
    constructor
    · rintro ⟨z, hz, hb⟩
      exact ⟨128 - z, by omega, fun b hb1 => by rw [hb b hb1]; congr 1; simp; omega⟩
    · rintro ⟨k, hk, hb⟩
      exact ⟨128 - k, by omega, hb⟩
  · intro h
    unfold kznl_parse_in6_subnet at h ⊢
    simp only [] at h ⊢
    split
    · rfl
    · rename_i hc
      rw [if_neg hc] at h
      exact absurd rfl h

theorem in6_subnet_prefix_masks_witness :
    (kznl_parse_in6_subnet (0, 2 ^ 128 - 2 ^ 64)).1 = 0 ∧
    (kznl_parse_in6_subnet (0, 2 ^ 128 - 2 ^ 64 + 1)).1 = -EINVAL :=
  ⟨(in6_subnet_prefix_masks 0 (2 ^ 128 - 2 ^ 64) (by norm_num)).1.mpr
      ⟨64, by decide, by norm_num⟩,
   (in6_subnet_prefix_masks 0 (2 ^ 128 - 2 ^ 64 + 1) (by norm_num)).2.2.1 (by decide)⟩

/-! ## The verdict cache: create and find -/

theorem kz_bucket_lt (jhash2 : List Nat → Nat → Nat) (t : nf_conntrack_tuple) (zone : Nat) :
    kz_bucket jhash2 t zone < kz_hash_size := by
  unfold kz_bucket hash_conntrack_raw kz_hash_size kz_hash_shift
  rw [Nat.shiftRight_eq_div_pow]
  have : jhash2 (t.src ++ t.dst_u3)
      ((zone ^^^ kz_hash_rnd ^^^ (t.dst_u_all <<< 16 ||| t.dst_protonum)) % 4294967296) %
        4294967296 < 4294967296 := Nat.mod_lt _ (by decide)
  have h16 : (1 <<< 4 : Nat) = 16 := by decide
  rw [h16]
  omega

theorem kz_bucket_congr (jhash2 : List Nat → Nat → Nat) (t1 t2 : nf_conntrack_tuple)
    (zone : Nat) (h : nf_ct_tuple_equal t1 t2 = true) :
    kz_bucket jhash2 t1 zone = kz_bucket jhash2 t2 zone := by
  unfold nf_ct_tuple_equal at h
  simp only [Bool.and_eq_true, decide_eq_true_eq] at h
  obtain ⟨⟨⟨h1, h2⟩, h3⟩, h4⟩ := h
  unfold kz_bucket hash_conntrack_raw
  rw [h1, h2, h3, h4]

theorem nf_ct_tuple_equal_refl (t : nf_conntrack_tuple) : nf_ct_tuple_equal t t = true := by
  simp [nf_ct_tuple_equal]

/-- The record `kz_extension_create` leaves for `ct`. -/
theorem kz_extension_create_eq (jhash2 : List Nat → Nat → Nat) (a : Nat)
    (old : nf_conntrack_kzorp) (ct : nf_conn) (st : kz_ext_state) :
      kz_extension_create jhash2 (some (a, old)) ct st =
        (some a,
          { kz_hash :=
              (st.kz_hash.modify
                (fun h => { h with first := { kzorp := a, slot := 0 } :: h.first })
                (kz_bucket jhash2 ct.tuplehash.1 ct.nf_ct_zone)).modify
                (fun h => { h with first := { kzorp := a, slot := 1 } :: h.first })
                (kz_bucket jhash2 ct.tuplehash.2 ct.nf_ct_zone),
            kz_cachep :=
              (a, { tuplehash := ct.tuplehash, ct_zone := ct.nf_ct_zone, sid := 0,
                    generation := 0, session_start := 0, rule_id := 0, czone := none,
                    szone := none, svc := none, dpt := none }) ::
              (a, kz_extension_copy_tuplehash (nf_conntrack_kzorp_init old) ct) ::
              (a, nf_conntrack_kzorp_init old) :: (a, old) :: st.kz_cachep }) := by
  simp [kz_extension_create, obj_write, obj_modify, obj_read, kz_extension_fill,
    kz_extension_fill_one, hlist_nulls_add_head_rcu, nf_conntrack_kzorp_init,
    kz_extension_copy_tuplehash, tuplehash_at]


theorem kz_extension_walk_some (st : kz_ext_state) (th : nf_conntrack_tuple) (zone : Nat) :
    ∀ (l : List tuple_hash_ptr) (n : tuple_hash_ptr),
      kz_extension_walk st th zone l = some (some n) →
      n ∈ l ∧ __kz_extension_key_equal st n th zone = some true := by
  intro l
  induction l with
  | nil => intro n h; simp [kz_extension_walk] at h
  | cons x rest ih =>
    intro n h
    unfold kz_extension_walk at h
    split at h
    · cases h
    · rename_i hk
      cases h
      exact ⟨List.mem_cons_self _ _, hk⟩
    · obtain ⟨h1, h2⟩ := ih n h
      exact ⟨List.mem_cons_of_mem _ h1, h2⟩

/-- A lookup whose walk of the bucket of its key ends at a node returns the
record computed from that node. -/
theorem kz_extension_find_of_walk (jhash2 : List Nat → Nat → Nat) (fuel : Nat) (ct : nf_conn)
    (st : kz_ext_state) (head : hlist_nulls_head) (n : tuple_hash_ptr) (a : Nat)
    (hb : st.kz_hash[kz_bucket jhash2 ct.tuplehash.1 ct.nf_ct_zone]? = some head)
    (hw : kz_extension_walk st ct.tuplehash.1 ct.nf_ct_zone head.first = some (some n))
    (hg : kz_get_kzorp_from_node st n = some a) :
    kz_extension_find jhash2 (fuel + 1) ct st = some (some a) := by
  have hk := (kz_extension_walk_some st _ _ _ _ hw).2
  have hf : __kz_extension_find jhash2 (fuel + 1) ct st = some (some n) := by
    unfold __kz_extension_find
    simp only [hb, hw]
  unfold kz_extension_find
  simp only [hf, hk, hg, Option.map_some']

/-- The key test on a node of a record whose slot holds its own direction. -/
theorem key_equal_own_slot (st : kz_ext_state) (a s : Nat) (r : nf_conntrack_kzorp)
    (th : nf_conntrack_tuple) (zone : Nat)
    (hr : obj_read st a = some r) (hd : (tuplehash_at r.tuplehash s).dst_dir = s) :
    kz_get_kzorp_from_node st { kzorp := a, slot := s } = some a ∧
    __kz_extension_key_equal st { kzorp := a, slot := s } th zone =
      some (nf_ct_tuple_equal th (tuplehash_at r.tuplehash s) && decide (r.ct_zone = zone)) := by
  have hg : kz_get_kzorp_from_node st { kzorp := a, slot := s } = some a := by
    unfold kz_get_kzorp_from_node
    simp only [hr, hd, if_true]
  refine ⟨hg, ?_⟩
  unfold __kz_extension_key_equal
  simp only [hr, hg]
  cases nf_ct_tuple_equal th (tuplehash_at r.tuplehash s) <;> simp

/-- C20: `kz_extension_create` for `ct`, given an object at address `a` by the
allocator, returns `a`; afterwards the record at `a` has the two tuples of
`ct` and `ct_zone` equal to the conntrack zone of `ct`, its two slots are
linked, `kz_get_kzorp_from_node` gives `a` for either slot, and both a lookup
for `ct` (keyed by its original tuple and zone) and a lookup for any
connection `ct2` of the same zone whose original tuple equals the reply tuple
of `ct` return `a`, in one pass.  When the allocation fails the result is
`NULL` and the table is as before. -/
theorem create_then_find (jhash2 : List Nat → Nat → Nat) (a : Nat) (old : nf_conntrack_kzorp)
    (ct ct2 : nf_conn) (st : kz_ext_state) (fuel : Nat)
    (hsize : kz_hash_size ≤ st.kz_hash.length)
    (hd0 : ct.tuplehash.1.dst_dir = 0) (hd1 : ct.tuplehash.2.dst_dir = 1)
    (hkey : nf_ct_tuple_equal ct2.tuplehash.1 ct.tuplehash.2 = true)
    (hz : ct2.nf_ct_zone = ct.nf_ct_zone) :
    (kz_extension_create jhash2 (some (a, old)) ct st).1 = some a ∧
    kz_extension_find jhash2 (fuel + 1) ct
      (kz_extension_create jhash2 (some (a, old)) ct st).2 = some (some a) ∧
    kz_extension_find jhash2 (fuel + 1) ct2
      (kz_extension_create jhash2 (some (a, old)) ct st).2 = some (some a) ∧
    kz_get_kzorp_from_node (kz_extension_create jhash2 (some (a, old)) ct st).2
      { kzorp := a, slot := 0 } = some a ∧
    kz_get_kzorp_from_node (kz_extension_create jhash2 (some (a, old)) ct st).2
      { kzorp := a, slot := 1 } = some a ∧
    (∃ k, obj_read (kz_extension_create jhash2 (some (a, old)) ct st).2 a = some k ∧
      k.ct_zone = ct.nf_ct_zone ∧ k.tuplehash = ct.tuplehash) ∧
    (∃ h0 h1,
      (kz_extension_create jhash2 (some (a, old)) ct st).2.kz_hash[
        kz_bucket jhash2 ct.tuplehash.1 ct.nf_ct_zone]? = some h0 ∧
      { kzorp := a, slot := 0 } ∈ h0.first ∧
      (kz_extension_create jhash2 (some (a, old)) ct st).2.kz_hash[
        kz_bucket jhash2 ct.tuplehash.2 ct.nf_ct_zone]? = some h1 ∧
      { kzorp := a, slot := 1 } ∈ h1.first) ∧
    kz_extension_create jhash2 none ct st = (none, st) := by
  rw [kz_extension_create_eq]
  simp only []
  generalize hst : ({ kz_hash := _, kz_cachep := _ } : kz_ext_state) = st1
  -- the record at `a`
  have hr : obj_read st1 a = some
      { tuplehash := ct.tuplehash, ct_zone := ct.nf_ct_zone, sid := 0, generation := 0,
        session_start := 0, rule_id := 0, czone := none, szone := none, svc := none,
        dpt := none } := by
    rw [← hst]
    simp [obj_read]
  have hs0 := key_equal_own_slot st1 a 0 _ ct.tuplehash.1 ct.nf_ct_zone hr
    (by simpa [tuplehash_at] using hd0)
  have hs1 := fun th => key_equal_own_slot st1 a 1 _ th ct.nf_ct_zone hr
    (by simpa [tuplehash_at] using hd1)
  simp only [tuplehash_at, if_true, decide_True, Bool.and_true, nf_ct_tuple_equal_refl,
    one_ne_zero, if_false] at hs0 hs1
  -- the two chains
  have hb0 := kz_bucket_lt jhash2 ct.tuplehash.1 ct.nf_ct_zone
  have hb1 := kz_bucket_lt jhash2 ct.tuplehash.2 ct.nf_ct_zone
  obtain ⟨c0, hc0⟩ : ∃ c, st.kz_hash[kz_bucket jhash2 ct.tuplehash.1 ct.nf_ct_zone]? = some c :=
    ⟨_, List.getElem?_eq_getElem (by omega)⟩
  obtain ⟨c1, hc1⟩ : ∃ c, st.kz_hash[kz_bucket jhash2 ct.tuplehash.2 ct.nf_ct_zone]? = some c :=
    ⟨_, List.getElem?_eq_getElem (by omega)⟩
  have hchain1 : ∃ rest nulls,
      st1.kz_hash[kz_bucket jhash2 ct.tuplehash.2 ct.nf_ct_zone]? =
        some { first := { kzorp := a, slot := 1 } :: rest, nulls := nulls } := by
    rw [← hst]
    simp only [List.getElem?_modify_eq]
    by_cases hbb : kz_bucket jhash2 ct.tuplehash.1 ct.nf_ct_zone =
        kz_bucket jhash2 ct.tuplehash.2 ct.nf_ct_zone
    · rw [hbb, List.getElem?_modify_eq, hc1]
      exact ⟨_, _, rfl⟩
    · rw [List.getElem?_modify_ne _ _ hbb, hc1]
      exact ⟨_, _, rfl⟩
  have hchain0 : ∃ rest nulls,
      st1.kz_hash[kz_bucket jhash2 ct.tuplehash.1 ct.nf_ct_zone]? =
        some { first := { kzorp := a, slot := 0 } :: rest, nulls := nulls } ∨
      st1.kz_hash[kz_bucket jhash2 ct.tuplehash.1 ct.nf_ct_zone]? =
        some { first := { kzorp := a, slot := 1 } :: { kzorp := a, slot := 0 } :: rest,
               nulls := nulls } := by
    rw [← hst]
    by_cases hbb : kz_bucket jhash2 ct.tuplehash.1 ct.nf_ct_zone =
        kz_bucket jhash2 ct.tuplehash.2 ct.nf_ct_zone
    · refine ⟨c0.first, c0.nulls, Or.inr ?_⟩
      simp only []
      rw [← hbb, List.getElem?_modify_eq, List.getElem?_modify_eq, hc0]
      rfl
    · refine ⟨c0.first, c0.nulls, Or.inl ?_⟩
      simp only []
      rw [List.getElem?_modify_ne _ _ (Ne.symm hbb), List.getElem?_modify_eq, hc0]
      rfl
  refine ⟨trivial, ?_, ?_, hs0.1, (hs1 ct.tuplehash.1).1, ⟨_, hr, rfl, rfl⟩, ?_, rfl⟩
  · -- lookup by the original tuple
    obtain ⟨rest, nulls, h | h⟩ := hchain0
    · refine kz_extension_find_of_walk jhash2 fuel ct st1 _ { kzorp := a, slot := 0 } a h ?_ hs0.1
      simp only [kz_extension_walk, hs0.2]
    · cases he : nf_ct_tuple_equal ct.tuplehash.1 ct.tuplehash.2 with
      | true =>
        refine kz_extension_find_of_walk jhash2 fuel ct st1 _ { kzorp := a, slot := 1 } a h ?_
          (hs1 ct.tuplehash.1).1
        simp only [kz_extension_walk, (hs1 ct.tuplehash.1).2, he]
      | false =>
        refine kz_extension_find_of_walk jhash2 fuel ct st1 _ { kzorp := a, slot := 0 } a h ?_
          hs0.1
        simp only [kz_extension_walk, (hs1 ct.tuplehash.1).2, he, hs0.2]
  · -- lookup by the reply tuple
    obtain ⟨rest, nulls, h⟩ := hchain1
    have hbk : kz_bucket jhash2 ct2.tuplehash.1 ct2.nf_ct_zone =
        kz_bucket jhash2 ct.tuplehash.2 ct.nf_ct_zone := by
      rw [hz]
      exact kz_bucket_congr jhash2 _ _ _ hkey
    refine kz_extension_find_of_walk jhash2 fuel ct2 st1 _ { kzorp := a, slot := 1 } a
      (by rw [hbk]; exact h) ?_ (hs1 ct.tuplehash.1).1
    simp only [kz_extension_walk, hz, (hs1 ct2.tuplehash.1).2, hkey]
  · obtain ⟨r0, n0, h0⟩ := hchain0
    obtain ⟨r1, n1, h1⟩ := hchain1
    subst hst
    rcases h0 with h0 | h0
    · exact ⟨_, _, h0, List.mem_cons_self _ _, h1, List.mem_cons_self _ _⟩
    · exact ⟨_, _, h0, List.mem_cons_of_mem _ (List.mem_cons_self _ _), h1,
        List.mem_cons_self _ _⟩

theorem create_then_find_witness :
    kz_extension_find jhash2_example 1 ct_example
      (kz_extension_create jhash2_example (some (64, kzorp_stale)) ct_example
        kz_hash_init).2 = some (some 64) ∧
    kz_extension_find jhash2_example 1 ct_example_reply
      (kz_extension_create jhash2_example (some (64, kzorp_stale)) ct_example
        kz_hash_init).2 = some (some 64) :=
  ⟨(create_then_find jhash2_example 64 kzorp_stale ct_example ct_example_reply kz_hash_init 0
      (by decide) (by decide) (by decide) (by decide) (by decide)).2.1,
   (create_then_find jhash2_example 64 kzorp_stale ct_example ct_example_reply kz_hash_init 0
      (by decide) (by decide) (by decide) (by decide) (by decide)).2.2.1⟩

/-! ## Commit of an empty transaction -/

theorem clone_dispatchers_ok (env : kz_env) (tr : kz_transaction) (l : List kz_dispatcher) :
    ∀ (k : Nat) (news n : List kz_dispatcher),
      commit_clone_dispatchers env tr k l news = (true, n) →
      n = news ++ (l.filter fun i =>
        ¬ (tr.flags &&& KZF_TRANSACTION_FLUSH_DISPATCHERS ≠ 0 ∧ i.inst = some tr.instance_id)).map
          kz_dispatcher_clone := by
  induction l with
  | nil =>
    intro k news n h
    simp [commit_clone_dispatchers] at h
    simp [h]
  | cons i rest ih =>
    intro k news n h
    unfold commit_clone_dispatchers at h
    split at h
    · rename_i hskip
      have := ih _ _ _ h
      rw [this, List.filter_cons, if_neg]
      simpa using hskip
    · rename_i hkeep
      split at h
      · have := ih _ _ _ h
        rw [this, List.filter_cons, if_pos (decide_eq_true hkeep)]
        simp
      · simp at h

theorem relink_parent_name (ptrs : List zone_ptr) (z : kz_zone) :
    (zone_relink ptrs z).admin_parent.map (fun q => q.unique_name) =
      z.admin_parent.map fun q => q.unique_name := by
  unfold zone_relink
  cases hp : z.admin_parent with
  | none => simp [hp]
  | some ap =>
    simp only []
    cases hf : ptrs.find? (fun q => q.unique_name = ap.unique_name) with
    | none => simp [hp]
    | some q =>
      have := List.find?_some hf
      simp only [decide_eq_true_eq] at this
      simp [this]

theorem relink_name (ptrs : List zone_ptr) (z : kz_zone) :
    (zone_relink ptrs z).name = z.name := by
  unfold zone_relink
  split
  · rfl
  · split <;> rfl

theorem clone_zones_from_map {β : Type} (f : kz_zone → β) (g : kz_zone → β)
    (h : ∀ a z, f (kz_zone_clone a z) = g z) :
    ∀ (addr : Nat) (l : List kz_zone), (clone_zones_from addr l).map f = l.map g := by
  intro addr l
  induction l generalizing addr with
  | nil => rfl
  | cons z rest ih => simp [clone_zones_from, h, ih]


theorem clone_zones_from_mem_iff {addr : Nat} {l : List kz_zone} {z : kz_zone}
    (h : z ∈ clone_zones_from addr l) :
    ∃ b ∈ l, z.unique_name = b.unique_name ∧ z.admin_parent = b.admin_parent ∧
      z.name = b.name := by
  induction l generalizing addr with
  | nil => simp [clone_zones_from] at h
  | cons x rest ih =>
    simp only [clone_zones_from, List.mem_cons] at h
    rcases h with h | h
    · exact ⟨x, List.mem_cons_self _ _, by rw [h]; rfl, by rw [h]; rfl, by rw [h]; rfl⟩
    · obtain ⟨b, hb, h1⟩ := ih h
      exact ⟨b, List.mem_cons_of_mem _ hb, h1⟩

theorem mem_clone_zones_from (addr : Nat) {l : List kz_zone} {b : kz_zone} (h : b ∈ l) :
    ∃ z ∈ clone_zones_from addr l, z.unique_name = b.unique_name := by
  induction l generalizing addr with
  | nil => cases h
  | cons x rest ih =>
    simp only [clone_zones_from, List.mem_cons] at h ⊢
    rcases h with h | h
    · exact ⟨_, Or.inl rfl, by rw [h]; rfl⟩
    · obtain ⟨z, hz, h1⟩ := ih (addr + 1) h
      exact ⟨z, Or.inr hz, h1⟩

/-- C23: for a transaction with no staged operation and no flush flag, a
commit whose allocations and index builds succeed, on a base snapshot in which
the unique name of every admin parent is the unique name of a base zone,
returns 0 and publishes a snapshot of the next generation whose service list
is the list of the clones of the base services (session counter taken from
`kz_service_lock`), whose zone list is the list of the clones of the base
zones up to the re-resolved parent pointers, with the same names, unique names
and parent unique names position by position, and whose dispatcher list is the
list of the relinked clones of the base dispatchers, with the same names when
relinking keeps the name. -/
theorem commit_empty_transaction (env : kz_env) (inst : Option Nat) (st : kz_state)
    (hop : st.transaction.op = []) (hfl : st.transaction.flags = 0)
    (hnew : env.kz_config_new_ok = true)
    (hs : ∀ k, env.kz_service_clone_ok k = true)
    (hz : ∀ k, env.kz_zone_clone_ok k = true)
    (hd : ∀ k, env.kz_dispatcher_clone_ok k = true)
    (hzb : ∀ zs, 0 ≤ env.kz_head_zone_build zs)
    (hdb : ∀ ds, 0 ≤ env.kz_head_dispatcher_build ds)
    (hp : ∀ z ∈ st.transaction.cfg.zones, ∀ ap, z.admin_parent = some ap →
      ∃ p ∈ st.transaction.cfg.zones, p.unique_name = ap.unique_name) :
    (kznl_recv_commit_transaction env inst st).res = 0 ∧
    (kznl_recv_commit_transaction env inst st).st.kz_config_rcu.generation =
      st.kz_config_rcu.generation + 1 ∧
    (kznl_recv_commit_transaction env inst st).st.kz_config_rcu.services =
      st.transaction.cfg.services.map
        (fun i => { kz_service_clone i with session_cnt := env.kz_service_lock i }) ∧
    ((kznl_recv_commit_transaction env inst st).st.kz_config_rcu.services.map fun s => s.name) =
      st.transaction.cfg.services.map (fun s => s.name) ∧
    (kznl_recv_commit_transaction env inst st).st.kz_config_rcu.zones.map zone_sans_parent =
      (clone_zones_from st.zone_addr_next st.transaction.cfg.zones).map zone_sans_parent ∧
    ((kznl_recv_commit_transaction env inst st).st.kz_config_rcu.zones.map fun z =>
        (z.name, z.unique_name, z.admin_parent.map fun q => q.unique_name)) =
      st.transaction.cfg.zones.map (fun z =>
        (z.name, z.unique_name, z.admin_parent.map fun q => q.unique_name)) ∧
    (kznl_recv_commit_transaction env inst st).st.kz_config_rcu.dispatchers =
      st.transaction.cfg.dispatchers.map (fun i =>
        env.kz_dispatcher_relink (kz_dispatcher_clone i)
          (kznl_recv_commit_transaction env inst st).st.kz_config_rcu.zones
          (kznl_recv_commit_transaction env inst st).st.kz_config_rcu.services) ∧
    ((∀ d zs ss, (env.kz_dispatcher_relink d zs ss).name = d.name) →
      ((kznl_recv_commit_transaction env inst st).st.kz_config_rcu.dispatchers.map
        fun d => d.name) = st.transaction.cfg.dispatchers.map fun d => d.name) := by
  have hm : commit_rule_mismatch st.transaction.op = false := by rw [hop]; rfl
  have hbefore : commit_zones_before st =
      clone_zones_from st.zone_addr_next st.transaction.cfg.zones := by
    unfold commit_zones_before
    rw [hop, hfl]
    simp [commit_staged_zones, KZF_TRANSACTION_FLUSH_ZONES]
  have hp2 : ∀ z ∈ commit_zones_before st, ∀ ap, z.admin_parent = some ap →
      ∃ p ∈ commit_zones_before st, p.unique_name = ap.unique_name := by
    rw [hbefore]
    intro z hzm ap hap
    obtain ⟨b, hb, -, hpar, -⟩ := clone_zones_from_mem_iff hzm
    rw [hpar] at hap
    obtain ⟨p, hpm, hpn⟩ := hp b hb ap hap
    obtain ⟨q, hq, hqn⟩ := mem_clone_zones_from st.zone_addr_next hpm
    exact ⟨q, hq, hqn.trans hpn⟩
  have h0 := commit_succeeds env inst st hm hnew hs hz hd hp2 hzb hdb
  obtain ⟨-, -, cloned, locked0, zcloned, zones, dcloned, hcs, -, -, hdc, hcfg, -, -⟩ :=
    commit_success_shape env inst st h0
  have hsv := (commit_success_cfg env inst st h0).1
  have hzn := (commit_zones_relinked env inst st h0).1
  have hkept : services_kept st.transaction st.transaction.cfg.services =
      st.transaction.cfg.services := by
    unfold services_kept
    rw [hfl]
    simp [KZF_TRANSACTION_FLUSH_SERVICES]
  have hsv2 : (kznl_recv_commit_transaction env inst st).st.kz_config_rcu.services =
      st.transaction.cfg.services.map
        (fun i => { kz_service_clone i with session_cnt := env.kz_service_lock i }) := by
    rw [hsv, hkept, hop]
    simp [staged_services]
  have hdl := clone_dispatchers_ok env _ _ _ _ _ hdc
  have hdk : (st.transaction.cfg.dispatchers.filter fun i =>
      ¬ (st.transaction.flags &&& KZF_TRANSACTION_FLUSH_DISPATCHERS ≠ 0 ∧
        i.inst = some st.transaction.instance_id)) = st.transaction.cfg.dispatchers := by
    rw [hfl]
    simp [KZF_TRANSACTION_FLUSH_DISPATCHERS]
  rw [hdk] at hdl
  have hdisp : (kznl_recv_commit_transaction env inst st).st.kz_config_rcu.dispatchers =
      st.transaction.cfg.dispatchers.map (fun i =>
        env.kz_dispatcher_relink (kz_dispatcher_clone i)
          (kznl_recv_commit_transaction env inst st).st.kz_config_rcu.zones
          (kznl_recv_commit_transaction env inst st).st.kz_config_rcu.services) := by
    rw [hcfg]
    simp only []
    rw [hdl, hop]
    simp [commit_staged_dispatchers, commit_staged_services, List.map_map, Function.comp_def]
  refine ⟨h0, ?_, hsv2, ?_, ?_, ?_, hdisp, ?_⟩
  · rw [hcfg]
  · rw [hsv2]
    simp [List.map_map, Function.comp_def, kz_service_clone]
  · rw [hzn, hbefore]
    simp [List.map_map, Function.comp_def, relink_sans_parent]
  · rw [hzn, hbefore, List.map_map]
    have : ((fun z : kz_zone => (z.name, z.unique_name,
          z.admin_parent.map fun q => q.unique_name)) ∘
        zone_relink (zone_ptrs (clone_zones_from st.zone_addr_next st.transaction.cfg.zones))) =
        fun z => (z.name, z.unique_name, z.admin_parent.map fun q => q.unique_name) := by
      funext z
      simp [Function.comp_def, relink_name, relink_unique_name, relink_parent_name]
    rw [this]
    apply clone_zones_from_map
    intro a z
    rfl
  · intro hrel
    rw [hdisp]
    simp [List.map_map, Function.comp_def, hrel, kz_dispatcher_clone]

theorem commit_empty_transaction_witness :
    (kznl_recv_commit_transaction env_ok (some 0) st_again).res = 0 ∧
    ((kznl_recv_commit_transaction env_ok (some 0) st_again).st.kz_config_rcu.zones.map fun z =>
        (z.name, z.unique_name, z.admin_parent.map fun q => q.unique_name)) =
      [("b", "b", some "a"), ("a", "a", none)] :=
  ⟨(commit_empty_transaction env_ok (some 0) st_again (by decide) (by decide) rfl
      (fun _ => rfl) (fun _ => rfl) (fun _ => rfl) (fun _ => le_refl _) (fun _ => le_refl _)
      (parents_found_of _ (by decide))).1,
   ((commit_empty_transaction env_ok (some 0) st_again (by decide) (by decide) rfl
      (fun _ => rfl) (fun _ => rfl) (fun _ => rfl) (fun _ => le_refl _) (fun _ => le_refl _)
      (parents_found_of _ (by decide))).2.2.2.2.2.1).trans (by decide)⟩

/-! ## Commit failure and the service locks -/

theorem clone_services_locked (env : kz_env) (tr : kz_transaction) (l : List kz_service) :
    ∀ (k : Nat) (news locked : List kz_service) (b : Bool) (n lk : List kz_service),
      commit_clone_services env tr k l (news, locked) = (b, n, lk) →
      ∀ s ∈ lk, s ∈ locked ∨ s ∈ l := by
  induction l with
  | nil =>
    intro k news locked b n lk h s hs
    simp [commit_clone_services] at h
    rw [← h.2.2] at hs
    exact Or.inl hs
  | cons i rest ih =>
    intro k news locked b n lk h s hs
    unfold commit_clone_services at h
    split at h
    · exact (ih _ _ _ _ _ _ h s hs).imp id (List.mem_cons_of_mem _)
    · split at h
      · rcases ih _ _ _ _ _ _ h s hs with h1 | h1
        · rcases List.mem_append.mp h1 with h2 | h2
          · exact Or.inl h2
          · simp only [List.mem_singleton] at h2
            exact Or.inr (h2 ▸ List.mem_cons_self _ _)
        · exact Or.inr (List.mem_cons_of_mem _ h1)
      · simp only [Prod.mk.injEq] at h
        rw [← h.2.2] at hs
        exact Or.inl hs

theorem staged_locked_mem (old : kz_config) (op : List kz_operation) :
    ∀ s ∈ commit_staged_locked old op, s ∈ old.services := by
  intro s hs
  unfold commit_staged_locked at hs
  rw [List.mem_filterMap] at hs
  obtain ⟨o, -, ho⟩ := hs
  cases o with
  | KZNL_OP_SERVICE svc => exact (service_lookup_name_some ho).2
  | _ => cases ho

/-- C24: a commit that fails after the new snapshot was allocated calls
`kz_service_unlock` exactly once on every service of the base snapshot, in
base order, whatever it had locked; every service it had called
`kz_service_lock` on is a base service, so each locked service is among the
unlocked ones; and the published snapshot is the one from before. -/
theorem commit_failure_unlocks (env : kz_env) (inst : Option Nat) (st : kz_state)
    (hm : commit_rule_mismatch st.transaction.op = false)
    (hnew : env.kz_config_new_ok = true)
    (hfail : (kznl_recv_commit_transaction env inst st).res ≠ 0) :
    (kznl_recv_commit_transaction env inst st).unlocked = st.transaction.cfg.services ∧
    (∀ s ∈ (kznl_recv_commit_transaction env inst st).locked,
      s ∈ st.transaction.cfg.services) ∧
    (∀ s ∈ (kznl_recv_commit_transaction env inst st).locked,
      s ∈ (kznl_recv_commit_transaction env inst st).unlocked) ∧
    (kznl_recv_commit_transaction env inst st).st.kz_config_rcu = st.kz_config_rcu := by
  have key : (kznl_recv_commit_transaction env inst st).unlocked = st.transaction.cfg.services ∧
      (∀ s ∈ (kznl_recv_commit_transaction env inst st).locked,
        s ∈ st.transaction.cfg.services) ∧
      (kznl_recv_commit_transaction env inst st).st.kz_config_rcu = st.kz_config_rcu := by
    unfold kznl_recv_commit_transaction at hfail ⊢
    simp only [] at hfail ⊢
    rw [if_neg (by rw [hm]; decide), if_neg (by rw [hnew]; decide)] at hfail ⊢
    have hstaged := staged_locked_mem st.transaction.cfg st.transaction.op
    split
    · rename_i hcs
      refine ⟨rfl, ?_, rfl⟩
      intro s hs
      rcases clone_services_locked env _ _ _ _ _ _ _ _ hcs s hs with h | h
      · cases h
      · exact h
    rename_i cloned locked0 hcs
    have hl0 : ∀ s ∈ locked0 ++ commit_staged_locked st.transaction.cfg st.transaction.op,
        s ∈ st.transaction.cfg.services := by
      intro s hs
      rcases List.mem_append.mp hs with h | h
      · rcases clone_services_locked env _ _ _ _ _ _ _ _ hcs s h with h1 | h1
        · cases h1
        · exact h1
      · exact hstaged s h
    rw [hcs] at hfail
    simp only [] at hfail
    split
    · exact ⟨rfl, hl0, rfl⟩
    rename_i zcloned hz
    rw [hz] at hfail
    simp only [] at hfail
    split
    · exact ⟨rfl, hl0, rfl⟩
    rename_i zones hc
    rw [hc] at hfail
    simp only [] at hfail
    split
    · exact ⟨rfl, hl0, rfl⟩
    rename_i dcloned hd
    rw [hd] at hfail
    simp only [] at hfail
    split
    · exact ⟨rfl, hl0, rfl⟩
    rename_i hb1
    rw [if_neg hb1] at hfail
    split
    · exact ⟨rfl, hl0, rfl⟩
    rename_i hb2
    rw [if_neg hb2] at hfail
    exact absurd rfl hfail
  refine ⟨key.1, key.2.1, ?_, key.2.2⟩
  intro s hs
  rw [key.1]
  exact key.2.1 s hs

theorem commit_failure_unlocks_witness :
    (kznl_recv_commit_transaction env_ok (some 0) st_orphan).unlocked =
      st_orphan.transaction.cfg.services :=
  (commit_failure_unlocks env_ok (some 0) st_orphan (by decide) rfl (by decide)).1

/-- A commit on a base that holds the service "web" in which the clone of that
service fails: `kz_service_lock` is called on no service, and yet
`kz_service_unlock` is called on "web". -/
theorem unlock_without_lock :
    (kznl_recv_commit_transaction env_no_clone (some 0) st_again).res = -ENOMEM ∧
    (kznl_recv_commit_transaction env_no_clone (some 0) st_again).locked = [] ∧
    ((kznl_recv_commit_transaction env_no_clone (some 0) st_again).unlocked.map
      fun s => s.name) = ["web"] := by
  decide

/-! ## What Flush and Add messages do to the transaction -/

theorem setflag_tr_step (pid flag : Nat) (st : kz_state) (named : Bool) :
    tr_step named st.transaction (kznl_recv_setflag pid flag st).2.transaction := by
  unfold kznl_recv_setflag
  cases hl : transaction_lookup st pid with
  | none => exact Or.inl rfl
  | some tr =>
    obtain ⟨rfl, -, -⟩ := transaction_lookup_some hl
    exact Or.inr (Or.inl ⟨flag, rfl⟩)

theorem add_zone_tr_step (mem : Nat → Bool) (pid : Nat) (attrs : add_zone_attrs)
    (st : kz_state) (named : Bool) :
    tr_step named st.transaction (kznl_recv_add_zone mem pid attrs st).2.transaction := by
  rcases add_zone_cases mem pid attrs st with h | ⟨z, h, hm, -⟩
  · rw [h]; exact Or.inl rfl
  · rw [h]; exact Or.inr (Or.inr (Or.inl ⟨_, rfl, hm⟩))

theorem add_service_tr_step (mem : Nat → Bool) (id pid : Nat) (attrs : add_service_attrs)
    (st : kz_state) (named : Bool) :
    tr_step named st.transaction (kznl_recv_add_service mem id pid attrs st).2.transaction := by
  cases hp : kznl_recv_add_service_parse mem id attrs with
  | error e => unfold kznl_recv_add_service; rw [hp]; exact Or.inl rfl
  | ok svc0 =>
    cases hl : transaction_lookup st pid with
    | none => unfold kznl_recv_add_service; rw [hp]; simp only [hl]; exact Or.inl rfl
    | some tr =>
      have htr := (transaction_lookup_some hl).1
      rcases add_service_cases mem id pid attrs st svc0 tr hp hl with ⟨-, hr⟩ | ⟨hc, hr⟩
      · rw [hr]; exact Or.inl rfl
      · rw [hr]
        by_cases hm : mem 2 = true
        · rw [if_pos hm]
          subst htr
          refine Or.inr (Or.inr (Or.inl ⟨_, rfl, rfl, ?_, ?_⟩))
          · rw [transaction_service_lookup_eq]
            rw [List.find?_eq_none]
            intro s hs hn
            exact hc (Or.inl ⟨s, hs, by simpa using hn⟩)
          · intro p hpl
            by_contra hcon
            apply hc
            refine Or.inr ⟨p, hpl, ?_⟩
            by_cases h1 : p.instance_id = st.transaction.instance_id
            · right
              intro h2
              exact hcon ⟨h1, h2⟩
            · exact Or.inl h1
        · rw [if_neg hm]; exact Or.inl rfl

theorem add_service_nat_tr_step (mem : Nat → Bool) (snat : Bool) (pid : Nat)
    (attrs : add_service_nat_attrs) (st : kz_state) (named : Bool) :
    tr_step named st.transaction
      (kznl_recv_add_service_nat mem snat pid attrs st).2.transaction := by
  unfold kznl_recv_add_service_nat
  cases hl : transaction_lookup st pid with
  | none => split <;> exact Or.inl rfl
  | some tr =>
    obtain ⟨rfl, -, -⟩ := transaction_lookup_some hl
    simp only []
    repeat' split
    all_goals first
      | exact Or.inl rfl
      | (refine Or.inr (Or.inr (Or.inr (Or.inl ⟨_, _, rfl, ?_⟩)))
         intro s
         cases snat <;> exact ⟨rfl, rfl⟩)

theorem add_dispatcher_tr_step (mem : Nat → Bool) (pid : Nat) (attrs : add_dispatcher_attrs)
    (st : kz_state) (named : Bool) :
    tr_step named st.transaction (kznl_recv_add_dispatcher mem pid attrs st).2.transaction := by
  unfold kznl_recv_add_dispatcher
  cases hp : kznl_recv_add_dispatcher_parse mem attrs with
  | error e => exact Or.inl rfl
  | ok dpt0 =>
    cases hl : transaction_lookup st pid with
    | none => exact Or.inl rfl
    | some tr =>
      obtain ⟨rfl, -, -⟩ := transaction_lookup_some hl
      simp only []
      cases hd : transaction_dispatcher_lookup st.transaction dpt0.name with
      | some d => exact Or.inl rfl
      | none =>
        simp only [transaction_add_op]
        by_cases hm : mem 3 = true
        · rw [if_pos hm]
          exact Or.inr (Or.inr (Or.inl ⟨_, rfl, hd⟩))
        · rw [if_neg hm]; exact Or.inl rfl

theorem add_rule_name (m : Bool) (d : kz_dispatcher) (svc : kz_service) (rule : kz_rule) :
    (kz_dispatcher_add_rule m d svc rule).2.name = d.name := by
  unfold kz_dispatcher_add_rule
  repeat' split
  all_goals rfl

theorem add_rule_tr_step (m : Bool) (mem : Nat → Bool) (pid : Nat) (attrs : add_rule_attrs)
    (st : kz_state) :
    tr_step true st.transaction
      (kznl_recv_add_n_dimension_rule (kz_dispatcher_add_rule m) mem pid attrs
        st).2.transaction := by
  unfold kznl_recv_add_n_dimension_rule
  cases hparse : kznl_recv_add_n_dimension_rule_parse mem attrs with
  | error e => exact Or.inl rfl
  | ok r =>
    obtain ⟨dpt_name, svc_name, rule⟩ := r
    simp only []
    cases hl : transaction_lookup st pid with
    | none => exact Or.inl rfl
    | some tr =>
      obtain ⟨rfl, -, -⟩ := transaction_lookup_some hl
      simp only []
      cases hd : transaction_dispatcher_lookup st.transaction dpt_name with
      | none => exact Or.inl rfl
      | some dpt =>
        simp only []
        cases hr : transaction_rule_lookup st.transaction dpt_name rule.id with
        | some r => exact Or.inl rfl
        | none =>
          simp only []
          cases hs : lookup_service_merged st.transaction svc_name with
          | none => exact Or.inl rfl
          | some svc =>
            exact Or.inr (Or.inr (Or.inr (Or.inr
              ⟨_, dpt_name, dpt, rfl, hd, fun _ => add_rule_name m dpt svc rule⟩)))

theorem add_rule_tr_step_any
    (f : kz_dispatcher → kz_service → kz_rule → Int × kz_dispatcher) (mem : Nat → Bool) (pid : Nat) (attrs : add_rule_attrs)
    (st : kz_state) :
    tr_step false st.transaction
      (kznl_recv_add_n_dimension_rule f mem pid attrs
        st).2.transaction := by
  unfold kznl_recv_add_n_dimension_rule
  cases hparse : kznl_recv_add_n_dimension_rule_parse mem attrs with
  | error e => exact Or.inl rfl
  | ok r =>
    obtain ⟨dpt_name, svc_name, rule⟩ := r
    simp only []
    cases hl : transaction_lookup st pid with
    | none => exact Or.inl rfl
    | some tr =>
      obtain ⟨rfl, -, -⟩ := transaction_lookup_some hl
      simp only []
      cases hd : transaction_dispatcher_lookup st.transaction dpt_name with
      | none => exact Or.inl rfl
      | some dpt =>
        simp only []
        cases hr : transaction_rule_lookup st.transaction dpt_name rule.id with
        | some r => exact Or.inl rfl
        | none =>
          simp only []
          cases hs : lookup_service_merged st.transaction svc_name with
          | none => exact Or.inl rfl
          | some svc =>
            exact Or.inr (Or.inr (Or.inr (Or.inr
              ⟨_, dpt_name, dpt, rfl, hd, fun h => by cases h⟩)))

theorem add_rule_entry_tr_step (g : kz_rule → kz_rule_entry → Int × kz_rule)
    (mem : Nat → Bool) (pid : Nat) (attrs : add_rule_entry_attrs) (st : kz_state) (named : Bool) :
    tr_step named st.transaction
      (kznl_recv_add_n_dimension_rule_entry g mem pid attrs st).2.transaction := by
  unfold kznl_recv_add_n_dimension_rule_entry
  cases hparse : kznl_recv_add_n_dimension_rule_entry_parse mem attrs with
  | error e => exact Or.inl rfl
  | ok r =>
    obtain ⟨dpt_name, entry0, src_zone_name, dst_zone_name⟩ := r
    simp only []
    cases hl : transaction_lookup st pid with
    | none => exact Or.inl rfl
    | some tr =>
      obtain ⟨rfl, -, -⟩ := transaction_lookup_some hl
      simp only []
      cases hr : transaction_rule_lookup st.transaction dpt_name entry0.rule_id with
      | none => exact Or.inl rfl
      | some rule =>
        simp only []
        cases hd : transaction_dispatcher_lookup st.transaction dpt_name with
        | none =>
          split
          · exact Or.inl rfl
          · exact Or.inl rfl
          · exact Or.inl rfl
        | some d =>
          split
          · exact Or.inl rfl
          · exact Or.inl rfl
          · exact Or.inr (Or.inr (Or.inr (Or.inr ⟨_, dpt_name, d, rfl, hd, fun _ => rfl⟩)))

theorem add_bind_tr_step (mem : Nat → Bool) (pid : Nat) (attrs : add_bind_attrs)
    (st : kz_state) (named : Bool) :
    tr_step named st.transaction (kznl_recv_add_bind mem pid attrs st).2.transaction := by
  unfold kznl_recv_add_bind
  cases hl : transaction_lookup st pid with
  | none => exact Or.inl rfl
  | some tr =>
    obtain ⟨rfl, -, -⟩ := transaction_lookup_some hl
    simp only []
    repeat' split
    all_goals first
      | exact Or.inl rfl
      | (rename_i hlt
         simp only [transaction_add_op] at hlt ⊢
         split
         · exact Or.inr (Or.inr (Or.inl ⟨_, rfl, trivial⟩))
         · exact Or.inl rfl)

/-- Every Flush or Add message changes the transaction in one of the ways of
`tr_step`; with `kz_dispatcher_add_rule` as modelled, dispatcher names are kept. -/
theorem staging_step (e : kz_event) (he : e.is_staging = true) (hm : e.rules_modelled)
    (st : kz_state) : tr_step true st.transaction (kz_step e st).2.transaction := by
  cases e with
  | start mem pid attrs => simp [kz_event.is_staging] at he
  | commit env pid => simp [kz_event.is_staging] at he
  | release a b c => simp [kz_event.is_staging] at he
  | flush_z pid => exact setflag_tr_step pid _ st _
  | flush_s pid => exact setflag_tr_step pid _ st _
  | flush_d pid => exact setflag_tr_step pid _ st _
  | flush_b pid => exact setflag_tr_step pid _ st _
  | add_zone mem pid attrs => exact add_zone_tr_step mem pid attrs st _
  | add_service mem id pid attrs => exact add_service_tr_step mem id pid attrs st _
  | add_service_nat mem snat pid attrs => exact add_service_nat_tr_step mem snat pid attrs st _
  | add_dispatcher mem pid attrs => exact add_dispatcher_tr_step mem pid attrs st _
  | add_rule f mem pid attrs =>
    obtain ⟨m, rfl⟩ := hm
    exact add_rule_tr_step m mem pid attrs st
  | add_rule_entry g mem pid attrs => exact add_rule_entry_tr_step g mem pid attrs st _
  | add_bind mem pid attrs => exact add_bind_tr_step mem pid attrs st _

/-- Every Flush or Add message changes the transaction in one of the ways of
`tr_step`, whatever `kz_dispatcher_add_rule` and `kz_dispatcher_add_rule_entry`
do. -/
theorem staging_step_any (e : kz_event) (he : e.is_staging = true) (st : kz_state) :
    tr_step false st.transaction (kz_step e st).2.transaction := by
  cases e with
  | start mem pid attrs => simp [kz_event.is_staging] at he
  | commit env pid => simp [kz_event.is_staging] at he
  | release a b c => simp [kz_event.is_staging] at he
  | flush_z pid => exact setflag_tr_step pid _ st _
  | flush_s pid => exact setflag_tr_step pid _ st _
  | flush_d pid => exact setflag_tr_step pid _ st _
  | flush_b pid => exact setflag_tr_step pid _ st _
  | add_zone mem pid attrs => exact add_zone_tr_step mem pid attrs st _
  | add_service mem id pid attrs => exact add_service_tr_step mem id pid attrs st _
  | add_service_nat mem snat pid attrs => exact add_service_nat_tr_step mem snat pid attrs st _
  | add_dispatcher mem pid attrs => exact add_dispatcher_tr_step mem pid attrs st _
  | add_rule f mem pid attrs => exact add_rule_tr_step_any f mem pid attrs st
  | add_rule_entry g mem pid attrs => exact add_rule_entry_tr_step g mem pid attrs st _
  | add_bind mem pid attrs => exact add_bind_tr_step mem pid attrs st _

/-! ## Names in the published snapshot -/

theorem has_flag_or (tr : kz_transaction) (flag x : Nat) (h : has_flag tr x) :
    has_flag { tr with flags := tr.flags ||| flag } x := by
  unfold has_flag at h ⊢
  intro hz
  apply h
  apply Nat.eq_of_testBit_eq
  intro i
  have := congrArg (fun v => v.testBit i) hz
  simp only [Nat.testBit_and, Nat.testBit_or, Nat.zero_testBit] at this ⊢
  cases h1 : tr.flags.testBit i <;> cases h2 : x.testBit i <;> simp_all

theorem staged_services_update_service (f : kz_service → kz_service) (n : String)
    (hf : ∀ s, (f s).name = s.name ∧ (f s).instance_id = s.instance_id) :
    ∀ op : List kz_operation,
      List.Forall₂ (fun a b : kz_service => a.name = b.name ∧ a.instance_id = b.instance_id)
        (staged_services (op_update_service f n op)) (staged_services op) ∧
      commit_staged_zones (op_update_service f n op) = commit_staged_zones op ∧
      (commit_staged_dispatchers (op_update_service f n op)) = commit_staged_dispatchers op := by
  have hrefl : ∀ l : List kz_service,
      List.Forall₂ (fun a b : kz_service => a.name = b.name ∧ a.instance_id = b.instance_id)
        l l := by
    intro l
    induction l with
    | nil => exact List.Forall₂.nil
    | cons a l ih => exact List.Forall₂.cons ⟨rfl, rfl⟩ ih
  intro op
  induction op with
  | nil => exact ⟨List.Forall₂.nil, rfl, rfl⟩
  | cons o rest ih =>
    cases o with
    | KZNL_OP_SERVICE s =>
      unfold op_update_service
      split
      · refine ⟨?_, ?_, ?_⟩
        · simp only [staged_services, List.filterMap_cons]
          exact List.Forall₂.cons (hf s) (hrefl _)
        · simp [commit_staged_zones, List.filterMap_cons]
        · simp [commit_staged_dispatchers, List.filterMap_cons]
      · refine ⟨?_, ?_, ?_⟩
        · simp only [staged_services, List.filterMap_cons]
          exact List.Forall₂.cons ⟨rfl, rfl⟩ ih.1
        · simpa [commit_staged_zones, List.filterMap_cons] using ih.2.1
        · simpa [commit_staged_dispatchers, List.filterMap_cons] using ih.2.2
    | KZNL_OP_ZONE z =>
      refine ⟨?_, ?_, ?_⟩
      · simpa [op_update_service, staged_services, List.filterMap_cons] using ih.1
      · simpa [op_update_service, commit_staged_zones, List.filterMap_cons] using ih.2.1
      · simpa [op_update_service, commit_staged_dispatchers, List.filterMap_cons] using ih.2.2
    | KZNL_OP_DISPATCHER z =>
      refine ⟨?_, ?_, ?_⟩
      · simpa [op_update_service, staged_services, List.filterMap_cons] using ih.1
      · simpa [op_update_service, commit_staged_zones, List.filterMap_cons] using ih.2.1
      · simpa [op_update_service, commit_staged_dispatchers, List.filterMap_cons] using ih.2.2
    | KZNL_OP_BIND z =>
      refine ⟨?_, ?_, ?_⟩
      · simpa [op_update_service, staged_services, List.filterMap_cons] using ih.1
      · simpa [op_update_service, commit_staged_zones, List.filterMap_cons] using ih.2.1
      · simpa [op_update_service, commit_staged_dispatchers, List.filterMap_cons] using ih.2.2

theorem staged_update_dispatcher (f : kz_dispatcher → kz_dispatcher) (n : String) :
    ∀ op : List kz_operation,
      staged_services (op_update_dispatcher f n op) = staged_services op ∧
      commit_staged_zones (op_update_dispatcher f n op) = commit_staged_zones op := by
  intro op
  induction op with
  | nil => exact ⟨rfl, rfl⟩
  | cons o rest ih =>
    cases o with
    | KZNL_OP_DISPATCHER d =>
      unfold op_update_dispatcher
      split
      · simp [staged_services, commit_staged_zones, List.filterMap_cons]
      · simpa [staged_services, commit_staged_zones, List.filterMap_cons] using ih
    | KZNL_OP_ZONE z =>
      simpa [op_update_dispatcher, staged_services, commit_staged_zones,
        List.filterMap_cons] using ih
    | KZNL_OP_SERVICE z =>
      simpa [op_update_dispatcher, staged_services, commit_staged_zones,
        List.filterMap_cons] using ih
    | KZNL_OP_BIND z =>
      simpa [op_update_dispatcher, staged_services, commit_staged_zones,
        List.filterMap_cons] using ih


theorem forall₂_names {l1 l2 : List kz_service}
    (h : List.Forall₂ (fun a b : kz_service => a.name = b.name ∧ a.instance_id = b.instance_id)
      l1 l2) :
    (l1.map fun s => s.name) = (l2.map fun s => s.name) ∧
    ∀ a ∈ l1, ∃ b ∈ l2, a.name = b.name := by
  induction h with
  | nil => exact ⟨rfl, fun a ha => by cases ha⟩
  | cons hab _ ih =>
    refine ⟨by simp [hab.1, ih.1], ?_⟩
    intro x hx
    rcases List.mem_cons.mp hx with rfl | hx
    · exact ⟨_, List.mem_cons_self _ _, hab.1⟩
    · obtain ⟨b, hb, hn⟩ := ih.2 x hx
      exact ⟨b, List.mem_cons_of_mem _ hb, hn⟩

/-- The condition on staged names is kept by every change a Flush or Add
message makes, on a base whose service names are pairwise distinct. -/
theorem names_ok_step (named : Bool) (tr tr1 : kz_transaction) (h : tr_step named tr tr1)
    (hbase : (tr.cfg.services.map fun s => s.name).Nodup) (hok : names_ok tr) :
    names_ok tr1 ∧ tr1.cfg = tr.cfg ∧ tr1.instance_id = tr.instance_id := by
  obtain ⟨n1, n2, n3, n4⟩ := hok
  rcases h with rfl | ⟨flag, rfl⟩ | ⟨o, rfl, hfresh⟩ | ⟨f, n, rfl, hf⟩ | ⟨f, n, d, rfl, -, -⟩
  · exact ⟨⟨n1, n2, n3, n4⟩, rfl, rfl⟩
  · refine ⟨⟨n1, ?_, n3, ?_⟩, rfl, rfl⟩
    · intro s hs b hb hn
      exact ⟨has_flag_or tr flag _ (n2 s hs b hb hn).1, (n2 s hs b hb hn).2⟩
    · intro z hz b hb hn
      exact has_flag_or tr flag _ (n4 z hz b hb hn)
  · refine ⟨?_, rfl, rfl⟩
    cases o with
    | KZNL_OP_ZONE z =>
      have hnone : ∀ x ∈ merged_zones tr, x.unique_name ≠ z.unique_name := by
        have := hfresh
        unfold op_fresh at this
        simp only [] at this
        rw [lookup_zone_merged_eq, List.find?_eq_none] at this
        intro x hx
        simpa using this x hx
      refine ⟨?_, ?_, ?_, ?_⟩
      · simpa [staged_services, List.filterMap_cons] using n1
      · intro s hs b hb hn
        have hs1 : s ∈ staged_services tr.op := by
          simpa [staged_services, List.filterMap_cons] using hs
        exact n2 s hs1 b hb hn
      · simp only [staged_zones_cons_zone, List.map_cons, List.nodup_cons]
        refine ⟨?_, n3⟩
        intro hmem
        rw [List.mem_map] at hmem
        obtain ⟨x, hx, hxn⟩ := hmem
        exact hnone x (List.mem_append_left _ hx) hxn
      · intro x hx b hb hn
        simp only [staged_zones_cons_zone, List.mem_cons] at hx
        rcases hx with rfl | hx
        · by_contra hfl
          have hvis : visible_zones tr = tr.cfg.zones := by
            unfold has_flag at hfl
            unfold visible_zones
            rw [if_neg hfl]
          exact hnone b (List.mem_append_right _ (by rw [hvis]; exact hb)) hn
        · exact n4 x hx b hb hn
    | KZNL_OP_SERVICE s =>
      obtain ⟨hinst, hstaged, hlook⟩ := hfresh
      rw [transaction_service_lookup_eq, List.find?_eq_none] at hstaged
      refine ⟨?_, ?_, ?_, ?_⟩
      · simp only [staged_services, List.filterMap_cons, List.map_cons, List.nodup_cons]
        refine ⟨?_, n1⟩
        intro hmem
        rw [List.mem_map] at hmem
        obtain ⟨x, hx, hxn⟩ := hmem
        exact hstaged x hx (by simpa using hxn)
      · intro x hx b hb hn
        simp only [staged_services, List.filterMap_cons, List.mem_cons] at hx
        rcases hx with rfl | hx
        · have hfind : kz_service_lookup_name tr.cfg x.name = some b :=
            find_name_unique hbase hb hn
          have := hlook b hfind
          exact ⟨this.2, this.1⟩
        · exact n2 x hx b hb hn
      · simpa [commit_staged_zones, List.filterMap_cons] using n3
      · intro z hz b hb hn
        have hz1 : z ∈ commit_staged_zones tr.op := by
          simpa [commit_staged_zones, List.filterMap_cons] using hz
        exact n4 z hz1 b hb hn
    | KZNL_OP_DISPATCHER d =>
      refine ⟨?_, ?_, ?_, ?_⟩
      · simpa [staged_services, List.filterMap_cons] using n1
      · intro s hs b hb hn
        have hs1 : s ∈ staged_services tr.op := by
          simpa [staged_services, List.filterMap_cons] using hs
        exact n2 s hs1 b hb hn
      · simpa [commit_staged_zones, List.filterMap_cons] using n3
      · intro z hz b hb hn
        have hz1 : z ∈ commit_staged_zones tr.op := by
          simpa [commit_staged_zones, List.filterMap_cons] using hz
        exact n4 z hz1 b hb hn
    | KZNL_OP_BIND d =>
      refine ⟨?_, ?_, ?_, ?_⟩
      · simpa [staged_services, List.filterMap_cons] using n1
      · intro s hs b hb hn
        have hs1 : s ∈ staged_services tr.op := by
          simpa [staged_services, List.filterMap_cons] using hs
        exact n2 s hs1 b hb hn
      · simpa [commit_staged_zones, List.filterMap_cons] using n3
      · intro z hz b hb hn
        have hz1 : z ∈ commit_staged_zones tr.op := by
          simpa [commit_staged_zones, List.filterMap_cons] using hz
        exact n4 z hz1 b hb hn
  · obtain ⟨hsv, hzn, -⟩ := staged_services_update_service f n hf tr.op
    obtain ⟨hnames, hmem⟩ := forall₂_names hsv
    refine ⟨⟨?_, ?_, ?_, ?_⟩, rfl, rfl⟩
    · simp only []
      rw [hnames]
      exact n1
    · intro s hs b hb hn
      obtain ⟨s0, hs0, hsn⟩ := hmem s hs
      exact n2 s0 hs0 b hb (hn.trans hsn)
    · simp only []
      rw [hzn]
      exact n3
    · intro z hz b hb hn
      simp only [] at hz
      rw [hzn] at hz
      exact n4 z hz b hb hn
  · obtain ⟨hsv, hzn⟩ := staged_update_dispatcher f n tr.op
    refine ⟨⟨?_, ?_, ?_, ?_⟩, rfl, rfl⟩
    · simp only []
      rw [hsv]
      exact n1
    · intro s hs b hb hn
      simp only [] at hs
      rw [hsv] at hs
      exact n2 s hs b hb hn
    · simp only []
      rw [hzn]
      exact n3
    · intro z hz b hb hn
      simp only [] at hz
      rw [hzn] at hz
      exact n4 z hz b hb hn

theorem names_ok_run (es : List kz_event) :
    ∀ st : kz_state, (∀ e ∈ es, e.is_staging = true) →
      (st.transaction.cfg.services.map fun s => s.name).Nodup →
      names_ok st.transaction →
      names_ok (kz_run es st).transaction ∧
      (kz_run es st).transaction.cfg = st.transaction.cfg ∧
      (kz_run es st).transaction.instance_id = st.transaction.instance_id := by
  induction es with
  | nil => intro st _ _ h; exact ⟨h, rfl, rfl⟩
  | cons e rest ih =>
    intro st hall hbase hok
    simp only [kz_run, List.foldl_cons]
    obtain ⟨h1, h2, h3⟩ := names_ok_step false _ _
      (staging_step_any e (hall e (List.mem_cons_self _ _)) st) hbase hok
    obtain ⟨h4, h5, h6⟩ := ih (kz_step e st).2 (fun x hx => hall x (List.mem_cons_of_mem _ hx))
      (by rw [h2]; exact hbase) h1
    exact ⟨h4, h5.trans h2, h6.trans h3⟩


theorem migrate_name (env : kz_env) (old : kz_config) (s : kz_service) :
    (commit_migrate_service env old s).name = s.name := by
  unfold commit_migrate_service
  split <;> rfl

/-- C28: if the service names and the zone unique names of the base snapshot
of a transaction without staged operations are each pairwise distinct, then
after any sequence of Flush and Add messages a staged service shares its name
with a base service only if FlushServices is set and the base service belongs
to the instance of the transaction, a staged zone shares its unique name with
a base zone only if FlushZones is set, and in the snapshot published by a
commit that returns 0 the service names and the zone unique names are each
pairwise distinct. -/
theorem commit_names_distinct (es : List kz_event) (st0 : kz_state) (env : kz_env)
    (inst : Option Nat)
    (hes : ∀ e ∈ es, e.is_staging = true)
    (hop : st0.transaction.op = [])
    (hs : (st0.transaction.cfg.services.map fun s => s.name).Nodup)
    (hz : (st0.transaction.cfg.zones.map fun z => z.unique_name).Nodup)
    (hc : (kznl_recv_commit_transaction env inst (kz_run es st0)).res = 0) :
    ((kznl_recv_commit_transaction env inst (kz_run es st0)).st.kz_config_rcu.services.map
      fun s => s.name).Nodup ∧
    ((kznl_recv_commit_transaction env inst (kz_run es st0)).st.kz_config_rcu.zones.map
      fun z => z.unique_name).Nodup ∧
    (∀ s ∈ staged_services (kz_run es st0).transaction.op,
      ∀ b ∈ st0.transaction.cfg.services, b.name = s.name →
        has_flag (kz_run es st0).transaction KZF_TRANSACTION_FLUSH_SERVICES ∧
        b.instance_id = (kz_run es st0).transaction.instance_id) ∧
    (∀ z ∈ commit_staged_zones (kz_run es st0).transaction.op,
      ∀ b ∈ st0.transaction.cfg.zones, b.unique_name = z.unique_name →
        has_flag (kz_run es st0).transaction KZF_TRANSACTION_FLUSH_ZONES) := by
  have h0 : names_ok st0.transaction := by
    unfold names_ok
    rw [hop]
    refine ⟨List.nodup_nil, ?_, List.nodup_nil, ?_⟩
    · intro s hs1; cases hs1
    · intro z hz1; cases hz1
  obtain ⟨⟨n1, n2, n3, n4⟩, hcfg, -⟩ := names_ok_run es st0 hes hs h0
  rw [hcfg] at n2 n4
  refine ⟨?_, ?_, n2, n4⟩
  · rw [(commit_success_cfg env inst _ hc).1]
    simp only [List.map_append, List.map_map]
    have e1 : ((fun s : kz_service => s.name) ∘ fun i : kz_service =>
        { kz_service_clone i with session_cnt := env.kz_service_lock i }) =
        fun s => s.name := by
      funext i; rfl
    have e2 : ((fun s : kz_service => s.name) ∘
        commit_migrate_service env (kz_run es st0).transaction.cfg) = fun s => s.name := by
      funext i; exact migrate_name env _ i
    rw [e1, e2, List.nodup_append]
    refine ⟨?_, n1, ?_⟩
    · rw [hcfg]
      exact List.Nodup.sublist (List.Sublist.map _ (List.filter_sublist _)) hs
    · intro x hx1 hx2
      rw [List.mem_map] at hx1 hx2
      obtain ⟨b, hb, rfl⟩ := hx1
      obtain ⟨s, hsm, hsn⟩ := hx2
      have hbk : b ∈ st0.transaction.cfg.services ∧
          ¬ ((kz_run es st0).transaction.flags &&& KZF_TRANSACTION_FLUSH_SERVICES ≠ 0 ∧
            b.instance_id = (kz_run es st0).transaction.instance_id) := by
        simp only [services_kept, List.mem_filter, decide_eq_true_eq] at hb
        rw [hcfg] at hb
        exact hb
      exact hbk.2 (n2 s hsm b hbk.1 hsn.symm)
  · rw [(commit_zones_relinked env inst _ hc).1]
    simp only [List.map_map]
    have e1 : ((fun z : kz_zone => z.unique_name) ∘
        zone_relink (zone_ptrs (commit_zones_before (kz_run es st0)))) =
        fun z => z.unique_name := by
      funext z; exact relink_unique_name _ z
    rw [e1]
    unfold commit_zones_before
    by_cases hfl : (kz_run es st0).transaction.flags &&& KZF_TRANSACTION_FLUSH_ZONES ≠ 0
    · rw [if_pos hfl]
      simpa using n3
    · rw [if_neg hfl, List.map_append, hcfg,
        clone_zones_from_map (fun z => z.unique_name) (fun z => z.unique_name)
          (fun a z => rfl), List.nodup_append]
      refine ⟨hz, n3, ?_⟩
      intro x hx1 hx2
      rw [List.mem_map] at hx1 hx2
      obtain ⟨b, hb, rfl⟩ := hx1
      obtain ⟨z, hzm, hzn⟩ := hx2
      exact hfl (n4 z hzm b hb hzn.symm)


theorem run_second_staging : ∀ e ∈ run_second, e.is_staging = true := by
  intro e he
  simp only [run_second, List.mem_cons, List.mem_singleton, List.not_mem_nil, or_false] at he
  rcases he with rfl | rfl | rfl <;> rfl

theorem commit_names_distinct_witness :
    ((kznl_recv_commit_transaction env_ok (some 0)
      (kz_run run_second st_again)).st.kz_config_rcu.services.map fun s => s.name).Nodup ∧
    ((kznl_recv_commit_transaction env_ok (some 0)
      (kz_run run_second st_again)).st.kz_config_rcu.zones.map fun z => z.unique_name).Nodup :=
  ⟨(commit_names_distinct run_second st_again env_ok (some 0) run_second_staging
      (by decide) (by decide) (by decide) (by decide)).1,
   (commit_names_distinct run_second st_again env_ok (some 0) run_second_staging
      (by decide) (by decide) (by decide) (by decide)).2.1⟩

/-! ## Order of the staged entities in the published snapshot -/

theorem update_service_keys (f : kz_service → kz_service) (n : String)
    (hf : ∀ s, (f s).name = s.name ∧ (f s).instance_id = s.instance_id) :
    ∀ op : List kz_operation,
      (op_update_service f n op).map op_key = op.map op_key ∧
      (op_update_service f n op).length = op.length := by
  intro op
  induction op with
  | nil => exact ⟨rfl, rfl⟩
  | cons o rest ih =>
    cases o with
    | KZNL_OP_SERVICE s =>
      unfold op_update_service
      split
      · simp [op_key, (hf s).1]
      · simp [op_key, ih.1, ih.2]
    | KZNL_OP_ZONE z => simp [op_update_service, op_key, ih.1, ih.2]
    | KZNL_OP_DISPATCHER z => simp [op_update_service, op_key, ih.1, ih.2]
    | KZNL_OP_BIND z => simp [op_update_service, op_key, ih.1, ih.2]

theorem update_dispatcher_keys_aux (f : kz_dispatcher → kz_dispatcher) (n : String)
    (d : kz_dispatcher) (hf : (f d).name = d.name) :
    ∀ op : List kz_operation,
      (op.findSome? fun o =>
        match o with
        | .KZNL_OP_DISPATCHER d => if d.name = n then some d else none
        | _ => none) = some d →
      (op_update_dispatcher f n op).map op_key = op.map op_key ∧
      (op_update_dispatcher f n op).length = op.length := by
  intro op
  induction op with
  | nil => intro h; simp at h
  | cons o rest ih =>
    intro h
    cases o with
    | KZNL_OP_DISPATCHER e =>
      rw [List.findSome?_cons] at h
      by_cases he : e.name = n
      · simp only [he, if_true] at h
        cases h
        simp [op_update_dispatcher, he, op_key, hf]
      · simp only [he, if_false] at h
        obtain ⟨h1, h2⟩ := ih h
        simp [op_update_dispatcher, he, op_key, h1, h2]
    | KZNL_OP_ZONE z =>
      rw [List.findSome?_cons] at h
      obtain ⟨h1, h2⟩ := ih h
      simp [op_update_dispatcher, op_key, h1, h2]
    | KZNL_OP_SERVICE z =>
      rw [List.findSome?_cons] at h
      obtain ⟨h1, h2⟩ := ih h
      simp [op_update_dispatcher, op_key, h1, h2]
    | KZNL_OP_BIND z =>
      rw [List.findSome?_cons] at h
      obtain ⟨h1, h2⟩ := ih h
      simp [op_update_dispatcher, op_key, h1, h2]

/-- A change of the transaction by a Flush or Add message leaves the keys of
the operation list alone or puts one key in front of them. -/
theorem tr_step_keys (tr tr1 : kz_transaction) (h : tr_step true tr tr1) :
    (tr1.op = tr.op ∨ ∃ o, tr1.op = o :: tr.op) ∨
    (tr1.op.map op_key = tr.op.map op_key ∧ tr1.op.length = tr.op.length) := by
  rcases h with rfl | ⟨flag, rfl⟩ | ⟨o, rfl, -⟩ | ⟨f, n, rfl, hf⟩ | ⟨f, n, d, rfl, hd, hn⟩
  · exact Or.inl (Or.inl rfl)
  · exact Or.inl (Or.inl rfl)
  · exact Or.inl (Or.inr ⟨o, rfl⟩)
  · exact Or.inr (update_service_keys f n hf tr.op)
  · exact Or.inr (update_dispatcher_keys_aux f n d (hn rfl) tr.op hd)

theorem staged_by_spec (e : kz_event) (he : e.is_staging = true) (hm : e.rules_modelled)
    (st : kz_state) :
    (kz_step e st).2.transaction.op.map op_key =
      staged_by e st ++ st.transaction.op.map op_key ∧
    (staged_by e st).length ≤ 1 ∧
    (staged_by e st ≠ [] →
      ∃ o, (kz_step e st).2.transaction.op = o :: st.transaction.op ∧
        staged_by e st = [op_key o]) := by
  unfold staged_by
  rcases tr_step_keys _ _ (staging_step e he hm st) with (h | ⟨o, h⟩) | ⟨h1, h2⟩
  · rw [h]; simp
  · rw [h]
    refine ⟨by simp, by simp, fun _ => ⟨o, rfl, by simp⟩⟩
  · rw [h2, h1]; simp

theorem submitted_run (es : List kz_event) :
    ∀ st : kz_state, (∀ e ∈ es, e.is_staging = true ∧ e.rules_modelled) →
      (kz_run es st).transaction.op.map op_key =
        (submitted es st).reverse ++ st.transaction.op.map op_key := by
  induction es with
  | nil => intro st _; simp [kz_run, submitted]
  | cons e rest ih =>
    intro st hall
    obtain ⟨he, hm⟩ := hall e (List.mem_cons_self _ _)
    obtain ⟨h1, h2, -⟩ := staged_by_spec e he hm st
    simp only [kz_run, List.foldl_cons, submitted, List.reverse_append]
    have := ih (kz_step e st).2 (fun x hx => hall x (List.mem_cons_of_mem _ hx))
    simp only [kz_run] at this
    rw [this, h1]
    have hrev : (staged_by e st).reverse = staged_by e st := by
      cases hs : staged_by e st with
      | nil => rfl
      | cons a l =>
        rw [hs] at h2
        cases l with
        | nil => rfl
        | cons b l => simp at h2
    rw [hrev, List.append_assoc]

theorem keys_services (op : List kz_operation) :
    (staged_services op).map (fun s => s.name) = keys_of_kind 1 (op.map op_key) := by
  induction op with
  | nil => rfl
  | cons o rest ih =>
    cases o <;>
      simp_all [staged_services, keys_of_kind, op_key, List.filterMap_cons, List.filter_cons]

theorem keys_zones (op : List kz_operation) :
    (commit_staged_zones op).map (fun z => z.unique_name) = keys_of_kind 0 (op.map op_key) := by
  induction op with
  | nil => rfl
  | cons o rest ih =>
    cases o <;>
      simp_all [commit_staged_zones, keys_of_kind, op_key, List.filterMap_cons,
        List.filter_cons]

theorem keys_dispatchers (op : List kz_operation) :
    (commit_staged_dispatchers op).map (fun d => d.name) =
      keys_of_kind 2 (op.map op_key) := by
  induction op with
  | nil => rfl
  | cons o rest ih =>
    cases o <;>
      simp_all [commit_staged_dispatchers, keys_of_kind, op_key, List.filterMap_cons,
        List.filter_cons]

theorem staged_dispatchers_filter (op : List kz_operation) :
    commit_staged_dispatchers
      ((op.filter fun io => ¬ op_is_service io).filter fun io => ¬ op_is_zone io) =
      commit_staged_dispatchers op := by
  induction op with
  | nil => rfl
  | cons o rest ih =>
    cases o <;>
      simp_all [commit_staged_dispatchers, List.filterMap_cons, List.filter_cons,
        op_is_service, op_is_zone]

/-- C30: every Flush or Add message leaves the operation list alone or puts
one operation at its head, so the keys of the operation list after a sequence
of such messages are the keys staged by the messages in the reverse of their
submission order, followed by the keys that were there before; and in the
snapshot of a successful commit the carried-over services, zones and
dispatchers come first and the staged ones follow in the order of the
operation list, that is, each kind in the reverse of its submission order. -/
theorem commit_staged_order (es : List kz_event) (st0 : kz_state) (env : kz_env)
    (inst : Option Nat)
    (hes : ∀ e ∈ es, e.is_staging = true ∧ e.rules_modelled)
    (hc : (kznl_recv_commit_transaction env inst (kz_run es st0)).res = 0) :
    (∀ e ∈ es, ∀ st : kz_state,
      (kz_step e st).2.transaction.op.map op_key =
        staged_by e st ++ st.transaction.op.map op_key ∧
      (staged_by e st ≠ [] →
        ∃ o, (kz_step e st).2.transaction.op = o :: st.transaction.op ∧
          staged_by e st = [op_key o])) ∧
    (kz_run es st0).transaction.op.map op_key =
      (submitted es st0).reverse ++ st0.transaction.op.map op_key ∧
    (kznl_recv_commit_transaction env inst (kz_run es st0)).st.kz_config_rcu.services =
      (services_kept (kz_run es st0).transaction
          (kz_run es st0).transaction.cfg.services).map
        (fun i => { kz_service_clone i with session_cnt := env.kz_service_lock i }) ++
      (staged_services (kz_run es st0).transaction.op).map
        (commit_migrate_service env (kz_run es st0).transaction.cfg) ∧
    (staged_services (kz_run es st0).transaction.op).map (fun s => s.name) =
      keys_of_kind 1 ((submitted es st0).reverse ++ st0.transaction.op.map op_key) ∧
    (kznl_recv_commit_transaction env inst (kz_run es st0)).st.kz_config_rcu.zones =
      ((if (kz_run es st0).transaction.flags &&& KZF_TRANSACTION_FLUSH_ZONES ≠ 0 then []
        else clone_zones_from (kz_run es st0).zone_addr_next
          (kz_run es st0).transaction.cfg.zones) ++
        commit_staged_zones (kz_run es st0).transaction.op).map
        (zone_relink (zone_ptrs (commit_zones_before (kz_run es st0)))) ∧
    (commit_staged_zones (kz_run es st0).transaction.op).map (fun z => z.unique_name) =
      keys_of_kind 0 ((submitted es st0).reverse ++ st0.transaction.op.map op_key) ∧
    (kznl_recv_commit_transaction env inst (kz_run es st0)).st.kz_config_rcu.dispatchers =
      ((dispatchers_kept (kz_run es st0).transaction
            (kz_run es st0).transaction.cfg.dispatchers).map kz_dispatcher_clone ++
        commit_staged_dispatchers (kz_run es st0).transaction.op).map
        (fun i => env.kz_dispatcher_relink i
          (kznl_recv_commit_transaction env inst (kz_run es st0)).st.kz_config_rcu.zones
          (kznl_recv_commit_transaction env inst (kz_run es st0)).st.kz_config_rcu.services) ∧
    (commit_staged_dispatchers (kz_run es st0).transaction.op).map (fun d => d.name) =
      keys_of_kind 2 ((submitted es st0).reverse ++ st0.transaction.op.map op_key) := by
  have hkeys := submitted_run es st0 hes
  refine ⟨?_, hkeys, (commit_success_cfg env inst _ hc).1, ?_, ?_, ?_, ?_, ?_⟩
  · intro e he st
    obtain ⟨h1, -, h3⟩ := staged_by_spec e (hes e he).1 (hes e he).2 st
    exact ⟨h1, h3⟩
  · rw [keys_services, hkeys]
  · exact (commit_zones_relinked env inst _ hc).1
  · rw [keys_zones, hkeys]
  · obtain ⟨-, -, cloned, locked0, zcloned, zones, dcloned, -, -, -, hd, hcfg, -, -⟩ :=
      commit_success_shape env inst _ hc
    have hdc := clone_dispatchers_ok env _ _ _ _ _ hd
    rw [hcfg]
    simp only []
    rw [staged_dispatchers_filter, hdc]
    rfl
  · rw [keys_dispatchers, hkeys]

theorem commit_staged_order_witness :
    (∀ e ∈ run_order, e.is_staging = true ∧ e.rules_modelled) ∧
    (kznl_recv_commit_transaction env_ok (some 0) (kz_run run_order st_again)).res = 0 ∧
    submitted run_order st_again =
      [(0, "c"), (1, "mail"), (2, "d"), (0, "e"), (1, "dns"), (2, "f")] ∧
    ((kznl_recv_commit_transaction env_ok (some 0)
      (kz_run run_order st_again)).st.kz_config_rcu.services.map fun s => s.name) =
      ["web", "dns", "mail"] ∧
    ((kznl_recv_commit_transaction env_ok (some 0)
      (kz_run run_order st_again)).st.kz_config_rcu.zones.map fun z => z.unique_name) =
      ["b", "a", "e", "c"] ∧
    ((kznl_recv_commit_transaction env_ok (some 0)
      (kz_run run_order st_again)).st.kz_config_rcu.dispatchers.map fun d => d.name) =
      ["f", "d"] ∧
    (kz_run run_order st_again).transaction.op.map op_key =
      (submitted run_order st_again).reverse ++ st_again.transaction.op.map op_key :=
  have hes : ∀ e ∈ run_order, e.is_staging = true ∧ e.rules_modelled := by
    intro e he
    simp only [run_order, List.mem_cons, List.mem_singleton, List.not_mem_nil, or_false] at he
    rcases he with rfl | rfl | rfl | rfl | rfl | rfl <;> exact ⟨rfl, trivial⟩
  ⟨hes, by decide, by decide, by decide, by decide, by decide,
    (commit_staged_order run_order st_again env_ok (some 0) hes (by decide)).2.1⟩

/-! ## The verdict cache: one pass over one chain -/

theorem node_ok_read (st : kz_ext_state) (n : tuple_hash_ptr)
    (h : (kz_get_kzorp_from_node st n).isSome = true) :
    ∃ r, obj_read st n.kzorp = some r ∧ (tuplehash_at r.tuplehash n.slot).dst_dir = n.slot ∧
      kz_get_kzorp_from_node st n = some n.kzorp := by
  unfold kz_get_kzorp_from_node at h ⊢
  cases hr : obj_read st n.kzorp with
  | none => simp [hr] at h
  | some r =>
    simp only [hr] at h ⊢
    by_cases hd : (tuplehash_at r.tuplehash n.slot).dst_dir = n.slot
    · exact ⟨r, rfl, hd, by simp [hd]⟩
    · simp [hd] at h

/-- The key test on a readable node: the tuples are equal and the zone of the
record of the node is the zone of the key. -/
theorem key_equal_node_ok (st : kz_ext_state) (n : tuple_hash_ptr)
    (h : (kz_get_kzorp_from_node st n).isSome = true) (th : nf_conntrack_tuple) (zone : Nat) :
    ∃ r, obj_read st n.kzorp = some r ∧
      __kz_extension_key_equal st n th zone =
        some (nf_ct_tuple_equal th (tuplehash_at r.tuplehash n.slot) &&
          decide (r.ct_zone = zone)) := by
  obtain ⟨r, hr, hd, -⟩ := node_ok_read st n h
  exact ⟨r, hr, (key_equal_own_slot st n.kzorp n.slot r th zone hr hd).2⟩

/-- The walk of a chain of readable nodes stops at the first node whose key is
equal, or reaches the end when there is none. -/
theorem kz_extension_walk_spec (st : kz_ext_state) (th : nf_conntrack_tuple) (zone : Nat) :
    ∀ l : List tuple_hash_ptr,
      (∀ n ∈ l, (kz_get_kzorp_from_node st n).isSome = true) →
      (∃ pre h post, l = pre ++ h :: post ∧
        (∀ x ∈ pre, __kz_extension_key_equal st x th zone = some false) ∧
        __kz_extension_key_equal st h th zone = some true ∧
        kz_extension_walk st th zone l = some (some h)) ∨
      ((∀ x ∈ l, __kz_extension_key_equal st x th zone = some false) ∧
        kz_extension_walk st th zone l = some none) := by
  intro l
  induction l with
  | nil => intro _; exact Or.inr ⟨fun x hx => absurd hx (List.not_mem_nil x), rfl⟩
  | cons n rest ih =>
    intro hall
    obtain ⟨r, -, hk⟩ := key_equal_node_ok st n (hall n (List.mem_cons_self _ _)) th zone
    cases hb : (nf_ct_tuple_equal th (tuplehash_at r.tuplehash n.slot) &&
        decide (r.ct_zone = zone)) with
    | true =>
      rw [hb] at hk
      refine Or.inl ⟨[], n, rest, rfl, fun x hx => absurd hx (List.not_mem_nil x), hk, ?_⟩
      simp only [kz_extension_walk, hk]
    | false =>
      rw [hb] at hk
      rcases ih (fun x hx => hall x (List.mem_cons_of_mem _ hx)) with
        ⟨pre, h, post, h1, h2, h3, h4⟩ | ⟨h1, h2⟩
      · refine Or.inl ⟨n :: pre, h, post, by rw [h1]; rfl, ?_, h3, ?_⟩
        · intro x hx
          rcases List.mem_cons.mp hx with rfl | hx
          · exact hk
          · exact h2 x hx
        · simp only [kz_extension_walk, hk]
          exact h4
      · refine Or.inr ⟨?_, ?_⟩
        · intro x hx
          rcases List.mem_cons.mp hx with rfl | hx
          · exact hk
          · exact h1 x hx
        · simp only [kz_extension_walk, hk]
          exact h2

theorem kz_table_ok_bucket (st : kz_ext_state) (hok : kz_table_ok st) (i : Nat)
    (hi : i < kz_hash_size) :
    ∃ head, st.kz_hash[i]? = some head ∧ head.nulls = i ∧ head ∈ st.kz_hash := by
  obtain ⟨hlen, hnulls, -⟩ := hok
  have := hnulls i hi
  cases hh : st.kz_hash[i]? with
  | none => simp [hh] at this
  | some head =>
    rw [hh] at this
    simp only [Option.map_some', Option.some.injEq] at this
    exact ⟨head, rfl, this, List.getElem?_mem hh⟩

theorem kz_hash_init_bucket (i : Nat) (hi : i < kz_hash_size) :
    kz_hash_init.kz_hash[i]? = some { first := [], nulls := i } := by
  unfold kz_hash_init
  simp only [List.getElem?_map]
  rw [List.getElem?_range hi]
  rfl

/-- C27: `kz_hash_size` is 16; `kz_extension_init`, when its allocation and
registration succeed, leaves 16 empty chains, the marker of bucket `i` holding
`i`; every bucket index a lookup computes is below 16; and on a table in that
state on which no writer is at work, `__kz_extension_find` returns after one
pass over the chain of the bucket of its key, without taking the restart
branch: the first node of the chain whose key is equal, all nodes before it
having been compared unequal, or `NULL` when every node compared unequal. -/
theorem find_walks_one_chain (jhash2 : List Nat → Nat → Nat) (ct : nf_conn)
    (st : kz_ext_state) (fuel : Nat) (hok : kz_table_ok st) :
    kz_hash_size = 16 ∧
    (∀ r : Int, 0 ≤ r → kz_extension_init true r = (0, some kz_hash_init)) ∧
    (∀ i < kz_hash_size, kz_hash_init.kz_hash[i]? = some { first := [], nulls := i }) ∧
    kz_table_ok kz_hash_init ∧
    kz_bucket jhash2 ct.tuplehash.1 ct.nf_ct_zone < kz_hash_size ∧
    ∃ head,
      st.kz_hash[kz_bucket jhash2 ct.tuplehash.1 ct.nf_ct_zone]? = some head ∧
      head.nulls = kz_bucket jhash2 ct.tuplehash.1 ct.nf_ct_zone ∧
      __kz_extension_find jhash2 (fuel + 1) ct st = __kz_extension_find jhash2 1 ct st ∧
      __kz_extension_find jhash2 1 ct st =
        kz_extension_walk st ct.tuplehash.1 ct.nf_ct_zone head.first ∧
      ((∃ pre h post, head.first = pre ++ h :: post ∧
          (∀ x ∈ pre,
            __kz_extension_key_equal st x ct.tuplehash.1 ct.nf_ct_zone = some false) ∧
          __kz_extension_key_equal st h ct.tuplehash.1 ct.nf_ct_zone = some true ∧
          __kz_extension_find jhash2 1 ct st = some (some h)) ∨
        ((∀ x ∈ head.first,
            __kz_extension_key_equal st x ct.tuplehash.1 ct.nf_ct_zone = some false) ∧
          __kz_extension_find jhash2 1 ct st = some none)) := by
  have hb := kz_bucket_lt jhash2 ct.tuplehash.1 ct.nf_ct_zone
  obtain ⟨head, hh, hn, hmem⟩ := kz_table_ok_bucket st hok _ hb
  have hwalk : ∀ f, __kz_extension_find jhash2 (f + 1) ct st =
      kz_extension_walk st ct.tuplehash.1 ct.nf_ct_zone head.first := by
    intro f
    unfold __kz_extension_find
    simp only [hh, hn, ne_eq, not_true_eq_false, if_false]
    cases kz_extension_walk st ct.tuplehash.1 ct.nf_ct_zone head.first with
    | none => rfl
    | some o => cases o <;> rfl
  refine ⟨by decide, ?_, kz_hash_init_bucket, by decide, hb, head, hh, hn, ?_, hwalk 0, ?_⟩
  · intro r hr
    unfold kz_extension_init
    simp [not_lt.mpr hr]
  · rw [hwalk fuel, hwalk 0]
  · rw [hwalk 0]
    exact kz_extension_walk_spec st _ _ head.first (fun n hn1 => (hok.2.2 head hmem n hn1).2)

theorem find_walks_one_chain_witness :
    kz_table_ok st_cached ∧
    __kz_extension_find jhash2_example 1 ct_example st_cached =
      some (some { kzorp := 64, slot := 0 }) ∧
    __kz_extension_find jhash2_example 3 ct_example st_cached =
      __kz_extension_find jhash2_example 1 ct_example st_cached :=
  ⟨by decide, by decide,
    (find_walks_one_chain jhash2_example ct_example st_cached 2 (by decide)).2.2.2.2.2.choose_spec.2.2.1⟩

/-! ## The verdict cache: destroy -/

theorem nf_ct_tuple_equal_symm (t1 t2 : nf_conntrack_tuple)
    (h : nf_ct_tuple_equal t1 t2 = true) : nf_ct_tuple_equal t2 t1 = true := by
  unfold nf_ct_tuple_equal at h ⊢
  simp only [Bool.and_eq_true, decide_eq_true_eq] at h ⊢
  obtain ⟨⟨⟨h1, h2⟩, h3⟩, h4⟩ := h
  exact ⟨⟨⟨h1.symm, h2.symm⟩, h3.symm⟩, h4.symm⟩

theorem nf_ct_tuple_equal_trans (t1 t2 t3 : nf_conntrack_tuple)
    (h : nf_ct_tuple_equal t1 t2 = true) (h' : nf_ct_tuple_equal t2 t3 = true) :
    nf_ct_tuple_equal t1 t3 = true := by
  unfold nf_ct_tuple_equal at h h' ⊢
  simp only [Bool.and_eq_true, decide_eq_true_eq] at h h' ⊢
  obtain ⟨⟨⟨h1, h2⟩, h3⟩, h4⟩ := h
  obtain ⟨⟨⟨g1, g2⟩, g3⟩, g4⟩ := h'
  exact ⟨⟨⟨h1.trans g1, h2.trans g2⟩, h3.trans g3⟩, h4.trans g4⟩

theorem dealloc_cachep (a : Nat) (st : kz_ext_state) :
    (kz_extension_dealloc a st).kz_cachep = st.kz_cachep := rfl

theorem dealloc_hash (a : Nat) (st : kz_ext_state) :
    (kz_extension_dealloc a st).kz_hash =
      st.kz_hash.map fun h =>
        { h with first := h.first.filter fun x =>
            x ≠ { kzorp := a, slot := 0 } ∧ x ≠ { kzorp := a, slot := 1 } } := by
  simp only [kz_extension_dealloc, hlist_nulls_del_rcu, List.map_map]
  congr 1
  funext h
  simp only [Function.comp, List.filter_filter]
  congr 2
  funext x
  simp only [ne_eq, decide_not, Bool.decide_and]
  exact Bool.and_comm _ _

theorem dealloc_read (a : Nat) (st : kz_ext_state) (b : Nat) :
    obj_read (kz_extension_dealloc a st) b = obj_read st b := rfl

theorem dealloc_node (a : Nat) (st : kz_ext_state) (n : tuple_hash_ptr) :
    kz_get_kzorp_from_node (kz_extension_dealloc a st) n = kz_get_kzorp_from_node st n := rfl

theorem dealloc_key_equal (a : Nat) (st : kz_ext_state) (n : tuple_hash_ptr)
    (th : nf_conntrack_tuple) (zone : Nat) :
    __kz_extension_key_equal (kz_extension_dealloc a st) n th zone =
      __kz_extension_key_equal st n th zone := rfl

theorem dealloc_walk (a : Nat) (st : kz_ext_state) (th : nf_conntrack_tuple) (zone : Nat) :
    ∀ l, kz_extension_walk (kz_extension_dealloc a st) th zone l =
      kz_extension_walk st th zone l := by
  intro l
  induction l with
  | nil => rfl
  | cons n rest ih =>
    simp only [kz_extension_walk, dealloc_key_equal, ih]

/-- Unlinking a record keeps the table in order. -/
theorem kz_table_ok_dealloc (a : Nat) (st : kz_ext_state) (hok : kz_table_ok st) :
    kz_table_ok (kz_extension_dealloc a st) := by
  obtain ⟨h1, h2, h3⟩ := hok
  refine ⟨?_, ?_, ?_⟩
  · rw [dealloc_hash, List.length_map, h1]
  · intro i hi
    rw [dealloc_hash, List.getElem?_map]
    have := h2 i hi
    cases hh : st.kz_hash[i]? with
    | none => simp [hh] at this
    | some head =>
      rw [hh] at this
      simpa using this
  · intro head hhead n hn
    rw [dealloc_hash, List.mem_map] at hhead
    obtain ⟨h0, hh0, rfl⟩ := hhead
    simp only [List.mem_filter] at hn
    rw [dealloc_node]
    exact h3 h0 hh0 n hn.1

/-- A linked node belongs to the record `a` exactly when it is one of the two
nodes `kz_extension_dealloc` unlinks. -/
theorem node_of_record (st : kz_ext_state) (hok : kz_table_ok st) (a : Nat)
    (head : hlist_nulls_head) (hh : head ∈ st.kz_hash) (n : tuple_hash_ptr) (hn : n ∈ head.first) :
    (n ≠ { kzorp := a, slot := 0 } ∧ n ≠ { kzorp := a, slot := 1 }) ↔ n.kzorp ≠ a := by
  have hs := (hok.2.2 head hh n hn).1
  obtain ⟨k, s⟩ := n
  simp only [ne_eq, tuple_hash_ptr.mk.injEq, not_and] at hs ⊢
  constructor
  · intro ⟨h0, h1⟩ hk
    have : s = 0 ∨ s = 1 := by omega
    rcases this with h | h
    · exact h0 hk h
    · exact h1 hk h
  · intro hk
    exact ⟨fun h => absurd h hk, fun h => absurd h hk⟩

/-- On a table in order a lookup returns the record of the first node of the
chain of its key whose key is equal, in one pass. -/
theorem kz_extension_find_spec (jhash2 : List Nat → Nat → Nat) (fuel : Nat) (ct : nf_conn)
    (st : kz_ext_state) (hok : kz_table_ok st) :
    ∃ head, st.kz_hash[kz_bucket jhash2 ct.tuplehash.1 ct.nf_ct_zone]? = some head ∧
      head ∈ st.kz_hash ∧
      ((∃ pre h post, head.first = pre ++ h :: post ∧
          (∀ x ∈ pre,
            __kz_extension_key_equal st x ct.tuplehash.1 ct.nf_ct_zone = some false) ∧
          __kz_extension_key_equal st h ct.tuplehash.1 ct.nf_ct_zone = some true ∧
          kz_extension_find jhash2 (fuel + 1) ct st = some (some h.kzorp)) ∨
        ((∀ x ∈ head.first,
            __kz_extension_key_equal st x ct.tuplehash.1 ct.nf_ct_zone = some false) ∧
          kz_extension_find jhash2 (fuel + 1) ct st = some none)) := by
  have hb := kz_bucket_lt jhash2 ct.tuplehash.1 ct.nf_ct_zone
  obtain ⟨head, hh, hn, hmem⟩ := kz_table_ok_bucket st hok _ hb
  refine ⟨head, hh, hmem, ?_⟩
  rcases kz_extension_walk_spec st ct.tuplehash.1 ct.nf_ct_zone head.first
    (fun n hn1 => (hok.2.2 head hmem n hn1).2) with ⟨pre, h, post, h1, h2, h3, h4⟩ | ⟨h1, h2⟩
  · refine Or.inl ⟨pre, h, post, h1, h2, h3, ?_⟩
    have hmemh : h ∈ head.first := by rw [h1]; simp
    obtain ⟨r, -, -, hg⟩ := node_ok_read st h (hok.2.2 head hmem h hmemh).2
    exact kz_extension_find_of_walk jhash2 fuel ct st head h h.kzorp hh h4 hg
  · refine Or.inr ⟨h1, ?_⟩
    have hf : __kz_extension_find jhash2 (fuel + 1) ct st = some none := by
      unfold __kz_extension_find
      simp only [hh, h2, hn, ne_eq, not_true_eq_false, if_false]
    unfold kz_extension_find
    simp only [hf]

/-- The key test says yes on two linked nodes only if they hold the same key. -/
theorem same_key_of_equal (st : kz_ext_state) (n1 n2 : tuple_hash_ptr)
    (th : nf_conntrack_tuple) (zone : Nat)
    (g1 : (kz_get_kzorp_from_node st n1).isSome = true)
    (g2 : (kz_get_kzorp_from_node st n2).isSome = true)
    (h1 : __kz_extension_key_equal st n1 th zone = some true)
    (h2 : __kz_extension_key_equal st n2 th zone = some true) :
    kz_same_key st n1 n2 = true := by
  obtain ⟨r1, hr1, hk1⟩ := key_equal_node_ok st n1 g1 th zone
  obtain ⟨r2, hr2, hk2⟩ := key_equal_node_ok st n2 g2 th zone
  rw [h1] at hk1
  rw [h2] at hk2
  simp only [Option.some.injEq] at hk1 hk2
  have e1 := hk1.symm
  have e2 := hk2.symm
  simp only [Bool.and_eq_true, decide_eq_true_eq] at e1 e2
  unfold kz_same_key
  simp only [hr1, hr2, Bool.and_eq_true, decide_eq_true_eq]
  exact ⟨nf_ct_tuple_equal_trans _ _ _ (nf_ct_tuple_equal_symm _ _ e1.1) e2.1,
    e1.2.trans e2.2.symm⟩

theorem walk_filter_none (st : kz_ext_state) (th : nf_conntrack_tuple) (zone : Nat)
    (q : tuple_hash_ptr → Bool) :
    ∀ l : List tuple_hash_ptr,
      (∀ n ∈ l, q n = true → __kz_extension_key_equal st n th zone = some false) →
      kz_extension_walk st th zone (l.filter q) = some none := by
  intro l
  induction l with
  | nil => intro _; rfl
  | cons n rest ih =>
    intro h
    have ih1 := ih (fun x hx => h x (List.mem_cons_of_mem _ hx))
    rw [List.filter_cons]
    split
    · rename_i hq
      simp only [kz_extension_walk, h n (List.mem_cons_self _ _) hq]
      exact ih1
    · exact ih1

theorem walk_filter_same (st : kz_ext_state) (th : nf_conntrack_tuple) (zone : Nat)
    (q : tuple_hash_ptr → Bool) :
    ∀ l : List tuple_hash_ptr,
      (∀ n ∈ l, q n = false → __kz_extension_key_equal st n th zone = some false) →
      kz_extension_walk st th zone (l.filter q) = kz_extension_walk st th zone l := by
  intro l
  induction l with
  | nil => intro _; rfl
  | cons n rest ih =>
    intro h
    have ih1 := ih (fun x hx => h x (List.mem_cons_of_mem _ hx))
    rw [List.filter_cons]
    split
    · simp only [kz_extension_walk, ih1]
    · rename_i hq
      have hq1 : q n = false := by simpa using hq
      simp only [kz_extension_walk, h n (List.mem_cons_self _ _) hq1]
      exact ih1

theorem kz_extension_find_eq_walk (jhash2 : List Nat → Nat → Nat) (fuel : Nat) (ct : nf_conn)
    (st : kz_ext_state) (hok : kz_table_ok st) :
    ∃ head, st.kz_hash[kz_bucket jhash2 ct.tuplehash.1 ct.nf_ct_zone]? = some head ∧
      head ∈ st.kz_hash ∧
      kz_extension_find jhash2 (fuel + 1) ct st =
        (kz_extension_walk st ct.tuplehash.1 ct.nf_ct_zone head.first).map
          fun o => o.map fun h => h.kzorp := by
  have hb := kz_bucket_lt jhash2 ct.tuplehash.1 ct.nf_ct_zone
  obtain ⟨head, hh, hn, hmem⟩ := kz_table_ok_bucket st hok _ hb
  refine ⟨head, hh, hmem, ?_⟩
  rcases kz_extension_walk_spec st ct.tuplehash.1 ct.nf_ct_zone head.first
    (fun n hn1 => (hok.2.2 head hmem n hn1).2) with ⟨pre, h, post, h1, h2, h3, h4⟩ | ⟨h1, h2⟩
  · have hmemh : h ∈ head.first := by rw [h1]; simp
    obtain ⟨r, -, -, hg⟩ := node_ok_read st h (hok.2.2 head hmem h hmemh).2
    rw [kz_extension_find_of_walk jhash2 fuel ct st head h h.kzorp hh h4 hg, h4]
    rfl
  · have hf : __kz_extension_find jhash2 (fuel + 1) ct st = some none := by
      unfold __kz_extension_find
      simp only [hh, h2, hn, ne_eq, not_true_eq_false, if_false]
    rw [h2]
    unfold kz_extension_find
    simp only [hf]
    rfl

/-- Lookups after a record is unlinked, on a table in order in which no key
is cached twice: a lookup that returned the record returns `NULL`, every other
lookup returns what it returned before. -/
theorem find_after_dealloc (jhash2 : List Nat → Nat → Nat) (fuel : Nat) (ct : nf_conn)
    (st : kz_ext_state) (a : Nat) (hok : kz_table_ok st) (huniq : kz_keys_unique st) :
    kz_extension_find jhash2 (fuel + 1) ct (kz_extension_dealloc a st) =
      if kz_extension_find jhash2 (fuel + 1) ct st = some (some a) then some none
      else kz_extension_find jhash2 (fuel + 1) ct st := by
  have hok1 := kz_table_ok_dealloc a st hok
  obtain ⟨head, hh, hmem, hfind⟩ := kz_extension_find_eq_walk jhash2 fuel ct st hok
  obtain ⟨head1, hh1, -, hfind1⟩ :=
    kz_extension_find_eq_walk jhash2 fuel ct (kz_extension_dealloc a st) hok1
  rw [dealloc_hash, List.getElem?_map, hh] at hh1
  simp only [Option.map_some', Option.some.injEq] at hh1
  subst hh1
  rw [hfind1, hfind, dealloc_walk]
  simp only []
  have hnode := fun n hn => hok.2.2 head hmem n hn
  have hq : ∀ n ∈ head.first,
      (decide (n ≠ ({ kzorp := a, slot := 0 } : tuple_hash_ptr) ∧
        n ≠ ({ kzorp := a, slot := 1 } : tuple_hash_ptr)) = true ↔ n.kzorp ≠ a) := by
    intro n hn
    rw [decide_eq_true_eq]
    exact node_of_record st hok a head hmem n hn
  rcases kz_extension_walk_spec st ct.tuplehash.1 ct.nf_ct_zone head.first
    (fun n hn1 => (hnode n hn1).2) with ⟨pre, h, post, h1, h2, h3, h4⟩ | ⟨h1, h2⟩
  · have hmemh : h ∈ head.first := by rw [h1]; simp
    have hsame : ∀ n ∈ head.first,
        __kz_extension_key_equal st n ct.tuplehash.1 ct.nf_ct_zone = some true →
        n.kzorp = h.kzorp := by
      intro n hn hk
      exact huniq head hmem n hn head hmem h hmemh
        (same_key_of_equal st n h _ _ (hnode n hn).2 (hnode h hmemh).2 hk h3)
    have hbool : ∀ n ∈ head.first,
        __kz_extension_key_equal st n ct.tuplehash.1 ct.nf_ct_zone ≠ some true →
        __kz_extension_key_equal st n ct.tuplehash.1 ct.nf_ct_zone = some false := by
      intro n hn hne
      obtain ⟨r, -, hk⟩ := key_equal_node_ok st n (hnode n hn).2 ct.tuplehash.1 ct.nf_ct_zone
      rw [hk] at hne ⊢
      cases hb : (nf_ct_tuple_equal ct.tuplehash.1 (tuplehash_at r.tuplehash n.slot) &&
        decide (r.ct_zone = ct.nf_ct_zone)) with
      | true => rw [hb] at hne; exact absurd rfl hne
      | false => rfl
    by_cases hka : h.kzorp = a
    · rw [h4]
      simp only [Option.map_some', hka, if_true]
      rw [walk_filter_none]
      · rfl
      · intro n hn hqn
        apply hbool n hn
        intro hk
        exact ((hq n hn).mp hqn) ((hsame n hn hk).trans hka)
    · rw [h4]
      simp only [Option.map_some', Option.some.injEq, hka, if_false]
      rw [walk_filter_same, h4]
      · rfl
      · intro n hn hqn
        apply hbool n hn
        intro hk
        have hna : n.kzorp = a := by
          by_contra hne
          have := (hq n hn).mpr hne
          rw [this] at hqn
          cases hqn
        exact hka ((hsame n hn hk).symm.trans hna)
  · rw [h2]
    simp only [Option.map_some', Option.map_none', Option.some.injEq, if_false]
    rw [walk_filter_same, h2]
    · rfl
    · intro n hn _
      exact h1 n hn

/-- The key of a lookup that returns a record is held by one of its slots. -/
theorem find_key_of_record (jhash2 : List Nat → Nat → Nat) (fuel : Nat) (ct : nf_conn)
    (st : kz_ext_state) (a : Nat) (hok : kz_table_ok st)
    (hfind : kz_extension_find jhash2 (fuel + 1) ct st = some (some a)) :
    ∃ r, obj_read st a = some r ∧ r.ct_zone = ct.nf_ct_zone ∧
      (nf_ct_tuple_equal ct.tuplehash.1 r.tuplehash.1 = true ∨
        nf_ct_tuple_equal ct.tuplehash.1 r.tuplehash.2 = true) := by
  obtain ⟨head, hh, hmem, hcase⟩ := kz_extension_find_spec jhash2 fuel ct st hok
  rcases hcase with ⟨pre, h, post, h1, -, h3, h4⟩ | ⟨-, h2⟩
  · rw [hfind] at h4
    simp only [Option.some.injEq] at h4
    have hmemh : h ∈ head.first := by rw [h1]; simp
    obtain ⟨r, hr, hk⟩ := key_equal_node_ok st h (hok.2.2 head hmem h hmemh).2
      ct.tuplehash.1 ct.nf_ct_zone
    rw [h3] at hk
    simp only [Option.some.injEq] at hk
    have e := hk.symm
    simp only [Bool.and_eq_true, decide_eq_true_eq] at e
    rw [← h4] at hr
    refine ⟨r, hr, e.2, ?_⟩
    unfold tuplehash_at at e
    by_cases hs : h.slot = 0
    · rw [if_pos hs] at e; exact Or.inl e.1
    · rw [if_neg hs] at e; exact Or.inr e.1
  · rw [hfind] at h2
    cases h2

/-- After a record is unlinked, on a table in order in which no key is cached
twice, the lookup for a key that a linked slot of the record held returns
`NULL`. -/
theorem find_slot_key_after_dealloc (jhash2 : List Nat → Nat → Nat) (fuel : Nat)
    (ct2 : nf_conn) (st : kz_ext_state) (a s : Nat) (r : nf_conntrack_kzorp)
    (head : hlist_nulls_head) (hok : kz_table_ok st) (huniq : kz_keys_unique st)
    (hhead : head ∈ st.kz_hash) (hnode : { kzorp := a, slot := s } ∈ head.first)
    (hr : obj_read st a = some r) (hz : r.ct_zone = ct2.nf_ct_zone)
    (hkey : nf_ct_tuple_equal ct2.tuplehash.1 (tuplehash_at r.tuplehash s) = true) :
    kz_extension_find jhash2 (fuel + 1) ct2 (kz_extension_dealloc a st) = some none := by
  rw [find_after_dealloc jhash2 fuel ct2 st a hok huniq]
  split
  · rfl
  · rename_i hne
    obtain ⟨head2, -, hmem2, hcase⟩ := kz_extension_find_spec jhash2 fuel ct2 st hok
    rcases hcase with ⟨pre, h, post, h1, -, h3, h4⟩ | ⟨-, h2⟩
    · exfalso
      apply hne
      rw [h4]
      have hmemh : h ∈ head2.first := by rw [h1]; simp
      have hga := (hok.2.2 head hhead _ hnode).2
      obtain ⟨r1, hr1, hk1⟩ := key_equal_node_ok st { kzorp := a, slot := s } hga
        ct2.tuplehash.1 ct2.nf_ct_zone
      simp only [] at hr1 hk1
      rw [hr] at hr1
      cases hr1
      rw [hkey, hz] at hk1
      simp only [decide_True, Bool.and_self] at hk1
      have hsame := same_key_of_equal st h { kzorp := a, slot := s } _ _
        (hok.2.2 head2 hmem2 h hmemh).2 hga h3 hk1
      have := huniq head2 hmem2 h hmemh head hhead _ hnode hsame
      simp only [] at this
      rw [this]
    · exact h2

/-- C21 (as amended): on a table in order in which no key is cached twice,
when the lookup for `ct` returns the record at `a`, `kz_extension_destroy` for
`ct` unlinks that record; afterwards the lookup for `ct`, the lookup for every
connection for which the record was returned before, and the lookup for every
key that a linked slot of the record held (the original and the reply key of
the connection it was created for) return `NULL`, and every lookup that did
not return this record returns what it returned before.  A key for which the
record was returned is the tuple of one of its two slots together with its
zone.  When the lookup for a connection returns `NULL`, destroy leaves the
table as it is. -/
theorem destroy_then_find (jhash2 : List Nat → Nat → Nat) (fuel : Nat) (ct : nf_conn)
    (st : kz_ext_state) (a : Nat) (hok : kz_table_ok st) (huniq : kz_keys_unique st)
    (hfind : kz_extension_find jhash2 (fuel + 1) ct st = some (some a)) :
    kz_extension_destroy jhash2 (fuel + 1) ct st = some (kz_extension_dealloc a st) ∧
    kz_extension_find jhash2 (fuel + 1) ct (kz_extension_dealloc a st) = some none ∧
    (∀ (ct2 : nf_conn) (f2 : Nat),
      kz_extension_find jhash2 (f2 + 1) ct2 st = some (some a) →
      kz_extension_find jhash2 (f2 + 1) ct2 (kz_extension_dealloc a st) = some none) ∧
    (∀ (ct3 : nf_conn) (f3 : Nat),
      kz_extension_find jhash2 (f3 + 1) ct3 st ≠ some (some a) →
      kz_extension_find jhash2 (f3 + 1) ct3 (kz_extension_dealloc a st) =
        kz_extension_find jhash2 (f3 + 1) ct3 st) ∧
    (∀ (ct2 : nf_conn) (f2 : Nat),
      kz_extension_find jhash2 (f2 + 1) ct2 st = some (some a) →
      ∃ r, obj_read st a = some r ∧ r.ct_zone = ct2.nf_ct_zone ∧
        (nf_ct_tuple_equal ct2.tuplehash.1 r.tuplehash.1 = true ∨
          nf_ct_tuple_equal ct2.tuplehash.1 r.tuplehash.2 = true)) ∧
    (∀ (ct0 : nf_conn) (f0 : Nat),
      kz_extension_find jhash2 (f0 + 1) ct0 st = some none →
      kz_extension_destroy jhash2 (f0 + 1) ct0 st = some st) ∧
    kz_table_ok (kz_extension_dealloc a st) ∧
    (∀ (ct2 : nf_conn) (f2 s : Nat) (r : nf_conntrack_kzorp) (head : hlist_nulls_head),
      head ∈ st.kz_hash → { kzorp := a, slot := s } ∈ head.first →
      obj_read st a = some r → r.ct_zone = ct2.nf_ct_zone →
      nf_ct_tuple_equal ct2.tuplehash.1 (tuplehash_at r.tuplehash s) = true →
      kz_extension_find jhash2 (f2 + 1) ct2 (kz_extension_dealloc a st) = some none) := by
  refine ⟨?_, ?_, ?_, ?_, ?_, ?_, kz_table_ok_dealloc a st hok,
    fun ct2 f2 s r head hhead hnode hr hz hkey =>
      find_slot_key_after_dealloc jhash2 f2 ct2 st a s r head hok huniq hhead hnode hr hz
        hkey⟩
  · unfold kz_extension_destroy
    rw [hfind]
  · rw [find_after_dealloc jhash2 fuel ct st a hok huniq, if_pos hfind]
  · intro ct2 f2 h2
    rw [find_after_dealloc jhash2 f2 ct2 st a hok huniq, if_pos h2]
  · intro ct3 f3 h3
    rw [find_after_dealloc jhash2 f3 ct3 st a hok huniq, if_neg h3]
  · intro ct2 f2 h2
    exact find_key_of_record jhash2 f2 ct2 st a hok h2
  · intro ct0 f0 h0
    unfold kz_extension_destroy
    rw [h0]

set_option maxRecDepth 100000 in
theorem destroy_then_find_witness :
    kz_extension_find jhash2_example 1 ct_example st_cached_two = some (some 64) ∧
    kz_extension_find jhash2_example 1 ct_example_reply st_cached_two = some (some 64) ∧
    kz_extension_find jhash2_example 1 ct_other st_cached_two = some (some 96) ∧
    kz_extension_destroy jhash2_example 1 ct_example st_cached_two =
      some (kz_extension_dealloc 64 st_cached_two) ∧
    kz_extension_find jhash2_example 1 ct_example (kz_extension_dealloc 64 st_cached_two) =
      some none ∧
    kz_extension_find jhash2_example 1 ct_example_reply
      (kz_extension_dealloc 64 st_cached_two) = some none ∧
    kz_extension_find jhash2_example 1 ct_other (kz_extension_dealloc 64 st_cached_two) =
      some (some 96) :=
  have h := destroy_then_find jhash2_example 0 ct_example st_cached_two 64
    (by decide) (by decide) (by decide)
  ⟨by decide, by decide, by decide, h.1, h.2.1, h.2.2.1 ct_example_reply 0 (by decide),
    (h.2.2.2.1 ct_other 0 (by decide)).trans (by decide)⟩

set_option maxRecDepth 100000 in
/-- After two calls of `kz_extension_create` for one connection the table is
in order and two records hold its keys; `kz_extension_destroy` for the
connection unlinks the record found, the newer one at address 96, and the
lookups by the original key and by the reply key then return the record at
address 64. -/
theorem destroy_leaves_second_record :
    kz_table_ok st_cached_twice ∧
    ¬ kz_keys_unique st_cached_twice ∧
    kz_extension_find jhash2_example 1 ct_example st_cached_twice = some (some 96) ∧
    kz_extension_destroy jhash2_example 1 ct_example st_cached_twice =
      some (kz_extension_dealloc 96 st_cached_twice) ∧
    kz_extension_find jhash2_example 1 ct_example (kz_extension_dealloc 96 st_cached_twice) =
      some (some 64) ∧
    kz_extension_find jhash2_example 1 ct_example_reply
      (kz_extension_dealloc 96 st_cached_twice) = some (some 64) := by
  decide

/-! ## The verdict cache: the states of create -/

theorem create_trace_last (jhash2 : List Nat → Nat → Nat) (kzorp : Nat)
    (old : nf_conntrack_kzorp) (ct : nf_conn) (st : kz_ext_state) :
    (kz_extension_create_trace jhash2 kzorp old ct st).getLast? =
      some (kz_extension_create jhash2 (some (kzorp, old)) ct st).2 := rfl

theorem create_trace_fill (jhash2 : List Nat → Nat → Nat) (kzorp : Nat)
    (old : nf_conntrack_kzorp) (ct : nf_conn) (st : kz_ext_state) :
    (kz_extension_create_trace jhash2 kzorp old ct st)[5]? =
      some { kz_hash :=
              (st.kz_hash.modify
                (fun h => { h with first := { kzorp := kzorp, slot := 0 } :: h.first })
                (kz_bucket jhash2 ct.tuplehash.1 ct.nf_ct_zone)).modify
                (fun h => { h with first := { kzorp := kzorp, slot := 1 } :: h.first })
                (kz_bucket jhash2 ct.tuplehash.2 ct.nf_ct_zone),
             kz_cachep :=
              (kzorp, kz_extension_copy_tuplehash (nf_conntrack_kzorp_init old) ct) ::
              (kzorp, nf_conntrack_kzorp_init old) :: (kzorp, old) :: st.kz_cachep } := by
  simp [kz_extension_create_trace, obj_write, obj_modify, obj_read,
    kz_extension_fill_one, hlist_nulls_add_head_rcu, nf_conntrack_kzorp_init,
    kz_extension_copy_tuplehash, tuplehash_at]

/-- C25: `kz_extension_create` links the record before it writes `ct_zone`.
The last state of the trace is the state the function returns; in the state
after `kz_extension_fill`, for a table of at least `kz_hash_size` buckets, the
bucket of the reply tuple has the node of slot 1 of the new record at its
head, the record holds the zone 0 written by `nf_conntrack_kzorp_init`, and
the key test on that node says yes for the tuple with zone 0 and, when the
zone of the connection is not 0, no for the tuple with the zone of the
connection. -/
theorem create_links_before_zone (jhash2 : List Nat → Nat → Nat) (a : Nat)
    (old : nf_conntrack_kzorp) (ct : nf_conn) (st : kz_ext_state)
    (hsize : kz_hash_size ≤ st.kz_hash.length)
    (hd1 : ct.tuplehash.2.dst_dir = 1) (hzone : ct.nf_ct_zone ≠ 0) :
    (kz_extension_create_trace jhash2 a old ct st).getLast? =
      some (kz_extension_create jhash2 (some (a, old)) ct st).2 ∧
    ∃ s5 head, (kz_extension_create_trace jhash2 a old ct st)[5]? = some s5 ∧
      s5.kz_hash[kz_bucket jhash2 ct.tuplehash.2 ct.nf_ct_zone]? = some head ∧
      head.first.head? = some { kzorp := a, slot := 1 } ∧
      (obj_read s5 a).map (fun k => k.ct_zone) = some 0 ∧
      __kz_extension_key_equal s5 { kzorp := a, slot := 1 } ct.tuplehash.2 0 = some true ∧
      __kz_extension_key_equal s5 { kzorp := a, slot := 1 } ct.tuplehash.2 ct.nf_ct_zone =
        some false := by
  have hb1 := kz_bucket_lt jhash2 ct.tuplehash.2 ct.nf_ct_zone
  obtain ⟨c1, hc1⟩ : ∃ c, st.kz_hash[kz_bucket jhash2 ct.tuplehash.2 ct.nf_ct_zone]? = some c :=
    ⟨_, List.getElem?_eq_getElem (by omega)⟩
  have htr := create_trace_fill jhash2 a old ct st
  generalize hst : ({ kz_hash := _, kz_cachep := _ } : kz_ext_state) = s5 at htr
  have hr : obj_read s5 a =
      some (kz_extension_copy_tuplehash (nf_conntrack_kzorp_init old) ct) := by
    rw [← hst]
    simp [obj_read]
  have hk := fun zone => (key_equal_own_slot s5 a 1 _ ct.tuplehash.2 zone hr
    (by simpa [tuplehash_at, kz_extension_copy_tuplehash] using hd1)).2
  simp only [tuplehash_at, kz_extension_copy_tuplehash, one_ne_zero, if_false,
    nf_ct_tuple_equal_refl, Bool.true_and, nf_conntrack_kzorp_init] at hk
  have hhead : ∃ head,
      s5.kz_hash[kz_bucket jhash2 ct.tuplehash.2 ct.nf_ct_zone]? = some head ∧
      head.first.head? = some { kzorp := a, slot := 1 } := by
    rw [← hst]
    simp only [List.getElem?_modify_eq]
    by_cases hbb : kz_bucket jhash2 ct.tuplehash.1 ct.nf_ct_zone =
        kz_bucket jhash2 ct.tuplehash.2 ct.nf_ct_zone
    · rw [hbb, List.getElem?_modify_eq, hc1]
      exact ⟨_, rfl, rfl⟩
    · rw [List.getElem?_modify_ne _ _ hbb, hc1]
      exact ⟨_, rfl, rfl⟩
  obtain ⟨head, hh1, hh2⟩ := hhead
  refine ⟨rfl, s5, head, htr, hh1, hh2, ?_, ?_, ?_⟩
  · rw [hr]; rfl
  · rw [hk 0]; simp
  · rw [hk ct.nf_ct_zone]
    simp [Ne.symm hzone]

theorem create_links_before_zone_witness :
    ∃ s5 head, (kz_extension_create_trace jhash2_example 64 kzorp_stale ct_example
        kz_hash_init)[5]? = some s5 ∧
      s5.kz_hash[kz_bucket jhash2_example ct_example.tuplehash.2 ct_example.nf_ct_zone]? =
        some head ∧
      head.first.head? = some { kzorp := 64, slot := 1 } ∧
      (obj_read s5 64).map (fun k => k.ct_zone) = some 0 ∧
      __kz_extension_key_equal s5 { kzorp := 64, slot := 1 } ct_example.tuplehash.2 0 =
        some true ∧
      __kz_extension_key_equal s5 { kzorp := 64, slot := 1 } ct_example.tuplehash.2
        ct_example.nf_ct_zone = some false :=
  (create_links_before_zone jhash2_example 64 kzorp_stale ct_example kz_hash_init
    (by decide) (by decide) (by decide)).2

/-! ## The dispatcher dump and its cursor -/

theorem build_rule_entries_eq (dpt : kz_dispatcher) (rule : kz_rule) :
    ∀ (n idx room : Nat) (skb : List kznl_msg),
      kznl_build_rule_entries dpt rule n idx room skb =
        if n ≤ room then
          (true, idx + n, room - n,
            skb ++ (List.range' idx n).map fun i => .KZNL_MSG_ADD_RULE_ENTRY dpt rule (i - 1))
        else
          (false, idx + room, 0,
            skb ++ (List.range' idx room).map fun i =>
              .KZNL_MSG_ADD_RULE_ENTRY dpt rule (i - 1)) := by
  intro n
  induction n with
  | zero => intro idx room skb; simp [kznl_build_rule_entries]
  | succ n ih =>
    intro idx room skb
    unfold kznl_build_rule_entries
    by_cases hr : room = 0
    · subst hr
      simp
    · rw [if_neg hr, ih]
      obtain ⟨m, rfl⟩ : ∃ m, room = m + 1 := ⟨room - 1, by omega⟩
      simp only [Nat.add_sub_cancel, Nat.add_le_add_iff_right]
      by_cases hle : n ≤ m
      · simp only [hle, if_true, List.range'_succ, List.map_cons, List.append_assoc,
          List.singleton_append, Prod.mk.injEq, true_and, and_true]
        constructor <;> omega
      · simp only [hle, if_false, List.range'_succ, List.map_cons, List.append_assoc,
          List.singleton_append, Prod.mk.injEq, true_and, and_true]
        omega

theorem range_step_split (s n k : Nat) (h : k ≤ n) :
    List.range' s n = List.range' s k ++ List.range' (s + k) (n - k) := by
  have := List.range'_append s k (n - k) 1
  rw [Nat.one_mul] at this
  rw [this]
  congr 1
  omega

theorem range_step_take (s n k : Nat) (h : k ≤ n) : (List.range' s n).take k = List.range' s k := by
  rw [range_step_split s n k h, List.take_append_of_le_length (by simp), List.take_of_length_le]
  simp

theorem range_step_drop (s n k : Nat) (h : k ≤ n) :
    (List.range' s n).drop k = List.range' (s + k) (n - k) := by
  rw [range_step_split s n k h, List.drop_append_of_le_length (by simp), List.drop_of_length_le]
  · simp
  · simp

theorem rule_entry_msgs_length (dpt : kz_dispatcher) (rule : kz_rule) (e : Nat) :
    (rule_entry_msgs dpt rule e).length = max_entry_num rule + 1 - e := by
  simp [rule_entry_msgs]

theorem rule_msgs_length (dpt : kz_dispatcher) (rule : kz_rule) (e : Nat) :
    (rule_msgs dpt rule e).length = max_entry_num rule + 1 - e := by
  unfold rule_msgs
  split
  · rename_i h
    subst h
    simp [rule_entry_msgs_length]
  · exact rule_entry_msgs_length dpt rule e

theorem rule_entry_msgs_take (dpt : kz_dispatcher) (rule : kz_rule) (e k : Nat)
    (h : k ≤ max_entry_num rule + 1 - e) :
    (rule_entry_msgs dpt rule e).take k =
      (List.range' e k).map fun i => .KZNL_MSG_ADD_RULE_ENTRY dpt rule (i - 1) := by
  unfold rule_entry_msgs
  rw [← List.map_take, range_step_take _ _ _ h]

theorem rule_entry_msgs_drop (dpt : kz_dispatcher) (rule : kz_rule) (e k : Nat)
    (h : k ≤ max_entry_num rule + 1 - e) :
    (rule_entry_msgs dpt rule e).drop k = rule_entry_msgs dpt rule (e + k) := by
  unfold rule_entry_msgs
  rw [← List.map_drop, range_step_drop _ _ _ h]
  congr 2
  omega

/-- The cursor left in a rule when the buffer is full stands for the messages
of the rule that were not put. -/
theorem rule_msgs_drop (dpt : kz_dispatcher) (rule : kz_rule) (e room : Nat)
    (h : room < (rule_msgs dpt rule e).length) :
    rule_msgs dpt rule (e + room) = (rule_msgs dpt rule e).drop room := by
  rw [rule_msgs_length] at h
  by_cases he : e = 0
  · subst he
    cases room with
    | zero => rfl
    | succ m =>
      unfold rule_msgs
      simp only [Nat.zero_add, Nat.succ_ne_zero, if_false, if_true, List.drop_succ_cons]
      rw [rule_entry_msgs_drop dpt rule 1 m (by omega), Nat.add_comm]
  · unfold rule_msgs
    rw [if_neg he, if_neg (by omega), rule_entry_msgs_drop dpt rule e room (by omega)]

theorem rule_msgs_zero (dpt : kz_dispatcher) (rule : kz_rule) :
    rule_msgs dpt rule 0 =
      .KZNL_MSG_ADD_RULE dpt rule ::
        (List.range' 1 (max_entry_num rule)).map fun i =>
          .KZNL_MSG_ADD_RULE_ENTRY dpt rule (i - 1) := by
  simp [rule_msgs, rule_entry_msgs]

theorem rule_msgs_pos (dpt : kz_dispatcher) (rule : kz_rule) (e : Nat) (he : ¬ e = 0) :
    rule_msgs dpt rule e =
      (List.range' e (max_entry_num rule + 1 - e)).map fun i =>
        .KZNL_MSG_ADD_RULE_ENTRY dpt rule (i - 1) := by
  simp [rule_msgs, rule_entry_msgs, he]

/-- One pass of the loop over the rules. -/
theorem build_rules_cons (dpt : kz_dispatcher) (rule : kz_rule) (rest : List kz_rule)
    (p e room : Nat) (skb : List kznl_msg) :
    kznl_build_rules dpt (rule :: rest) p e room skb =
      if (rule_msgs dpt rule e).length ≤ room then
        kznl_build_rules dpt rest (p + 1) 0 (room - (rule_msgs dpt rule e).length)
          (skb ++ rule_msgs dpt rule e)
      else (false, p, e + room, 0, skb ++ (rule_msgs dpt rule e).take room) := by
  rw [rule_msgs_length, kznl_build_rules]
  by_cases he : e = 0
  · subst he
    cases room with
    | zero => simp
    | succ m =>
      simp only [true_and, Nat.succ_ne_zero, if_false, if_true, Nat.add_sub_cancel,
        build_rule_entries_eq, Nat.sub_zero, Nat.add_le_add_iff_right]
      by_cases hle : max_entry_num rule ≤ m
      · simp only [hle, if_true]
        have h1 : m + 1 - (max_entry_num rule + 1) = m - max_entry_num rule := by omega
        rw [h1, rule_msgs_zero, List.append_assoc, List.singleton_append]
      · simp only [hle, if_false, Bool.false_eq_true]
        rw [rule_msgs_zero, List.take_succ_cons, ← List.map_take,
          range_step_take _ _ _ (by omega), List.append_assoc, List.singleton_append,
          Nat.zero_add, Nat.add_comm 1 m]
  · simp only [he, false_and, if_false, build_rule_entries_eq]
    by_cases hle : max_entry_num rule + 1 - e ≤ room
    · simp only [hle, if_true]
      rw [rule_msgs_pos dpt rule e he]
    · simp only [hle, if_false, Bool.false_eq_true]
      rw [rule_msgs_pos dpt rule e he, ← List.map_take, range_step_take _ _ _ (by omega)]

/-- The loop over the rules on a buffer that takes all their messages. -/
theorem build_rules_ok (dpt : kz_dispatcher) :
    ∀ (rules : List kz_rule) (p e room : Nat) (skb : List kznl_msg),
      (rules_msgs dpt rules e).length ≤ room →
      ∃ p1 e1, kznl_build_rules dpt rules p e room skb =
        (true, p1, e1, room - (rules_msgs dpt rules e).length, skb ++ rules_msgs dpt rules e) := by
  intro rules
  induction rules with
  | nil =>
    intro p e room skb _
    exact ⟨p, e, by simp [kznl_build_rules, rules_msgs]⟩
  | cons rule rest ih =>
    intro p e room skb h
    simp only [rules_msgs, List.length_append] at h
    rw [build_rules_cons, if_pos (by omega)]
    obtain ⟨p1, e1, h1⟩ := ih (p + 1) 0 (room - (rule_msgs dpt rule e).length)
      (skb ++ rule_msgs dpt rule e) (by omega)
    refine ⟨p1, e1, ?_⟩
    rw [h1]
    simp only [rules_msgs, List.length_append, List.append_assoc, Prod.mk.injEq, true_and,
      and_true]
    omega

/-- The loop over the rules on a buffer that does not take all their messages:
the buffer is filled, and the cursor left stands for the messages not put. -/
theorem build_rules_full (dpt : kz_dispatcher) :
    ∀ (rules : List kz_rule) (p e room : Nat) (skb : List kznl_msg),
      room < (rules_msgs dpt rules e).length →
      ∃ k e1, kznl_build_rules dpt rules p e room skb =
          (false, p + k, e1, 0, skb ++ (rules_msgs dpt rules e).take room) ∧
        rules_msgs dpt (rules.drop k) e1 = (rules_msgs dpt rules e).drop room := by
  intro rules
  induction rules with
  | nil =>
    intro p e room skb h
    simp [rules_msgs] at h
  | cons rule rest ih =>
    intro p e room skb h
    simp only [rules_msgs, List.length_append] at h
    rw [build_rules_cons]
    by_cases hle : (rule_msgs dpt rule e).length ≤ room
    · rw [if_pos hle]
      obtain ⟨k, e1, h1, h2⟩ := ih (p + 1) 0 (room - (rule_msgs dpt rule e).length)
        (skb ++ rule_msgs dpt rule e) (by omega)
      refine ⟨k + 1, e1, ?_, ?_⟩
      · rw [h1]
        simp only [rules_msgs, List.take_append_eq_append_take, List.take_of_length_le hle,
          List.append_assoc, Prod.mk.injEq, true_and, and_true]
        omega
      · simp only [List.drop_succ_cons, rules_msgs, List.drop_append_eq_append_drop,
          List.drop_of_length_le hle, List.nil_append]
        exact h2
    · rw [if_neg hle]
      have hlt : room < (rule_msgs dpt rule e).length := by omega
      refine ⟨0, e + room, ?_, ?_⟩
      · simp only [rules_msgs, List.take_append_of_le_length (Nat.le_of_lt hlt), Nat.add_zero]
      · simp only [List.drop_zero, rules_msgs,
          List.drop_append_of_le_length (Nat.le_of_lt hlt)]
        rw [rule_msgs_drop dpt rule e room hlt]

/-- A call on a buffer that takes every message still to be put: the call
returns their number, puts them and leaves the cursor (0, 0). -/
theorem build_dispatcher_ok (dpt : kz_dispatcher) (p e room : Nat) (skb : List kznl_msg)
    (h : (remaining_msgs dpt p e).length ≤ room) :
    kznl_build_dispatcher dpt p e room skb =
      { res := ((remaining_msgs dpt p e).length : Int), part_idx := 0, rule_entry_idx := 0,
        room := room - (remaining_msgs dpt p e).length,
        skb := skb ++ remaining_msgs dpt p e } := by
  unfold kznl_build_dispatcher
  by_cases hp : p = 0
  · subst hp
    simp only [remaining_msgs, if_true, List.length_cons] at h ⊢
    rw [if_neg (by omega)]
    obtain ⟨p1, e1, h1⟩ := build_rules_ok dpt ((dpt.rule.take dpt.num_rule).drop (1 - 1)) 1 e
      (room - 1) (skb ++ [.KZNL_MSG_ADD_DISPATCHER dpt]) (by simpa using (by omega))
    simp only [h1, if_true]
    simp only [Nat.sub_self, List.drop_zero, List.length_append, List.length_cons,
      List.length_nil, List.append_assoc, List.singleton_append, build_result.mk.injEq,
      and_true, true_and]
    constructor
    · push_cast; omega
    · omega
  · simp only [remaining_msgs, hp, if_false, false_and] at h ⊢
    obtain ⟨p1, e1, h1⟩ := build_rules_ok dpt ((dpt.rule.take dpt.num_rule).drop (p - 1)) p e
      room skb h
    simp only [h1, if_true]
    simp only [List.length_append, build_result.mk.injEq, and_true, true_and]
    push_cast; omega

/-- A call on a buffer that does not take every message still to be put: the
call returns -1, fills the buffer, and the cursor it leaves stands for the
messages not put. -/
theorem build_dispatcher_full (dpt : kz_dispatcher) (p e room : Nat) (skb : List kznl_msg)
    (h : room < (remaining_msgs dpt p e).length) :
    (kznl_build_dispatcher dpt p e room skb).res = -1 ∧
    (kznl_build_dispatcher dpt p e room skb).room = 0 ∧
    (kznl_build_dispatcher dpt p e room skb).skb = skb ++ (remaining_msgs dpt p e).take room ∧
    remaining_msgs dpt (kznl_build_dispatcher dpt p e room skb).part_idx
        (kznl_build_dispatcher dpt p e room skb).rule_entry_idx =
      (remaining_msgs dpt p e).drop room := by
  unfold kznl_build_dispatcher
  by_cases hp : p = 0
  · subst hp
    cases room with
    | zero => simp
    | succ m =>
      rw [if_neg (by simp)]
      simp only [remaining_msgs, if_true, List.length_cons] at h
      obtain ⟨k, e1, h1, h2⟩ := build_rules_full dpt ((dpt.rule.take dpt.num_rule).drop (1 - 1))
        1 e m (skb ++ [.KZNL_MSG_ADD_DISPATCHER dpt]) (by simpa using (by omega))
      simp only [if_true, Nat.add_sub_cancel, h1, Bool.false_eq_true, if_false]
      simp only [Nat.sub_self, List.drop_zero] at h2
      refine ⟨trivial, trivial, ?_, ?_⟩
      · simp [remaining_msgs]
      · simp only [remaining_msgs, if_true, List.drop_succ_cons]
        rw [if_neg (by omega), ← h2]
        congr 2
        omega
  · simp only [hp, false_and, if_false]
    simp only [remaining_msgs, hp, if_false] at h
    obtain ⟨k, e1, h1, h2⟩ := build_rules_full dpt ((dpt.rule.take dpt.num_rule).drop (p - 1))
      p e room skb h
    simp only [h1, Bool.false_eq_true, if_false]
    refine ⟨trivial, trivial, ?_, ?_⟩
    · simp [remaining_msgs, hp]
    · simp only [remaining_msgs, hp, if_false]
      rw [if_neg (by omega), ← h2, List.drop_drop]
      congr 2
      omega

theorem rules_msgs_zero (dpt : kz_dispatcher) (rules : List kz_rule) :
    rules_msgs dpt rules 0 =
      rules.flatMap fun rule =>
        .KZNL_MSG_ADD_RULE dpt rule ::
          (List.range (max_entry_num rule)).map fun j => .KZNL_MSG_ADD_RULE_ENTRY dpt rule j := by
  induction rules with
  | nil => rfl
  | cons rule rest ih =>
    rw [rules_msgs, ih, List.flatMap_cons, rule_msgs_zero, List.range'_eq_map_range,
      List.map_map]
    congr 3
    funext x
    simp

/-- At the cursor (0, 0) the messages still to be put are the whole sequence
of the dispatcher. -/
theorem remaining_msgs_zero (dpt : kz_dispatcher) :
    remaining_msgs dpt 0 0 = dispatcher_msgs dpt := by
  simp only [remaining_msgs, if_true, dispatcher_msgs, rules_msgs_zero]

/-- Resumed calls put the messages that were still to be put at the first
cursor, in order, each call as many as its buffer takes, and a call succeeds
once the buffers have taken them all. -/
theorem build_dispatcher_resumed_spec (dpt : kz_dispatcher) :
    ∀ (rooms : List Nat) (p e : Nat), 0 < (remaining_msgs dpt p e).length →
      (kznl_build_dispatcher_resumed dpt rooms p e).1 =
        (remaining_msgs dpt p e).take rooms.sum ∧
      ((kznl_build_dispatcher_resumed dpt rooms p e).2 = true ↔
        (remaining_msgs dpt p e).length ≤ rooms.sum) := by
  intro rooms
  induction rooms with
  | nil =>
    intro p e h
    simp only [kznl_build_dispatcher_resumed, List.sum_nil, List.take_zero, true_and,
      Bool.false_eq_true, false_iff]
    omega
  | cons room rest ih =>
    intro p e h
    unfold kznl_build_dispatcher_resumed
    simp only [List.sum_cons]
    by_cases hle : (remaining_msgs dpt p e).length ≤ room
    · rw [build_dispatcher_ok dpt p e room [] hle]
      simp only [List.nil_append]
      rw [if_neg (by omega)]
      simp only [true_iff]
      exact ⟨(List.take_of_length_le (by omega)).symm, by omega⟩
    · have hlt : room < (remaining_msgs dpt p e).length := by omega
      obtain ⟨h1, -, h3, h4⟩ := build_dispatcher_full dpt p e room [] hlt
      rw [if_pos (by rw [h1]; decide)]
      have hlen : 0 < (remaining_msgs dpt (kznl_build_dispatcher dpt p e room []).part_idx
          (kznl_build_dispatcher dpt p e room []).rule_entry_idx).length := by
        rw [h4, List.length_drop]
        omega
      obtain ⟨i1, i2⟩ := ih _ _ hlen
      simp only []
      rw [i1, i2, h3, h4, List.nil_append, List.take_add, List.length_drop]
      exact ⟨rfl, by omega⟩

/-- C26: the messages kept by successive calls of `kznl_build_dispatcher`,
each resumed with the cursor left by the call before, are in order the
messages of the dispatcher: the head, then for each rule in index order one
ADD_RULE followed by one ADD_RULE_ENTRY for each entry index from 0 up to the
largest alternative count of the rule less one; each failed call puts as many
as its buffer takes, and a call succeeds once the buffers have taken them all.
A call that succeeds leaves the cursor (0, 0) and has put every message that
was still to be put; a call that fails returns -1 and leaves a cursor that
stands for the messages it did not put; and a call that fails at the head
leaves the cursor (0, 0) it found. -/
theorem build_dispatcher_resumed (dpt : kz_dispatcher) (rooms : List Nat) :
    (kznl_build_dispatcher_resumed dpt rooms 0 0).1 = (dispatcher_msgs dpt).take rooms.sum ∧
    ((kznl_build_dispatcher_resumed dpt rooms 0 0).2 = true ↔
      (dispatcher_msgs dpt).length ≤ rooms.sum) ∧
    (∀ (p e room : Nat) (skb : List kznl_msg),
      0 ≤ (kznl_build_dispatcher dpt p e room skb).res →
      (kznl_build_dispatcher dpt p e room skb).part_idx = 0 ∧
      (kznl_build_dispatcher dpt p e room skb).rule_entry_idx = 0 ∧
      (kznl_build_dispatcher dpt p e room skb).skb = skb ++ remaining_msgs dpt p e) ∧
    (∀ (p e room : Nat) (skb : List kznl_msg),
      (kznl_build_dispatcher dpt p e room skb).res < 0 →
      (kznl_build_dispatcher dpt p e room skb).res = -1 ∧
      room < (remaining_msgs dpt p e).length ∧
      (kznl_build_dispatcher dpt p e room skb).skb =
        skb ++ (remaining_msgs dpt p e).take room ∧
      remaining_msgs dpt (kznl_build_dispatcher dpt p e room skb).part_idx
          (kznl_build_dispatcher dpt p e room skb).rule_entry_idx =
        (remaining_msgs dpt p e).drop room) ∧
    (∀ skb : List kznl_msg,
      kznl_build_dispatcher dpt 0 0 0 skb =
        { res := -1, part_idx := 0, rule_entry_idx := 0, room := 0, skb := skb }) := by
  have hpos : 0 < (remaining_msgs dpt 0 0).length := by
    simp [remaining_msgs]
  obtain ⟨h1, h2⟩ := build_dispatcher_resumed_spec dpt rooms 0 0 hpos
  rw [remaining_msgs_zero] at h1 h2
  refine ⟨h1, h2, ?_, ?_, ?_⟩
  · intro p e room skb h
    by_cases hle : (remaining_msgs dpt p e).length ≤ room
    · rw [build_dispatcher_ok dpt p e room skb hle]
      exact ⟨rfl, rfl, rfl⟩
    · have := (build_dispatcher_full dpt p e room skb (by omega)).1
      omega
  · intro p e room skb h
    by_cases hle : (remaining_msgs dpt p e).length ≤ room
    · rw [build_dispatcher_ok dpt p e room skb hle] at h
      simp only [] at h
      omega
    · obtain ⟨g1, -, g3, g4⟩ := build_dispatcher_full dpt p e room skb (by omega)
      exact ⟨g1, by omega, g3, g4⟩
  · intro skb
    simp [kznl_build_dispatcher]

/-- A call of `kznl_build_dispatcher` at the cursor (0, 0) on a full buffer
fails and leaves the cursor (0, 0), with none of the six messages of the
dispatcher put. -/
theorem build_head_failure_cursor :
    (kznl_build_dispatcher dpt_two_rules 0 0 0 []).res = -1 ∧
    (kznl_build_dispatcher dpt_two_rules 0 0 0 []).part_idx = 0 ∧
    (kznl_build_dispatcher dpt_two_rules 0 0 0 []).rule_entry_idx = 0 ∧
    (kznl_build_dispatcher dpt_two_rules 0 0 0 []).skb = [] ∧
    (dispatcher_msgs dpt_two_rules).length = 6 := by
  decide

theorem build_dispatcher_resumed_witness :
    (kznl_build_dispatcher_resumed dpt_two_rules [2, 0, 1, 4] 0 0).1 =
      [.KZNL_MSG_ADD_DISPATCHER dpt_two_rules,
       .KZNL_MSG_ADD_RULE dpt_two_rules (rule_protos 5 [6, 17]),
       .KZNL_MSG_ADD_RULE_ENTRY dpt_two_rules (rule_protos 5 [6, 17]) 0,
       .KZNL_MSG_ADD_RULE_ENTRY dpt_two_rules (rule_protos 5 [6, 17]) 1,
       .KZNL_MSG_ADD_RULE dpt_two_rules (rule_protos 8 [6]),
       .KZNL_MSG_ADD_RULE_ENTRY dpt_two_rules (rule_protos 8 [6]) 0] ∧
    (kznl_build_dispatcher_resumed dpt_two_rules [2, 0, 1, 4] 0 0).2 = true ∧
    (kznl_build_dispatcher dpt_two_rules 0 0 2 []).part_idx = 1 ∧
    (kznl_build_dispatcher dpt_two_rules 0 0 2 []).rule_entry_idx = 1 :=
  ⟨(build_dispatcher_resumed dpt_two_rules [2, 0, 1, 4]).1.trans (by decide),
   (build_dispatcher_resumed dpt_two_rules [2, 0, 1, 4]).2.1.mpr (by decide),
   by decide, by decide⟩

/-! ## The dumpers and the generation of the snapshot -/

/-- A continuation call of `kznl_dump_services` that finds the stored
generation not valid does what the call with the cursor cleared does. -/
theorem dump_services_restart (fits : List kz_service → kz_service → Bool) (cfg : kz_config)
    (addrs : List Nat) (cb : netlink_callback) (skb : List kz_service)
    (h3 : cb.args3 = 1) (hg : kz_generation_valid cfg cb.args4 = false) :
    kznl_dump_services fits cfg addrs cb skb =
      kznl_dump_restart fits (addrs.zip cfg.services)
        { cb with args4 := kz_generation_get cfg, args3 := 1, args0 := 0 } skb := by
  unfold kznl_dump_services
  simp [h3, hg]

/-- A continuation call of `kznl_dump_zones` that finds the stored generation
not valid stores the new generation and keeps the cursor. -/
theorem dump_zones_keeps_cursor (fits : List kz_zone → kz_zone → Bool) (cfg : kz_config)
    (cb : netlink_callback) (skb : List kz_zone)
    (h3 : cb.args3 = 1) (hg : kz_generation_valid cfg cb.args4 = false) :
    kznl_dump_zones fits cfg cb skb =
      kznl_dump_restart fits (cfg.zones.map fun z => (z.addr, z))
        { cb with args4 := kz_generation_get cfg, args3 := 1 } skb := by
  unfold kznl_dump_zones
  simp [h3, hg]

/-- The loop passes over the entities in front of the one the cursor points
to without dumping them. -/
theorem dump_loop_skip {α : Type} (fits : List α → α → Bool) (last : Nat)
    (cb : netlink_callback) (skb : List α) (hl : last ≠ 0) :
    ∀ (pre l : List (Nat × α)), (∀ i ∈ pre, i.1 ≠ last) →
      kznl_dump_loop fits (pre ++ l) last cb skb = kznl_dump_loop fits l last cb skb := by
  intro pre
  induction pre with
  | nil => intro l _; rfl
  | cons i rest ih =>
    intro l h
    rw [List.cons_append, kznl_dump_loop,
      if_pos ⟨hl, h i (List.mem_cons_self _ _)⟩]
    exact ih l (fun x hx => h x (List.mem_cons_of_mem _ hx))

theorem dump_loop_last {α : Type} (fits : List α → α → Bool) :
    ∀ (l : List (Nat × α)) (cb : netlink_callback) (skb : List α),
      (kznl_dump_loop fits l 0 cb skb).2.1 = 0 := by
  intro l
  induction l with
  | nil => intro cb skb; rfl
  | cons i rest ih =>
    intro cb skb
    rw [kznl_dump_loop, if_neg (by simp)]
    simp only []
    split
    · exact ih _ _
    · rfl

/-- A continuation call of `kznl_dump_zones` whose stored generation is not
valid and whose cursor is the address of a zone of the current snapshot dumps
from that zone on: the zones in front of it are not dumped by this call. -/
theorem dump_zones_stale_cursor (fits : List kz_zone → kz_zone → Bool) (cfg : kz_config)
    (cb : netlink_callback) (skb : List kz_zone) (pre post : List kz_zone) (z : kz_zone)
    (h3 : cb.args3 = 1) (hg : kz_generation_valid cfg cb.args4 = false)
    (hz : cfg.zones = pre ++ z :: post) (ha : z.addr = cb.args0) (h0 : cb.args0 ≠ 0)
    (hpre : ∀ x ∈ pre, x.addr ≠ cb.args0) (hfit : fits skb z = true) :
    kznl_dump_zones fits cfg cb skb =
      if ¬ (kznl_dump_loop fits (post.map fun z => (z.addr, z)) 0
          { cb with args4 := kz_generation_get cfg, args3 := 1, args0 := 0 } (skb ++ [z])).1
      then
        ((kznl_dump_loop fits (post.map fun z => (z.addr, z)) 0
          { cb with args4 := kz_generation_get cfg, args3 := 1, args0 := 0 }
          (skb ++ [z])).2.2.1,
         (kznl_dump_loop fits (post.map fun z => (z.addr, z)) 0
          { cb with args4 := kz_generation_get cfg, args3 := 1, args0 := 0 }
          (skb ++ [z])).2.2.2)
      else
        ({ (kznl_dump_loop fits (post.map fun z => (z.addr, z)) 0
          { cb with args4 := kz_generation_get cfg, args3 := 1, args0 := 0 }
          (skb ++ [z])).2.2.1 with args3 := 2 },
         (kznl_dump_loop fits (post.map fun z => (z.addr, z)) 0
          { cb with args4 := kz_generation_get cfg, args3 := 1, args0 := 0 }
          (skb ++ [z])).2.2.2) := by
  have hloop : kznl_dump_loop fits (cfg.zones.map fun z => (z.addr, z)) cb.args0
        { cb with args4 := kz_generation_get cfg, args3 := 1 } skb =
      kznl_dump_loop fits (post.map fun z => (z.addr, z)) 0
        { cb with args4 := kz_generation_get cfg, args3 := 1, args0 := 0 } (skb ++ [z]) := by
    rw [hz, List.map_append, dump_loop_skip fits cb.args0 _ skb h0 _ _ (by
      intro i hi
      rw [List.mem_map] at hi
      obtain ⟨x, hx, rfl⟩ := hi
      exact hpre x hx)]
    rw [List.map_cons, kznl_dump_loop, if_neg (by simp [ha])]
    simp only [h0, ne_eq, not_false_eq_true, if_true, hfit]
  rw [dump_zones_keeps_cursor fits cfg cb skb h3 hg]
  unfold kznl_dump_restart
  simp only []
  rw [hloop]
  split
  · rfl
  · rw [if_neg (by rw [dump_loop_last]; simp)]

/-- A continuation call of `kznl_dump_dispatchers` that finds the stored
generation not valid does what a first call does: the three cursor slots are
cleared. -/
theorem dump_dispatchers_restart (cfg : kz_config) (addrs : List Nat) (cb : netlink_callback)
    (room : Nat) (skb : List kznl_msg)
    (h3 : cb.args3 = 1) (hg : kz_generation_valid cfg cb.args4 = false) :
    kznl_dump_dispatchers cfg addrs cb room skb =
      kznl_dump_dispatchers cfg addrs
        { cb with args0 := 0, args1 := 0, args2 := 0, args3 := 0 } room skb := by
  unfold kznl_dump_dispatchers
  simp [h3, hg]

/-- A continuation call of `kznl_dump_services` that finds the stored
generation not valid does what a first call does. -/
theorem dump_services_first (fits : List kz_service → kz_service → Bool) (cfg : kz_config)
    (addrs : List Nat) (cb : netlink_callback) (skb : List kz_service)
    (h3 : cb.args3 = 1) (hg : kz_generation_valid cfg cb.args4 = false) :
    kznl_dump_services fits cfg addrs cb skb =
      kznl_dump_services fits cfg addrs { cb with args0 := 0, args3 := 0 } skb := by
  unfold kznl_dump_services
  simp [h3, hg]

/-- C22: the zone dumper resumes from a cursor recorded against an earlier
snapshot.  With a buffer that takes one entity, the first call on the
snapshot of generation 1 dumps the zone "a" and stores the address 20 of "b";
the next call, on the snapshot of generation 2, stores the generation 2, keeps
the cursor 20, passes over the first zone "x" and dumps "y", which lies at
address 20; the third call dumps "z" and ends the dump: "x" is never dumped.
The service dumper, in the same situation, clears the cursor and dumps the
first service "x" of the new snapshot. -/
theorem dump_zones_resumes_stale_cursor :
    kznl_dump_zones fits_one cfg_dump_old cb_first [] =
      ({ args0 := 20, args1 := 0, args2 := 0, args3 := 1, args4 := 1 }, [zone_at 10 "a"]) ∧
    kznl_dump_zones fits_one cfg_dump_new
        { args0 := 20, args1 := 0, args2 := 0, args3 := 1, args4 := 1 } [] =
      ({ args0 := 50, args1 := 0, args2 := 0, args3 := 1, args4 := 2 }, [zone_at 20 "y"]) ∧
    kznl_dump_zones fits_one cfg_dump_new
        { args0 := 50, args1 := 0, args2 := 0, args3 := 1, args4 := 2 } [] =
      ({ args0 := 0, args1 := 0, args2 := 0, args3 := 2, args4 := 2 }, [zone_at 50 "z"]) ∧
    kznl_dump_services fits_one cfg_dump_old [10, 20, 30] cb_first [] =
      ({ args0 := 20, args1 := 0, args2 := 0, args3 := 1, args4 := 1 }, [service_named "a"]) ∧
    kznl_dump_services fits_one cfg_dump_new [40, 20, 50]
        { args0 := 20, args1 := 0, args2 := 0, args3 := 1, args4 := 1 } [] =
      ({ args0 := 20, args1 := 0, args2 := 0, args3 := 1, args4 := 2 },
        [service_named "x"]) := by
  decide

/-! ## The NAT ranges of a dumped service -/

/-- On a big-endian host the NAT_SRC attribute, the first one dumped, parses
back to the stored source range when the range carries only the two flags. -/
theorem nat_src_round_trip_be (svc : kz_service) (entry : kz_service_nat_entry)
    (hf : entry.src.1 ≤ 3) :
    ∃ a, (kznl_build_service_add_nat false svc entry).KZNL_ATTR_SERVICE_NAT_SRC = some a ∧
      kznl_parse_service_nat_attr false a (0, 0, 0, 0, 0) = .ok entry.src := by
  refine ⟨_, rfl, ?_⟩
  rcases hsrc : entry.src with ⟨f, r⟩
  rw [hsrc] at hf
  simp only [] at hf
  simp only [kznl_parse_service_nat_attr, kznl_dump_service_nat_entry,
    kznl_parse_service_nat_params, htons, ntohl, hsrc]
  interval_cases f <;> rfl

/-- C29: the flags of a dumped NAT range do not parse back to those stored.
On a big-endian host, for an entry whose source range has MAP_IPS and
PROTO_SPECIFIED and whose mapped range has MAP_IPS alone, the NAT_MAP
attribute carries the flags 3 and parses to a range with the flags 3 where 1
is stored: the flags dumped before are still set.  On a little-endian host,
for an entry whose ranges have MAP_IPS alone, the NAT_SRC attribute carries
the flags field 256, which the parser reads as 65536 and rejects with -EINVAL,
and the NAT_MAP attribute carries 257. -/
theorem nat_dump_flags_differ :
    (kznl_build_service_add_nat false (service_named "fwd")
        nat_entry_mixed).KZNL_ATTR_SERVICE_NAT_MAP =
      some (3, 3232235777, 3232235777, 0, 0) ∧
    kznl_parse_service_nat_attr false (3, 3232235777, 3232235777, 0, 0) (0, 0, 0, 0, 0) =
      .ok (3, 3232235777, 3232235777, 0, 0) ∧
    nat_entry_mixed.map = (1, 3232235777, 3232235777, 0, 0) ∧
    (kznl_build_service_add_nat true (service_named "fwd")
        nat_entry_ips).KZNL_ATTR_SERVICE_NAT_SRC =
      some (256, 167772161, 167772170, 0, 0) ∧
    ntohl true 256 = 65536 ∧
    kznl_parse_service_nat_attr true (256, 167772161, 167772170, 0, 0) (0, 0, 0, 0, 0) =
      .error (-EINVAL) ∧
    (kznl_build_service_add_nat true (service_named "fwd")
        nat_entry_ips).KZNL_ATTR_SERVICE_NAT_MAP =
      some (257, 3232235777, 3232235777, 0, 0) :=
  ⟨by decide, rfl, rfl, by decide, by decide, rfl, by decide⟩

/-! ## The verdict cache: the tables that create and destroy leave -/

theorem modify_head_mem (l : List hlist_nulls_head) (x : tuple_hash_ptr) (i : Nat)
    (h1 : hlist_nulls_head)
    (hm : h1 ∈ l.modify (fun h => { h with first := x :: h.first }) i) :
    ∃ h ∈ l, h1.nulls = h.nulls ∧ (h1.first = h.first ∨ h1.first = x :: h.first) := by
  rw [List.mem_iff_getElem?] at hm
  obtain ⟨n, hn⟩ := hm
  rw [List.getElem?_modify] at hn
  cases hl : l[n]? with
  | none => rw [hl] at hn; cases hn
  | some h =>
    rw [hl] at hn
    simp only [Option.map_eq_map, Option.map_some', Option.some.injEq] at hn
    refine ⟨h, List.getElem?_mem hl, ?_⟩
    by_cases hin : i = n
    · rw [if_pos hin] at hn
      rw [← hn]
      exact ⟨rfl, Or.inr rfl⟩
    · rw [if_neg hin] at hn
      rw [← hn]
      exact ⟨rfl, Or.inl rfl⟩

theorem modify_head_nulls (l : List hlist_nulls_head) (x : tuple_hash_ptr) (i j : Nat) :
    ((l.modify (fun h => { h with first := x :: h.first }) i)[j]?).map (fun h => h.nulls) =
      (l[j]?).map fun h => h.nulls := by
  rw [List.getElem?_modify]
  cases l[j]? with
  | none => rfl
  | some h =>
    simp only [Option.map_eq_map, Option.map_some', Option.some.injEq]
    split <;> rfl

/-- The nodes linked after `kz_extension_create` are the two nodes of the new
record and the nodes linked before. -/
theorem create_nodes (jhash2 : List Nat → Nat → Nat) (a : Nat) (old : nf_conntrack_kzorp)
    (ct : nf_conn) (st : kz_ext_state) (h1 : hlist_nulls_head)
    (hm : h1 ∈ (kz_extension_create jhash2 (some (a, old)) ct st).2.kz_hash)
    (n : tuple_hash_ptr) (hn : n ∈ h1.first) :
    n = { kzorp := a, slot := 0 } ∨ n = { kzorp := a, slot := 1 } ∨
      ∃ h ∈ st.kz_hash, n ∈ h.first := by
  rw [kz_extension_create_eq] at hm
  simp only [] at hm
  obtain ⟨h2, hm2, -, hf2⟩ := modify_head_mem _ _ _ _ hm
  obtain ⟨h3, hm3, -, hf3⟩ := modify_head_mem _ _ _ _ hm2
  rcases hf2 with e | e <;> rcases hf3 with e3 | e3 <;> rw [e] at hn
  · exact Or.inr (Or.inr ⟨h3, hm3, e3 ▸ hn⟩)
  · rw [e3] at hn
    rcases List.mem_cons.mp hn with h | h
    · exact Or.inl h
    · exact Or.inr (Or.inr ⟨h3, hm3, h⟩)
  · rcases List.mem_cons.mp hn with h | h
    · exact Or.inr (Or.inl h)
    · exact Or.inr (Or.inr ⟨h3, hm3, e3 ▸ h⟩)
  · rcases List.mem_cons.mp hn with h | h
    · exact Or.inr (Or.inl h)
    · rw [e3] at h
      rcases List.mem_cons.mp h with h | h
      · exact Or.inl h
      · exact Or.inr (Or.inr ⟨h3, hm3, h⟩)

/-- What `kz_extension_create` leaves in the objects: the new record at its
address, everything else as before. -/
theorem create_read (jhash2 : List Nat → Nat → Nat) (a : Nat) (old : nf_conntrack_kzorp)
    (ct : nf_conn) (st : kz_ext_state) (b : Nat) :
    obj_read (kz_extension_create jhash2 (some (a, old)) ct st).2 b =
      if b = a then
        some { tuplehash := ct.tuplehash, ct_zone := ct.nf_ct_zone, sid := 0, generation := 0,
               session_start := 0, rule_id := 0, czone := none, szone := none, svc := none,
               dpt := none }
      else obj_read st b := by
  rw [kz_extension_create_eq]
  by_cases h : b = a
  · subst h
    simp [obj_read]
  · have h2 : ¬ a = b := fun e => h e.symm
    simp [obj_read, List.find?_cons, h, h2]

/-- `kz_extension_create` for a connection whose tuples hold their directions
keeps the table in order. -/
theorem kz_table_ok_create (jhash2 : List Nat → Nat → Nat) (a : Nat)
    (old : nf_conntrack_kzorp) (ct : nf_conn) (st : kz_ext_state) (hok : kz_table_ok st)
    (hd0 : ct.tuplehash.1.dst_dir = 0) (hd1 : ct.tuplehash.2.dst_dir = 1) :
    kz_table_ok (kz_extension_create jhash2 (some (a, old)) ct st).2 := by
  obtain ⟨h1, h2, h3⟩ := hok
  have hnew : ∀ s, s < 2 →
      (kz_get_kzorp_from_node (kz_extension_create jhash2 (some (a, old)) ct st).2
        { kzorp := a, slot := s }).isSome = true := by
    intro s hs
    unfold kz_get_kzorp_from_node
    rw [create_read, if_pos rfl]
    have : s = 0 ∨ s = 1 := by omega
    rcases this with rfl | rfl
    · simp [tuplehash_at, hd0]
    · simp [tuplehash_at, hd1]
  refine ⟨?_, ?_, ?_⟩
  · rw [kz_extension_create_eq]
    simp only [List.length_modify]
    exact h1
  · intro i hi
    rw [kz_extension_create_eq]
    simp only []
    rw [modify_head_nulls, modify_head_nulls]
    exact h2 i hi
  · intro head hhead n hn
    rcases create_nodes jhash2 a old ct st head hhead n hn with rfl | rfl | ⟨h0, hh0, hn0⟩
    · exact ⟨Nat.zero_lt_two, hnew 0 (by decide)⟩
    · exact ⟨Nat.one_lt_two, hnew 1 (by decide)⟩
    · obtain ⟨hs, hg⟩ := h3 h0 hh0 n hn0
      refine ⟨hs, ?_⟩
      by_cases hk : n.kzorp = a
      · obtain ⟨k, s⟩ := n
        simp only [] at hk
        subst hk
        exact hnew s hs
      · unfold kz_get_kzorp_from_node at hg ⊢
        rw [create_read, if_neg hk]
        exact hg

/-- Unlinking a record keeps the keys of the table distinct. -/
theorem kz_keys_unique_dealloc (a : Nat) (st : kz_ext_state) (huniq : kz_keys_unique st) :
    kz_keys_unique (kz_extension_dealloc a st) := by
  intro h1 hh1 n1 hn1 h2 hh2 n2 hn2 hk
  rw [dealloc_hash, List.mem_map] at hh1 hh2
  obtain ⟨g1, hg1, rfl⟩ := hh1
  obtain ⟨g2, hg2, rfl⟩ := hh2
  simp only [List.mem_filter] at hn1 hn2
  exact huniq g1 hg1 n1 hn1.1 g2 hg2 n2 hn2.1 hk

/-- `kz_extension_create` keeps the keys of the table distinct when the object
handed out is not linked and no linked node holds the original or the reply
key of the connection. -/
theorem kz_keys_unique_create (jhash2 : List Nat → Nat → Nat) (a : Nat)
    (old : nf_conntrack_kzorp) (ct : nf_conn) (st : kz_ext_state)
    (huniq : kz_keys_unique st)
    (hfresh : ∀ h ∈ st.kz_hash, ∀ n ∈ h.first, n.kzorp ≠ a)
    (hnokey : ∀ h ∈ st.kz_hash, ∀ n ∈ h.first, ∀ r, obj_read st n.kzorp = some r →
      r.ct_zone = ct.nf_ct_zone →
      nf_ct_tuple_equal ct.tuplehash.1 (tuplehash_at r.tuplehash n.slot) = false ∧
      nf_ct_tuple_equal ct.tuplehash.2 (tuplehash_at r.tuplehash n.slot) = false) :
    kz_keys_unique (kz_extension_create jhash2 (some (a, old)) ct st).2 := by
  have hclash : ∀ (s : Nat) (n : tuple_hash_ptr), (∃ h ∈ st.kz_hash, n ∈ h.first) →
      kz_same_key (kz_extension_create jhash2 (some (a, old)) ct st).2
        { kzorp := a, slot := s } n = false := by
    intro s n ⟨h, hh, hn⟩
    have hk := hfresh h hh n hn
    unfold kz_same_key
    rw [create_read, create_read, if_pos rfl, if_neg hk]
    cases hr : obj_read st n.kzorp with
    | none => rfl
    | some r =>
      simp only []
      by_cases hz : r.ct_zone = ct.nf_ct_zone
      · obtain ⟨e1, e2⟩ := hnokey h hh n hn r hr hz
        unfold tuplehash_at at e1 e2 ⊢
        by_cases hs : s = 0
        · simp only [hs, if_true]
          rw [e1]; rfl
        · simp only [hs, if_false]
          rw [e2]; rfl
      · have : ¬ ct.nf_ct_zone = r.ct_zone := fun e => hz e.symm
        simp [this]
  have hsymm : ∀ (st1 : kz_ext_state) (n1 n2 : tuple_hash_ptr),
      kz_same_key st1 n1 n2 = true → kz_same_key st1 n2 n1 = true := by
    intro st1 n1 n2 h
    unfold kz_same_key at h ⊢
    cases h1 : obj_read st1 n1.kzorp with
    | none => simp [h1] at h
    | some r1 =>
      cases h2 : obj_read st1 n2.kzorp with
      | none => simp [h1, h2] at h
      | some r2 =>
        simp only [h1, h2, Bool.and_eq_true, decide_eq_true_eq] at h ⊢
        exact ⟨nf_ct_tuple_equal_symm _ _ h.1, h.2.symm⟩
  have hold : ∀ (n1 n2 : tuple_hash_ptr), n1.kzorp ≠ a → n2.kzorp ≠ a →
      kz_same_key (kz_extension_create jhash2 (some (a, old)) ct st).2 n1 n2 =
        kz_same_key st n1 n2 := by
    intro n1 n2 h1 h2
    unfold kz_same_key
    rw [create_read, create_read, if_neg h1, if_neg h2]
  intro h1 hh1 n1 hn1 h2 hh2 n2 hn2 hk
  rcases create_nodes jhash2 a old ct st h1 hh1 n1 hn1 with rfl | rfl | o1 <;>
    rcases create_nodes jhash2 a old ct st h2 hh2 n2 hn2 with rfl | rfl | o2
  · rfl
  · rfl
  · rw [hclash 0 n2 o2] at hk; cases hk
  · rfl
  · rfl
  · rw [hclash 1 n2 o2] at hk; cases hk
  · have := hsymm _ _ _ hk
    rw [hclash 0 n1 o1] at this; cases this
  · have := hsymm _ _ _ hk
    rw [hclash 1 n1 o1] at this; cases this
  · obtain ⟨g1, hg1, hm1⟩ := o1
    obtain ⟨g2, hg2, hm2⟩ := o2
    rw [hold n1 n2 (hfresh g1 hg1 n1 hm1) (hfresh g2 hg2 n2 hm2)] at hk
    exact huniq g1 hg1 n1 hm1 g2 hg2 n2 hm2 hk

end Kzorp
